import Mathlib

/-! # Sample-table and transport-stream navigation: a verification development

A shallow embedding of `media/libstagefright/SampleTable.cpp` and
`media/libstagefright/mpeg2ts/MPEG2TSExtractor.cpp`.

Conventions of the embedding.

* Machine integers are natural numbers (or integers for the signed `off64_t`)
  with the reduction modulo `2^32` or `2^64` written out wherever the C++
  arithmetic can wrap.  `size_t` and `ssize_t` are 32 bits wide (the ILP32
  ABI this tree is built for), `uint64_t` times are 64 bits wide.
* An index into an array is the mathematical index; a read or write outside
  the array ends the run with `Run.ub`.
* A failed `CHECK` ends the run with `Run.abort`.
* An allocation succeeds whatever its size, except the array of
  `setCompositionTimeToSampleParams`: where `new uint32_t[2 * numEntries]`
  needs 2^32 bytes or more, which the size check lets through only after it
  has wrapped, the run ends with `Run.ub`.  A length that is negative after a
  cast to `ssize_t` ends the run with `Run.ub`.
* Loops whose termination is not evident from a counter carry a fuel
  argument and end with `Run.timeout` when it is used up.
* Collaborators that are not part of the two files (the byte source, the
  sample iterator, the transport-stream parser, the C library's `qsort`)
  are parameters.
-/

namespace Stagefright

/-! ## Outcomes of a run -/

/-- The outcome of running a piece of the program. -/
inductive Run (α : Type) where
  /-- the function returned -/
  | ret (a : α)
  /-- a `CHECK` failed and the process was aborted -/
  | abort
  /-- memory outside an array was accessed -/
  | ub
  /-- the fuel of the model ran out before the loop exited -/
  | timeout
deriving DecidableEq, Repr

/-- Sequencing of runs. -/
def Run.bind {α β : Type} : Run α → (α → Run β) → Run β
  | .ret a, f => f a
  | .abort, _ => .abort
  | .ub, _ => .ub
  | .timeout, _ => .timeout

instance : Monad Run where
  pure := Run.ret
  bind := Run.bind

/-- The `status_t` codes the two files use.  Codes that come from a
collaborator and have no name here are carried by `other`. -/
inductive status_t where
  | OK
  | ERROR_MALFORMED
  | ERROR_IO
  | ERROR_OUT_OF_RANGE
  | ERROR_END_OF_STREAM
  | INVALID_OPERATION
  | DEAD_OBJECT
  | BAD_VALUE
  | other (code : Int)
deriving DecidableEq, Repr

/-- Reading element `i` of an array. -/
def arrayGet {α : Type} (a : List α) (i : Nat) : Run α :=
  match a[i]? with
  | some x => .ret x
  | none => .ub

/-- Writing element `i` of an array. -/
def arraySet {α : Type} (a : List α) (i : Nat) (x : α) : Run (List α) :=
  if i < a.length then .ret (a.set i x) else .ub

/-! ## `SampleTable::CompositionDeltaLookup` -/

/-- The fields of `CompositionDeltaLookup`; `mDeltaEntries = none` is the
`NULL` pointer. -/
structure CompositionDeltaLookup where
  mDeltaEntries : Option (List Nat)
  mNumDeltaEntries : Nat
  mCurrentDeltaEntry : Nat
  mCurrentEntrySampleIndex : Nat
deriving DecidableEq, Repr

/-- The constructor `CompositionDeltaLookup::CompositionDeltaLookup`. -/
def CompositionDeltaLookup.new : CompositionDeltaLookup :=
  { mDeltaEntries := none, mNumDeltaEntries := 0,
    mCurrentDeltaEntry := 0, mCurrentEntrySampleIndex := 0 }

/-- The method `CompositionDeltaLookup::setEntries`. -/
def CompositionDeltaLookup.setEntries (_c : CompositionDeltaLookup)
    (deltaEntries : List Nat) (numDeltaEntries : Nat) : CompositionDeltaLookup :=
  { mDeltaEntries := some deltaEntries, mNumDeltaEntries := numDeltaEntries,
    mCurrentDeltaEntry := 0, mCurrentEntrySampleIndex := 0 }

/-- The `while (mCurrentDeltaEntry < mNumDeltaEntries)` loop of
`getCompositionTimeOffset`.  The first argument is the number of entries
left, `mNumDeltaEntries - mCurrentDeltaEntry`, which is positive exactly when
the loop condition holds.  The result is the returned offset with the new
values of `mCurrentDeltaEntry` and `mCurrentEntrySampleIndex`. -/
def getCompositionTimeOffsetLoop (entries : List Nat) (sampleIndex : Nat) :
    Nat → Nat → Nat → Run (Nat × Nat × Nat)
  | 0, cur, start => .ret (0, cur, start)
  | left + 1, cur, start =>
    (arrayGet entries (2 * cur)).bind fun sampleCount =>
      if sampleIndex < (start + sampleCount) % 4294967296 then
        (arrayGet entries (2 * cur + 1)).bind fun off => .ret (off, cur, start)
      else
        getCompositionTimeOffsetLoop entries sampleIndex left (cur + 1)
          ((start + sampleCount) % 4294967296)

/-- The method `CompositionDeltaLookup::getCompositionTimeOffset`: the
returned offset and the lookup with its moved cursor. -/
def CompositionDeltaLookup.getCompositionTimeOffset (c : CompositionDeltaLookup)
    (sampleIndex : Nat) : Run (Nat × CompositionDeltaLookup) :=
  match c.mDeltaEntries with
  | none => .ret (0, c)
  | some entries =>
    let cur := if sampleIndex < c.mCurrentEntrySampleIndex then 0 else c.mCurrentDeltaEntry
    let start :=
      if sampleIndex < c.mCurrentEntrySampleIndex then 0 else c.mCurrentEntrySampleIndex
    (getCompositionTimeOffsetLoop entries sampleIndex (c.mNumDeltaEntries - cur) cur start).bind
      fun r => .ret (r.1, { c with mCurrentDeltaEntry := r.2.1,
                                   mCurrentEntrySampleIndex := r.2.2 })

/-! ## The composition-time table -/

/-- One slot of `mSampleTimeEntries`. -/
structure SampleTimeEntry where
  mSampleIndex : Nat
  mCompositionTime : Nat
deriving DecidableEq, Repr

/-- The conversion of an `int32_t` to `uint64_t` in `sampleTime + compTimeDelta`:
the 32-bit pattern `x` read as a signed number and widened to 64 bits. -/
def sext32 (x : Nat) : Nat :=
  if x < 2147483648 then x else x + (18446744073709551616 - 4294967296)

/-- The function `abs_difference`. -/
def abs_difference (time1 time2 : Nat) : Nat :=
  if time1 > time2 then time1 - time2 else time2 - time1

/-- The state the two nested loops of `buildSampleEntriesTable` carry. -/
structure BuildState where
  entries : List SampleTimeEntry
  lookup : CompositionDeltaLookup
  sampleIndex : Nat
  sampleTime : Nat
deriving DecidableEq, Repr

/-- The inner loop `for (uint32_t j = 0; j < n; ++j)` of
`buildSampleEntriesTable`, by recursion on the iterations left. -/
def buildInner (numSampleSizes delta : Nat) : Nat → BuildState → Run BuildState
  | 0, s => .ret s
  | n + 1, s =>
    (if s.sampleIndex < numSampleSizes then
        (s.lookup.getCompositionTimeOffset s.sampleIndex).bind fun r =>
          (arraySet s.entries s.sampleIndex
              { mSampleIndex := s.sampleIndex,
                mCompositionTime := (s.sampleTime + sext32 r.1) % 18446744073709551616 }).bind
            fun es => .ret { s with entries := es, lookup := r.2 }
      else .ret s).bind fun s1 =>
      buildInner numSampleSizes delta n
        { s1 with sampleIndex := (s1.sampleIndex + 1) % 4294967296,
                  sampleTime := (s1.sampleTime + delta) % 18446744073709551616 }

/-- The outer loop `for (uint32_t i = 0; i < mTimeToSampleCount; ++i)` of
`buildSampleEntriesTable`; the first argument is `mTimeToSampleCount - i`. -/
def buildOuter (timeToSample : List Nat) (numSampleSizes : Nat) :
    Nat → Nat → BuildState → Run BuildState
  | 0, _, s => .ret s
  | left + 1, i, s =>
    (arrayGet timeToSample (2 * i)).bind fun n =>
      (arrayGet timeToSample (2 * i + 1)).bind fun delta =>
        (buildInner numSampleSizes delta n s).bind fun s1 =>
          buildOuter timeToSample numSampleSizes left (i + 1) s1

/-! ## `SampleTable` -/

/-- One entry of `mSampleToChunkEntries`. -/
structure SampleToChunkEntry where
  startChunk : Nat
  samplesPerChunk : Nat
  chunkDesc : Nat
deriving DecidableEq, Repr

/-- The fields of `SampleTable`.  A pointer field is `none` when it is
`NULL`; `mSampleDescAtoms` holds the payload of each `SampleDescAtom`. -/
structure SampleTable where
  mChunkOffsetOffset : Int
  mChunkOffsetType : Nat
  mNumChunkOffsets : Nat
  mSampleToChunkOffset : Int
  mNumSampleToChunkOffsets : Nat
  mSampleSizeOffset : Int
  mSampleSizeFieldSize : Nat
  mDefaultSampleSize : Nat
  mNumSampleSizes : Nat
  mTimeToSampleCount : Nat
  mTimeToSample : Option (List Nat)
  mSampleTimeEntries : Option (List SampleTimeEntry)
  mCompositionTimeDeltaEntries : Option (List Nat)
  mNumCompositionTimeDeltaEntries : Nat
  mCompositionDeltaLookup : CompositionDeltaLookup
  mSyncSampleOffset : Int
  mNumSyncSamples : Nat
  mSyncSamples : Option (List Nat)
  mLastSyncSampleIndex : Nat
  mSampleToChunkEntries : Option (List SampleToChunkEntry)
  mSampleDescAtoms : List (List Nat)
deriving DecidableEq, Repr

/-- The constructor `SampleTable::SampleTable`. -/
def SampleTable.new : SampleTable :=
  { mChunkOffsetOffset := -1, mChunkOffsetType := 0, mNumChunkOffsets := 0,
    mSampleToChunkOffset := -1, mNumSampleToChunkOffsets := 0,
    mSampleSizeOffset := -1, mSampleSizeFieldSize := 0, mDefaultSampleSize := 0,
    mNumSampleSizes := 0, mTimeToSampleCount := 0, mTimeToSample := none,
    mSampleTimeEntries := none, mCompositionTimeDeltaEntries := none,
    mNumCompositionTimeDeltaEntries := 0,
    mCompositionDeltaLookup := CompositionDeltaLookup.new,
    mSyncSampleOffset := -1, mNumSyncSamples := 0, mSyncSamples := none,
    mLastSyncSampleIndex := 0, mSampleToChunkEntries := none, mSampleDescAtoms := [] }

/-- The method `SampleTable::countSamples`. -/
def SampleTable.countSamples (t : SampleTable) : Nat := t.mNumSampleSizes

/-- The method `SampleTable::getCompositionTimeOffset`. -/
def SampleTable.getCompositionTimeOffset (t : SampleTable) (sampleIndex : Nat) :
    Run (Nat × SampleTable) :=
  (t.mCompositionDeltaLookup.getCompositionTimeOffset sampleIndex).bind fun r =>
    .ret (r.1, { t with mCompositionDeltaLookup := r.2 })

/-- The comparator `SampleTable::CompareIncreasingTime`. -/
def CompareIncreasingTime (a b : SampleTimeEntry) : Int :=
  if a.mCompositionTime < b.mCompositionTime then -1
  else if a.mCompositionTime > b.mCompositionTime then 1
  else 0

/-- What the C library promises of `qsort` when it is called with
`CompareIncreasingTime`: the array is rearranged, and afterwards no element
compares greater than a later one.  The order of equal elements is left
open. -/
structure QsortContract (qsort : List SampleTimeEntry → List SampleTimeEntry) : Prop where
  perm : ∀ l, (qsort l).Perm l
  sorted : ∀ l, (qsort l).Pairwise (fun a b => CompareIncreasingTime a b ≤ 0)

/-- A sorting function that meets `QsortContract`, used to run the model on
concrete tables. -/
def insertionQsort (l : List SampleTimeEntry) : List SampleTimeEntry :=
  l.insertionSort (fun a b => a.mCompositionTime ≤ b.mCompositionTime)

/-- The array `new SampleTimeEntry[n]` returns: `n` slots that hold whatever
the memory held, given by `garbage`. -/
def newSampleTimeEntries (garbage : Nat → SampleTimeEntry) (n : Nat) : List SampleTimeEntry :=
  (List.range n).map garbage

/-- The array `mSampleTimeEntries` as the two loops of
`buildSampleEntriesTable` leave it, before `qsort` runs. -/
def SampleTable.fillSampleEntries (garbage : Nat → SampleTimeEntry) (t : SampleTable) :
    Run BuildState :=
  buildOuter (t.mTimeToSample.getD []) t.mNumSampleSizes t.mTimeToSampleCount 0
    { entries := newSampleTimeEntries garbage t.mNumSampleSizes,
      lookup := t.mCompositionDeltaLookup, sampleIndex := 0, sampleTime := 0 }

/-- The method `SampleTable::buildSampleEntriesTable`. -/
def SampleTable.buildSampleEntriesTable (qsort : List SampleTimeEntry → List SampleTimeEntry)
    (garbage : Nat → SampleTimeEntry) (t : SampleTable) : Run SampleTable :=
  match t.mSampleTimeEntries with
  | some _ => .ret t
  | none =>
    (t.fillSampleEntries garbage).bind fun s =>
      .ret { t with mSampleTimeEntries := some (qsort s.entries),
                    mCompositionDeltaLookup := s.lookup }

/-- The flag `SampleTable::kFlagBefore`. -/
def kFlagBefore : Nat := 0
/-- The flag `SampleTable::kFlagAfter`. -/
def kFlagAfter : Nat := 1
/-- The flag `SampleTable::kFlagClosest`. -/
def kFlagClosest : Nat := 2

/-- The binary search `while (left < right)` of `findSampleAtTime`; it
returns the final `left`.  `center` is computed in 32 bits. -/
def findSampleSearch (entries : List SampleTimeEntry) (req_time : Nat) :
    Nat → Nat → Nat → Run Nat
  | 0, left, right => if left < right then .timeout else .ret left
  | fuel + 1, left, right =>
    if left < right then
      let center := (left + right) % 4294967296 / 2
      (arrayGet entries center).bind fun e =>
        if req_time < e.mCompositionTime then findSampleSearch entries req_time fuel left center
        else if req_time > e.mCompositionTime then
          findSampleSearch entries req_time fuel ((center + 1) % 4294967296) right
        else .ret center
    else .ret left

/-- The `kFlagBefore` loop of `findSampleAtTime`, by recursion on
`closestIndex`. -/
def findSampleBefore (entries : List SampleTimeEntry) (req_time : Nat) : Nat → Run Nat
  | 0 => .ret 0
  | c + 1 =>
    (arrayGet entries (c + 1)).bind fun e =>
      if e.mCompositionTime > req_time then findSampleBefore entries req_time c
      else .ret (c + 1)

/-- The `kFlagAfter` loop of `findSampleAtTime`. -/
def findSampleAfter (entries : List SampleTimeEntry) (req_time numSampleSizes : Nat) :
    Nat → Nat → Run Nat
  | 0, closestIndex =>
    if (closestIndex + 1) % 4294967296 < numSampleSizes then .timeout else .ret closestIndex
  | fuel + 1, closestIndex =>
    if (closestIndex + 1) % 4294967296 < numSampleSizes then
      (arrayGet entries closestIndex).bind fun e =>
        if e.mCompositionTime < req_time then
          findSampleAfter entries req_time numSampleSizes fuel ((closestIndex + 1) % 4294967296)
        else .ret closestIndex
    else .ret closestIndex

/-- The `switch (flags)` of `findSampleAtTime`: the final `closestIndex`. -/
def findSampleRefine (entries : List SampleTimeEntry) (req_time numSampleSizes flags : Nat)
    (fuel closestIndex : Nat) : Run Nat :=
  if flags = kFlagBefore then findSampleBefore entries req_time closestIndex
  else if flags = kFlagAfter then
    findSampleAfter entries req_time numSampleSizes fuel closestIndex
  else if flags = kFlagClosest then
    if closestIndex > 0 then
      (arrayGet entries closestIndex).bind fun e1 =>
        (arrayGet entries (closestIndex - 1)).bind fun e2 =>
          if abs_difference e1.mCompositionTime req_time
              > abs_difference e2.mCompositionTime req_time then
            .ret (closestIndex - 1)
          else .ret closestIndex
    else .ret closestIndex
  else .abort

/-- The part of `findSampleAtTime` that follows `buildSampleEntriesTable`,
on the sorted array `entries`.  The result is the status with the value
written to `*sample_index`, if one was written. -/
def findSampleInEntries (entries : List SampleTimeEntry) (numSampleSizes req_time flags : Nat)
    (fuel : Nat) : Run (status_t × Option Nat) :=
  (findSampleSearch entries req_time fuel 0 numSampleSizes).bind fun left =>
    if left = numSampleSizes ∧ flags = kFlagAfter then .ret (status_t.ERROR_OUT_OF_RANGE, none)
    else
      let left1 := if left = numSampleSizes then (left + 4294967295) % 4294967296 else left
      (findSampleRefine entries req_time numSampleSizes flags fuel left1).bind fun closestIndex =>
        (arrayGet entries closestIndex).bind fun e =>
          .ret (status_t.OK, some e.mSampleIndex)

/-- The method `SampleTable::findSampleAtTime`. -/
def SampleTable.findSampleAtTime (qsort : List SampleTimeEntry → List SampleTimeEntry)
    (garbage : Nat → SampleTimeEntry) (fuel : Nat) (t : SampleTable)
    (req_time flags : Nat) : Run (status_t × Option Nat) :=
  (t.buildSampleEntriesTable qsort garbage).bind fun t1 =>
    findSampleInEntries (t1.mSampleTimeEntries.getD []) t1.mNumSampleSizes req_time flags fuel

/-! ## Run tables as the specification reads them -/

/-- The array a run table `[(count_0, value_0), ...]` is stored as: two
32-bit words per run. -/
def flattenRuns : List (Nat × Nat) → List Nat
  | [] => []
  | r :: rs => r.1 :: r.2 :: flattenRuns rs

/-- The number of samples a run table covers: the sum of its counts. -/
def runTotal (runs : List (Nat × Nat)) : Nat := (runs.map Prod.fst).sum

/-- The value a run table gives to sample `s`: the value of the run that
holds `s`, and 0 past the last run. -/
def runValue : List (Nat × Nat) → Nat → Nat
  | [], _ => 0
  | r :: rs, s => if s < r.1 then r.2 else runValue rs (s - r.1)

/-- The lookup object after `setEntries` was called with the array of `runs`. -/
def loadedLookup (runs : List (Nat × Nat)) : CompositionDeltaLookup :=
  CompositionDeltaLookup.new.setEntries (flattenRuns runs) runs.length

/-- A sequence of `getCompositionTimeOffset` calls, one after the other on
the same lookup object: the values returned, in order. -/
def lookupAll : CompositionDeltaLookup → List Nat → Run (List Nat)
  | _, [] => .ret []
  | c, s :: rest =>
    (c.getCompositionTimeOffset s).bind fun r =>
      (lookupAll r.2 rest).bind fun outs => .ret (r.1 :: outs)

/-- The loop of `getCompositionTimeOffset` read off the run list. -/
def lookupRuns (s : Nat) : List (Nat × Nat) → Nat → Nat → Nat × Nat × Nat
  | [], cur, start => (0, cur, start)
  | r :: rs, cur, start =>
    if s < (start + r.1) % 4294967296 then (r.2, cur, start)
    else lookupRuns s rs (cur + 1) ((start + r.1) % 4294967296)

/-- The state of a lookup object that serves the run table `runs`: the array
and its length are those of `runs`, and the cursor stands at the start of one
of its runs. -/
def LookupInv (runs : List (Nat × Nat)) (c : CompositionDeltaLookup) : Prop :=
  c.mDeltaEntries = some (flattenRuns runs) ∧ c.mNumDeltaEntries = runs.length ∧
  c.mCurrentDeltaEntry ≤ runs.length ∧
  c.mCurrentEntrySampleIndex = runTotal (runs.take c.mCurrentDeltaEntry)

/-- The loops of `buildSampleEntriesTable` read off the stts run list. -/
def buildRuns (numSampleSizes : Nat) : List (Nat × Nat) → BuildState → Run BuildState
  | [], s => .ret s
  | r :: rs, s => (buildInner numSampleSizes r.2 r.1 s).bind (buildRuns numSampleSizes rs)

/-- The stts delta of each sample, in sample order. -/
def sampleDeltas : List (Nat × Nat) → List Nat
  | [] => []
  | r :: rs => List.replicate r.1 r.2 ++ sampleDeltas rs

/-- The decode time `D(i)` of sample `i`: the sum of the stts deltas of the
samples `0 .. i-1`. -/
def decodeTime (stts : List (Nat × Nat)) (i : Nat) : Nat :=
  ((sampleDeltas stts).take i).sum

/-- The composition time of sample `i` as the specification gives it: the
decode time plus the ctts offset `off i` read as a signed 32-bit number, in
64-bit arithmetic. -/
def compositionTime (stts : List (Nat × Nat)) (off : Nat → Nat) (i : Nat) : Nat :=
  (decodeTime stts i + sext32 (off i)) % 18446744073709551616

/-- A lookup object whose array and length are those of some run table, or
which has no table. -/
def LookupWF (c : CompositionDeltaLookup) : Prop :=
  c.mDeltaEntries = none ∨
    ∃ runs, c.mDeltaEntries = some (flattenRuns runs) ∧ c.mNumDeltaEntries = runs.length

/-- A lookup object that answers every query `s` with `off s`: it has no
table and `off` is 0 everywhere, or it serves a run table whose counts sum
to less than 2^32 and `off` is the value that table gives. -/
def LookupServes (off : Nat → Nat) (c : CompositionDeltaLookup) : Prop :=
  (c.mDeltaEntries = none ∧ off = fun _ => 0) ∨
    ∃ runs, runTotal runs < 4294967296 ∧ LookupInv runs c ∧ off = runValue runs

/-- A table of one sample whose stts runs `[(4294967295, 1), (2, 1)]` count
2^32 + 1 samples, without ctts. -/
def wrapTable : SampleTable :=
  { SampleTable.new with
    mNumSampleSizes := 1
    mTimeToSampleCount := 2
    mTimeToSample := some [4294967295, 1, 2, 1] }

/-- What holds of the state of the loops of `buildSampleEntriesTable` after
`M` stts samples were processed, whether or not the 32-bit sample counter
has wrapped: the array has its `N` slots, and each slot below `M` holds its
own sample index. -/
def BuildInv (N : Nat) (s : BuildState) (M : Nat) : Prop :=
  s.entries.length = N ∧ LookupWF s.lookup ∧ s.sampleIndex = M % 4294967296 ∧
  ∀ k, k < N → k < M → ∃ ct, s.entries[k]? = some ⟨k, ct⟩

/-- Every entry of `es` before position `L` has a composition time below
`req`. -/
def AllBelow (es : List SampleTimeEntry) (req L : Nat) : Prop :=
  ∀ (i : Nat) (e : SampleTimeEntry), i < L → es[i]? = some e → e.mCompositionTime < req

/-- Every entry of `es` from position `R` on has a composition time above
`req`. -/
def AllAbove (es : List SampleTimeEntry) (req R : Nat) : Prop :=
  ∀ (i : Nat) (e : SampleTimeEntry), R ≤ i → es[i]? = some e → req < e.mCompositionTime

/-- An array in non-decreasing order of composition time, by positions. -/
def SortedByTime (es : List SampleTimeEntry) : Prop :=
  ∀ (i j : Nat) (a b : SampleTimeEntry), i ≤ j → es[i]? = some a → es[j]? = some b →
    a.mCompositionTime ≤ b.mCompositionTime

/-- The composition time `buildSampleEntriesTable` records for sample `k`:
the time in slot `k` of the array when the two loops are done, before the
array is sorted. -/
def SampleTable.recordedCompositionTime (garbage : Nat → SampleTimeEntry) (t : SampleTable)
    (k : Nat) : Option Nat :=
  match t.fillSampleEntries garbage with
  | .ret s => s.entries[k]?.map SampleTimeEntry.mCompositionTime
  | _ => none

/-- A table of 2^31 + 1 samples with the single stts run `(2147483649, 1)`
and no ctts: sample `k` has composition time `k`. -/
def largeTable : SampleTable :=
  { SampleTable.new with
    mNumSampleSizes := 2147483649
    mTimeToSampleCount := 1
    mTimeToSample := some [2147483649, 1] }

/-- A table of four samples with stts run `(4, 1000)` and ctts runs
`[(1, 0), (1, 2000), (1, 0), (1, 0)]`. -/
def reorderedTable : SampleTable :=
  { SampleTable.new with
    mNumSampleSizes := 4
    mTimeToSampleCount := 1
    mTimeToSample := some [4, 1000]
    mCompositionTimeDeltaEntries := some [1, 0, 1, 2000, 1, 0, 1, 0]
    mNumCompositionTimeDeltaEntries := 4
    mCompositionDeltaLookup := loadedLookup [(1, 0), (1, 2000), (1, 0), (1, 0)] }

/-! ## `SampleTable::findSyncSampleNear` -/

/-- The sample iterator `mSampleIterator`, a collaborator outside the two
files, as far as `findSyncSampleNear` uses it: the status of `seekTo(i)` and
the value of `getSampleTime()` after a seek to sample `i`. -/
structure SampleIterator where
  seekTo : Nat → status_t
  getSampleTime : Nat → Nat

/-- The first loop of `findSyncSampleNear`: `left` advances while the sync
sample at `left` is before `start_sample_index`.  The first argument is
`mNumSyncSamples - left`. -/
def syncScan (sync : List Nat) (start : Nat) : Nat → Nat → Run Nat
  | 0, left => .ret left
  | rem + 1, left =>
    (arrayGet sync left).bind fun x =>
      if x ≥ start then .ret left else syncScan sync start rem (left + 1)

/-- The `switch (flags)` of `findSyncSampleNear` with the final store to
`*sample_index`. -/
def syncRefine (sync : List Nat) (numSyncSamples start flags x left : Nat) :
    Run (status_t × Nat) :=
  if flags = kFlagBefore then
    if x > start then
      if left > 0 then
        (arrayGet sync (left - 1)).bind fun x1 =>
          if x1 ≤ start then .ret (status_t.OK, x1) else .abort
      else .abort
    else .ret (status_t.OK, x)
  else if flags = kFlagAfter then
    if x < start then
      if (left + 1) % 4294967296 ≥ numSyncSamples then .ret (status_t.ERROR_OUT_OF_RANGE, 0)
      else
        (arrayGet sync ((left + 1) % 4294967296)).bind fun x1 =>
          if x1 ≥ start then .ret (status_t.OK, x1) else .abort
    else .ret (status_t.OK, x)
  else .ret (status_t.OK, x)

/-- The method `SampleTable::findSyncSampleNear`: the status and the value
left in `*sample_index`. -/
def SampleTable.findSyncSampleNear (it : SampleIterator) (t : SampleTable)
    (start_sample_index flags : Nat) : Run (status_t × Nat) :=
  if t.mSyncSampleOffset < 0 then .ret (status_t.OK, start_sample_index)
  else if t.mNumSyncSamples = 0 then .ret (status_t.OK, 0)
  else
    let sync := t.mSyncSamples.getD []
    (syncScan sync start_sample_index t.mNumSyncSamples 0).bind fun left0 =>
      if left0 = t.mNumSyncSamples ∧ flags = kFlagAfter then
        .ret (status_t.ERROR_OUT_OF_RANGE, 0)
      else
        let left := if left0 > 0 then left0 - 1 else left0
        (arrayGet sync left).bind fun x =>
          if (left + 1) % 4294967296 < t.mNumSyncSamples then
            (arrayGet sync ((left + 1) % 4294967296)).bind fun y =>
              if it.seekTo start_sample_index ≠ status_t.OK then
                .ret (it.seekTo start_sample_index, 0)
              else if it.seekTo x ≠ status_t.OK then .ret (it.seekTo x, 0)
              else if it.seekTo y ≠ status_t.OK then .ret (it.seekTo y, 0)
              else if abs_difference (it.getSampleTime x) (it.getSampleTime start_sample_index)
                  > abs_difference (it.getSampleTime y)
                      (it.getSampleTime start_sample_index) then
                syncRefine sync t.mNumSyncSamples start_sample_index flags y
                  ((left + 1) % 4294967296)
              else syncRefine sync t.mNumSyncSamples start_sample_index flags x left
          else syncRefine sync t.mNumSyncSamples start_sample_index flags x left

/-- A table after `setSyncSampleParams` loaded the (0-based) sync samples
`sync` from file offset 0. -/
def syncTable (sync : List Nat) : SampleTable :=
  { SampleTable.new with
    mSyncSampleOffset := 0
    mNumSyncSamples := sync.length
    mSyncSamples := some sync }

/-- An iterator on which every seek succeeds and sample `i` has time
`1000 * i`. -/
def evenIterator : SampleIterator :=
  { seekTo := fun _ => status_t.OK, getSampleTime := fun i => 1000 * i }

/-! ## `MPEG2TSSource` -/

/-- The constant `kTSPacketSize`. -/
def kTSPacketSize : Nat := 188

/-- The fields of `MPEG2TSSource::StreamInfo`. -/
structure StreamInfo where
  mStreamPID : Nat
  mProgramPID : Nat
  mFirstPTS : Nat
  mLastPTS : Nat
  mDurationUs : Int
  mFirstPTSOffset : Int
  mLastPTSOffset : Int
  mIndex : Nat
  mOffset : Int
deriving DecidableEq, Repr

/-- The collaborators of `MPEG2TSSource`, both outside the two files:
`readAt offset size` is `DataSource::readAt`, giving the returned count and
the bytes read; `parseTSToGetPTS packet streamPID pts` is the parser's
function of that name, giving the status and the value the reference
parameter `PTS` holds afterwards when it held `pts` before. -/
structure TSEnv where
  readAt : Int → Nat → Int × List Nat
  parseTSToGetPTS : List Nat → Nat → Nat → status_t × Nat

/-- The local variables of the search loop of `findOffsetForPTS`, with the
offsets of the packets read so far. -/
structure SeekState where
  currPTS : Nat
  prevPTS : Nat
  fileOffset : Int
  prevOffset : Int
  searchBack : Bool
  reads : List Int
deriving DecidableEq, Repr

/-- What `findOffsetForPTS` leaves: the returned status, the value of the
reference parameter `seekOffset`, and the offsets of the packets it read. -/
structure SeekResult where
  status : status_t
  seekOffset : Int
  reads : List Int
deriving DecidableEq, Repr

/-- The code after the search loop of `findOffsetForPTS` when `found` is
set: the closer of `fileOffset` and `prevOffset` is stored. -/
def seekFound (seekPTS : Nat) (s : SeekState) : SeekResult :=
  let deltaCurr := if seekPTS < s.currPTS then s.currPTS - seekPTS else seekPTS - s.currPTS
  let deltaPrev := if seekPTS < s.prevPTS then s.prevPTS - seekPTS else seekPTS - s.prevPTS
  { status := status_t.OK,
    seekOffset := if deltaCurr < deltaPrev then s.fileOffset else s.prevOffset,
    reads := s.reads }

/-- The loop `while(!found)` of `findOffsetForPTS` with the code that
follows it; `seekOffset` is the value the reference parameter had on
entry. -/
def findOffsetLoop (env : TSEnv) (stream : StreamInfo) (seekOffset : Int) (seekPTS : Nat) :
    Nat → SeekState → Run SeekResult
  | 0, _ => .timeout
  | fuel + 1, s =>
    let r := env.readAt s.fileOffset kTSPacketSize
    let reads := s.reads ++ [s.fileOffset]
    if r.1 ≤ 0 ∨ r.1 < (kTSPacketSize : Int) then
      .ret { status := if r.1 < 0 then status_t.other r.1 else status_t.ERROR_END_OF_STREAM,
             seekOffset := seekOffset, reads := reads }
    else
      let p := env.parseTSToGetPTS r.2 stream.mStreamPID s.currPTS
      if p.1 = status_t.DEAD_OBJECT then
        .ret { status := status_t.DEAD_OBJECT, seekOffset := seekOffset, reads := reads }
      else if p.1 = status_t.OK ∧
          (seekPTS = p.2 ∨
            (s.prevOffset ≠ 0 ∧ ((seekPTS < p.2 ∧ seekPTS > s.prevPTS) ∨
                                  (seekPTS > p.2 ∧ seekPTS < s.prevPTS)))) then
        .ret (seekFound seekPTS { s with currPTS := p.2, reads := reads })
      else
        let s1 : SeekState :=
          if p.1 = status_t.OK then
            { s with currPTS := p.2, prevPTS := p.2, prevOffset := s.fileOffset,
                     searchBack := !decide (p.2 < seekPTS), reads := reads }
          else { s with currPTS := p.2, reads := reads }
        if s1.searchBack then
          if s1.fileOffset > (kTSPacketSize : Int) ∧
              s1.fileOffset - (kTSPacketSize : Int) > stream.mFirstPTSOffset then
            findOffsetLoop env stream seekOffset seekPTS fuel
              { s1 with fileOffset := s1.fileOffset - (kTSPacketSize : Int) }
          else .ret (seekFound seekPTS { s1 with fileOffset := stream.mFirstPTSOffset })
        else
          if s1.fileOffset + (kTSPacketSize : Int) ≤ stream.mLastPTSOffset then
            findOffsetLoop env stream seekOffset seekPTS fuel
              { s1 with fileOffset := s1.fileOffset + (kTSPacketSize : Int) }
          else .ret (seekFound seekPTS { s1 with fileOffset := stream.mLastPTSOffset })

/-- The two `if` statements of `findOffsetForPTS` that place the first probe
when the seed offset lies outside the range of the stream. -/
def seekStart (stream : StreamInfo) (seekOffset : Int) : SeekState :=
  let s0 : SeekState :=
    { currPTS := 0, prevPTS := 0, fileOffset := seekOffset, prevOffset := 0,
      searchBack := false, reads := [] }
  let s1 : SeekState :=
    if s0.fileOffset ≥ stream.mLastPTSOffset then
      { s0 with searchBack := true,
                fileOffset := stream.mLastPTSOffset - (kTSPacketSize : Int),
                prevPTS := stream.mLastPTS, prevOffset := stream.mLastPTSOffset }
    else s0
  if s1.fileOffset ≤ stream.mFirstPTSOffset then
    { s1 with searchBack := false,
              fileOffset := stream.mFirstPTSOffset + (kTSPacketSize : Int),
              prevOffset := stream.mFirstPTSOffset, prevPTS := stream.mFirstPTS }
  else s1

/-- The method `MPEG2TSSource::findOffsetForPTS`. -/
def findOffsetForPTS (env : TSEnv) (stream : StreamInfo) (fuel : Nat) (seekOffset : Int)
    (seekPTS : Nat) : Run SeekResult :=
  if seekPTS ≤ stream.mFirstPTS then
    .ret { status := status_t.OK, seekOffset := (kTSPacketSize : Int), reads := [] }
  else if seekPTS ≥ stream.mLastPTS then
    .ret { status := status_t.OK, seekOffset := stream.mLastPTSOffset, reads := [] }
  else findOffsetLoop env stream seekOffset seekPTS fuel (seekStart stream seekOffset)

/-- The state of an `MPEG2TSSource` that `findStreamDuration` uses:
`mClipSize` is `mExtractor->mClipSize`; `mFormat` is `none` for a `NULL`
format and otherwise holds the `kKeyDuration` entry, if one is set. -/
structure MPEG2TSSource where
  mStream : StreamInfo
  mClipSize : Int
  mFormat : Option (Option Int)
deriving DecidableEq, Repr

/-- How the loop `while (offset > 0)` of `findStreamDuration` ends. -/
inductive LastPTSScan where
  /-- a `return` inside the loop, with its status -/
  | returned (status : status_t)
  /-- the loop was left; `status` and `PTS` are the last ones the parser
  gave, and `hit` holds the offset of the packet that gave status OK -/
  | left (status : status_t) (PTS : Nat) (hit : Option Int)
deriving DecidableEq, Repr

/-- The loop `while (offset > 0)` of `findStreamDuration`. -/
def lastPTSLoop (env : TSEnv) (streamPID : Nat) :
    Nat → Int → status_t → Nat → Run LastPTSScan
  | 0, offset, status, PTS => if offset > 0 then .timeout else .ret (.left status PTS none)
  | fuel + 1, offset, status, PTS =>
    if offset > 0 then
      let r := env.readAt offset kTSPacketSize
      if r.1 < 0 then .ret (.returned (status_t.other r.1))
      else if r.1 < (kTSPacketSize : Int) then .ret (.returned status_t.ERROR_END_OF_STREAM)
      else
        let p := env.parseTSToGetPTS r.2 streamPID PTS
        if p.1 = status_t.DEAD_OBJECT then .ret (.returned status_t.DEAD_OBJECT)
        else if p.1 = status_t.OK then .ret (.left status_t.OK p.2 (some offset))
        else lastPTSLoop env streamPID fuel (offset - (kTSPacketSize : Int)) p.1 p.2
    else .ret (.left status PTS none)

/-- The value `((mLastPTS - mFirstPTS) * 100) / 9` in `uint64_t` arithmetic,
as stored in the `int64_t` field `mDurationUs`; it is below 2^63, so the
conversion keeps it. -/
def durationOf (firstPTS lastPTS : Nat) : Int :=
  ((((lastPTS + 18446744073709551616 - firstPTS) % 18446744073709551616) * 100
      % 18446744073709551616 / 9 : Nat) : Int)

/-- The method `MPEG2TSSource::findStreamDuration`: the status and the
source afterwards. -/
def MPEG2TSSource.findStreamDuration (env : TSEnv) (src : MPEG2TSSource) :
    Run (status_t × MPEG2TSSource) :=
  if src.mClipSize = 0 then .ret (status_t.INVALID_OPERATION, src)
  else
    (lastPTSLoop env src.mStream.mStreamPID src.mClipSize.toNat
        (src.mClipSize - (kTSPacketSize : Int)) status_t.OK 0).bind fun scan =>
      match scan with
      | .returned status => .ret (status, src)
      | .left status PTS hit =>
        let stream1 : StreamInfo :=
          match hit with
          | some offset => { src.mStream with mLastPTS := PTS, mLastPTSOffset := offset }
          | none => src.mStream
        if status ≠ status_t.OK then .ret (status, { src with mStream := stream1 })
        else
          let stream2 : StreamInfo :=
            { stream1 with mDurationUs := durationOf stream1.mFirstPTS stream1.mLastPTS }
          if stream2.mDurationUs = 0 then .abort
          else
            .ret (status,
              { src with mStream := stream2,
                         mFormat := src.mFormat.map fun _ => some stream2.mDurationUs })

/-- A byte source of `size` bytes in which the packet at offset `o` is the
one-element list `[o]`; reads inside the source are complete. -/
def packetSource (size : Int) (offset : Int) (n : Nat) : Int × List Nat :=
  if 0 ≤ offset ∧ offset + (n : Int) ≤ size then ((n : Int), [offset.toNat]) else (0, [])

/-- A parser that finds a PTS in the packets listed in `table` (offset and
PTS) and reports `BAD_VALUE` for every other packet. -/
def tableParser (table : List (Nat × Nat)) (packet : List Nat) (_streamPID : Nat) (pts : Nat) :
    status_t × Nat :=
  match table.lookup (packet.headD 0) with
  | some p => (status_t.OK, p)
  | none => (status_t.BAD_VALUE, pts)

/-- A clip of 5000 packets whose packet at 188 carries PTS 90000 and whose
last packet, at 188 * 4999, carries PTS 990000. -/
def clipEnv : TSEnv :=
  { readAt := packetSource 940000,
    parseTSToGetPTS := tableParser [(188, 90000), (939812, 990000)] }

/-- The source of the stream of `clipEnv` as the constructor leaves it,
with first PTS 90000 found at offset 188. -/
def clipSource : MPEG2TSSource :=
  { mStream := { mStreamPID := 256, mProgramPID := 4096, mFirstPTS := 90000, mLastPTS := 0,
                 mDurationUs := 0, mFirstPTSOffset := 188, mLastPTSOffset := 0, mIndex := 0,
                 mOffset := 188 },
    mClipSize := 940000, mFormat := some none }

/-- The packet at `offset` can be read in full and the parser gives `v` for
it: status OK with that PTS when `v` is `some`, and otherwise a status that
is neither OK nor DEAD_OBJECT, whatever the reference parameter held. -/
def Carries (env : TSEnv) (streamPID : Nat) (offset : Int) (v : Option Nat) : Prop :=
  (kTSPacketSize : Int) ≤ (env.readAt offset kTSPacketSize).1 ∧
  ∀ pts0 : Nat,
    match v with
    | some p => env.parseTSToGetPTS (env.readAt offset kTSPacketSize).2 streamPID pts0
                  = (status_t.OK, p)
    | none =>
      (env.parseTSToGetPTS (env.readAt offset kTSPacketSize).2 streamPID pts0).1
          ≠ status_t.OK ∧
      (env.parseTSToGetPTS (env.readAt offset kTSPacketSize).2 streamPID pts0).1
          ≠ status_t.DEAD_OBJECT

/-- A stream of five packet slots from offset 188 to 1692 whose packet at
376 carries PTS 500, below the first PTS 1000 of the stream. -/
def jumbledEnv : TSEnv :=
  { readAt := packetSource 1880,
    parseTSToGetPTS :=
      tableParser [(188, 1000), (376, 500), (564, 1500), (940, 1800), (1692, 2000)] }

/-- The stream info of `jumbledEnv`: first PTS 1000 at 188, last PTS 2000 at
1692. -/
def jumbledStream : StreamInfo :=
  { mStreamPID := 256, mProgramPID := 4096, mFirstPTS := 1000, mLastPTS := 2000,
    mDurationUs := 0, mFirstPTSOffset := 188, mLastPTSOffset := 1692, mIndex := 0,
    mOffset := 188 }

/-- A stream like `jumbledEnv` with the PTS values in ascending order. -/
def orderedEnv : TSEnv :=
  { readAt := packetSource 1880,
    parseTSToGetPTS :=
      tableParser [(188, 1000), (376, 1200), (564, 1500), (940, 1800), (1692, 2000)] }

/-- A stream laid out on the packet grid: the slots `1 .. n` after the first
PTS offset end at the last PTS offset, slot `k` carries `pts k`, the PTS
values do not decrease along the grid, and the last slot carries a PTS. -/
structure SeekGrid (env : TSEnv) (stream : StreamInfo) (n : Nat) (pts : Nat → Option Nat) :
    Prop where
  first_nonneg : 0 ≤ stream.mFirstPTSOffset
  last_offset : stream.mLastPTSOffset = stream.mFirstPTSOffset + 188 * (n : Int)
  carries : ∀ k, 1 ≤ k → k ≤ n →
    Carries env stream.mStreamPID (stream.mFirstPTSOffset + 188 * (k : Int)) (pts k)
  mono : ∀ (i j a b : Nat), 1 ≤ i → i ≤ j → j ≤ n → pts i = some a → pts j = some b → a ≤ b
  last_carries : pts n ≠ none

/-- The PTS carried by the slots of `orderedEnv`. -/
def orderedPts (k : Nat) : Option Nat :=
  if k = 1 then some 1200 else if k = 2 then some 1500 else if k = 4 then some 1800
  else if k = 8 then some 2000 else none

/-! ## The loaders of `SampleTable` -/

/-- The byte source `mDataSource`, a collaborator outside the two files:
`readAt offset size` gives the count `DataSource::readAt` returns and the
bytes it delivered. -/
structure DataSource where
  readAt : Int → Nat → Int × List Nat

/-- The helper `U32_AT`: the big-endian 32-bit word at position `i` of a
buffer.  A byte the source did not deliver reads as 0. -/
def U32_AT (b : List Nat) (i : Nat) : Nat :=
  (b.getD i 0 % 256) * 16777216 + (b.getD (i + 1) 0 % 256) * 65536
    + (b.getD (i + 2) 0 % 256) * 256 + b.getD (i + 3) 0 % 256

/-- The first `n` 32-bit words of a buffer after `ntohl`. -/
def wordsOf (b : List Nat) (n : Nat) : List Nat :=
  (List.range n).map fun i => U32_AT b (4 * i)

/-- The first `n` 32-bit words of a buffer as the little-endian host sees
them before `ntohl` is applied. -/
def hostWordsOf (b : List Nat) (n : Nat) : List Nat :=
  (List.range n).map fun i =>
    b.getD (4 * i) 0 % 256 + (b.getD (4 * i + 1) 0 % 256) * 256
      + (b.getD (4 * i + 2) 0 % 256) * 65536 + (b.getD (4 * i + 3) 0 % 256) * 16777216

/-- The cast `(ssize_t)` of a `size_t` value on the 32-bit target. -/
def toSsize (x : Nat) : Int :=
  if x % 4294967296 < 2147483648 then ((x % 4294967296 : Nat) : Int)
  else ((x % 4294967296 : Nat) : Int) - 4294967296

/-- The constant `kChunkOffsetType32`, `FOURCC('s', 't', 'c', 'o')`. -/
def kChunkOffsetType32 : Nat := 0x7374636f
/-- The constant `kChunkOffsetType64`, `FOURCC('c', 'o', '6', '4')`. -/
def kChunkOffsetType64 : Nat := 0x636f3634
/-- The constant `kSampleSizeType32`, `FOURCC('s', 't', 's', 'z')`. -/
def kSampleSizeType32 : Nat := 0x7374737a
/-- The constant `kSampleSizeTypeCompact`, `FOURCC('s', 't', 'z', '2')`. -/
def kSampleSizeTypeCompact : Nat := 0x73747a32

/-- The method `SampleTable::isValid`. -/
def SampleTable.isValid (t : SampleTable) : Bool :=
  decide (t.mChunkOffsetOffset ≥ 0) && decide (t.mSampleToChunkOffset ≥ 0)
    && decide (t.mSampleSizeOffset ≥ 0) && t.mTimeToSample.isSome

/-- The method `SampleTable::setChunkOffsetParams`: the status and the table
afterwards.  The sums `8 + mNumChunkOffsets * 4` and `8 + mNumChunkOffsets * 8`
are 32-bit unsigned. -/
def SampleTable.setChunkOffsetParams (src : DataSource) (t : SampleTable)
    (type : Nat) (data_offset : Int) (data_size : Nat) : Run (status_t × SampleTable) :=
  if t.mChunkOffsetOffset ≥ 0 then .ret (status_t.ERROR_MALFORMED, t)
  else if ¬ (type = kChunkOffsetType32 ∨ type = kChunkOffsetType64) then .abort
  else
    let t1 := { t with mChunkOffsetOffset := data_offset, mChunkOffsetType := type }
    if data_size < 8 then .ret (status_t.ERROR_MALFORMED, t1)
    else
      let header := src.readAt data_offset 8
      if header.1 < 8 then .ret (status_t.ERROR_IO, t1)
      else if U32_AT header.2 0 ≠ 0 then .ret (status_t.ERROR_MALFORMED, t1)
      else
        let t2 := { t1 with mNumChunkOffsets := U32_AT header.2 4 }
        if t2.mChunkOffsetType = kChunkOffsetType32 then
          if data_size < (8 + t2.mNumChunkOffsets * 4 % 4294967296) % 4294967296 then
            .ret (status_t.ERROR_MALFORMED, t2)
          else .ret (status_t.OK, t2)
        else
          if data_size < (8 + t2.mNumChunkOffsets * 8 % 4294967296) % 4294967296 then
            .ret (status_t.ERROR_MALFORMED, t2)
          else .ret (status_t.OK, t2)

/-- The loop of `setSampleToChunkParams` over the entries; the first
argument is `mNumSampleToChunkOffsets - i`.  The result is the status with
the entries written so far. -/
def sampleToChunkLoop (src : DataSource) (sampleToChunkOffset : Int) :
    Nat → Nat → List SampleToChunkEntry → Run (status_t × List SampleToChunkEntry)
  | 0, _, acc => .ret (status_t.OK, acc)
  | rem + 1, i, acc =>
    let buffer := src.readAt (sampleToChunkOffset + 8 + ((i * 12 % 4294967296 : Nat) : Int)) 12
    if buffer.1 ≠ 12 then .ret (status_t.ERROR_IO, acc)
    else if ¬ U32_AT buffer.2 0 ≥ 1 then .abort
    else
      sampleToChunkLoop src sampleToChunkOffset rem (i + 1)
        (acc ++ [{ startChunk := U32_AT buffer.2 0 - 1,
                   samplesPerChunk := U32_AT buffer.2 4,
                   chunkDesc := U32_AT buffer.2 8 }])

/-- The method `SampleTable::setSampleToChunkParams`.  The array
`mSampleToChunkEntries` is modelled by the entries written so far. -/
def SampleTable.setSampleToChunkParams (src : DataSource) (t : SampleTable)
    (data_offset : Int) (data_size : Nat) : Run (status_t × SampleTable) :=
  if t.mSampleToChunkOffset ≥ 0 then .ret (status_t.ERROR_MALFORMED, t)
  else
    let t1 := { t with mSampleToChunkOffset := data_offset }
    if data_size < 8 then .ret (status_t.ERROR_MALFORMED, t1)
    else
      let header := src.readAt data_offset 8
      if header.1 < 8 then .ret (status_t.ERROR_IO, t1)
      else if U32_AT header.2 0 ≠ 0 then .ret (status_t.ERROR_MALFORMED, t1)
      else
        let t2 := { t1 with mNumSampleToChunkOffsets := U32_AT header.2 4 }
        if data_size < (8 + t2.mNumSampleToChunkOffsets * 12 % 4294967296) % 4294967296 then
          .ret (status_t.ERROR_MALFORMED, t2)
        else
          (sampleToChunkLoop src t2.mSampleToChunkOffset t2.mNumSampleToChunkOffsets 0 []).bind
            fun r => .ret (r.1, { t2 with mSampleToChunkEntries := some r.2 })

/-- The method `SampleTable::setSampleSizeParams`. -/
def SampleTable.setSampleSizeParams (src : DataSource) (t : SampleTable)
    (type : Nat) (data_offset : Int) (data_size : Nat) : Run (status_t × SampleTable) :=
  if t.mSampleSizeOffset ≥ 0 then .ret (status_t.ERROR_MALFORMED, t)
  else if ¬ (type = kSampleSizeType32 ∨ type = kSampleSizeTypeCompact) then .abort
  else
    let t1 := { t with mSampleSizeOffset := data_offset }
    if data_size < 12 then .ret (status_t.ERROR_MALFORMED, t1)
    else
      let header := src.readAt data_offset 12
      if header.1 < 12 then .ret (status_t.ERROR_IO, t1)
      else if U32_AT header.2 0 ≠ 0 then .ret (status_t.ERROR_MALFORMED, t1)
      else
        let t2 := { t1 with mDefaultSampleSize := U32_AT header.2 4,
                            mNumSampleSizes := U32_AT header.2 8 }
        if type = kSampleSizeType32 then
          let t3 := { t2 with mSampleSizeFieldSize := 32 }
          if t3.mDefaultSampleSize ≠ 0 then .ret (status_t.OK, t3)
          else if data_size < (12 + t3.mNumSampleSizes * 4 % 4294967296) % 4294967296 then
            .ret (status_t.ERROR_MALFORMED, t3)
          else .ret (status_t.OK, t3)
        else
          if t2.mDefaultSampleSize / 256 * 256 % 4294967296 ≠ 0 then
            .ret (status_t.ERROR_MALFORMED, t2)
          else
            let t3 := { t2 with mSampleSizeFieldSize := t2.mDefaultSampleSize % 256,
                                mDefaultSampleSize := 0 }
            if t3.mSampleSizeFieldSize ≠ 4 ∧ t3.mSampleSizeFieldSize ≠ 8
                ∧ t3.mSampleSizeFieldSize ≠ 16 then
              .ret (status_t.ERROR_MALFORMED, t3)
            else if data_size <
                (12 + (t3.mNumSampleSizes * t3.mSampleSizeFieldSize % 4294967296 + 4)
                        % 4294967296 / 8) % 4294967296 then
              .ret (status_t.ERROR_MALFORMED, t3)
            else .ret (status_t.OK, t3)

/-- The method `SampleTable::setTimeToSampleParams`.  The array has
`mTimeToSampleCount * 2` words (a 32-bit product), read from the bytes the
source delivered; it stays allocated, in host byte order, when the read
falls short. -/
def SampleTable.setTimeToSampleParams (src : DataSource) (t : SampleTable)
    (data_offset : Int) (data_size : Nat) : Run (status_t × SampleTable) :=
  if t.mTimeToSample ≠ none ∨ data_size < 8 then .ret (status_t.ERROR_MALFORMED, t)
  else
    let header := src.readAt data_offset 8
    if header.1 < 8 then .ret (status_t.ERROR_IO, t)
    else if U32_AT header.2 0 ≠ 0 then .ret (status_t.ERROR_MALFORMED, t)
    else
      let count := U32_AT header.2 4
      let size := 4 * count * 2 % 4294967296
      let data := src.readAt (data_offset + 8) size
      let t1 := { t with mTimeToSampleCount := count }
      if data.1 < toSsize size then
        .ret (status_t.ERROR_IO,
          { t1 with mTimeToSample := some (hostWordsOf data.2 (count * 2 % 4294967296)) })
      else
        .ret (status_t.OK,
          { t1 with mTimeToSample := some (wordsOf data.2 (count * 2 % 4294967296)) })

/-- The method `SampleTable::setCompositionTimeToSampleParams`.  The sizes
`(numEntries + 1) * 8`, `2 * numEntries` and `numEntries * 8` are `size_t`
values of 32 bits.  The array `new uint32_t[2 * numEntries]` takes
`4 * (2 * numEntries)` bytes; where that is 2^32 or more no block of memory
of the target holds the array, which the loop over its `2 * numEntries`
words goes on to write, and the run ends without a status. -/
def SampleTable.setCompositionTimeToSampleParams (src : DataSource) (t : SampleTable)
    (data_offset : Int) (data_size : Nat) : Run (status_t × SampleTable) :=
  if t.mCompositionTimeDeltaEntries ≠ none ∨ data_size < 8 then
    .ret (status_t.ERROR_MALFORMED, t)
  else
    let header := src.readAt data_offset 8
    if header.1 < 8 then .ret (status_t.ERROR_IO, t)
    else if U32_AT header.2 0 ≠ 0 ∧ U32_AT header.2 0 ≠ 0x01000000 then
      .ret (status_t.ERROR_MALFORMED, t)
    else
      let numEntries := U32_AT header.2 4
      if data_size ≠ (numEntries + 1) * 8 % 4294967296 then .ret (status_t.ERROR_MALFORMED, t)
      else if 4294967296 ≤ 4 * (2 * numEntries % 4294967296) then .ub
      else
        let t1 := { t with mNumCompositionTimeDeltaEntries := numEntries }
        let data := src.readAt (data_offset + 8) (numEntries * 8 % 4294967296)
        if data.1 < toSsize (numEntries * 8) then
          .ret (status_t.ERROR_IO, { t1 with mCompositionTimeDeltaEntries := none })
        else
          let entries := wordsOf data.2 (2 * numEntries % 4294967296)
          .ret (status_t.OK,
            { t1 with mCompositionTimeDeltaEntries := some entries,
                      mCompositionDeltaLookup :=
                        t1.mCompositionDeltaLookup.setEntries entries numEntries })

/-- The method `SampleTable::setSyncSampleParams`. -/
def SampleTable.setSyncSampleParams (src : DataSource) (t : SampleTable)
    (data_offset : Int) (data_size : Nat) : Run (status_t × SampleTable) :=
  if t.mSyncSampleOffset ≥ 0 ∨ data_size < 8 then .ret (status_t.ERROR_MALFORMED, t)
  else
    let t1 := { t with mSyncSampleOffset := data_offset }
    let header := src.readAt data_offset 8
    if header.1 < 8 then .ret (status_t.ERROR_IO, t1)
    else if U32_AT header.2 0 ≠ 0 then .ret (status_t.ERROR_MALFORMED, t1)
    else
      let t2 := { t1 with mNumSyncSamples := U32_AT header.2 4 }
      let size := t2.mNumSyncSamples * 4 % 4294967296
      let data := src.readAt (t2.mSyncSampleOffset + 8) size
      if data.1 ≠ toSsize size then
        .ret (status_t.ERROR_IO,
          { t2 with mSyncSamples := some (hostWordsOf data.2 t2.mNumSyncSamples) })
      else
        let synced := (wordsOf data.2 t2.mNumSyncSamples).map
          fun x => (x + 4294967295) % 4294967296
        .ret (status_t.OK, { t2 with mSyncSamples := some synced })

/-- A byte source over a list of bytes that starts at offset 0: a read
delivers the bytes that exist, and fails with -1 before offset 0. -/
def bytesSource (bytes : List Nat) : DataSource :=
  { readAt := fun offset size =>
      if offset < 0 then (-1, [])
      else (((bytes.drop offset.toNat).take size).length,
            (bytes.drop offset.toNat).take size) }

/-- An stts box with the runs `[(3, 100), (2, 50)]`. -/
def sttsBox : List Nat :=
  [0, 0, 0, 0, 0, 0, 0, 2, 0, 0, 0, 3, 0, 0, 0, 100, 0, 0, 0, 2, 0, 0, 0, 50]

/-- The table after `setTimeToSampleParams` loaded `sttsBox`. -/
def sttsLoadedTable : SampleTable :=
  { SampleTable.new with
    mTimeToSampleCount := 2
    mTimeToSample := some [3, 100, 2, 50] }

/-- The table after `setChunkOffsetParams` loaded an stco box with one
entry from offset 0. -/
def stcoLoadedTable : SampleTable :=
  { SampleTable.new with
    mChunkOffsetOffset := 0
    mChunkOffsetType := kChunkOffsetType32
    mNumChunkOffsets := 1 }

/-! ## `SampleTable::findThumbnailSample` -/

/-- The loop of `findThumbnailSample`; the first numeric argument is
`numSamplesToScan - i`.  `getSampleSizeDirect` stands for the method of the
sample iterator, outside the two files, that `getSampleSize_l` forwards to:
it gives the status and the size stored for a sample index.  `sample_index`
is what `*sample_index` held before the call; the result is the status with
the value left there. -/
def thumbnailLoop (getSampleSizeDirect : Nat → status_t × Nat) (sync : List Nat)
    (sample_index : Nat) : Nat → Nat → Nat → Nat → Run (status_t × Nat)
  | 0, _, bestSampleIndex, _ => .ret (status_t.OK, bestSampleIndex)
  | rem + 1, i, bestSampleIndex, maxSampleSize =>
    (arrayGet sync i).bind fun x =>
      let r := getSampleSizeDirect x
      if r.1 ≠ status_t.OK then .ret (r.1, sample_index)
      else if i = 0 ∨ r.2 > maxSampleSize then
        thumbnailLoop getSampleSizeDirect sync sample_index rem (i + 1) x r.2
      else
        thumbnailLoop getSampleSizeDirect sync sample_index rem (i + 1)
          bestSampleIndex maxSampleSize

/-- The method `SampleTable::findThumbnailSample`: the status and the value
left in `*sample_index`. -/
def SampleTable.findThumbnailSample (getSampleSizeDirect : Nat → status_t × Nat)
    (t : SampleTable) (sample_index : Nat) : Run (status_t × Nat) :=
  if t.mSyncSampleOffset < 0 then .ret (status_t.OK, 0)
  else
    let numSamplesToScan := if t.mNumSyncSamples > 20 then 20 else t.mNumSyncSamples
    thumbnailLoop getSampleSizeDirect (t.mSyncSamples.getD []) sample_index
      numSamplesToScan 0 0 0

/-- The sizes of the thumbnail example: samples 0, 2 and 4 have 2000, 5000
and 1000 bytes; every lookup succeeds. -/
def thumbnailSizes (sampleIndex : Nat) : status_t × Nat :=
  (status_t.OK,
    if sampleIndex = 0 then 2000 else if sampleIndex = 2 then 5000
    else if sampleIndex = 4 then 1000 else 0)

/-! ## `SampleTable::setSampleDescParams` and `getSampleDescAtIndex` -/

/-- The helper `U64_AT` behind `ntoh64`: the big-endian 64-bit word at
position `i` of a buffer. -/
def U64_AT (b : List Nat) (i : Nat) : Nat :=
  U32_AT b i * 4294967296 + U32_AT b (i + 4)

/-- The value an `off64_t` receives from a computation carried out in
`uint64_t`: the residue modulo 2^64, read as a signed number. -/
def toOff64 (x : Int) : Int :=
  if x % 18446744073709551616 < 9223372036854775808 then x % 18446744073709551616
  else x % 18446744073709551616 - 18446744073709551616

/-- The cast `(ssize_t)` of an `off64_t` value on the 32-bit target. -/
def ssizeOfOff64 (x : Int) : Int :=
  toSsize (x % 4294967296).toNat

/-- The constant `FOURCC('a', 'v', 'c', '1')`. -/
def kFourccAvc1 : Nat := 0x61766331
/-- The constant `FOURCC('a', 'v', 'c', 'C')`. -/
def kFourccAvcC : Nat := 0x61766343

/-- The body of the loop of `setSampleDescParams` from the computation of
`avc1_chunk_data_size` on: an error status, or the bytes copied into the new
`SampleDescAtom` with the offset of the next entry.  An allocation of
negative length and a read behind the end of `buffer` are undefined. -/
def sampleDescBody (src : DataSource) (offset : Int) (avc1_chunk_size avc1_chunk_type : Nat)
    (avc1_data_offset : Int) : Run (Except status_t (List Nat × Int)) :=
  let avc1_chunk_data_size := toOff64 (offset + avc1_chunk_size - avc1_data_offset)
  if avc1_chunk_type ≠ kFourccAvc1 then .ret (.error status_t.ERROR_MALFORMED)
  else
    let len := ssizeOfOff64 avc1_chunk_data_size
    if len < 0 then .ub
    else
      let data := src.readAt avc1_data_offset len.toNat
      if data.1 < len then .ret (.error status_t.ERROR_IO)
      else
        let buffer := data.2.take len.toNat
        if len < 28 then .ub
        else if len < 86 then .ub
        else
          let avcc_chunk_size := U32_AT buffer 78
          let avcc_chunk_type := U32_AT buffer 82
          if avcc_chunk_size = 0 ∨ avcc_chunk_size = 1 then
            .ret (.error status_t.ERROR_MALFORMED)
          else if avcc_chunk_type ≠ kFourccAvcC then .ret (.error status_t.ERROR_MALFORMED)
          else
            let avcc_chunk_data_size := avc1_chunk_data_size - 78 - 8
            .ret (.ok ((buffer.drop 86).take (avcc_chunk_data_size % 4294967296).toNat,
              toOff64 (offset + avc1_chunk_size)))

/-- One turn of the loop of `setSampleDescParams`: the header of the entry
at `offset`, then `sampleDescBody`. -/
def sampleDescEntry (src : DataSource) (offset : Int) :
    Run (Except status_t (List Nat × Int)) :=
  let hdr := src.readAt offset 8
  if hdr.1 < 8 then .ret (.error status_t.ERROR_IO)
  else
    let avc1_chunk_size := U32_AT hdr.2 0
    let avc1_chunk_type := U32_AT hdr.2 4
    let avc1_data_offset := offset + 8
    if avc1_chunk_size = 0 then .ret (.error status_t.ERROR_MALFORMED)
    else if avc1_chunk_size = 1 then
      let big := src.readAt (offset + 8) 8
      if big.1 < 8 then .ret (.error status_t.ERROR_IO)
      else if U64_AT big.2 0 = 0 then .ret (.error status_t.ERROR_MALFORMED)
      else if U64_AT big.2 0 < 16 then .ret (.error status_t.ERROR_MALFORMED)
      else sampleDescBody src offset (U64_AT big.2 0) avc1_chunk_type (avc1_data_offset + 8)
    else if avc1_chunk_size < 8 then .ret (.error status_t.ERROR_MALFORMED)
    else sampleDescBody src offset avc1_chunk_size avc1_chunk_type avc1_data_offset

/-- The loop of `setSampleDescParams`; the first numeric argument is
`count - i`.  The result is the status with the list `mSampleDescAtoms`. -/
def sampleDescLoop (src : DataSource) :
    Nat → Int → List (List Nat) → Run (status_t × List (List Nat))
  | 0, _, atoms => .ret (status_t.OK, atoms)
  | rem + 1, offset, atoms =>
    (sampleDescEntry src offset).bind fun r =>
      match r with
      | .error err => .ret (err, atoms)
      | .ok (avccBuffer, next) => sampleDescLoop src rem next (atoms ++ [avccBuffer])

/-- The method `SampleTable::setSampleDescParams`.  The argument `size` is
not used, as in the source. -/
def SampleTable.setSampleDescParams (src : DataSource) (t : SampleTable)
    (count : Nat) (offset : Int) (_size : Nat) : Run (status_t × SampleTable) :=
  (sampleDescLoop src count offset t.mSampleDescAtoms).bind fun r =>
    .ret (r.1, { t with mSampleDescAtoms := r.2 })

/-- The loop of `getSampleDescAtIndex` over the rest of the list, with the
32-bit counter `i` and the pair `(*ptr, *size)` so far. -/
def sampleDescScan (index : Nat) : List (List Nat) → Nat → List Nat × Nat → List Nat × Nat
  | [], _, out => out
  | sda :: rest, i, out =>
    sampleDescScan index rest ((i + 1) % 4294967296)
      (if i = index then (sda, sda.length) else out)

/-- The method `SampleTable::getSampleDescAtIndex`: the status and the pair
`(*ptr, *size)` afterwards, `out` being what the two held before the call. -/
def SampleTable.getSampleDescAtIndex (t : SampleTable) (index : Nat) (out : List Nat × Nat) :
    status_t × (List Nat × Nat) :=
  (status_t.OK, sampleDescScan index t.mSampleDescAtoms 1 out)

/-- An stsd entry: an avc1 box of 110 bytes whose 102 data bytes are 78
bytes of sample-entry fields, an avcC box of declared size 16 with the body
`[1, 2, 3, 4, 5, 6, 7, 8]`, and a btrt box of 8 bytes behind it. -/
def avc1Box : List Nat :=
  [0, 0, 0, 110, 97, 118, 99, 49] ++ List.replicate 78 0
    ++ [0, 0, 0, 16, 97, 118, 99, 67, 1, 2, 3, 4, 5, 6, 7, 8]
    ++ [0, 0, 0, 8, 98, 116, 114, 116]

/-! ## Boxes and tables of the examples -/

/-- An stco header that declares 2^30 entries. -/
def stcoWrapHeader : List Nat := [0, 0, 0, 0, 64, 0, 0, 0]

/-- A co64 header that declares 2^29 entries. -/
def co64WrapHeader : List Nat := [0, 0, 0, 0, 32, 0, 0, 0]

/-- An stz2 header with field size 4 that declares 2^30 samples. -/
def stz2WrapHeader : List Nat := [0, 0, 0, 0, 0, 0, 0, 4, 64, 0, 0, 0]

/-- A ctts header that declares 2^29 entries. -/
def cttsWrapHeader : List Nat := [0, 0, 0, 0, 32, 0, 0, 0]

/-- The bytes of an stts box of declared size 8 whose header announces one
entry, followed by eight bytes that lie behind the box. -/
def sttsShortBox : List Nat := [0, 0, 0, 0, 0, 0, 0, 1, 0, 0, 0, 5, 0, 0, 0, 7]

/-- The bytes of an stss box of declared size 8 whose header announces one
entry, followed by four bytes that lie behind the box. -/
def stssShortBox : List Nat := [0, 0, 0, 0, 0, 0, 0, 1, 0, 0, 0, 3]

/-- An stsc box with one entry whose first_chunk is 0. -/
def stscZeroBox : List Nat :=
  [0, 0, 0, 0, 0, 0, 0, 1, 0, 0, 0, 0, 0, 0, 0, 1, 0, 0, 0, 1]

/-- An stsc box with two entries whose first_chunk values are 2 and 1. -/
def stscDescendingBox : List Nat :=
  [0, 0, 0, 0, 0, 0, 0, 2, 0, 0, 0, 2, 0, 0, 0, 1, 0, 0, 0, 1,
    0, 0, 0, 1, 0, 0, 0, 1, 0, 0, 0, 1]

/-- The entry the stsc loader stores for entry `i` of the box at
`data_offset`. -/
def stscEntryAt (src : DataSource) (data_offset : Int) (i : Nat) : SampleToChunkEntry :=
  { startChunk := U32_AT (src.readAt (data_offset + 8 + ((i * 12 % 4294967296 : Nat) : Int)) 12).2 0 - 1
    samplesPerChunk := U32_AT (src.readAt (data_offset + 8 + ((i * 12 % 4294967296 : Nat) : Int)) 12).2 4
    chunkDesc := U32_AT (src.readAt (data_offset + 8 + ((i * 12 % 4294967296 : Nat) : Int)) 12).2 8 }

/-- The field first_chunk of entry `i` of the stsc box at `data_offset`. -/
def stscFirstChunk (src : DataSource) (data_offset : Int) (i : Nat) : Nat :=
  U32_AT (src.readAt (data_offset + 8 + ((i * 12 % 4294967296 : Nat) : Int)) 12).2 0

/-- A table of five samples with stts runs `[(3, 100), (2, 50)]` and ctts
runs `[(5, 0)]`. -/
def fiveSampleTable : SampleTable :=
  { SampleTable.new with
    mNumSampleSizes := 5
    mTimeToSampleCount := 2
    mTimeToSample := some [3, 100, 2, 50]
    mCompositionTimeDeltaEntries := some [5, 0]
    mNumCompositionTimeDeltaEntries := 1
    mCompositionDeltaLookup := loadedLookup [(5, 0)] }

/-- An stsc box with two entries whose first_chunk values are 1 and 0. -/
def stscSecondZeroBox : List Nat :=
  [0, 0, 0, 0, 0, 0, 0, 2, 0, 0, 0, 1, 0, 0, 0, 4, 0, 0, 0, 1,
    0, 0, 0, 0, 0, 0, 0, 1, 0, 0, 0, 1]

/-- An stsc box with two entries whose first_chunk values are 1 and 3. -/
def stscAscendingBox : List Nat :=
  [0, 0, 0, 0, 0, 0, 0, 2, 0, 0, 0, 1, 0, 0, 0, 4, 0, 0, 0, 1,
    0, 0, 0, 3, 0, 0, 0, 2, 0, 0, 0, 1]

/-- What the loop of `findThumbnailSample` has established before turn `i`:
nothing was scanned and `bestSampleIndex` is 0, or `bestSampleIndex` is the
entry at some position `i0 < i`, `maxSampleSize` is its size, no scanned
entry is larger and every entry before `i0` is smaller. -/
def ThumbnailInv (getSampleSizeDirect : Nat → status_t × Nat) (sync : List Nat)
    (i bestSampleIndex maxSampleSize : Nat) : Prop :=
  (i = 0 ∧ bestSampleIndex = 0) ∨
    ∃ i0, i0 < i ∧ sync[i0]? = some bestSampleIndex ∧
      (getSampleSizeDirect bestSampleIndex).2 = maxSampleSize ∧
      (∀ (j y : Nat), j < i → sync[j]? = some y → (getSampleSizeDirect y).2 ≤ maxSampleSize) ∧
      (∀ (j y : Nat), j < i0 → sync[j]? = some y → (getSampleSizeDirect y).2 < maxSampleSize)

/-- The bytes of an stss box that lists the sync samples 1, 3 and 5. -/
def stssExampleBox : List Nat :=
  [0, 0, 0, 0, 0, 0, 0, 3, 0, 0, 0, 1, 0, 0, 0, 3, 0, 0, 0, 5]

/-- Sizes of which the lookup for sample 2 fails with ERROR_IO. -/
def failingSizes (sampleIndex : Nat) : status_t × Nat :=
  if sampleIndex = 2 then (status_t.ERROR_IO, 0) else (status_t.OK, 2000)

/-! ## `SampleTable::getMetaDataForSample` -/

/-- The sample iterator as `getMetaDataForSample` uses it: besides the
status of `seekTo(i)` and the time, the offset, size and description index
it reports after a seek to sample `i`. -/
structure MetaIterator extends SampleIterator where
  getSampleOffset : Nat → Int
  getSampleSize : Nat → Nat
  getDescIndex : Nat → Nat

/-- Which of the five output pointers of `getMetaDataForSample` are not
`NULL`. -/
structure MetaRequest where
  offset : Bool
  size : Bool
  compositionTime : Bool
  isSyncSample : Bool
  sampleDescIndex : Bool
deriving DecidableEq, Repr

/-- What `getMetaDataForSample` stored through its output pointers; `none`
where nothing was stored. -/
structure MetaOutputs where
  offset : Option Int
  size : Option Nat
  compositionTime : Option Nat
  isSyncSample : Option Bool
  sampleDescIndex : Option Nat
deriving DecidableEq, Repr

/-- The loop `while (i < mNumSyncSamples && mSyncSamples[i] < sampleIndex)`
of `getMetaDataForSample`; the first numeric argument is
`mNumSyncSamples - i`.  The result is the final `i`. -/
def syncCursorScan (sync : List Nat) (numSyncSamples sampleIndex : Nat) : Nat → Nat → Run Nat
  | 0, i => if i < numSyncSamples then .timeout else .ret i
  | rem + 1, i =>
    if i < numSyncSamples then
      (arrayGet sync i).bind fun x =>
        if x < sampleIndex then syncCursorScan sync numSyncSamples sampleIndex rem (i + 1)
        else .ret i
    else .ret i

/-- The `else` branch of `getMetaDataForSample` that looks the sample up in
the sync table, starting from the remembered cursor: the value stored in
`*isSyncSample` and the new `mLastSyncSampleIndex`. -/
def SampleTable.syncLookup (t : SampleTable) (sampleIndex : Nat) : Run (Bool × Nat) :=
  let sync := t.mSyncSamples.getD []
  (if t.mLastSyncSampleIndex < t.mNumSyncSamples then
      (arrayGet sync t.mLastSyncSampleIndex).bind fun x =>
        .ret (if x ≤ sampleIndex then t.mLastSyncSampleIndex else 0)
    else .ret 0).bind fun i0 =>
    (syncCursorScan sync t.mNumSyncSamples sampleIndex (t.mNumSyncSamples - i0) i0).bind fun i =>
      if i < t.mNumSyncSamples then
        (arrayGet sync i).bind fun x => .ret (decide (x = sampleIndex), i)
      else .ret (false, i)

/-- The method `SampleTable::getMetaDataForSample`: the status, what was
stored through the output pointers, and the table afterwards. -/
def SampleTable.getMetaDataForSample (it : MetaIterator) (t : SampleTable)
    (sampleIndex : Nat) (want : MetaRequest) : Run (status_t × MetaOutputs × SampleTable) :=
  if it.seekTo sampleIndex ≠ status_t.OK then
    .ret (it.seekTo sampleIndex,
      { offset := none, size := none, compositionTime := none, isSyncSample := none,
        sampleDescIndex := none }, t)
  else
    let out : MetaOutputs :=
      { offset := if want.offset then some (it.getSampleOffset sampleIndex) else none
        size := if want.size then some (it.getSampleSize sampleIndex) else none
        compositionTime :=
          if want.compositionTime then some (it.getSampleTime sampleIndex) else none
        isSyncSample := none
        sampleDescIndex :=
          if want.sampleDescIndex then some (it.getDescIndex sampleIndex) else none }
    if want.isSyncSample then
      if t.mSyncSampleOffset < 0 then
        .ret (status_t.OK, { out with isSyncSample := some true }, t)
      else
        (t.syncLookup sampleIndex).bind fun r =>
          .ret (status_t.OK, { out with isSyncSample := some r.1 },
            { t with mLastSyncSampleIndex := r.2 })
    else .ret (status_t.OK, out, t)

/-- A sequence of `getMetaDataForSample` calls that ask for `isSyncSample`
only, one after the other on the same table: the values stored in
`*isSyncSample`, with the table after the last call.  A call that does not
return OK ends the sequence with `none`. -/
def SampleTable.syncFlags (it : MetaIterator) :
    SampleTable → List Nat → Run (Option (List Bool × SampleTable))
  | t, [] => .ret (some ([], t))
  | t, s :: rest =>
    (t.getMetaDataForSample it s
        { offset := false, size := false, compositionTime := false, isSyncSample := true,
          sampleDescIndex := false }).bind fun r =>
      match r with
      | (status_t.OK, out, t1) =>
        (SampleTable.syncFlags it t1 rest).bind fun q =>
          match q, out.isSyncSample with
          | some (flags, t2), some flag => .ret (some (flag :: flags, t2))
          | _, _ => .ret none
      | _ => .ret none

/-- The answer the specification gives for `isSyncSample`: every sample is a
sync sample when no stss table is loaded, and otherwise exactly the samples
that occur in the sync table. -/
def SampleTable.isSyncSampleSpec (t : SampleTable) (sampleIndex : Nat) : Bool :=
  decide (t.mSyncSampleOffset < 0)
    || ((t.mSyncSamples.getD []).take t.mNumSyncSamples).contains sampleIndex

/-- An iterator on which every seek succeeds; sample `i` has time `1000 * i`,
offset `100 * i`, size 10 and description index 1. -/
def evenMetaIterator : MetaIterator :=
  { toSampleIterator := evenIterator
    getSampleOffset := fun i => 100 * (i : Int)
    getSampleSize := fun _ => 10
    getDescIndex := fun _ => 1 }

/-! ## `TSBuffer` -/

/-- The constant `kTSCacheSize`. -/
def kTSCacheSize : Nat := kTSPacketSize * 1000

/-- The fields of `TSBuffer`; `mData` is the content of the allocated block. -/
structure TSBuffer where
  mData : List Nat
  mCapacity : Nat
  mOffset : Nat
  mSize : Nat
  mClipSize : Int
deriving DecidableEq, Repr

/-- The constructor `TSBuffer::TSBuffer`; `memory` is what the block that
`malloc` returns holds. -/
def TSBuffer.new (memory : List Nat) (capacity : Nat) (clipSize : Int) : TSBuffer :=
  { mData := memory, mCapacity := capacity, mOffset := 0, mSize := 0, mClipSize := clipSize }

/-- The method `TSBuffer::flush`. -/
def TSBuffer.flush (b : TSBuffer) : TSBuffer :=
  { b with mOffset := 0, mSize := 0 }

/-- The method `TSBuffer::getTSPacket`: the status, the 188 bytes that
`*data` points to when it was set (`none` when it was left alone), and the
buffer afterwards.  `mSize - mOffset` and `retVal < size` are unsigned
32-bit; a read that delivers more bytes than the block has is undefined. -/
def TSBuffer.getTSPacket (src : DataSource) (b : TSBuffer) (dataSrcOffset : Int) :
    Run (status_t × Option (List Nat) × TSBuffer) :=
  if (b.mSize + 4294967296 - b.mOffset) % 4294967296 < kTSPacketSize then
    let size :=
      if dataSrcOffset + (b.mCapacity : Int) > b.mClipSize then
        ((b.mClipSize - dataSrcOffset) % 4294967296).toNat
      else b.mCapacity
    if size < kTSPacketSize then .ret (status_t.ERROR_END_OF_STREAM, none, b)
    else
      let r := src.readAt dataSrcOffset size
      if r.2.length > b.mCapacity then .ub
      else
        let b1 := { b with mData := r.2 ++ b.mData.drop r.2.length }
        if (r.1 % 4294967296).toNat < size then
          .ret (if r.1 < 0 then status_t.other r.1 else status_t.ERROR_END_OF_STREAM, none, b1)
        else
          let b2 := { b1 with mSize := (r.1 % 4294967296).toNat, mOffset := 0 }
          .ret (status_t.OK, some ((b2.mData.drop b2.mOffset).take kTSPacketSize),
            { b2 with mOffset := (b2.mOffset + kTSPacketSize) % 4294967296 })
  else
    .ret (status_t.OK, some ((b.mData.drop b.mOffset).take kTSPacketSize),
      { b with mOffset := (b.mOffset + kTSPacketSize) % 4294967296 })

/-- Successive `getTSPacket` calls with the source offsets `o`, `o + 188`,
...: the packets handed out, with the buffer after the last call.  A call
that does not return OK ends the sequence with `none`. -/
def TSBuffer.getTSPackets (src : DataSource) :
    Nat → TSBuffer → Int → Run (Option (List (List Nat) × TSBuffer))
  | 0, b, _ => .ret (some ([], b))
  | k + 1, b, o =>
    (b.getTSPacket src o).bind fun r =>
      match r with
      | (status_t.OK, some packet, b1) =>
        (TSBuffer.getTSPackets src k b1 (o + (kTSPacketSize : Int))).bind fun q =>
          match q with
          | some (packets, b2) => .ret (some (packet :: packets, b2))
          | none => .ret none
      | _ => .ret none

/-- The state of a `TSBuffer` that serves the source bytes `bytes` to a
reader whose next packet is at source offset `d`: `mOffset <= mSize <=
mCapacity`, `mOffset` is a multiple of 188, and the first `mSize` bytes of
the block are the source bytes from offset `d - mOffset` on, none of them
behind the clip. -/
def TSBufferInv (bytes : List Nat) (b : TSBuffer) (d : Int) : Prop :=
  b.mOffset ≤ b.mSize ∧ b.mSize ≤ b.mCapacity ∧ kTSPacketSize ∣ b.mOffset ∧
  (b.mOffset : Int) ≤ d ∧ d - (b.mOffset : Int) + (b.mSize : Int) ≤ b.mClipSize ∧
  b.mData.take b.mSize = (bytes.drop (d - (b.mOffset : Int)).toNat).take b.mSize

/-- A byte source that holds `bytes` and returns full reads: a read of
`size` bytes that ends inside the source returns `size` and delivers the
bytes at the offsets asked for. -/
def FullReads (src : DataSource) (bytes : List Nat) : Prop :=
  ∀ (offset : Int) (size : Nat), 0 ≤ offset → offset + (size : Int) ≤ (bytes.length : Int) →
    src.readAt offset size = ((size : Int), (bytes.drop offset.toNat).take size)

/-- A byte source on which every read fails with the status -1004. -/
def failingSource : DataSource :=
  { readAt := fun _ _ => (-1004, []) }

/-! ## `SniffMPEG2TS` -/

/-- Modelled from the spec: the constant `MEDIA_MIMETYPE_CONTAINER_MPEG2TS`,
whose definition lies outside the two files, is the MIME type
`video/mp2ts`. -/
def MEDIA_MIMETYPE_CONTAINER_MPEG2TS : String := "video/mp2ts"

/-- The literal `0.6f` that `SniffMPEG2TS` stores in `*confidence`, kept as
the decimal fraction it is written as. -/
def kSniffConfidence : ℚ := 6 / 10

/-- The loop of `SniffMPEG2TS`; the first argument is `5 - i`.  The result
is `false` when the loop returned `false` and `true` when it ran to its
end. -/
def sniffLoop (src : DataSource) : Nat → Nat → Bool
  | 0, _ => true
  | rem + 1, i =>
    if (src.readAt ((kTSPacketSize * i : Nat) : Int) 1).1 ≠ 1
        ∨ (src.readAt ((kTSPacketSize * i : Nat) : Int) 1).2.getD 0 0 % 256 ≠ 0x47 then false
    else sniffLoop src rem (i + 1)

/-- The function `SniffMPEG2TS`: the result with `*mimeType` and
`*confidence` afterwards, `mimeType` and `confidence` being what the two
held before the call. -/
def SniffMPEG2TS (src : DataSource) (mimeType : String) (confidence : ℚ) :
    Bool × String × ℚ :=
  if sniffLoop src 5 0 then (true, MEDIA_MIMETYPE_CONTAINER_MPEG2TS, kSniffConfidence)
  else (false, mimeType, confidence)

/-! ## `MPEG2TSExtractor::init` and `feedMore` -/

/-- The constant `MAX_NUM_TS_PACKETS_FOR_META_DATA`. -/
def MAX_NUM_TS_PACKETS_FOR_META_DATA : Nat := 10000

/-- The parser `ATSParser`, outside the two files, as far as `feedMore` and
`init` use it, over its state `σ`: `feedTSPacket` gives the status and the
next state; `getSourceVideo` tells whether `getSource(VIDEO)` is not `NULL`;
`getSourceAudio` is `none` when `getSource(AUDIO)` is `NULL` and otherwise
holds the `kKeyMIMEType` string of the source's format, if it has one. -/
structure ATSParser (σ : Type) where
  feedTSPacket : σ → List Nat → status_t × σ
  getSourceVideo : σ → Bool
  getSourceAudio : σ → Option (Option String)

/-- The fields of `MPEG2TSExtractor` that `feedMore` and `init` use.  An
entry of `mSourceList` records whether the source is the video source and
the extractor offset its constructor stored. -/
structure MPEG2TSExtractor (σ : Type) where
  mOffset : Int
  mTSBuffer : TSBuffer
  mParser : σ
  mSourceList : List (Bool × Int)

/-- The method `MPEG2TSExtractor::feedMore`. -/
def MPEG2TSExtractor.feedMore {σ : Type} (parser : ATSParser σ) (src : DataSource)
    (e : MPEG2TSExtractor σ) : Run (status_t × MPEG2TSExtractor σ) :=
  (e.mTSBuffer.getTSPacket src e.mOffset).bind fun r =>
    match r with
    | (status, none, b) => .ret (status, { e with mTSBuffer := b })
    | (status, some packet, b) =>
      if status ≠ status_t.OK then .ret (status, { e with mTSBuffer := b })
      else
        .ret ((parser.feedTSPacket e.mParser packet).1,
          { e with mTSBuffer := b, mOffset := e.mOffset + (kTSPacketSize : Int),
                   mParser := (parser.feedTSPacket e.mParser packet).2 })

/-- The local variables of the loop of `init` with the extractor, and the
number of `feedMore` calls that returned OK so far. -/
structure ProbeState (σ : Type) where
  haveAudio : Bool
  haveVideo : Bool
  numPacketsParsed : Nat
  feeds : Nat
  ext : MPEG2TSExtractor σ

/-- The test of `init` that drops an audio track: the MIME type starts with
`audio/mpeg`, whatever the case of its letters, and is longer than that. -/
def dropsAudio (mime : String) : Bool :=
  decide ((mime.take 10).toLower = "audio/mpeg") && decide (mime.length > 10)

/-- The body of the loop of `init` between the test of `haveAudio &&
haveVideo` and the count of the packet: the two lookups of a source. -/
def probeSources {σ : Type} (parser : ATSParser σ) (s : ProbeState σ) : Run (ProbeState σ) :=
  let s1 : ProbeState σ :=
    if !s.haveVideo ∧ parser.getSourceVideo s.ext.mParser then
      { s with haveVideo := true,
               ext := { s.ext with mSourceList := s.ext.mSourceList ++ [(true, s.ext.mOffset)] } }
    else s
  if s1.haveAudio then .ret s1
  else
    match parser.getSourceAudio s1.ext.mParser with
    | none => .ret s1
    | some none => .abort
    | some (some mime) =>
      if dropsAudio mime then .ret { s1 with haveAudio := true }
      else
        .ret { s1 with haveAudio := true,
                       ext := { s1.ext with
                         mSourceList := s1.ext.mSourceList ++ [(false, s1.ext.mOffset)] } }

/-- The loop `while (feedMore() == OK)` of `MPEG2TSExtractor::init`.  The
statements of `init` behind the loop neither call `feedMore` nor change
`mOffset`. -/
def initLoop {σ : Type} (parser : ATSParser σ) (src : DataSource) :
    Nat → ProbeState σ → Run (ProbeState σ)
  | 0, _ => .timeout
  | fuel + 1, s =>
    (s.ext.feedMore parser src).bind fun r =>
      if r.1 ≠ status_t.OK then .ret { s with ext := r.2 }
      else
        let s1 : ProbeState σ := { s with ext := r.2, feeds := s.feeds + 1 }
        if s1.haveAudio ∧ s1.haveVideo then .ret s1
        else
          (probeSources parser s1).bind fun s2 =>
            if s2.numPacketsParsed + 1 > MAX_NUM_TS_PACKETS_FOR_META_DATA then
              .ret { s2 with numPacketsParsed := s2.numPacketsParsed + 1 }
            else initLoop parser src fuel { s2 with numPacketsParsed := s2.numPacketsParsed + 1 }

/-- The state in which `init` enters its loop, for an extractor that has
just been constructed on a source of `clipSize` bytes. -/
def probeStart {σ : Type} (memory : List Nat) (clipSize : Int) (parser0 : σ) : ProbeState σ :=
  { haveAudio := false, haveVideo := false, numPacketsParsed := 0, feeds := 0,
    ext := { mOffset := 0,
             mTSBuffer := TSBuffer.new memory kTSCacheSize
               (if clipSize = 0 then (kTSCacheSize : Int) else clipSize),
             mParser := parser0, mSourceList := [] } }

/-- A parser that accepts every packet and never finds a track. -/
def idleParser : ATSParser Unit :=
  { feedTSPacket := fun _ _ => (status_t.OK, ())
    getSourceVideo := fun _ => false
    getSourceAudio := fun _ => none }

/-- A byte source without end in which every byte is 0x47; every read is
complete. -/
def syncByteSource : DataSource :=
  { readAt := fun _ size => ((size : Int), List.replicate size 0x47) }

/-! ## More tables of the examples -/

/-- A table of two samples with stts run `(2, 1000)` and ctts runs
`[(1, 2000), (1, 0)]`: sample 0 is shown at 2000, sample 1 at 1000. -/
def swappedTable : SampleTable :=
  { SampleTable.new with
    mNumSampleSizes := 2
    mTimeToSampleCount := 1
    mTimeToSample := some [2, 1000]
    mCompositionTimeDeltaEntries := some [1, 2000, 1, 0]
    mNumCompositionTimeDeltaEntries := 2
    mCompositionDeltaLookup := loadedLookup [(1, 2000), (1, 0)] }

/-! ## The walk of `findOffsetForPTS` -/

/-- The offsets of `m` packets read in a row from `f` on, each 188 bytes
before the one read last when `back` is set and 188 bytes after it
otherwise. -/
def seekWalk (f : Int) (back : Bool) (m : Nat) : List Int :=
  (List.range m).map fun i : Nat => if back then f - 188 * (i : Int) else f + 188 * (i : Int)

/-- The number of times the search loop can still move `fileOffset` in the
direction of `searchBack` before the test against the first or the last PTS
offset of the stream ends the loop. -/
def seekSteps (stream : StreamInfo) (s : SeekState) : Nat :=
  if s.searchBack then (s.fileOffset - stream.mFirstPTSOffset - 1).toNat / 188
  else (stream.mLastPTSOffset - s.fileOffset).toNat / 188

/-- The number of whole packets between the first and the last PTS offset of
the stream. -/
def seekSpan (stream : StreamInfo) : Nat :=
  (stream.mLastPTSOffset - stream.mFirstPTSOffset).toNat / 188

/-- The state of the search loop once a packet with a PTS lies behind it:
`prevOffset` is set, and `searchBack` is set exactly when `prevPTS` lies
above `seekPTS`. -/
def SeekSettled (seekPTS : Nat) (s : SeekState) : Prop :=
  s.prevOffset ≠ 0 ∧ s.prevPTS ≠ seekPTS ∧ s.searchBack = !decide (s.prevPTS < seekPTS)

/-! ## More inputs of the examples -/

/-- An stsd entry that consists of its header alone: an avc1 box of declared
size 8. -/
def avc1HeaderOnlyBox : List Nat := [0, 0, 0, 8, 97, 118, 99, 49]

/-- An stsd entry of declared size 50: an avc1 box whose 42 data bytes end
before the place of the avcC box. -/
def avc1ShortBox : List Nat := [0, 0, 0, 50, 97, 118, 99, 49] ++ List.replicate 42 0

/-- A clip of one packet, which carries PTS 90000. -/
def onePacketEnv : TSEnv :=
  { readAt := packetSource 188,
    parseTSToGetPTS := tableParser [(0, 90000)] }

/-- The source of the stream of `onePacketEnv` as the constructor leaves it
once the probe has consumed the packet: first PTS 90000, extractor offset
188, and nothing stored yet for the last PTS. -/
def onePacketSource : MPEG2TSSource :=
  { clipSource with mClipSize := 188 }

/-- A clip of 100 packets in which only the packets at 188 and at 1692
carry a PTS of the stream: 100 and 2000. -/
def sparseEnv : TSEnv :=
  { readAt := packetSource 18800,
    parseTSToGetPTS := tableParser [(188, 100), (1692, 2000)] }

/-- The stream info of `sparseEnv` for a source made when the extractor had
fed the packets at 0 and 188: the first PTS is 100, the first PTS offset is
the extractor's offset at that time, 376; `findStreamDuration` has found the
last PTS 2000 at offset 1692, and the duration is
`((2000 - 100) * 100) / 9`. -/
def sparseStream : StreamInfo :=
  { mStreamPID := 256, mProgramPID := 4096, mFirstPTS := 100, mLastPTS := 2000,
    mDurationUs := 21111, mFirstPTSOffset := 376, mLastPTSOffset := 1692, mIndex := 0,
    mOffset := 376 }

/-- The arguments `seekPrepare` passes to `findOffsetForPTS`, the only call
of that method: the seed offset `(seekTimeUs * mClipSize) / mDurationUs`
rounded down to a multiple of `kTSPacketSize`, and the PTS
`seekTimeUs * 9 / 100 + mFirstPTS` in `uint64_t`.  The divisions truncate;
`mDurationUs` is not 0 once `findStreamDuration` has returned OK. -/
def seekPrepareArgs (stream : StreamInfo) (clipSize seekTimeUs : Int) : Int × Nat :=
  (((seekTimeUs * clipSize).tdiv stream.mDurationUs).tdiv (kTSPacketSize : Int)
      * (kTSPacketSize : Int),
    (((seekTimeUs * 9).tdiv 100 + (stream.mFirstPTS : Int)) % 18446744073709551616).toNat)

/-- What holds of the state of the search loop of `findOffsetForPTS` when
the seed offset and both PTS offsets of the stream lie on the packet grid:
`fileOffset` is on the grid behind the first PTS offset and not behind the
last one, unless it is the probe `mFirstPTSOffset + 188` of the first clamp;
and `prevOffset` is either still the initial 0, with `prevPTS` 0 and the
walk going forward inside the range, or lies in the range. -/
def SeekGridInv (stream : StreamInfo) (s : SeekState) : Prop :=
  (188 : Int) ∣ s.fileOffset ∧ stream.mFirstPTSOffset < s.fileOffset ∧
  (s.fileOffset ≤ stream.mLastPTSOffset ∨ s.fileOffset = stream.mFirstPTSOffset + 188) ∧
  (s.prevOffset = 0 →
    s.searchBack = false ∧ s.prevPTS = 0 ∧ s.fileOffset ≤ stream.mLastPTSOffset) ∧
  (s.prevOffset ≠ 0 →
    stream.mFirstPTSOffset ≤ s.prevOffset ∧ s.prevOffset ≤ stream.mLastPTSOffset)

/-- A table of two samples whose stts runs `[(1, 100), (4294967295, 1),
(1, 0)]` count 2^32 + 1 samples, without ctts. -/
def swapWrapTable : SampleTable :=
  { SampleTable.new with
    mNumSampleSizes := 2
    mTimeToSampleCount := 3
    mTimeToSample := some [1, 100, 4294967295, 1, 1, 0] }

/-! ## Sequences of loader calls -/

/-- The loaders of `SampleTable`. -/
inductive Loader where
  | chunkOffset
  | sampleToChunk
  | sampleSize
  | timeToSample
  | compositionTimeToSample
  | syncSample
  | sampleDesc
deriving DecidableEq, Repr

/-- A call of one of the loaders of `SampleTable`, with its arguments. -/
inductive LoaderCall where
  | chunkOffset (type : Nat) (data_offset : Int) (data_size : Nat)
  | sampleToChunk (data_offset : Int) (data_size : Nat)
  | sampleSize (type : Nat) (data_offset : Int) (data_size : Nat)
  | timeToSample (data_offset : Int) (data_size : Nat)
  | compositionTimeToSample (data_offset : Int) (data_size : Nat)
  | syncSample (data_offset : Int) (data_size : Nat)
  | sampleDesc (count : Nat) (offset : Int) (size : Nat)
deriving DecidableEq, Repr

/-- The loader a call goes to. -/
def LoaderCall.loader : LoaderCall → Loader
  | .chunkOffset _ _ _ => Loader.chunkOffset
  | .sampleToChunk _ _ => Loader.sampleToChunk
  | .sampleSize _ _ _ => Loader.sampleSize
  | .timeToSample _ _ => Loader.timeToSample
  | .compositionTimeToSample _ _ => Loader.compositionTimeToSample
  | .syncSample _ _ => Loader.syncSample
  | .sampleDesc _ _ _ => Loader.sampleDesc

/-- The offset argument of a call. -/
def LoaderCall.dataOffset : LoaderCall → Int
  | .chunkOffset _ o _ => o
  | .sampleToChunk o _ => o
  | .sampleSize _ o _ => o
  | .timeToSample o _ => o
  | .compositionTimeToSample o _ => o
  | .syncSample o _ => o
  | .sampleDesc _ o _ => o

/-- The size argument of a call. -/
def LoaderCall.dataSize : LoaderCall → Nat
  | .chunkOffset _ _ n => n
  | .sampleToChunk _ n => n
  | .sampleSize _ _ n => n
  | .timeToSample _ n => n
  | .compositionTimeToSample _ n => n
  | .syncSample _ n => n
  | .sampleDesc _ _ n => n

/-- One loader call on a table: the status and the table afterwards. -/
def SampleTable.call (src : DataSource) (t : SampleTable) : LoaderCall →
    Run (status_t × SampleTable)
  | .chunkOffset type o n => t.setChunkOffsetParams src type o n
  | .sampleToChunk o n => t.setSampleToChunkParams src o n
  | .sampleSize type o n => t.setSampleSizeParams src type o n
  | .timeToSample o n => t.setTimeToSampleParams src o n
  | .compositionTimeToSample o n => t.setCompositionTimeToSampleParams src o n
  | .syncSample o n => t.setSyncSampleParams src o n
  | .sampleDesc count o n => t.setSampleDescParams src count o n

/-- A sequence of loader calls made one after the other on a table: the
statuses returned, in order, and the table afterwards. -/
def SampleTable.callAll (src : DataSource) : SampleTable → List LoaderCall →
    Run (List status_t × SampleTable)
  | t, [] => .ret ([], t)
  | t, c :: rest =>
    (t.call src c).bind fun r =>
      (SampleTable.callAll src r.2 rest).bind fun q => .ret (r.1 :: q.1, q.2)

/-- Some call of the sequence went to loader `l` with an offset that is not
negative. -/
def Called (calls : List LoaderCall) (l : Loader) : Prop :=
  ∃ c, c ∈ calls ∧ c.loader = l ∧ 0 ≤ c.dataOffset

/-- Some call of the sequence went to loader `l` with an offset that is not
negative, and returned OK. -/
def ReturnedOK (calls : List LoaderCall) (statuses : List status_t) (l : Loader) : Prop :=
  ∃ (i : Nat) (c : LoaderCall), calls[i]? = some c ∧ statuses[i]? = some status_t.OK ∧
    c.loader = l ∧ 0 ≤ c.dataOffset

/-- The checks of `setTimeToSampleParams` that precede the allocation of
`mTimeToSample`, apart from the test of `mTimeToSample` itself: the box has
at least 8 bytes, its header is read in full, and version and flags are 0. -/
def sttsHeaderAccepted (src : DataSource) (c : LoaderCall) : Prop :=
  c.loader = Loader.timeToSample ∧ 8 ≤ c.dataSize ∧ 8 ≤ (src.readAt c.dataOffset 8).1 ∧
    U32_AT (src.readAt c.dataOffset 8).2 0 = 0

/-- An stts box whose header announces one entry and whose entries are
missing. -/
def sttsHeaderOnlyBox : List Nat := [0, 0, 0, 0, 0, 0, 0, 1]

/-- Four loader calls that all fail: the first three are given a box size
of 0, and the stts box ends behind its header. -/
def failingCalls : List LoaderCall :=
  [LoaderCall.chunkOffset kChunkOffsetType32 0 0, LoaderCall.sampleToChunk 0 0,
    LoaderCall.sampleSize kSampleSizeType32 0 0, LoaderCall.timeToSample 0 8]

/-- What one loader call does to the four fields `isValid` reads: each
offset is non-negative afterwards exactly when it was before or this call
went to its loader with a non-negative offset, and `mTimeToSample` is set
afterwards exactly when it was before or this call passed the header checks
of `setTimeToSampleParams`. -/
def GuardEffect (src : DataSource) (c : LoaderCall) (t t' : SampleTable) : Prop :=
  (0 ≤ t'.mChunkOffsetOffset ↔
    0 ≤ t.mChunkOffsetOffset ∨ (c.loader = Loader.chunkOffset ∧ 0 ≤ c.dataOffset)) ∧
  (0 ≤ t'.mSampleToChunkOffset ↔
    0 ≤ t.mSampleToChunkOffset ∨ (c.loader = Loader.sampleToChunk ∧ 0 ≤ c.dataOffset)) ∧
  (0 ≤ t'.mSampleSizeOffset ↔
    0 ≤ t.mSampleSizeOffset ∨ (c.loader = Loader.sampleSize ∧ 0 ≤ c.dataOffset)) ∧
  (t'.mTimeToSample.isSome = true ↔
    t.mTimeToSample.isSome = true ∨ sttsHeaderAccepted src c)

/-- Four loader calls on boxes without entries, all at offset 0 of a source
of twelve zero bytes: each returns OK. -/
def emptyBoxCalls : List LoaderCall :=
  [LoaderCall.chunkOffset kChunkOffsetType32 0 8, LoaderCall.sampleToChunk 0 8,
    LoaderCall.sampleSize kSampleSizeType32 0 12, LoaderCall.timeToSample 0 8]

/-- The table `emptyBoxCalls` leave. -/
def emptyBoxTable : SampleTable :=
  { SampleTable.new with
    mChunkOffsetOffset := 0
    mChunkOffsetType := kChunkOffsetType32
    mSampleToChunkOffset := 0
    mSampleToChunkEntries := some []
    mSampleSizeOffset := 0
    mSampleSizeFieldSize := 32
    mTimeToSample := some [] }

end Stagefright

namespace Stagefright

/-! ## Basic facts -/

@[simp] theorem Run.bind_ret {α β : Type} (a : α) (f : α → Run β) :
    (Run.ret a).bind f = f a := rfl

@[simp] theorem Run.bind_abort {α β : Type} (f : α → Run β) :
    (Run.abort : Run α).bind f = Run.abort := rfl

@[simp] theorem Run.bind_ub {α β : Type} (f : α → Run β) :
    (Run.ub : Run α).bind f = Run.ub := rfl

@[simp] theorem Run.bind_timeout {α β : Type} (f : α → Run β) :
    (Run.timeout : Run α).bind f = Run.timeout := rfl

theorem arrayGet_of_getElem? {α : Type} {a : List α} {i : Nat} {x : α}
    (h : a[i]? = some x) : arrayGet a i = .ret x := by
  simp [arrayGet, h]

theorem arrayGet_eq_ret {α : Type} {a : List α} {i : Nat} {x : α}
    (h : arrayGet a i = .ret x) : a[i]? = some x := by
  unfold arrayGet at h
  split at h
  · rename_i y hy
    cases h
    exact hy
  · cases h

theorem flattenRuns_length (runs : List (Nat × Nat)) :
    (flattenRuns runs).length = 2 * runs.length := by
  induction runs with
  | nil => rfl
  | cons r rs ih => simp [flattenRuns, ih]; omega

theorem flattenRuns_count (runs : List (Nat × Nat)) (i : Nat) :
    (flattenRuns runs)[2 * i]? = runs[i]?.map Prod.fst := by
  induction runs generalizing i with
  | nil => simp [flattenRuns]
  | cons r rs ih =>
    cases i with
    | zero => simp [flattenRuns]
    | succ j =>
      have : 2 * (j + 1) = 2 * j + 1 + 1 := by omega
      simp [flattenRuns, this, ih]

theorem flattenRuns_value (runs : List (Nat × Nat)) (i : Nat) :
    (flattenRuns runs)[2 * i + 1]? = runs[i]?.map Prod.snd := by
  induction runs generalizing i with
  | nil => simp [flattenRuns]
  | cons r rs ih =>
    cases i with
    | zero => simp [flattenRuns]
    | succ j =>
      have : 2 * (j + 1) + 1 = 2 * j + 1 + 1 + 1 := by omega
      simp [flattenRuns, this, ih]

theorem drop_cons_getElem? {α : Type} {l : List α} {i : Nat} {x : α} {rest : List α}
    (h : l.drop i = x :: rest) : l[i]? = some x ∧ l.drop (i + 1) = rest := by
  constructor
  · have := congrArg (fun m => m[0]?) h
    simpa using this
  · have := congrArg (fun m => m.drop 1) h
    simpa [Nat.add_comm] using this

/-! ## The composition-offset lookup -/

theorem getCompositionTimeOffsetLoop_eq (runs : List (Nat × Nat)) (s : Nat) :
    ∀ (rest : List (Nat × Nat)) (cur start : Nat), runs.drop cur = rest →
      getCompositionTimeOffsetLoop (flattenRuns runs) s rest.length cur start
        = .ret (lookupRuns s rest cur start) := by
  intro rest
  induction rest with
  | nil => intro cur start _; rfl
  | cons r rs ih =>
    intro cur start h
    obtain ⟨h1, h2⟩ := drop_cons_getElem? h
    have hc : (flattenRuns runs)[2 * cur]? = some r.1 := by
      rw [flattenRuns_count, h1]; rfl
    have hv : (flattenRuns runs)[2 * cur + 1]? = some r.2 := by
      rw [flattenRuns_value, h1]; rfl
    simp only [List.length_cons, getCompositionTimeOffsetLoop, lookupRuns,
      arrayGet_of_getElem? hc, arrayGet_of_getElem? hv, Run.bind_ret]
    split
    · rfl
    · exact ih (cur + 1) _ h2

theorem runTotal_nil : runTotal [] = 0 := rfl

theorem runTotal_cons (r : Nat × Nat) (rs : List (Nat × Nat)) :
    runTotal (r :: rs) = r.1 + runTotal rs := by
  simp [runTotal]

theorem runTotal_append (a b : List (Nat × Nat)) :
    runTotal (a ++ b) = runTotal a + runTotal b := by
  simp [runTotal]

theorem runTotal_take_add_drop (runs : List (Nat × Nat)) (i : Nat) :
    runTotal (runs.take i) + runTotal (runs.drop i) = runTotal runs := by
  rw [← runTotal_append, List.take_append_drop]

theorem runTotal_take_add (runs : List (Nat × Nat)) (a j : Nat) :
    runTotal (runs.take (a + j))
      = runTotal (runs.take a) + runTotal ((runs.drop a).take j) := by
  rw [List.take_add, runTotal_append]

theorem runTotal_take_le (runs : List (Nat × Nat)) (i : Nat) :
    runTotal (runs.take i) ≤ runTotal runs := by
  have := runTotal_take_add_drop runs i
  omega

theorem runValue_drop (runs : List (Nat × Nat)) :
    ∀ (cur s : Nat), runTotal (runs.take cur) ≤ s →
      runValue runs s = runValue (runs.drop cur) (s - runTotal (runs.take cur)) := by
  induction runs with
  | nil => intro cur s _; simp [runValue]
  | cons r rs ih =>
    intro cur s h
    cases cur with
    | zero => simp [runTotal_nil]
    | succ j =>
      simp only [List.take_succ_cons, runTotal_cons] at h
      have hlt : ¬ s < r.1 := by omega
      simp only [runValue, hlt, if_false, List.drop_succ_cons, List.take_succ_cons, runTotal_cons]
      rw [ih j (s - r.1) (by omega)]
      congr 1
      omega

theorem lookupRuns_spec (s : Nat) :
    ∀ (rest : List (Nat × Nat)) (cur start : Nat), start ≤ s →
      start + runTotal rest < 4294967296 →
      (lookupRuns s rest cur start).1 = runValue rest (s - start) ∧
      ∃ j, j ≤ rest.length ∧ (lookupRuns s rest cur start).2.1 = cur + j ∧
        (lookupRuns s rest cur start).2.2 = start + runTotal (rest.take j) ∧
        (lookupRuns s rest cur start).2.2 ≤ s := by
  intro rest
  induction rest with
  | nil =>
    intro cur start hs _
    exact ⟨rfl, 0, by simp, rfl, by simp [lookupRuns, runTotal_nil], hs⟩
  | cons r rs ih =>
    intro cur start hs hov
    rw [runTotal_cons] at hov
    have hmod : (start + r.1) % 4294967296 = start + r.1 := Nat.mod_eq_of_lt (by omega)
    simp only [lookupRuns, hmod, runValue]
    by_cases hlt : s < start + r.1
    · have h2 : s - start < r.1 := by omega
      rw [if_pos hlt, if_pos h2]
      exact ⟨rfl, 0, by simp, rfl, by simp [runTotal_nil], hs⟩
    · have h2 : ¬ s - start < r.1 := by omega
      rw [if_neg hlt, if_neg h2]
      obtain ⟨hv, j, hj, hc, hst, hle⟩ := ih (cur + 1) (start + r.1) (by omega) (by omega)
      refine ⟨?_, j + 1, by simpa using hj, by omega, ?_, hle⟩
      · rw [hv]; congr 1; omega
      · rw [hst, List.take_succ_cons, runTotal_cons]; omega

theorem loadedLookup_inv (runs : List (Nat × Nat)) : LookupInv runs (loadedLookup runs) := by
  simp [LookupInv, loadedLookup, CompositionDeltaLookup.setEntries, runTotal_nil]

theorem getCompositionTimeOffset_spec (runs : List (Nat × Nat))
    (hov : runTotal runs < 4294967296) (c : CompositionDeltaLookup) (hc : LookupInv runs c)
    (s : Nat) :
    ∃ c', c.getCompositionTimeOffset s = .ret (runValue runs s, c') ∧ LookupInv runs c' := by
  obtain ⟨he, hn, hcur, hstart⟩ := hc
  cases c with
  | mk e n cu st =>
  simp only at he hn hcur hstart
  subst he hn
  -- the loop started at the beginning of run `cur`
  have key : ∀ cur, cur ≤ runs.length → runTotal (runs.take cur) ≤ s →
      ∃ c', (getCompositionTimeOffsetLoop (flattenRuns runs) s (runs.length - cur) cur
          (runTotal (runs.take cur))).bind
          (fun r => Run.ret (r.1, ({ mDeltaEntries := some (flattenRuns runs),
                                     mNumDeltaEntries := runs.length,
                                     mCurrentDeltaEntry := r.2.1,
                                     mCurrentEntrySampleIndex := r.2.2 } :
                                     CompositionDeltaLookup)))
          = .ret (runValue runs s, c') ∧ LookupInv runs c' := by
    intro cur hcur hle
    have hlen : runs.length - cur = (runs.drop cur).length := by simp
    rw [hlen, getCompositionTimeOffsetLoop_eq runs s _ cur _ rfl]
    have hsum := runTotal_take_add_drop runs cur
    obtain ⟨hv, j, hj, hc1, hs1, _⟩ :=
      lookupRuns_spec s (runs.drop cur) cur (runTotal (runs.take cur)) hle (by omega)
    refine ⟨{ mDeltaEntries := some (flattenRuns runs), mNumDeltaEntries := runs.length,
              mCurrentDeltaEntry := cur + j,
              mCurrentEntrySampleIndex := runTotal (runs.take (cur + j)) }, ?_, ?_⟩
    · simp only [Run.bind_ret]
      rw [hv, ← runValue_drop runs cur s hle, hc1, hs1, runTotal_take_add]
    · refine ⟨rfl, rfl, ?_, rfl⟩
      simp at hj
      simp only
      omega
  unfold CompositionDeltaLookup.getCompositionTimeOffset
  simp only
  by_cases hlt : s < st
  · simp only [hlt, if_true]
    have := key 0 (Nat.zero_le _) (by simp [runTotal_nil])
    simpa [runTotal_nil] using this
  · simp only [hlt, if_false]
    have := key cu hcur (by omega)
    rw [← hstart] at this
    exact this

theorem lookupAll_spec (runs : List (Nat × Nat)) (hov : runTotal runs < 4294967296) :
    ∀ (qs : List Nat) (c : CompositionDeltaLookup), LookupInv runs c →
      lookupAll c qs = .ret (qs.map (runValue runs)) := by
  intro qs
  induction qs with
  | nil => intro c _; rfl
  | cons s rest ih =>
    intro c hc
    obtain ⟨c', h1, h2⟩ := getCompositionTimeOffset_spec runs hov c hc s
    simp [lookupAll, h1, ih c' h2]

theorem lookupAll_new (qs : List Nat) :
    lookupAll CompositionDeltaLookup.new qs = .ret (qs.map fun _ => 0) := by
  induction qs with
  | nil => rfl
  | cons s rest ih =>
    simp only [lookupAll, List.map_cons]
    have : CompositionDeltaLookup.new.getCompositionTimeOffset s
        = .ret (0, CompositionDeltaLookup.new) := rfl
    rw [this]
    simp [ih]

theorem runValue_of_run (runs : List (Nat × Nat)) :
    ∀ (r s c o : Nat), runs[r]? = some (c, o) → runTotal (runs.take r) ≤ s →
      s < runTotal (runs.take r) + c → runValue runs s = o := by
  intro r s c o hr hle hlt
  rw [runValue_drop runs r s hle]
  have hr' : r < runs.length := by
    by_contra hcon
    rw [List.getElem?_eq_none (by omega)] at hr
    cases hr
  have hd : runs.drop r = (c, o) :: runs.drop (r + 1) := by
    rw [List.drop_eq_getElem_cons hr']
    congr 1
    rw [List.getElem?_eq_getElem hr'] at hr
    exact Option.some.inj hr
  rw [hd]
  have : s - runTotal (runs.take r) < c := by omega
  simp [runValue, this]

theorem runValue_past (runs : List (Nat × Nat)) :
    ∀ s, runTotal runs ≤ s → runValue runs s = 0 := by
  induction runs with
  | nil => intro s _; rfl
  | cons r rs ih =>
    intro s h
    rw [runTotal_cons] at h
    have hlt : ¬ s < r.1 := by omega
    simp only [runValue, hlt, if_false]
    exact ih _ (by omega)

/-- C4: on a loaded ctts run table whose counts sum to less than 2^32 (so the
32-bit accumulator never wraps), every call in any finite sequence of
`getCompositionTimeOffset` calls returns the offset of the run that holds the
queried sample, and 0 for a sample past the last run, whatever was queried
before; on a lookup without a table every call returns 0. -/
theorem getCompositionTimeOffset_cursor_is_cache (runs : List (Nat × Nat))
    (hov : runTotal runs < 4294967296) (qs : List Nat) :
    (∃ outs, lookupAll (loadedLookup runs) qs = .ret outs ∧ outs.length = qs.length ∧
      ∀ (i s : Nat), qs[i]? = some s →
        (∀ (r c o : Nat), runs[r]? = some (c, o) → runTotal (runs.take r) ≤ s →
            s < runTotal (runs.take r) + c → outs[i]? = some o) ∧
        (runTotal runs ≤ s → outs[i]? = some 0)) ∧
    lookupAll CompositionDeltaLookup.new qs = .ret (List.replicate qs.length 0) := by
  constructor
  · refine ⟨qs.map (runValue runs), lookupAll_spec runs hov qs _ (loadedLookup_inv runs),
      by simp, ?_⟩
    intro i s hi
    constructor
    · intro r c o hr hle hlt
      simp [hi, runValue_of_run runs r s c o hr hle hlt]
    · intro hle
      simp [hi, runValue_past runs s hle]
  · rw [lookupAll_new]
    congr 1
    induction qs with
    | nil => rfl
    | cons s rest ih => simp [List.replicate_succ, ih]

theorem getCompositionTimeOffset_cursor_is_cache_witness :
    runTotal [(2, 10), (3, 20)] < 4294967296 ∧
    ((∃ outs, lookupAll (loadedLookup [(2, 10), (3, 20)]) [4, 0, 7, 2] = .ret outs ∧
      outs.length = [4, 0, 7, 2].length ∧
      ∀ (i s : Nat), [4, 0, 7, 2][i]? = some s →
        (∀ (r c o : Nat), [(2, 10), (3, 20)][r]? = some (c, o) →
            runTotal ([(2, 10), (3, 20)].take r) ≤ s →
            s < runTotal ([(2, 10), (3, 20)].take r) + c → outs[i]? = some o) ∧
        (runTotal [(2, 10), (3, 20)] ≤ s → outs[i]? = some 0)) ∧
    lookupAll CompositionDeltaLookup.new [4, 0, 7, 2]
      = .ret (List.replicate [4, 0, 7, 2].length 0)) :=
  ⟨by decide, getCompositionTimeOffset_cursor_is_cache [(2, 10), (3, 20)] (by decide) [4, 0, 7, 2]⟩

/-! ## The loops of `buildSampleEntriesTable` -/

theorem LookupServes_step (off : Nat → Nat) (c : CompositionDeltaLookup)
    (h : LookupServes off c) (s : Nat) :
    ∃ c', c.getCompositionTimeOffset s = .ret (off s, c') ∧ LookupServes off c' := by
  rcases h with ⟨hn, ho⟩ | ⟨runs, hov, hinv, ho⟩
  · refine ⟨c, ?_, Or.inl ⟨hn, ho⟩⟩
    simp [CompositionDeltaLookup.getCompositionTimeOffset, hn, ho]
  · obtain ⟨c', h1, h2⟩ := getCompositionTimeOffset_spec runs hov c hinv s
    exact ⟨c', by rw [h1, ho], Or.inr ⟨runs, hov, h2, ho⟩⟩

theorem LookupWF_step (c : CompositionDeltaLookup) (h : LookupWF c) (s : Nat) :
    ∃ v c', c.getCompositionTimeOffset s = .ret (v, c') ∧ LookupWF c' := by
  rcases h with hn | ⟨runs, he, hn⟩
  · exact ⟨0, c, by simp [CompositionDeltaLookup.getCompositionTimeOffset, hn], Or.inl hn⟩
  · unfold CompositionDeltaLookup.getCompositionTimeOffset
    simp only [he, hn]
    generalize hcur : (if s < c.mCurrentEntrySampleIndex then 0 else c.mCurrentDeltaEntry) = cur
    generalize (if s < c.mCurrentEntrySampleIndex then 0 else c.mCurrentEntrySampleIndex) = start
    have hlen : runs.length - cur = (runs.drop cur).length := by simp
    rw [hlen, getCompositionTimeOffsetLoop_eq runs s _ cur _ rfl]
    exact ⟨_, _, rfl, Or.inr ⟨runs, rfl, rfl⟩⟩

theorem buildOuter_eq (runs : List (Nat × Nat)) (N : Nat) :
    ∀ (rest : List (Nat × Nat)) (i : Nat) (s : BuildState), runs.drop i = rest →
      buildOuter (flattenRuns runs) N rest.length i s = buildRuns N rest s := by
  intro rest
  induction rest with
  | nil => intro i s _; rfl
  | cons r rs ih =>
    intro i s h
    obtain ⟨h1, h2⟩ := drop_cons_getElem? h
    have hc : (flattenRuns runs)[2 * i]? = some r.1 := by
      rw [flattenRuns_count, h1]; rfl
    have hv : (flattenRuns runs)[2 * i + 1]? = some r.2 := by
      rw [flattenRuns_value, h1]; rfl
    simp only [List.length_cons, buildOuter, buildRuns,
      arrayGet_of_getElem? hc, arrayGet_of_getElem? hv, Run.bind_ret]
    congr 1
    funext s1
    exact ih (i + 1) s1 h2

theorem buildInner_exact (off : Nat → Nat) (N delta : Nat) :
    ∀ (n : Nat) (s : BuildState) (m T : Nat), LookupServes off s.lookup →
      s.entries.length = N → s.sampleIndex = m % 4294967296 →
      s.sampleTime = T % 18446744073709551616 → m + n ≤ 4294967296 →
      ∃ s', buildInner N delta n s = .ret s' ∧ LookupServes off s'.lookup ∧
        s'.entries.length = N ∧ s'.sampleIndex = (m + n) % 4294967296 ∧
        s'.sampleTime = (T + n * delta) % 18446744073709551616 ∧
        ∀ k, s'.entries[k]? =
          if m ≤ k ∧ k < m + n ∧ k < N then
            some ⟨k, (T + (k - m) * delta + sext32 (off k)) % 18446744073709551616⟩
          else s.entries[k]? := by
  intro n
  induction n with
  | zero =>
    intro s m T hl hlen hi ht _
    refine ⟨s, rfl, hl, hlen, by simpa using hi, by simpa using ht, ?_⟩
    intro k
    have : ¬ (m ≤ k ∧ k < m + 0 ∧ k < N) := by omega
    rw [if_neg this]
  | succ n ih =>
    intro s m T hl hlen hi ht hmn
    have hm : m % 4294967296 = m := Nat.mod_eq_of_lt (by omega)
    rw [hm] at hi
    by_cases hlt : m < N
    · obtain ⟨c', hq, hc'⟩ := LookupServes_step off s.lookup hl m
      have hset : m < s.entries.length := by omega
      obtain ⟨s', h1, h2, h3, h4, h5, h6⟩ := ih
        { entries := s.entries.set m ⟨m, (s.sampleTime + sext32 (off m)) % 18446744073709551616⟩,
          lookup := c', sampleIndex := (m + 1) % 4294967296,
          sampleTime := (s.sampleTime + delta) % 18446744073709551616 }
        (m + 1) (T + delta) hc' (by simpa using hlen) rfl (by simp only [ht]; omega) (by omega)
      refine ⟨s', ?_, h2, h3, ?_, ?_, ?_⟩
      · simp only [buildInner, hi, hlt, if_true, hq, Run.bind_ret, arraySet, hset]
        exact h1
      · rw [h4]; congr 1; omega
      · rw [h5]; congr 1; rw [Nat.add_mul]; omega
      · intro k
        rw [h6 k]
        by_cases hk : m + 1 ≤ k ∧ k < m + 1 + n ∧ k < N
        · have hk' : m ≤ k ∧ k < m + (n + 1) ∧ k < N := by omega
          rw [if_pos hk, if_pos hk']
          have e : k - m = (k - (m + 1)) + 1 := by omega
          rw [e, Nat.add_mul]
          congr 3
          omega
        · rw [if_neg hk]
          by_cases hkm : k = m
          · subst hkm
            have hk' : k ≤ k ∧ k < k + (n + 1) ∧ k < N := by omega
            rw [if_pos hk']
            simp only [List.getElem?_set_self hset, Nat.sub_self, Nat.zero_mul, Nat.add_zero, ht]
            congr 2
            omega
          · have hk' : ¬ (m ≤ k ∧ k < m + (n + 1) ∧ k < N) := by omega
            rw [if_neg hk']
            simp only
            rw [List.getElem?_set_ne (Ne.symm hkm)]
    · obtain ⟨s', h1, h2, h3, h4, h5, h6⟩ := ih
        { s with sampleIndex := (m + 1) % 4294967296,
                 sampleTime := (s.sampleTime + delta) % 18446744073709551616 }
        (m + 1) (T + delta) hl hlen rfl (by simp only [ht]; omega) (by omega)
      refine ⟨s', ?_, h2, h3, ?_, ?_, ?_⟩
      · simp only [buildInner, hi, hlt, if_false, Run.bind_ret]
        exact h1
      · rw [h4]; congr 1; omega
      · rw [h5]; congr 1; rw [Nat.add_mul]; omega
      · intro k
        rw [h6 k]
        have hk : ¬ (m + 1 ≤ k ∧ k < m + 1 + n ∧ k < N) := by omega
        have hk' : ¬ (m ≤ k ∧ k < m + (n + 1) ∧ k < N) := by omega
        rw [if_neg hk, if_neg hk']

theorem decodeTime_cons (r : Nat × Nat) (rs : List (Nat × Nat)) (i : Nat) :
    decodeTime (r :: rs) i
      = if i ≤ r.1 then i * r.2 else r.1 * r.2 + decodeTime rs (i - r.1) := by
  unfold decodeTime
  simp only [sampleDeltas, List.take_append_eq_append_take, List.take_replicate,
    List.sum_append, List.sum_replicate, List.length_replicate, smul_eq_mul]
  by_cases h : i ≤ r.1
  · have h0 : i - r.1 = 0 := by omega
    simp [h, h0, Nat.min_eq_left h]
  · have h1 : min i r.1 = r.1 := by omega
    simp [h, h1]

theorem decodeTime_nil (i : Nat) : decodeTime [] i = 0 := by
  simp [decodeTime, sampleDeltas]

theorem decodeTime_zero (stts : List (Nat × Nat)) : decodeTime stts 0 = 0 := by
  simp [decodeTime]

theorem buildRuns_exact (off : Nat → Nat) (N : Nat) :
    ∀ (rest : List (Nat × Nat)) (s : BuildState) (m T : Nat), LookupServes off s.lookup →
      s.entries.length = N → s.sampleIndex = m % 4294967296 →
      s.sampleTime = T % 18446744073709551616 → m + runTotal rest ≤ 4294967296 →
      ∃ s', buildRuns N rest s = .ret s' ∧ LookupServes off s'.lookup ∧
        s'.entries.length = N ∧
        ∀ k, s'.entries[k]? =
          if m ≤ k ∧ k < m + runTotal rest ∧ k < N then
            some ⟨k, (T + decodeTime rest (k - m) + sext32 (off k)) % 18446744073709551616⟩
          else s.entries[k]? := by
  intro rest
  induction rest with
  | nil =>
    intro s m T hl hlen _ _ _
    refine ⟨s, rfl, hl, hlen, ?_⟩
    intro k
    have : ¬ (m ≤ k ∧ k < m + runTotal [] ∧ k < N) := by
      rw [runTotal_nil]; omega
    rw [if_neg this]
  | cons r rs ih =>
    intro s m T hl hlen hi ht hmn
    rw [runTotal_cons] at hmn
    obtain ⟨s1, h1, h2, h3, h4, h5, h6⟩ :=
      buildInner_exact off N r.2 r.1 s m T hl hlen hi ht (by omega)
    obtain ⟨s2, g1, g2, g3, g4⟩ :=
      ih s1 (m + r.1) (T + r.1 * r.2) h2 h3 h4 h5 (by omega)
    refine ⟨s2, ?_, g2, g3, ?_⟩
    · simp only [buildRuns, h1, Run.bind_ret]
      exact g1
    · intro k
      rw [g4 k, h6 k, runTotal_cons]
      by_cases hk : m + r.1 ≤ k ∧ k < m + r.1 + runTotal rs ∧ k < N
      · have hk' : m ≤ k ∧ k < m + (r.1 + runTotal rs) ∧ k < N := by omega
        rw [if_pos hk, if_pos hk', decodeTime_cons]
        by_cases hle : k - m ≤ r.1
        · have e1 : k - m = r.1 := by omega
          have e2 : k - (m + r.1) = 0 := by omega
          rw [if_pos hle, e1, e2, decodeTime_zero]
          rfl
        · rw [if_neg hle]
          have e2 : k - (m + r.1) = k - m - r.1 := by omega
          rw [e2]
          simp only [Nat.add_assoc]
      · rw [if_neg hk]
        by_cases hk1 : m ≤ k ∧ k < m + r.1 ∧ k < N
        · have hk' : m ≤ k ∧ k < m + (r.1 + runTotal rs) ∧ k < N := by omega
          have hle : k - m ≤ r.1 := by omega
          rw [if_pos hk1, if_pos hk', decodeTime_cons, if_pos hle]
        · have hk' : ¬ (m ≤ k ∧ k < m + (r.1 + runTotal rs) ∧ k < N) := by omega
          rw [if_neg hk1, if_neg hk']

/-- The table the two loops leave when the sample counter does not wrap:
slot `k` holds sample `k` with its composition time as long as the stts runs
reach `k`; the other slots keep what the memory held. -/
theorem fillSampleEntries_exact (garbage : Nat → SampleTimeEntry) (t : SampleTable)
    (stts : List (Nat × Nat)) (off : Nat → Nat)
    (hstts : t.mTimeToSample = some (flattenRuns stts))
    (hcount : t.mTimeToSampleCount = stts.length)
    (hl : LookupServes off t.mCompositionDeltaLookup)
    (hwrap : runTotal stts ≤ 4294967296) :
    ∃ s, t.fillSampleEntries garbage = .ret s ∧ LookupServes off s.lookup ∧
      s.entries = (List.range t.mNumSampleSizes).map fun k =>
        if k < runTotal stts then ⟨k, compositionTime stts off k⟩ else garbage k := by
  unfold SampleTable.fillSampleEntries
  rw [hstts, hcount, Option.getD_some,
    buildOuter_eq stts t.mNumSampleSizes stts 0 _ (by simp)]
  obtain ⟨s', h1, h2, h3, h4⟩ := buildRuns_exact off t.mNumSampleSizes stts
    { entries := newSampleTimeEntries garbage t.mNumSampleSizes,
      lookup := t.mCompositionDeltaLookup, sampleIndex := 0, sampleTime := 0 }
    0 0 hl (by simp [newSampleTimeEntries]) rfl rfl (by omega)
  refine ⟨s', h1, h2, ?_⟩
  apply List.ext_getElem?
  intro k
  rw [h4 k]
  by_cases hk : k < t.mNumSampleSizes
  · by_cases hk2 : k < runTotal stts
    · have hc : 0 ≤ k ∧ k < 0 + runTotal stts ∧ k < t.mNumSampleSizes := by omega
      rw [if_pos hc]
      simp [List.getElem?_range hk, hk2, compositionTime]
    · have hc : ¬ (0 ≤ k ∧ k < 0 + runTotal stts ∧ k < t.mNumSampleSizes) := by omega
      rw [if_neg hc]
      simp [newSampleTimeEntries, List.getElem?_range hk, hk2]
  · have hc : ¬ (0 ≤ k ∧ k < 0 + runTotal stts ∧ k < t.mNumSampleSizes) := by omega
    rw [if_neg hc]
    have hlen : t.mNumSampleSizes ≤ k := by omega
    simp [newSampleTimeEntries, List.getElem?_eq_none, hlen]

theorem CompareIncreasingTime_le (a b : SampleTimeEntry) :
    CompareIncreasingTime a b ≤ 0 ↔ a.mCompositionTime ≤ b.mCompositionTime := by
  unfold CompareIncreasingTime
  split
  · simp; omega
  · split
    · simp; omega
    · simp; omega

theorem insertionQsort_contract : QsortContract insertionQsort := by
  constructor
  · intro l
    exact List.perm_insertionSort _ l
  · intro l
    haveI : IsTotal SampleTimeEntry (fun a b => a.mCompositionTime ≤ b.mCompositionTime) :=
      ⟨fun a b => Nat.le_total _ _⟩
    haveI : IsTrans SampleTimeEntry (fun a b => a.mCompositionTime ≤ b.mCompositionTime) :=
      ⟨fun _ _ _ h1 h2 => Nat.le_trans h1 h2⟩
    have h := List.sorted_insertionSort
      (fun a b : SampleTimeEntry => a.mCompositionTime ≤ b.mCompositionTime) l
    exact List.Pairwise.imp (fun {a b} hab => (CompareIncreasingTime_le a b).2 hab) h

/-- What `buildSampleEntriesTable` stores when the stts runs cover all
samples and neither the sample counter nor the ctts accumulator wraps: a
rearrangement of the pairs `(i, compositionTime i)`, in non-decreasing order
of composition time. -/
theorem buildSampleEntriesTable_of_no_wrap
    (qsort : List SampleTimeEntry → List SampleTimeEntry) (hq : QsortContract qsort)
    (garbage : Nat → SampleTimeEntry) (t : SampleTable)
    (stts : List (Nat × Nat)) (off : Nat → Nat)
    (hnone : t.mSampleTimeEntries = none)
    (hstts : t.mTimeToSample = some (flattenRuns stts))
    (hcount : t.mTimeToSampleCount = stts.length)
    (hl : LookupServes off t.mCompositionDeltaLookup)
    (hcover : t.countSamples ≤ runTotal stts)
    (hwrap : runTotal stts ≤ 4294967296) :
    ∃ t' es, t.buildSampleEntriesTable qsort garbage = .ret t' ∧
      t'.mSampleTimeEntries = some es ∧ t'.mNumSampleSizes = t.mNumSampleSizes ∧
      es.Perm ((List.range t.countSamples).map fun i => ⟨i, compositionTime stts off i⟩) ∧
      es.Pairwise (fun a b => a.mCompositionTime ≤ b.mCompositionTime) := by
  obtain ⟨s, h1, _, h3⟩ := fillSampleEntries_exact garbage t stts off hstts hcount hl hwrap
  have hes : s.entries
      = (List.range t.countSamples).map fun i => ⟨i, compositionTime stts off i⟩ := by
    rw [h3]
    apply List.map_congr_left
    intro k hk
    have : k < runTotal stts := by
      have := List.mem_range.1 hk
      unfold SampleTable.countSamples at hcover
      omega
    simp [this]
  refine ⟨{ t with mSampleTimeEntries := some (qsort s.entries),
                   mCompositionDeltaLookup := s.lookup }, qsort s.entries, ?_, rfl, rfl, ?_, ?_⟩
  · simp [SampleTable.buildSampleEntriesTable, hnone, h1]
  · rw [← hes]
    exact hq.perm _
  · exact List.Pairwise.imp (fun {a b} hab => (CompareIncreasingTime_le a b).1 hab)
      (hq.sorted _)

theorem buildInner_skip (N delta n : Nat) (s : BuildState) (h : ¬ s.sampleIndex < N) :
    buildInner N delta (n + 1) s
      = buildInner N delta n
          { s with sampleIndex := (s.sampleIndex + 1) % 4294967296,
                   sampleTime := (s.sampleTime + delta) % 18446744073709551616 } := by
  simp [buildInner, h]

/-- C1, at the failing input: one sample, stts runs `[(4294967295, 1), (2, 1)]`.
The 32-bit sample counter wraps to 0 inside the second run, so the last stts
sample is written over slot 0: the table holds `(0, 4294967296)`, while the
composition time of sample 0 is 0. -/
theorem buildSampleEntriesTable_sample_counter_wraps (garbage : Nat → SampleTimeEntry) :
    (∃ t', wrapTable.buildSampleEntriesTable insertionQsort garbage = .ret t' ∧
      t'.mSampleTimeEntries = some [⟨0, 4294967296⟩]) ∧
    wrapTable.countSamples = 1 ∧
    wrapTable.countSamples ≤ runTotal [(4294967295, 1), (2, 1)] ∧
    compositionTime [(4294967295, 1), (2, 1)] (fun _ => 0) 0 = 0 := by
  refine ⟨?_, rfl, by decide, by simp [compositionTime, decodeTime, sext32]⟩
  have hl0 : LookupServes (fun _ => 0) CompositionDeltaLookup.new := Or.inl ⟨rfl, rfl⟩
  -- the first run: 4294967295 samples from index 0
  obtain ⟨s1, h1, h2, h3, h4, h5, _⟩ := buildInner_exact (fun _ => 0) 1 1 4294967295
    { entries := newSampleTimeEntries garbage 1, lookup := CompositionDeltaLookup.new,
      sampleIndex := 0, sampleTime := 0 } 0 0 hl0 (by simp [newSampleTimeEntries]) rfl rfl
    (by omega)
  -- the second run: index 4294967295 is skipped, then the counter is 0 again
  have hskip : ¬ s1.sampleIndex < 1 := by rw [h4]; omega
  obtain ⟨s2, g1, _, g3, _, _, g6⟩ := buildInner_exact (fun _ => 0) 1 1 1
    { s1 with sampleIndex := (s1.sampleIndex + 1) % 4294967296,
              sampleTime := (s1.sampleTime + 1) % 18446744073709551616 }
    0 4294967296 h2 h3 (by simp only [h4]) (by simp only [h5]) (by omega)
  have hfill : wrapTable.fillSampleEntries garbage = .ret s2 := by
    have e : (some [4294967295, 1, 2, 1] : Option (List Nat)).getD []
        = flattenRuns [(4294967295, 1), (2, 1)] := rfl
    unfold SampleTable.fillSampleEntries
    simp only [wrapTable, SampleTable.new]
    rw [e]
    refine (buildOuter_eq [(4294967295, 1), (2, 1)] 1 [(4294967295, 1), (2, 1)] 0 _ rfl).trans ?_
    simp only [buildRuns, h1, Run.bind_ret]
    rw [buildInner_skip 1 1 1 s1 hskip, g1]
    rfl
  have hent : s2.entries = [⟨0, 4294967296⟩] := by
    apply List.ext_getElem?
    intro k
    rw [g6 k]
    by_cases hk : k = 0
    · subst hk
      simp [sext32]
    · have hc : ¬ (0 ≤ k ∧ k < 0 + 1 ∧ k < 1) := by omega
      rw [if_neg hc]
      have hlen : s1.entries.length ≤ k := by omega
      have hk1 : [({ mSampleIndex := 0, mCompositionTime := 4294967296 } : SampleTimeEntry)][k]?
          = none := by
        apply List.getElem?_eq_none
        simp
        omega
      simp only
      rw [List.getElem?_eq_none hlen, hk1]
  refine ⟨{ wrapTable with mSampleTimeEntries := some (insertionQsort s2.entries),
                           mCompositionDeltaLookup := s2.lookup }, ?_, ?_⟩
  · simp only [SampleTable.buildSampleEntriesTable]
    have hn : wrapTable.mSampleTimeEntries = none := rfl
    simp only [hn, hfill, Run.bind_ret]
  · simp [hent, insertionQsort]

theorem buildInner_inv (N delta : Nat) (hN : N ≤ 4294967296) :
    ∀ (n : Nat) (s : BuildState) (M : Nat), BuildInv N s M →
      ∃ s', buildInner N delta n s = .ret s' ∧ BuildInv N s' (M + n) := by
  intro n
  induction n with
  | zero => intro s M h; exact ⟨s, rfl, h⟩
  | succ n ih =>
    intro s M ⟨hlen, hwf, hi, hk⟩
    by_cases hlt : s.sampleIndex < N
    · obtain ⟨v, c', hq, hc'⟩ := LookupWF_step s.lookup hwf s.sampleIndex
      have hset : s.sampleIndex < s.entries.length := by omega
      have hinv : BuildInv N
          { entries := s.entries.set s.sampleIndex
              ⟨s.sampleIndex, (s.sampleTime + sext32 v) % 18446744073709551616⟩,
            lookup := c', sampleIndex := (s.sampleIndex + 1) % 4294967296,
            sampleTime := (s.sampleTime + delta) % 18446744073709551616 } (M + 1) := by
        refine ⟨by simpa using hlen, hc', by simp only [hi]; omega, ?_⟩
        intro k hkN hkM
        by_cases hks : k = s.sampleIndex
        · refine ⟨(s.sampleTime + sext32 v) % 18446744073709551616, ?_⟩
          simp only [hks, List.getElem?_set_self hset]
        · have hkM' : k < M := by omega
          obtain ⟨ct, hct⟩ := hk k hkN hkM'
          refine ⟨ct, ?_⟩
          simp only
          rw [List.getElem?_set_ne (Ne.symm hks), hct]
      obtain ⟨s', h1, h2⟩ := ih _ (M + 1) hinv
      refine ⟨s', ?_, by rwa [Nat.add_assoc, Nat.add_comm 1 n] at h2⟩
      simp only [buildInner, hlt, if_true, hq, Run.bind_ret, arraySet, hset]
      exact h1
    · have hinv : BuildInv N
          { s with sampleIndex := (s.sampleIndex + 1) % 4294967296,
                   sampleTime := (s.sampleTime + delta) % 18446744073709551616 } (M + 1) := by
        refine ⟨hlen, hwf, by simp only [hi]; omega, ?_⟩
        intro k hkN hkM
        exact hk k hkN (by omega)
      obtain ⟨s', h1, h2⟩ := ih _ (M + 1) hinv
      refine ⟨s', ?_, by rwa [Nat.add_assoc, Nat.add_comm 1 n] at h2⟩
      rw [buildInner_skip N delta n s hlt]
      exact h1

theorem buildRuns_inv (N : Nat) (hN : N ≤ 4294967296) :
    ∀ (rest : List (Nat × Nat)) (s : BuildState) (M : Nat), BuildInv N s M →
      ∃ s', buildRuns N rest s = .ret s' ∧ BuildInv N s' (M + runTotal rest) := by
  intro rest
  induction rest with
  | nil => intro s M h; exact ⟨s, rfl, by simpa [runTotal_nil] using h⟩
  | cons r rs ih =>
    intro s M h
    obtain ⟨s1, h1, h2⟩ := buildInner_inv N r.2 hN r.1 s M h
    obtain ⟨s2, g1, g2⟩ := ih s1 (M + r.1) h2
    refine ⟨s2, ?_, by rwa [runTotal_cons, ← Nat.add_assoc]⟩
    simp only [buildRuns, h1, Run.bind_ret]
    exact g1

/-- The two loops of `buildSampleEntriesTable` return on every well-formed
table, and when the stts runs cover all samples each slot holds its own
sample index afterwards. -/
theorem fillSampleEntries_indices (garbage : Nat → SampleTimeEntry) (t : SampleTable)
    (stts : List (Nat × Nat))
    (hstts : t.mTimeToSample = some (flattenRuns stts))
    (hcount : t.mTimeToSampleCount = stts.length)
    (hl : LookupWF t.mCompositionDeltaLookup)
    (hN : t.mNumSampleSizes < 4294967296)
    (hcover : t.mNumSampleSizes ≤ runTotal stts) :
    ∃ s, t.fillSampleEntries garbage = .ret s ∧ s.entries.length = t.mNumSampleSizes ∧
      ∀ k, k < t.mNumSampleSizes → ∃ ct, s.entries[k]? = some ⟨k, ct⟩ := by
  unfold SampleTable.fillSampleEntries
  rw [hstts, hcount, Option.getD_some,
    buildOuter_eq stts t.mNumSampleSizes stts 0 _ (by simp)]
  obtain ⟨s', h1, h2, _, _, h5⟩ := buildRuns_inv t.mNumSampleSizes (by omega) stts
    { entries := newSampleTimeEntries garbage t.mNumSampleSizes,
      lookup := t.mCompositionDeltaLookup, sampleIndex := 0, sampleTime := 0 } 0
    ⟨by simp [newSampleTimeEntries], hl, rfl, fun k _ hk => absurd hk (by omega)⟩
  exact ⟨s', h1, h2, fun k hk => h5 k hk (by omega)⟩

/-! ## The search of `findSampleAtTime` -/

theorem sortedByTime_of_pairwise (es : List SampleTimeEntry)
    (h : es.Pairwise (fun a b => a.mCompositionTime ≤ b.mCompositionTime)) :
    SortedByTime es := by
  intro i j a b hij ha hb
  rcases Nat.lt_or_eq_of_le hij with hlt | heq
  · have hi : i < es.length := by
      by_contra hc
      rw [List.getElem?_eq_none (by omega)] at ha
      cases ha
    have hj : j < es.length := by
      by_contra hc
      rw [List.getElem?_eq_none (by omega)] at hb
      cases hb
    rw [List.getElem?_eq_getElem hi] at ha
    rw [List.getElem?_eq_getElem hj] at hb
    cases ha; cases hb
    exact (List.pairwise_iff_getElem.1 h) i j hi hj hlt
  · subst heq
    rw [ha] at hb
    cases hb
    exact Nat.le_refl _

theorem getElem?_lt_length {α : Type} {l : List α} {i : Nat} {x : α}
    (h : l[i]? = some x) : i < l.length := by
  by_contra hc
  rw [List.getElem?_eq_none (by omega)] at h
  cases h

theorem findSampleSearch_spec (es : List SampleTimeEntry) (req N : Nat)
    (hs : SortedByTime es) (hlen : es.length = N) (hN : N < 4294967296) :
    ∀ (fuel left right L : Nat), left ≤ right → right ≤ N →
      AllBelow es req left → AllAbove es req right →
      findSampleSearch es req fuel left right = .ret L →
      L ≤ N ∧ ((∃ e, es[L]? = some e ∧ e.mCompositionTime = req) ∨
        (AllBelow es req L ∧ AllAbove es req L)) := by
  intro fuel
  induction fuel with
  | zero =>
    intro left right L hlr hrN hA hB h
    simp only [findSampleSearch] at h
    split at h
    · cases h
    · cases h
      have : left = right := by omega
      subst this
      exact ⟨hrN, Or.inr ⟨hA, hB⟩⟩
  | succ fuel ih =>
    intro left right L hlr hrN hA hB h
    simp only [findSampleSearch] at h
    split at h
    · rename_i hlt
      cases hget : arrayGet es ((left + right) % 4294967296 / 2) with
      | ret e =>
        rw [hget] at h
        simp only [Run.bind_ret] at h
        have he := arrayGet_eq_ret hget
        have hcN := getElem?_lt_length he
        split at h
        · rename_i hreq
          -- req_time < centerTime
          have hlc : left ≤ (left + right) % 4294967296 / 2 := by
            by_contra hc
            have := hA _ e (by omega) he
            omega
          exact ih left _ L hlc (by omega) hA
            (fun i e' hi he' => Nat.lt_of_lt_of_le hreq (hs _ i e e' hi he he')) h
        · split at h
          · rename_i hreq
            -- req_time > centerTime
            have hmod : ((left + right) % 4294967296 / 2 + 1) % 4294967296
                = (left + right) % 4294967296 / 2 + 1 := Nat.mod_eq_of_lt (by omega)
            rw [hmod] at h
            exact ih _ right L (by omega) hrN
              (fun i e' hi he' =>
                Nat.lt_of_le_of_lt (hs i _ e' e (by omega) he' he) hreq) hB h
          · cases h
            exact ⟨by omega, Or.inl ⟨e, he, by omega⟩⟩
      | abort => rw [hget] at h; cases h
      | ub => rw [hget] at h; cases h
      | timeout => rw [hget] at h; cases h
    · cases h
      have : left = right := by omega
      subst this
      exact ⟨hrN, Or.inr ⟨hA, hB⟩⟩

theorem findSampleSearch_returns (es : List SampleTimeEntry) (req N : Nat)
    (hlen : es.length = N) (hN : N ≤ 2147483648) :
    ∀ (fuel left right : Nat), left ≤ right → right ≤ N → right - left ≤ fuel →
      ∃ L, findSampleSearch es req fuel left right = .ret L := by
  intro fuel
  induction fuel with
  | zero =>
    intro left right hlr hrN hf
    have : ¬ left < right := by omega
    exact ⟨left, by simp [findSampleSearch, this]⟩
  | succ fuel ih =>
    intro left right hlr hrN hf
    by_cases hlt : left < right
    · have hmod : (left + right) % 4294967296 = left + right := Nat.mod_eq_of_lt (by omega)
      have hc : (left + right) / 2 < es.length := by omega
      have hget : arrayGet es ((left + right) / 2) = .ret (es[(left + right) / 2]) :=
        arrayGet_of_getElem? (List.getElem?_eq_getElem hc)
      simp only [findSampleSearch, hlt, if_true, hmod, hget, Run.bind_ret]
      split
      · exact ih left _ (by omega) (by omega) (by omega)
      · split
        · have hm2 : ((left + right) / 2 + 1) % 4294967296 = (left + right) / 2 + 1 :=
            Nat.mod_eq_of_lt (by omega)
          rw [hm2]
          exact ih _ right (by omega) hrN (by omega)
        · exact ⟨_, rfl⟩
    · exact ⟨left, by simp [findSampleSearch, hlt]⟩

theorem abs_difference_comm_le_below (x y req : Nat) (hxy : y ≤ x) (hx : x ≤ req) :
    abs_difference x req ≤ abs_difference y req := by
  unfold abs_difference
  split <;> split <;> omega

theorem abs_difference_le_above (x y req : Nat) (hxy : x ≤ y) (hx : req ≤ x) :
    abs_difference x req ≤ abs_difference y req := by
  unfold abs_difference
  split <;> split <;> omega

theorem findSampleRefine_closest (es : List SampleTimeEntry) (req N fuel c : Nat) :
    findSampleRefine es req N kFlagClosest fuel c =
      if c > 0 then
        (arrayGet es c).bind fun e1 =>
          (arrayGet es (c - 1)).bind fun e2 =>
            if abs_difference e1.mCompositionTime req
                > abs_difference e2.mCompositionTime req then
              .ret (c - 1)
            else .ret c
      else .ret c := by
  simp [findSampleRefine, kFlagClosest, kFlagBefore, kFlagAfter]

/-- The `kFlagClosest` choice between `closestIndex` and its left neighbour
lands on an entry of least distance to `req`, from each of the three
positions the search can hand over. -/
theorem findSampleRefine_closest_spec (es : List SampleTimeEntry) (req N fuel c ci : Nat)
    (hs : SortedByTime es) (hlen : es.length = N)
    (hcase : (∃ e, es[c]? = some e ∧ e.mCompositionTime = req) ∨
      (AllBelow es req c ∧ AllAbove es req c) ∨ (c + 1 = N ∧ AllBelow es req N))
    (h : findSampleRefine es req N kFlagClosest fuel c = .ret ci)
    (hci : ∃ e, es[ci]? = some e) :
    ∃ e, es[ci]? = some e ∧
      ∀ (i : Nat) (e' : SampleTimeEntry), es[i]? = some e' →
        abs_difference e.mCompositionTime req ≤ abs_difference e'.mCompositionTime req := by
  obtain ⟨e, hci⟩ := hci
  refine ⟨e, hci, ?_⟩
  rw [findSampleRefine_closest] at h
  by_cases hc0 : c > 0
  · rw [if_pos hc0] at h
    cases hg1 : arrayGet es c with
    | ret e1 =>
      rw [hg1] at h
      simp only [Run.bind_ret] at h
      have he1 := arrayGet_eq_ret hg1
      cases hg2 : arrayGet es (c - 1) with
      | ret e2 =>
        rw [hg2] at h
        simp only [Run.bind_ret] at h
        have he2 := arrayGet_eq_ret hg2
        have h21 : e2.mCompositionTime ≤ e1.mCompositionTime :=
          hs (c - 1) c e2 e1 (by omega) he2 he1
        split at h
        · rename_i hgt
          cases h
          rw [he2] at hci
          cases hci
          intro i e' hi
          rcases hcase with ⟨x, hx, hxt⟩ | ⟨hA, hB⟩ | ⟨hN, hA⟩
          · rw [he1] at hx
            cases hx
            rw [hxt] at hgt
            simp [abs_difference] at hgt
          · have h2 := hA (c - 1) e (by omega) he2
            have h1 := hB c e1 (Nat.le_refl _) he1
            by_cases hic : i < c
            · exact abs_difference_comm_le_below _ _ _
                (hs i (c - 1) e' e (by omega) hi he2) (by omega)
            · have h3 := hs c i e1 e' (by omega) he1 hi
              have h4 := abs_difference_le_above _ _ req h3 (by omega)
              omega
          · have h1 := hA c e1 (by omega) he1
            have h2 := hA (c - 1) e (by omega) he2
            unfold abs_difference at hgt
            split at hgt <;> split at hgt <;> omega
        · rename_i hgt
          cases h
          rw [he1] at hci
          cases hci
          intro i e' hi
          rcases hcase with ⟨x, hx, hxt⟩ | ⟨hA, hB⟩ | ⟨hN, hA⟩
          · rw [he1] at hx
            cases hx
            rw [hxt]
            simp [abs_difference]
          · have h2 := hA (c - 1) e2 (by omega) he2
            have h1 := hB c e (Nat.le_refl _) he1
            by_cases hic : i < c
            · have h3 := abs_difference_comm_le_below _ _ req
                (hs i (c - 1) e' e2 (by omega) hi he2) (by omega)
              omega
            · exact abs_difference_le_above _ _ req (hs c i e e' (by omega) he1 hi) (by omega)
          · have h1 := hA c e (by omega) he1
            have hiN := getElem?_lt_length hi
            exact abs_difference_comm_le_below _ _ _
              (hs i c e' e (by omega) hi he1) (by omega)
      | abort => rw [hg2] at h; cases h
      | ub => rw [hg2] at h; cases h
      | timeout => rw [hg2] at h; cases h
    | abort => rw [hg1] at h; cases h
    | ub => rw [hg1] at h; cases h
    | timeout => rw [hg1] at h; cases h
  · rw [if_neg hc0] at h
    cases h
    have hc : c = 0 := by omega
    subst hc
    intro i e' hi
    rcases hcase with ⟨x, hx, hxt⟩ | ⟨hA, hB⟩ | ⟨hN, hA⟩
    · rw [hci] at hx
      cases hx
      rw [hxt]
      simp [abs_difference]
    · have h1 := hB 0 e (Nat.le_refl _) hci
      exact abs_difference_le_above _ _ req (hs 0 i e e' (by omega) hci hi) (by omega)
    · have h1 := hA 0 e (by omega) hci
      have hiN := getElem?_lt_length hi
      have : i = 0 := by omega
      subst this
      rw [hci] at hi
      cases hi
      exact Nat.le_refl _

/-- On a sorted array of `N >= 1` entries, whenever the `kFlagClosest` search
returns OK, the sample it reports belongs to an entry of least distance to
`req`. -/
theorem findSampleInEntries_closest (es : List SampleTimeEntry) (req N fuel j : Nat)
    (hs : SortedByTime es) (hlen : es.length = N) (hN1 : 1 ≤ N) (hN : N < 4294967296)
    (st : status_t)
    (h : findSampleInEntries es N req kFlagClosest fuel = .ret (st, some j)) :
    ∃ (ci : Nat) (e : SampleTimeEntry), es[ci]? = some e ∧ e.mSampleIndex = j ∧
      ∀ (i : Nat) (e' : SampleTimeEntry), es[i]? = some e' →
        abs_difference e.mCompositionTime req ≤ abs_difference e'.mCompositionTime req := by
  unfold findSampleInEntries at h
  cases hsearch : findSampleSearch es req fuel 0 N with
  | ret L =>
    rw [hsearch] at h
    simp only [Run.bind_ret] at h
    have hflag : ¬ (L = N ∧ kFlagClosest = kFlagAfter) := by
      intro hc
      exact absurd hc.2 (by decide)
    rw [if_neg hflag] at h
    obtain ⟨hLN, hpost⟩ := findSampleSearch_spec es req N hs hlen hN fuel 0 N L
      (Nat.zero_le _) (Nat.le_refl _) (fun i e hi _ => absurd hi (by omega))
      (fun i e hi he => by
        have := getElem?_lt_length he
        omega) hsearch
    generalize hc : (if L = N then (L + 4294967295) % 4294967296 else L) = c at h
    cases href : findSampleRefine es req N kFlagClosest fuel c with
    | ret ci =>
      rw [href] at h
      simp only [Run.bind_ret] at h
      cases hget : arrayGet es ci with
      | ret e =>
        rw [hget] at h
        simp only [Run.bind_ret] at h
        have he := arrayGet_eq_ret hget
        have hj : e.mSampleIndex = j := by
          cases h
          rfl
        have hcase : (∃ e, es[c]? = some e ∧ e.mCompositionTime = req) ∨
            (AllBelow es req c ∧ AllAbove es req c) ∨ (c + 1 = N ∧ AllBelow es req N) := by
          by_cases hL : L = N
          · rw [if_pos hL] at hc
            subst hL
            rcases hpost with ⟨x, hx, _⟩ | ⟨hA, _⟩
            · have := getElem?_lt_length hx
              omega
            · exact Or.inr (Or.inr ⟨by omega, hA⟩)
          · rw [if_neg hL] at hc
            subst hc
            rcases hpost with hex | hAB
            · exact Or.inl hex
            · exact Or.inr (Or.inl hAB)
        obtain ⟨e0, he0, hmin⟩ := findSampleRefine_closest_spec es req N fuel c ci hs hlen
          hcase href ⟨e, he⟩
        rw [he] at he0
        cases he0
        exact ⟨ci, e, he, hj, hmin⟩
      | abort => rw [hget] at h; cases h
      | ub => rw [hget] at h; cases h
      | timeout => rw [hget] at h; cases h
    | abort => rw [href] at h; cases h
    | ub => rw [href] at h; cases h
    | timeout => rw [href] at h; cases h
  | abort => rw [hsearch] at h; cases h
  | ub => rw [hsearch] at h; cases h
  | timeout => rw [hsearch] at h; cases h

theorem findSampleInEntries_closest_returns (es : List SampleTimeEntry) (req N fuel : Nat)
    (hs : SortedByTime es) (hlen : es.length = N) (hN1 : 1 ≤ N) (hN : N ≤ 2147483648)
    (hfuel : N ≤ fuel) :
    ∃ j, findSampleInEntries es N req kFlagClosest fuel = .ret (status_t.OK, some j) := by
  obtain ⟨L, hL⟩ := findSampleSearch_returns es req N hlen hN fuel 0 N (Nat.zero_le _)
    (Nat.le_refl _) (by omega)
  obtain ⟨hLN, -⟩ := findSampleSearch_spec es req N hs hlen (by omega) fuel 0 N L
    (Nat.zero_le _) (Nat.le_refl _) (fun i e hi _ => absurd hi (by omega))
    (fun i e hi he => by
      have := getElem?_lt_length he
      omega) hL
  unfold findSampleInEntries
  rw [hL]
  simp only [Run.bind_ret]
  have hflag : ¬ (L = N ∧ kFlagClosest = kFlagAfter) := by
    intro hc
    exact absurd hc.2 (by decide)
  rw [if_neg hflag]
  generalize hc : (if L = N then (L + 4294967295) % 4294967296 else L) = c
  have hcN : c < N := by
    by_cases h : L = N
    · rw [if_pos h] at hc; omega
    · rw [if_neg h] at hc; omega
  have hget : ∀ i, i < N → ∃ x, arrayGet es i = .ret x := fun i hi =>
    ⟨_, arrayGet_of_getElem? (List.getElem?_eq_getElem (by omega))⟩
  rw [findSampleRefine_closest]
  obtain ⟨x1, hx1⟩ := hget c hcN
  by_cases hc0 : c > 0
  · obtain ⟨x2, hx2⟩ := hget (c - 1) (by omega)
    rw [if_pos hc0, hx1, hx2]
    simp only [Run.bind_ret]
    split
    · rw [Run.bind_ret, hx2]
      exact ⟨_, rfl⟩
    · rw [Run.bind_ret, hx1]
      exact ⟨_, rfl⟩
  · rw [if_neg hc0, Run.bind_ret, hx1]
    exact ⟨_, rfl⟩

/-- The closest-sample search over the recorded times: on a table of `N >= 1`
samples whose stts runs cover all samples, every slot `k < N` of the
composition-time table records a time for sample `k`, and whenever
`findSampleAtTime(req, kFlagClosest)` returns OK with sample `j`, then
`j < N` and no sample's recorded composition time is closer to `req` than
that of `j`.  The call does return OK when `N <= 2^31` and the fuel is at
least `N`.  The recorded time of sample `k` is its composition time
`decodeTime k + sext32 (off k)` modulo 2^64 where the stts runs count at most
2^32 samples and the lookup serves `off`; beyond that the recorded time can
differ from the composition time. -/
theorem findSampleAtTime_closest_is_nearest
    (qsort : List SampleTimeEntry → List SampleTimeEntry) (hq : QsortContract qsort)
    (garbage : Nat → SampleTimeEntry) (t : SampleTable) (stts : List (Nat × Nat))
    (hnone : t.mSampleTimeEntries = none)
    (hstts : t.mTimeToSample = some (flattenRuns stts))
    (hcount : t.mTimeToSampleCount = stts.length)
    (hl : LookupWF t.mCompositionDeltaLookup)
    (hN1 : 1 ≤ t.countSamples) (hN : t.countSamples < 4294967296)
    (hcover : t.countSamples ≤ runTotal stts) (req : Nat) :
    (∀ k, k < t.countSamples → ∃ ct, t.recordedCompositionTime garbage k = some ct) ∧
    (∀ fuel j,
      t.findSampleAtTime qsort garbage fuel req kFlagClosest = .ret (status_t.OK, some j) →
      j < t.countSamples ∧
      ∀ k tk tj, k < t.countSamples → t.recordedCompositionTime garbage k = some tk →
        t.recordedCompositionTime garbage j = some tj →
        abs_difference tk req ≥ abs_difference tj req) ∧
    (t.countSamples ≤ 2147483648 → ∀ fuel, t.countSamples ≤ fuel →
      ∃ j, t.findSampleAtTime qsort garbage fuel req kFlagClosest
        = .ret (status_t.OK, some j)) ∧
    (∀ off, LookupServes off t.mCompositionDeltaLookup → runTotal stts ≤ 4294967296 →
      ∀ k, k < t.countSamples →
        t.recordedCompositionTime garbage k = some (compositionTime stts off k)) := by
  unfold SampleTable.countSamples at *
  obtain ⟨s, hfill, hslen, hidx⟩ :=
    fillSampleEntries_indices garbage t stts hstts hcount hl hN hcover
  have hrec : ∀ k, t.recordedCompositionTime garbage k
      = s.entries[k]?.map SampleTimeEntry.mCompositionTime := by
    intro k
    simp [SampleTable.recordedCompositionTime, hfill]
  have hfind : ∀ fuel, t.findSampleAtTime qsort garbage fuel req kFlagClosest
      = findSampleInEntries (qsort s.entries) t.mNumSampleSizes req kFlagClosest fuel := by
    intro fuel
    simp [SampleTable.findSampleAtTime, SampleTable.buildSampleEntriesTable, hnone, hfill]
  have hperm := hq.perm s.entries
  have hsorted : SortedByTime (qsort s.entries) :=
    sortedByTime_of_pairwise _
      (List.Pairwise.imp (fun {a b} hab => (CompareIncreasingTime_le a b).1 hab)
        (hq.sorted s.entries))
  have hqlen : (qsort s.entries).length = t.mNumSampleSizes := by
    rw [hperm.length_eq, hslen]
  refine ⟨?_, ?_, ?_, ?_⟩
  · intro k hk
    obtain ⟨ct, hct⟩ := hidx k hk
    exact ⟨ct, by rw [hrec, hct]; rfl⟩
  · intro fuel j hret
    rw [hfind] at hret
    obtain ⟨ci, e, he, hej, hmin⟩ := findSampleInEntries_closest (qsort s.entries) req
      t.mNumSampleSizes fuel j hsorted hqlen hN1 hN status_t.OK hret
    -- the chosen entry sits in slot `j` of the unsorted array
    have hmem : e ∈ s.entries := hperm.mem_iff.1 (List.mem_iff_getElem?.2 ⟨ci, he⟩)
    obtain ⟨k0, hk0⟩ := List.mem_iff_getElem?.1 hmem
    have hk0N : k0 < t.mNumSampleSizes := by
      have := getElem?_lt_length hk0
      omega
    obtain ⟨ct0, hct0⟩ := hidx k0 hk0N
    rw [hk0] at hct0
    cases hct0
    simp only at hej
    subst hej
    refine ⟨hk0N, ?_⟩
    intro k tk tj hk htk htj
    rw [hrec, hk0] at htj
    cases htj
    obtain ⟨ct, hct⟩ := hidx k hk
    rw [hrec, hct] at htk
    cases htk
    have hmemk : (⟨k, ct⟩ : SampleTimeEntry) ∈ qsort s.entries :=
      hperm.mem_iff.2 (List.mem_iff_getElem?.2 ⟨k, hct⟩)
    obtain ⟨i, hi⟩ := List.mem_iff_getElem?.1 hmemk
    exact hmin i _ hi
  · intro hb fuel hfuel
    rw [hfind]
    exact findSampleInEntries_closest_returns (qsort s.entries) req t.mNumSampleSizes fuel
      hsorted hqlen hN1 hb hfuel
  · intro off hoff hwrap k hk
    obtain ⟨s', hfill', _, hent⟩ :=
      fillSampleEntries_exact garbage t stts off hstts hcount hoff hwrap
    rw [hfill] at hfill'
    cases hfill'
    rw [hrec, hent]
    have hkt : k < runTotal stts := by omega
    simp [List.getElem?_range hk, hkt]

theorem findSampleAtTime_closest_is_nearest_witness :
    QsortContract insertionQsort ∧ reorderedTable.mSampleTimeEntries = none ∧
    reorderedTable.mTimeToSample = some (flattenRuns [(4, 1000)]) ∧
    reorderedTable.mTimeToSampleCount = [(4, 1000)].length ∧
    LookupWF reorderedTable.mCompositionDeltaLookup ∧
    1 ≤ reorderedTable.countSamples ∧ reorderedTable.countSamples < 4294967296 ∧
    reorderedTable.countSamples ≤ runTotal [(4, 1000)] ∧
    ((∀ k, k < reorderedTable.countSamples →
        ∃ ct, reorderedTable.recordedCompositionTime (fun _ => ⟨0, 0⟩) k = some ct) ∧
    (∀ fuel j,
      reorderedTable.findSampleAtTime insertionQsort (fun _ => ⟨0, 0⟩) fuel 2500 kFlagClosest
        = .ret (status_t.OK, some j) →
      j < reorderedTable.countSamples ∧
      ∀ k tk tj, k < reorderedTable.countSamples →
        reorderedTable.recordedCompositionTime (fun _ => ⟨0, 0⟩) k = some tk →
        reorderedTable.recordedCompositionTime (fun _ => ⟨0, 0⟩) j = some tj →
        abs_difference tk 2500 ≥ abs_difference tj 2500) ∧
    (reorderedTable.countSamples ≤ 2147483648 → ∀ fuel, reorderedTable.countSamples ≤ fuel →
      ∃ j, reorderedTable.findSampleAtTime insertionQsort (fun _ => ⟨0, 0⟩) fuel 2500
        kFlagClosest = .ret (status_t.OK, some j)) ∧
    (∀ off, LookupServes off reorderedTable.mCompositionDeltaLookup →
      runTotal [(4, 1000)] ≤ 4294967296 →
      ∀ k, k < reorderedTable.countSamples →
        reorderedTable.recordedCompositionTime (fun _ => ⟨0, 0⟩) k
          = some (compositionTime [(4, 1000)] off k))) :=
  ⟨insertionQsort_contract, rfl, rfl, rfl,
    Or.inr ⟨[(1, 0), (1, 2000), (1, 0), (1, 0)], rfl, rfl⟩, by decide, by decide, by decide,
    findSampleAtTime_closest_is_nearest insertionQsort insertionQsort_contract
      (fun _ => ⟨0, 0⟩) reorderedTable [(4, 1000)] rfl rfl rfl
      (Or.inr ⟨[(1, 0), (1, 2000), (1, 0), (1, 0)], rfl, rfl⟩) (by decide) (by decide)
      (by decide) 2500⟩


/-! ### The search on a table of more than 2^31 samples -/

theorem largeTable_entries (garbage : Nat → SampleTimeEntry) :
    ∃ s, largeTable.fillSampleEntries garbage = .ret s ∧
      s.entries = (List.range 2147483649).map fun k => (⟨k, k⟩ : SampleTimeEntry) := by
  obtain ⟨s, h1, _, h3⟩ := fillSampleEntries_exact garbage largeTable [(2147483649, 1)]
    (fun _ => 0) rfl rfl (Or.inl ⟨rfl, rfl⟩) (by decide)
  refine ⟨s, h1, ?_⟩
  rw [h3]
  apply List.map_congr_left
  intro k hk
  have hk' : k < 2147483649 := List.mem_range.1 hk
  have ht : runTotal [(2147483649, 1)] = 2147483649 := by decide
  have hd : decodeTime [(2147483649, 1)] k = k := by
    rw [decodeTime_cons]
    simp only
    rw [if_pos (by omega), Nat.mul_one]
  have hs : sext32 0 = 0 := by decide
  have hc : compositionTime [(2147483649, 1)] (fun _ => 0) k = k := by
    show (decodeTime [(2147483649, 1)] k + sext32 0) % 18446744073709551616 = k
    rw [hd, hs]
    omega
  rw [ht, if_pos hk', hc]

theorem largeTable_sorted :
    List.Sorted (fun a b : SampleTimeEntry => a.mCompositionTime ≤ b.mCompositionTime)
      ((List.range 2147483649).map fun k => (⟨k, k⟩ : SampleTimeEntry)) := by
  unfold List.Sorted
  rw [List.pairwise_map]
  exact List.Pairwise.imp (fun {a b} (h : a < b) => Nat.le_of_lt h) (List.pairwise_lt_range _)

theorem largeTable_get (c : Nat) (hc : c < 2147483649) :
    arrayGet ((List.range 2147483649).map fun k => (⟨k, k⟩ : SampleTimeEntry)) c
      = .ret ⟨c, c⟩ := by
  apply arrayGet_of_getElem?
  rw [List.getElem?_map, List.getElem?_range hc]
  rfl

theorem search_never_exits (es : List SampleTimeEntry)
    (hget : ∀ c, c < 2147483649 → arrayGet es c = .ret ⟨c, c⟩) :
    ∀ (fuel left : Nat), left ≤ 2147483648 →
      findSampleSearch es 2147483648 fuel left 2147483649 = .timeout := by
  intro fuel
  induction fuel with
  | zero =>
    intro left hl
    have : left < 2147483649 := by omega
    rw [findSampleSearch, if_pos this]
  | succ fuel ih =>
    intro left hl
    have hlt : left < 2147483649 := by omega
    have hc : (left + 2147483649) % 4294967296 / 2 < 2147483648 := by omega
    have h1 : ¬ 2147483648 < (left + 2147483649) % 4294967296 / 2 := by omega
    have h2 : 2147483648 > (left + 2147483649) % 4294967296 / 2 := by omega
    have hm : ((left + 2147483649) % 4294967296 / 2 + 1) % 4294967296
        = (left + 2147483649) % 4294967296 / 2 + 1 := Nat.mod_eq_of_lt (by omega)
    rw [findSampleSearch, if_pos hlt]
    simp only
    rw [hget _ (by omega), Run.bind_ret]
    simp only
    rw [if_neg h1, if_pos h2, hm]
    exact ih _ (by omega)

theorem largeTable_search_never_exits (fuel left : Nat) (hl : left ≤ 2147483648) :
    findSampleSearch ((List.range 2147483649).map fun k => (⟨k, k⟩ : SampleTimeEntry))
      2147483648 fuel left 2147483649 = .timeout :=
  search_never_exits _ largeTable_get fuel left hl
theorem largeTable_qsort (l : List SampleTimeEntry)
    (hl : l = (List.range 2147483649).map fun k => (⟨k, k⟩ : SampleTimeEntry)) :
    insertionQsort l = l := by
  unfold insertionQsort
  apply List.Sorted.insertionSort_eq
  rw [hl]
  exact largeTable_sorted

theorem largeTable_find (garbage : Nat → SampleTimeEntry) (fuel : Nat) :
    largeTable.findSampleAtTime insertionQsort garbage fuel 2147483648 kFlagAfter
      = .timeout := by
  obtain ⟨s, hfill, hent⟩ := largeTable_entries garbage
  have hq : insertionQsort s.entries = s.entries := largeTable_qsort _ hent
  have hsearch : findSampleSearch s.entries 2147483648 fuel 0 2147483649 = .timeout := by
    rw [hent]
    exact largeTable_search_never_exits fuel 0 (by omega)
  have hbuild : largeTable.buildSampleEntriesTable insertionQsort garbage
      = .ret { largeTable with mSampleTimeEntries := some s.entries,
                               mCompositionDeltaLookup := s.lookup } := by
    unfold SampleTable.buildSampleEntriesTable
    have hn : largeTable.mSampleTimeEntries = none := rfl
    rw [hn]
    simp only
    rw [hfill, Run.bind_ret, hq]
  unfold SampleTable.findSampleAtTime
  rw [hbuild, Run.bind_ret]
  unfold findSampleInEntries
  simp only [Option.getD_some]
  have hN : largeTable.mNumSampleSizes = 2147483649 := rfl
  rw [hN, hsearch]
  rfl

theorem recordedCompositionTime_eq (garbage : Nat → SampleTimeEntry) (t : SampleTable)
    (s : BuildState) (k : Nat) (e : SampleTimeEntry)
    (hfill : t.fillSampleEntries garbage = .ret s) (hget : s.entries[k]? = some e) :
    t.recordedCompositionTime garbage k = some e.mCompositionTime := by
  unfold SampleTable.recordedCompositionTime
  rw [hfill]
  simp only
  rw [hget]
  rfl

theorem largeTable_recorded (garbage : Nat → SampleTimeEntry) :
    largeTable.recordedCompositionTime garbage 2147483648 = some 2147483648 := by
  obtain ⟨s, hfill, hent⟩ := largeTable_entries garbage
  have hget : s.entries[2147483648]? = some ⟨2147483648, 2147483648⟩ := by
    rw [hent]
    exact arrayGet_eq_ret (largeTable_get 2147483648 (by omega))
  exact recordedCompositionTime_eq garbage largeTable s 2147483648 _ hfill hget

/-- C3, at the failing input: 2^31 + 1 samples, sample `k` at composition time
`k`, request time 2^31 with `kFlagAfter`.  Sample 2^31 has composition time
2^31, so the call should return OK with it; but `(left + right) / 2` wraps in
32 bits once `left` reaches 2^31 - 1, the search starts over from the left
end, and the call never returns, whatever the fuel. -/
theorem findSampleAtTime_after_never_returns (garbage : Nat → SampleTimeEntry) (fuel : Nat) :
    largeTable.findSampleAtTime insertionQsort garbage fuel 2147483648 kFlagAfter
      = .timeout ∧
    largeTable.countSamples = 2147483649 ∧
    largeTable.recordedCompositionTime garbage 2147483648 = some 2147483648 :=
  ⟨largeTable_find garbage fuel, rfl, largeTable_recorded garbage⟩

/-! ## `findSyncSampleNear` -/

theorem arrayGet_mem {α : Type} {a : List α} {i : Nat} {x : α}
    (h : arrayGet a i = .ret x) : x ∈ a :=
  List.mem_iff_getElem?.2 ⟨i, arrayGet_eq_ret h⟩

theorem syncScan_spec (sync : List Nat) (start : Nat) :
    ∀ (rem left : Nat), left + rem = sync.length →
      ∃ L, syncScan sync start rem left = .ret L ∧ left ≤ L ∧ L ≤ sync.length ∧
        (∀ (i x : Nat), left ≤ i → i < L → sync[i]? = some x → x < start) ∧
        (∀ x : Nat, sync[L]? = some x → x ≥ start) := by
  intro rem
  induction rem with
  | zero =>
    intro left h
    refine ⟨left, rfl, Nat.le_refl _, by omega, fun i x h1 h2 _ => absurd h2 (by omega), ?_⟩
    intro x hx
    have := getElem?_lt_length hx
    omega
  | succ rem ih =>
    intro left h
    have hl : left < sync.length := by omega
    have hget : sync[left]? = some sync[left] := List.getElem?_eq_getElem hl
    simp only [syncScan, arrayGet_of_getElem? hget, Run.bind_ret]
    by_cases hge : sync[left] ≥ start
    · rw [if_pos hge]
      refine ⟨left, rfl, Nat.le_refl _, by omega, fun i x h1 h2 _ => absurd h2 (by omega), ?_⟩
      intro x hx
      rw [hget] at hx
      cases hx
      exact hge
    · rw [if_neg hge]
      obtain ⟨L, h1, h2, h3, h4, h5⟩ := ih (left + 1) (by omega)
      refine ⟨L, h1, by omega, h3, ?_, h5⟩
      intro i x hi1 hi2 hx
      by_cases hil : i = left
      · subst hil
        rw [hget] at hx
        cases hx
        omega
      · exact h4 i x (by omega) hi2 hx

theorem syncRefine_ok (sync : List Nat) (num start flags x left r : Nat) (hx : x ∈ sync)
    (h : syncRefine sync num start flags x left = .ret (status_t.OK, r)) :
    r ∈ sync ∧ (flags = kFlagBefore → r ≤ start) ∧ (flags = kFlagAfter → r ≥ start) := by
  unfold syncRefine at h
  by_cases hb : flags = kFlagBefore
  · have hna : flags ≠ kFlagAfter := by rw [hb]; decide
    rw [if_pos hb] at h
    by_cases hgt : x > start
    · rw [if_pos hgt] at h
      by_cases hl : left > 0
      · rw [if_pos hl] at h
        cases hg : arrayGet sync (left - 1) with
        | ret x1 =>
          rw [hg] at h
          simp only [Run.bind_ret] at h
          by_cases h1 : x1 ≤ start
          · rw [if_pos h1] at h
            cases h
            exact ⟨arrayGet_mem hg, fun _ => h1, fun ha => absurd ha hna⟩
          · rw [if_neg h1] at h
            cases h
        | abort => rw [hg] at h; cases h
        | ub => rw [hg] at h; cases h
        | timeout => rw [hg] at h; cases h
      · rw [if_neg hl] at h
        cases h
    · rw [if_neg hgt] at h
      cases h
      exact ⟨hx, fun _ => by omega, fun ha => absurd ha hna⟩
  · rw [if_neg hb] at h
    by_cases ha : flags = kFlagAfter
    · rw [if_pos ha] at h
      by_cases hlt : x < start
      · rw [if_pos hlt] at h
        by_cases hend : (left + 1) % 4294967296 ≥ num
        · rw [if_pos hend] at h
          cases h
        · rw [if_neg hend] at h
          cases hg : arrayGet sync ((left + 1) % 4294967296) with
          | ret x1 =>
            rw [hg] at h
            simp only [Run.bind_ret] at h
            by_cases h1 : x1 ≥ start
            · rw [if_pos h1] at h
              cases h
              exact ⟨arrayGet_mem hg, fun hb' => absurd hb' hb, fun _ => h1⟩
            · rw [if_neg h1] at h
              cases h
          | abort => rw [hg] at h; cases h
          | ub => rw [hg] at h; cases h
          | timeout => rw [hg] at h; cases h
      · rw [if_neg hlt] at h
        cases h
        exact ⟨hx, fun hb' => absurd hb' hb, fun _ => by omega⟩
    · rw [if_neg ha] at h
      cases h
      exact ⟨hx, fun hb' => absurd hb' hb, fun ha' => absurd ha' ha⟩

/-- C6: on a loaded, non-empty sync-sample table, whenever
`findSyncSampleNear` returns OK the sample it reports is an entry of the sync
table, at or before `start` under `kFlagBefore` and at or after `start` under
`kFlagAfter`. -/
theorem findSyncSampleNear_ok_result (it : SampleIterator) (t : SampleTable)
    (sync : List Nat) (start flags r : Nat)
    (hoff : 0 ≤ t.mSyncSampleOffset) (hs : t.mSyncSamples = some sync)
    (hn : t.mNumSyncSamples = sync.length) (hne : sync ≠ [])
    (h : t.findSyncSampleNear it start flags = .ret (status_t.OK, r)) :
    r ∈ sync ∧ (flags = kFlagBefore → r ≤ start) ∧ (flags = kFlagAfter → r ≥ start) := by
  unfold SampleTable.findSyncSampleNear at h
  have hoff' : ¬ t.mSyncSampleOffset < 0 := by omega
  have hn0 : ¬ t.mNumSyncSamples = 0 := by
    rw [hn]
    intro hc
    exact hne (List.length_eq_zero.1 hc)
  rw [if_neg hoff', if_neg hn0] at h
  simp only [hs, Option.getD_some] at h
  cases hscan : syncScan sync start t.mNumSyncSamples 0 with
  | ret left0 =>
    rw [hscan] at h
    simp only [Run.bind_ret] at h
    split at h
    · cases h
    · generalize (if left0 > 0 then left0 - 1 else left0) = left at h
      cases hgx : arrayGet sync left with
      | ret x =>
        rw [hgx] at h
        simp only [Run.bind_ret] at h
        have hxm := arrayGet_mem hgx
        split at h
        · cases hgy : arrayGet sync ((left + 1) % 4294967296) with
          | ret y =>
            rw [hgy] at h
            simp only [Run.bind_ret] at h
            have hym := arrayGet_mem hgy
            split at h
            · rename_i hne1
              simp only [Run.ret.injEq, Prod.mk.injEq] at h
              exact absurd h.1 hne1
            · split at h
              · rename_i hne2
                simp only [Run.ret.injEq, Prod.mk.injEq] at h
                exact absurd h.1 hne2
              · split at h
                · rename_i hne3
                  simp only [Run.ret.injEq, Prod.mk.injEq] at h
                  exact absurd h.1 hne3
                · split at h
                  · exact syncRefine_ok sync _ start flags y _ r hym h
                  · exact syncRefine_ok sync _ start flags x _ r hxm h
          | abort => rw [hgy] at h; cases h
          | ub => rw [hgy] at h; cases h
          | timeout => rw [hgy] at h; cases h
        · exact syncRefine_ok sync _ start flags x _ r hxm h
      | abort => rw [hgx] at h; cases h
      | ub => rw [hgx] at h; cases h
      | timeout => rw [hgx] at h; cases h
  | abort => rw [hscan] at h; cases h
  | ub => rw [hscan] at h; cases h
  | timeout => rw [hscan] at h; cases h

theorem findSyncSampleNear_ok_result_witness :
    (0 : Int) ≤ (syncTable [0, 2, 4]).mSyncSampleOffset ∧
    (syncTable [0, 2, 4]).mSyncSamples = some [0, 2, 4] ∧
    (syncTable [0, 2, 4]).mNumSyncSamples = [0, 2, 4].length ∧
    [0, 2, 4] ≠ ([] : List Nat) ∧
    (syncTable [0, 2, 4]).findSyncSampleNear evenIterator 3 kFlagAfter
      = .ret (status_t.OK, 4) ∧
    (4 ∈ [0, 2, 4] ∧ (kFlagAfter = kFlagBefore → 4 ≤ 3) ∧ (kFlagAfter = kFlagAfter → 4 ≥ 3)) :=
  ⟨by decide, rfl, rfl, by decide, by decide,
    findSyncSampleNear_ok_result evenIterator (syncTable [0, 2, 4]) [0, 2, 4] 3 kFlagAfter 4
      (by decide) rfl rfl (by decide) (by decide)⟩

/-- C5 as stated fails on a loaded sync-sample table without entries: no
entry is at or after `start`, yet `findSyncSampleNear(5, kFlagAfter)` returns
OK with sample 0, through the `mNumSyncSamples == 0` guard. -/
theorem findSyncSampleNear_after_empty_table :
    (syncTable []).findSyncSampleNear evenIterator 5 kFlagAfter = .ret (status_t.OK, 0) ∧
    (0 : Int) ≤ (syncTable []).mSyncSampleOffset ∧
    (syncTable []).mSyncSamples = some [] ∧
    ([] : List Nat).Pairwise (fun a b => a ≤ b) ∧
    ¬ ∃ x ∈ ([] : List Nat), x ≥ 5 := by
  refine ⟨by decide, by decide, rfl, List.Pairwise.nil, ?_⟩
  simp

/-- C5, amended: on a loaded, non-empty sync-sample table in ascending order,
with every iterator seek succeeding, `findSyncSampleNear(start, kFlagAfter)`
returns ERROR_OUT_OF_RANGE if and only if no sync-table entry is at or after
`start`, and returns OK otherwise. -/
theorem findSyncSampleNear_after_out_of_range_iff (it : SampleIterator) (t : SampleTable)
    (sync : List Nat) (start : Nat)
    (hoff : 0 ≤ t.mSyncSampleOffset) (hs : t.mSyncSamples = some sync)
    (hn : t.mNumSyncSamples = sync.length) (hne : sync ≠ [])
    (hlen : sync.length < 4294967296)
    (hsorted : sync.Pairwise (fun a b => a ≤ b))
    (hseek : ∀ i, it.seekTo i = status_t.OK) :
    ((∃ r, t.findSyncSampleNear it start kFlagAfter = .ret (status_t.ERROR_OUT_OF_RANGE, r))
      ↔ ¬ ∃ x ∈ sync, x ≥ start) ∧
    ((∃ x ∈ sync, x ≥ start) →
      ∃ r, t.findSyncSampleNear it start kFlagAfter = .ret (status_t.OK, r)) := by
  have hpos : 0 < sync.length := List.length_pos.2 hne
  obtain ⟨L, hscan, -, hLn, hbelow, hatL⟩ := syncScan_spec sync start sync.length 0 (by omega)
  have hoff' : ¬ t.mSyncSampleOffset < 0 := by omega
  have hn0 : ¬ t.mNumSyncSamples = 0 := by omega
  have hsort : ∀ (i j : Nat) (a b : Nat), i ≤ j → sync[i]? = some a → sync[j]? = some b →
      a ≤ b := by
    intro i j a b hij ha hb
    rcases Nat.lt_or_eq_of_le hij with hlt | heq
    · have hi := getElem?_lt_length ha
      have hj := getElem?_lt_length hb
      rw [List.getElem?_eq_getElem hi] at ha
      rw [List.getElem?_eq_getElem hj] at hb
      cases ha; cases hb
      exact (List.pairwise_iff_getElem.1 hsorted) i j hi hj hlt
    · subst heq
      rw [ha] at hb
      cases hb
      exact Nat.le_refl _
  have hunf : t.findSyncSampleNear it start kFlagAfter =
      if L = sync.length ∧ kFlagAfter = kFlagAfter then
        .ret (status_t.ERROR_OUT_OF_RANGE, 0)
      else
        (arrayGet sync (if L > 0 then L - 1 else L)).bind fun x =>
          if ((if L > 0 then L - 1 else L) + 1) % 4294967296 < sync.length then
            (arrayGet sync (((if L > 0 then L - 1 else L) + 1) % 4294967296)).bind fun y =>
              if abs_difference (it.getSampleTime x) (it.getSampleTime start)
                  > abs_difference (it.getSampleTime y) (it.getSampleTime start) then
                syncRefine sync sync.length start kFlagAfter y
                  (((if L > 0 then L - 1 else L) + 1) % 4294967296)
              else syncRefine sync sync.length start kFlagAfter x
                  (if L > 0 then L - 1 else L)
          else syncRefine sync sync.length start kFlagAfter x
              (if L > 0 then L - 1 else L) := by
    unfold SampleTable.findSyncSampleNear
    rw [if_neg hoff', if_neg hn0]
    simp only [hs, Option.getD_some, hn, hscan, Run.bind_ret, hseek, ne_eq, not_true_eq_false,
      if_false]
  by_cases hall : ∃ x ∈ sync, x ≥ start
  · -- some entry is at or after `start`: the scan stops inside the table
    have hL : L < sync.length := by
      by_contra hc
      obtain ⟨x, hx, hxs⟩ := hall
      obtain ⟨i, hi⟩ := List.mem_iff_getElem?.1 hx
      have := getElem?_lt_length hi
      have := hbelow i x (Nat.zero_le _) (by omega) hi
      omega
    have hok : ∃ r, t.findSyncSampleNear it start kFlagAfter = .ret (status_t.OK, r) := by
      rw [hunf]
      have h1 : ¬ (L = sync.length ∧ kFlagAfter = kFlagAfter) := by omega
      rw [if_neg h1]
      have hyL : sync[L]? = some sync[L] := List.getElem?_eq_getElem hL
      have hyge : sync[L] ≥ start := hatL _ hyL
      have hrefine_ge : ∀ (v l : Nat), v ≥ start →
          syncRefine sync sync.length start kFlagAfter v l = .ret (status_t.OK, v) := by
        intro v l hv
        have : ¬ v < start := by omega
        simp [syncRefine, kFlagAfter, kFlagBefore, this]
      by_cases hL0 : L > 0
      · simp only [hL0, if_true]
        have hx : sync[L - 1]? = some sync[L - 1] := List.getElem?_eq_getElem (by omega)
        have hxlt : sync[L - 1] < start := hbelow _ _ (Nat.zero_le _) (by omega) hx
        have hm : (L - 1 + 1) % 4294967296 = L := by omega
        rw [arrayGet_of_getElem? hx, Run.bind_ret, hm, if_pos hL, arrayGet_of_getElem? hyL,
          Run.bind_ret]
        split
        · exact ⟨_, hrefine_ge _ _ hyge⟩
        · refine ⟨sync[L], ?_⟩
          have hnend : ¬ L ≥ sync.length := by omega
          have hb : ¬ kFlagAfter = kFlagBefore := by decide
          unfold syncRefine
          rw [if_neg hb, if_pos rfl, if_pos hxlt, hm, if_neg hnend,
            arrayGet_of_getElem? hyL, Run.bind_ret, if_pos hyge]
      · have hLz : L = 0 := by omega
        subst hLz
        simp only [Nat.lt_irrefl, if_false]
        rw [arrayGet_of_getElem? hyL, Run.bind_ret]
        split
        · rename_i h1lt
          have h1 : (0 + 1) % 4294967296 = 1 := by decide
          rw [h1] at h1lt ⊢
          have hy1 : sync[1]? = some sync[1] := List.getElem?_eq_getElem h1lt
          rw [arrayGet_of_getElem? hy1, Run.bind_ret]
          split
          · exact ⟨_, hrefine_ge _ _ (Nat.le_trans hyge (hsort 0 1 _ _ (by omega) hyL hy1))⟩
          · exact ⟨_, hrefine_ge _ _ hyge⟩
        · exact ⟨_, hrefine_ge _ _ hyge⟩
    refine ⟨⟨?_, fun hno => absurd hall hno⟩, fun _ => hok⟩
    rintro ⟨r, hr⟩
    obtain ⟨r', hr'⟩ := hok
    rw [hr] at hr'
    cases hr'
  · -- no entry is at or after `start`: the scan runs off the end
    have hL : L = sync.length := by
      by_contra hc
      have hlt : L < sync.length := by omega
      exact hall ⟨sync[L], List.getElem_mem _, hatL _ (List.getElem?_eq_getElem hlt)⟩
    refine ⟨⟨fun _ => hall, fun _ => ⟨0, ?_⟩⟩, fun h => absurd h hall⟩
    rw [hunf, if_pos ⟨hL, rfl⟩]

theorem findSyncSampleNear_after_out_of_range_iff_witness :
    (0 : Int) ≤ (syncTable [0, 2, 4]).mSyncSampleOffset ∧
    (syncTable [0, 2, 4]).mSyncSamples = some [0, 2, 4] ∧
    (syncTable [0, 2, 4]).mNumSyncSamples = [0, 2, 4].length ∧
    [0, 2, 4] ≠ ([] : List Nat) ∧ [0, 2, 4].length < 4294967296 ∧
    [0, 2, 4].Pairwise (fun a b => a ≤ b) ∧
    (∀ i, evenIterator.seekTo i = status_t.OK) ∧
    (((∃ r, (syncTable [0, 2, 4]).findSyncSampleNear evenIterator 5 kFlagAfter
        = .ret (status_t.ERROR_OUT_OF_RANGE, r))
      ↔ ¬ ∃ x ∈ [0, 2, 4], x ≥ 5) ∧
    ((∃ x ∈ [0, 2, 4], x ≥ 5) →
      ∃ r, (syncTable [0, 2, 4]).findSyncSampleNear evenIterator 5 kFlagAfter
        = .ret (status_t.OK, r))) :=
  ⟨by decide, rfl, rfl, by decide, by decide, by decide, fun _ => rfl,
    findSyncSampleNear_after_out_of_range_iff evenIterator (syncTable [0, 2, 4]) [0, 2, 4] 5
      (by decide) rfl rfl (by decide) (by decide) (by decide) (fun _ => rfl)⟩

/-! ## `MPEG2TSSource` -/

/-- C8: `findOffsetForPTS` clamps without reading a packet: whatever the
seed offset, the byte source, the parser and the fuel, a `seekPTS` at or
below the first PTS gives OK with offset 188, and otherwise a `seekPTS` at or
above the last PTS gives OK with `mLastPTSOffset`; no packet is read. -/
theorem findOffsetForPTS_clamps (env : TSEnv) (stream : StreamInfo) (fuel : Nat)
    (seekOffset : Int) (seekPTS : Nat) :
    (seekPTS ≤ stream.mFirstPTS →
      findOffsetForPTS env stream fuel seekOffset seekPTS
        = .ret { status := status_t.OK, seekOffset := 188, reads := [] }) ∧
    (¬ seekPTS ≤ stream.mFirstPTS → seekPTS ≥ stream.mLastPTS →
      findOffsetForPTS env stream fuel seekOffset seekPTS
        = .ret { status := status_t.OK, seekOffset := stream.mLastPTSOffset, reads := [] }) := by
  constructor
  · intro h
    simp [findOffsetForPTS, h, kTSPacketSize]
  · intro h1 h2
    simp [findOffsetForPTS, h1, h2]

theorem findOffsetForPTS_clamps_witness :
    ((500 ≤ clipSource.mStream.mFirstPTS →
      findOffsetForPTS clipEnv clipSource.mStream 0 4000 500
        = .ret { status := status_t.OK, seekOffset := 188, reads := [] }) ∧
    (¬ 500 ≤ clipSource.mStream.mFirstPTS → 500 ≥ clipSource.mStream.mLastPTS →
      findOffsetForPTS clipEnv clipSource.mStream 0 4000 500
        = .ret { status := status_t.OK, seekOffset := clipSource.mStream.mLastPTSOffset,
                 reads := [] })) ∧
    500 ≤ clipSource.mStream.mFirstPTS ∧
    findOffsetForPTS clipEnv clipSource.mStream 0 4000 500
      = .ret { status := status_t.OK, seekOffset := 188, reads := [] } :=
  ⟨findOffsetForPTS_clamps clipEnv clipSource.mStream 0 4000 500, by decide,
    (findOffsetForPTS_clamps clipEnv clipSource.mStream 0 4000 500).1 (by decide)⟩

theorem lastPTSLoop_returned_ne_OK (env : TSEnv) (pid : Nat) :
    ∀ (fuel : Nat) (offset : Int) (st0 : status_t) (pts : Nat) (status : status_t),
      lastPTSLoop env pid fuel offset st0 pts = .ret (.returned status) →
      status ≠ status_t.OK := by
  intro fuel
  induction fuel with
  | zero =>
    intro offset st0 pts status hc
    simp only [lastPTSLoop] at hc
    split at hc <;> cases hc
  | succ fuel ih =>
    intro offset st0 pts status hc
    simp only [lastPTSLoop] at hc
    split at hc
    · split at hc
      · simp only [Run.ret.injEq, LastPTSScan.returned.injEq] at hc
        rw [← hc]
        exact fun h => status_t.noConfusion h
      · split at hc
        · simp only [Run.ret.injEq, LastPTSScan.returned.injEq] at hc
          rw [← hc]
          exact fun h => status_t.noConfusion h
        · split at hc
          · simp only [Run.ret.injEq, LastPTSScan.returned.injEq] at hc
            rw [← hc]
            exact fun h => status_t.noConfusion h
          · split at hc
            · cases hc
            · exact ih _ _ _ _ hc
    · cases hc

/-- C9: whenever `findStreamDuration` returns OK, the stored `mDurationUs` is
`((mLastPTS - mFirstPTS) * 100) / 9` computed in 64-bit unsigned arithmetic
with truncating division, and it is not zero; for first PTS 90000 and last
PTS 990000 it is 10000000. -/
theorem findStreamDuration_ok_duration (env : TSEnv) (src src' : MPEG2TSSource)
    (h : src.findStreamDuration env = .ret (status_t.OK, src')) :
    src'.mStream.mDurationUs
      = ((((src'.mStream.mLastPTS + 18446744073709551616 - src'.mStream.mFirstPTS)
            % 18446744073709551616) * 100 % 18446744073709551616 / 9 : Nat) : Int) ∧
    src'.mStream.mDurationUs ≠ 0 ∧
    (src'.mStream.mFirstPTS = 90000 → src'.mStream.mLastPTS = 990000 →
      src'.mStream.mDurationUs = 10000000) := by
  have key : src'.mStream.mDurationUs
      = durationOf src'.mStream.mFirstPTS src'.mStream.mLastPTS ∧
      src'.mStream.mDurationUs ≠ 0 := by
    unfold MPEG2TSSource.findStreamDuration at h
    split at h
    · simp only [Run.ret.injEq, Prod.mk.injEq] at h
      exact absurd h.1 (fun h => status_t.noConfusion h)
    · cases hscan : lastPTSLoop env src.mStream.mStreamPID src.mClipSize.toNat
          (src.mClipSize - (kTSPacketSize : Int)) status_t.OK 0 with
      | ret scan =>
        rw [hscan] at h
        simp only [Run.bind_ret] at h
        cases scan with
        | returned status =>
          simp only [Run.ret.injEq, Prod.mk.injEq] at h
          exact absurd h.1 (lastPTSLoop_returned_ne_OK env _ _ _ _ _ _ hscan)
        | left status PTS hit =>
          simp only at h
          split at h
          · rename_i hne
            simp only [Run.ret.injEq, Prod.mk.injEq] at h
            exact absurd h.1 hne
          · split at h
            · cases h
            · rename_i hnz
              simp only [Run.ret.injEq, Prod.mk.injEq] at h
              rw [← h.2]
              exact ⟨rfl, hnz⟩
      | abort => rw [hscan] at h; cases h
      | ub => rw [hscan] at h; cases h
      | timeout => rw [hscan] at h; cases h
  refine ⟨key.1, key.2, ?_⟩
  intro h1 h2
  rw [key.1, h1, h2]
  decide

theorem findStreamDuration_ok_duration_witness :
    clipSource.findStreamDuration clipEnv
      = .ret (status_t.OK,
          { clipSource with
            mStream := { clipSource.mStream with
                         mLastPTS := 990000, mLastPTSOffset := 939812,
                         mDurationUs := 10000000 }
            mFormat := some (some 10000000) }) ∧
    ((10000000 : Int)
      = ((((990000 + 18446744073709551616 - 90000) % 18446744073709551616) * 100
          % 18446744073709551616 / 9 : Nat) : Int) ∧
    (10000000 : Int) ≠ 0 ∧
    ((90000 : Nat) = 90000 → (990000 : Nat) = 990000 → (10000000 : Int) = 10000000)) :=
  ⟨by decide,
    findStreamDuration_ok_duration clipEnv clipSource
      { clipSource with
        mStream := { clipSource.mStream with
                     mLastPTS := 990000, mLastPTSOffset := 939812,
                     mDurationUs := 10000000 }
        mFormat := some (some 10000000) } (by decide)⟩

/-- C7 as stated fails where the clamp applies: the packet at offset 376,
between the first and the last PTS offset, carries PTS 500, but
`findOffsetForPTS(seed, 500)` returns offset 188, whose packet carries PTS
1000. -/
theorem findOffsetForPTS_clamp_misses_packet :
    jumbledStream.mFirstPTSOffset ≤ 376 ∧ (376 : Int) ≤ jumbledStream.mLastPTSOffset ∧
    jumbledEnv.parseTSToGetPTS (jumbledEnv.readAt 376 kTSPacketSize).2
        jumbledStream.mStreamPID 0 = (status_t.OK, 500) ∧
    findOffsetForPTS jumbledEnv jumbledStream 100 376 500
      = .ret { status := status_t.OK, seekOffset := 188, reads := [] } ∧
    jumbledEnv.parseTSToGetPTS (jumbledEnv.readAt 188 kTSPacketSize).2
        jumbledStream.mStreamPID 0 = (status_t.OK, 1000) := by
  decide

/-- One turn of the search loop on a packet that carries no PTS. -/
theorem findOffsetLoop_skip (env : TSEnv) (stream : StreamInfo) (so : Int) (p fuel : Nat)
    (s : SeekState) (hc : Carries env stream.mStreamPID s.fileOffset none) :
    findOffsetLoop env stream so p (fuel + 1) s =
      (if s.searchBack then
        if s.fileOffset > (kTSPacketSize : Int) ∧
            s.fileOffset - (kTSPacketSize : Int) > stream.mFirstPTSOffset then
          findOffsetLoop env stream so p fuel
            { s with currPTS := (env.parseTSToGetPTS (env.readAt s.fileOffset kTSPacketSize).2
                                  stream.mStreamPID s.currPTS).2,
                     reads := s.reads ++ [s.fileOffset],
                     fileOffset := s.fileOffset - (kTSPacketSize : Int) }
        else .ret (seekFound p
            { s with currPTS := (env.parseTSToGetPTS (env.readAt s.fileOffset kTSPacketSize).2
                                  stream.mStreamPID s.currPTS).2,
                     reads := s.reads ++ [s.fileOffset],
                     fileOffset := stream.mFirstPTSOffset })
      else
        if s.fileOffset + (kTSPacketSize : Int) ≤ stream.mLastPTSOffset then
          findOffsetLoop env stream so p fuel
            { s with currPTS := (env.parseTSToGetPTS (env.readAt s.fileOffset kTSPacketSize).2
                                  stream.mStreamPID s.currPTS).2,
                     reads := s.reads ++ [s.fileOffset],
                     fileOffset := s.fileOffset + (kTSPacketSize : Int) }
        else .ret (seekFound p
            { s with currPTS := (env.parseTSToGetPTS (env.readAt s.fileOffset kTSPacketSize).2
                                  stream.mStreamPID s.currPTS).2,
                     reads := s.reads ++ [s.fileOffset],
                     fileOffset := stream.mLastPTSOffset })) := by
  obtain ⟨hread, hparse⟩ := hc
  have hp := hparse s.currPTS
  simp only at hp
  have hr : ¬ ((env.readAt s.fileOffset kTSPacketSize).1 ≤ 0 ∨
      (env.readAt s.fileOffset kTSPacketSize).1 < (kTSPacketSize : Int)) := by
    simp only [kTSPacketSize] at hread ⊢
    omega
  rw [findOffsetLoop]
  simp only [hr, if_false, hp.1, hp.2, false_and]

/-- One turn of the search loop on a packet that carries the PTS sought. -/
theorem findOffsetLoop_hit (env : TSEnv) (stream : StreamInfo) (so : Int) (p fuel : Nat)
    (s : SeekState) (hc : Carries env stream.mStreamPID s.fileOffset (some p))
    (hprev : s.prevPTS ≠ p) :
    findOffsetLoop env stream so p (fuel + 1) s
      = .ret { status := status_t.OK, seekOffset := s.fileOffset,
               reads := s.reads ++ [s.fileOffset] } := by
  obtain ⟨hread, hparse⟩ := hc
  have hp := hparse s.currPTS
  simp only at hp
  have hr : ¬ ((env.readAt s.fileOffset kTSPacketSize).1 ≤ 0 ∨
      (env.readAt s.fileOffset kTSPacketSize).1 < (kTSPacketSize : Int)) := by
    simp only [kTSPacketSize] at hread ⊢
    omega
  have hd : status_t.OK ≠ status_t.DEAD_OBJECT := by decide
  rw [findOffsetLoop]
  simp only [hr, if_false, hp, hd, true_and, true_or, if_true, seekFound, Nat.lt_irrefl,
    Nat.sub_self]
  have hlt : 0 < (if p < s.prevPTS then s.prevPTS - p else p - s.prevPTS) := by
    split <;> omega
  simp [hlt]

/-- One turn of the search loop on a packet that carries a PTS other than
the one sought, when the sought PTS does not lie between it and the previous
one. -/
theorem findOffsetLoop_pts (env : TSEnv) (stream : StreamInfo) (so : Int) (p fuel q : Nat)
    (s : SeekState) (hc : Carries env stream.mStreamPID s.fileOffset (some q))
    (hq : q ≠ p)
    (hbetween : ¬ (s.prevOffset ≠ 0 ∧ ((p < q ∧ p > s.prevPTS) ∨ (p > q ∧ p < s.prevPTS)))) :
    findOffsetLoop env stream so p (fuel + 1) s =
      (if q < p then
        if s.fileOffset + (kTSPacketSize : Int) ≤ stream.mLastPTSOffset then
          findOffsetLoop env stream so p fuel
            { currPTS := q, prevPTS := q, prevOffset := s.fileOffset, searchBack := false,
              reads := s.reads ++ [s.fileOffset],
              fileOffset := s.fileOffset + (kTSPacketSize : Int) }
        else .ret (seekFound p
            { currPTS := q, prevPTS := q, prevOffset := s.fileOffset, searchBack := false,
              reads := s.reads ++ [s.fileOffset], fileOffset := stream.mLastPTSOffset })
      else
        if s.fileOffset > (kTSPacketSize : Int) ∧
            s.fileOffset - (kTSPacketSize : Int) > stream.mFirstPTSOffset then
          findOffsetLoop env stream so p fuel
            { currPTS := q, prevPTS := q, prevOffset := s.fileOffset, searchBack := true,
              reads := s.reads ++ [s.fileOffset],
              fileOffset := s.fileOffset - (kTSPacketSize : Int) }
        else .ret (seekFound p
            { currPTS := q, prevPTS := q, prevOffset := s.fileOffset, searchBack := true,
              reads := s.reads ++ [s.fileOffset], fileOffset := stream.mFirstPTSOffset })) := by
  obtain ⟨hread, hparse⟩ := hc
  have hp := hparse s.currPTS
  simp only at hp
  have hr : ¬ ((env.readAt s.fileOffset kTSPacketSize).1 ≤ 0 ∨
      (env.readAt s.fileOffset kTSPacketSize).1 < (kTSPacketSize : Int)) := by
    simp only [kTSPacketSize] at hread ⊢
    omega
  have hd : status_t.OK ≠ status_t.DEAD_OBJECT := by decide
  have hpq : ¬ p = q := fun h => hq h.symm
  have hnf : ¬ (p = q ∨ s.prevOffset ≠ 0 ∧ ((p < q ∧ p > s.prevPTS) ∨ (p > q ∧ p < s.prevPTS))) := by
    intro h
    rcases h with h | h
    · exact hpq h
    · exact hbetween h
  rw [findOffsetLoop]
  simp only [hr, if_false, hp, hd, true_and, hnf, if_true]
  by_cases hlt : q < p
  · simp [hlt]
  · simp [hlt]

/-! ### The walk of `findOffsetForPTS` on a grid with ascending PTS

The walk has three phases: away from the target while no PTS was seen
(forward only), forward towards the target, and backward towards the
target.  Each ends with OK at the offset of a slot that carries `p`. -/

theorem seek_back_phase (env : TSEnv) (stream : StreamInfo) (n : Nat) (pts : Nat → Option Nat)
    (g : SeekGrid env stream n pts) (so : Int) (p ko : Nat)
    (hko : 1 ≤ ko) (hp : pts ko = some p) :
    ∀ (d : Nat) (s : SeekState) (fuel : Nat), ko + d ≤ n →
      s.fileOffset = stream.mFirstPTSOffset + 188 * ((ko + d : Nat) : Int) →
      s.searchBack = true → p < s.prevPTS → d + 1 ≤ fuel →
      ∃ res j, findOffsetLoop env stream so p fuel s = .ret res ∧
        res.status = status_t.OK ∧
        res.seekOffset = stream.mFirstPTSOffset + 188 * ((j : Nat) : Int) ∧
        1 ≤ j ∧ j ≤ n ∧ pts j = some p := by
  intro d
  induction d with
  | zero =>
    intro s fuel hn hoff _ hprev hfuel
    obtain ⟨fuel', rfl⟩ : ∃ f, fuel = f + 1 := ⟨fuel - 1, by omega⟩
    have hc := g.carries ko hko (by omega)
    rw [hp] at hc
    rw [Nat.add_zero] at hoff
    rw [← hoff] at hc
    rw [findOffsetLoop_hit env stream so p fuel' s hc (by omega)]
    exact ⟨_, ko, rfl, rfl, hoff, hko, by omega, hp⟩
  | succ d ih =>
    intro s fuel hn hoff hback hprev hfuel
    obtain ⟨fuel', rfl⟩ : ∃ f, fuel = f + 1 := ⟨fuel - 1, by omega⟩
    have hF := g.first_nonneg
    have hc := g.carries (ko + (d + 1)) (by omega) hn
    rw [← hoff] at hc
    have hstep : s.fileOffset > (kTSPacketSize : Int) ∧
        s.fileOffset - (kTSPacketSize : Int) > stream.mFirstPTSOffset := by
      simp only [kTSPacketSize]
      push_cast at hoff ⊢
      omega
    have hoff' : s.fileOffset - (kTSPacketSize : Int)
        = stream.mFirstPTSOffset + 188 * ((ko + d : Nat) : Int) := by
      simp only [kTSPacketSize]
      push_cast at hoff ⊢
      omega
    cases hv : pts (ko + (d + 1)) with
    | none =>
      rw [hv] at hc
      rw [findOffsetLoop_skip env stream so p fuel' s hc, hback]
      simp only [if_true, hstep, and_self]
      exact ih _ fuel' (by omega) hoff' rfl hprev (by omega)
    | some q =>
      rw [hv] at hc
      have hqp : p ≤ q := g.mono ko (ko + (d + 1)) p q hko (by omega) hn hp hv
      by_cases heq : q = p
      · subst heq
        rw [findOffsetLoop_hit env stream so q fuel' s hc (by omega)]
        exact ⟨_, ko + (d + 1), rfl, rfl, hoff, by omega, hn, hv⟩
      · have hb : ¬ (s.prevOffset ≠ 0 ∧ ((p < q ∧ p > s.prevPTS) ∨ (p > q ∧ p < s.prevPTS))) := by
          intro h
          omega
        have hlt : ¬ q < p := by omega
        rw [findOffsetLoop_pts env stream so p fuel' q s hc heq hb, if_neg hlt, if_pos hstep]
        exact ih _ fuel' (by omega) hoff' rfl (by simp only; omega) (by omega)

theorem seek_forward_phase (env : TSEnv) (stream : StreamInfo) (n : Nat)
    (pts : Nat → Option Nat) (g : SeekGrid env stream n pts) (so : Int) (p ko : Nat)
    (hkon : ko < n) (hp : pts ko = some p) :
    ∀ (d : Nat) (k : Nat) (s : SeekState) (fuel : Nat), k + d = ko → 1 ≤ k →
      s.fileOffset = stream.mFirstPTSOffset + 188 * ((k : Nat) : Int) →
      s.searchBack = false → s.prevPTS < p → d + 1 ≤ fuel →
      ∃ res j, findOffsetLoop env stream so p fuel s = .ret res ∧
        res.status = status_t.OK ∧
        res.seekOffset = stream.mFirstPTSOffset + 188 * ((j : Nat) : Int) ∧
        1 ≤ j ∧ j ≤ n ∧ pts j = some p := by
  intro d
  induction d with
  | zero =>
    intro k s fuel hk hk1 hoff _ hprev hfuel
    obtain ⟨fuel', rfl⟩ : ∃ f, fuel = f + 1 := ⟨fuel - 1, by omega⟩
    have hkk : k = ko := by omega
    subst hkk
    have hc := g.carries k hk1 (by omega)
    rw [hp, ← hoff] at hc
    rw [findOffsetLoop_hit env stream so p fuel' s hc (by omega)]
    exact ⟨_, k, rfl, rfl, hoff, hk1, by omega, hp⟩
  | succ d ih =>
    intro k s fuel hk hk1 hoff hfw hprev hfuel
    obtain ⟨fuel', rfl⟩ : ∃ f, fuel = f + 1 := ⟨fuel - 1, by omega⟩
    have hc := g.carries k hk1 (by omega)
    rw [← hoff] at hc
    have hL := g.last_offset
    have hstep : s.fileOffset + (kTSPacketSize : Int) ≤ stream.mLastPTSOffset := by
      simp only [kTSPacketSize]
      rw [hL, hoff]
      push_cast
      omega
    have hoff' : s.fileOffset + (kTSPacketSize : Int)
        = stream.mFirstPTSOffset + 188 * ((k + 1 : Nat) : Int) := by
      simp only [kTSPacketSize]
      rw [hoff]
      push_cast
      omega
    have hfalse : (false = true) = False := by simp
    cases hv : pts k with
    | none =>
      rw [hv] at hc
      rw [findOffsetLoop_skip env stream so p fuel' s hc, hfw]
      simp only [hfalse, if_false, hstep, if_true]
      exact ih (k + 1) _ fuel' (by omega) (by omega) hoff' rfl hprev (by omega)
    | some q =>
      rw [hv] at hc
      have hqp : q ≤ p := g.mono k ko q p hk1 (by omega) (by omega) hv hp
      by_cases heq : q = p
      · subst heq
        rw [findOffsetLoop_hit env stream so q fuel' s hc (by omega)]
        exact ⟨_, k, rfl, rfl, hoff, hk1, by omega, hv⟩
      · have hb : ¬ (s.prevOffset ≠ 0 ∧ ((p < q ∧ p > s.prevPTS) ∨ (p > q ∧ p < s.prevPTS))) := by
          intro h
          omega
        have hlt : q < p := by omega
        rw [findOffsetLoop_pts env stream so p fuel' q s hc heq hb, if_pos hlt, if_pos hstep]
        exact ih (k + 1) _ fuel' (by omega) (by omega) hoff' rfl (by simp only; omega)
          (by omega)

theorem seek_away_phase (env : TSEnv) (stream : StreamInfo) (n : Nat)
    (pts : Nat → Option Nat) (g : SeekGrid env stream n pts) (so : Int) (p ko : Nat)
    (hko : 1 ≤ ko) (hkon : ko < n) (hp : pts ko = some p) (hp0 : 0 < p) :
    ∀ (d : Nat) (k : Nat) (s : SeekState) (fuel : Nat), k + d = n → ko ≤ k →
      s.fileOffset = stream.mFirstPTSOffset + 188 * ((k : Nat) : Int) →
      s.searchBack = false → s.prevOffset = 0 → s.prevPTS = 0 →
      (d + 1) + (n - ko + 1) ≤ fuel →
      ∃ res j, findOffsetLoop env stream so p fuel s = .ret res ∧
        res.status = status_t.OK ∧
        res.seekOffset = stream.mFirstPTSOffset + 188 * ((j : Nat) : Int) ∧
        1 ≤ j ∧ j ≤ n ∧ pts j = some p := by
  intro d
  induction d with
  | zero =>
    intro k s fuel hk hkk hoff hfw hpo hpp hfuel
    obtain ⟨fuel', rfl⟩ : ∃ f, fuel = f + 1 := ⟨fuel - 1, by omega⟩
    have hkn : k = n := by omega
    subst hkn
    have hF := g.first_nonneg
    have hc := g.carries k (by omega) (Nat.le_refl _)
    rw [← hoff] at hc
    cases hv : pts k with
    | none => exact absurd hv g.last_carries
    | some q =>
      rw [hv] at hc
      have hqp : p ≤ q := g.mono ko k p q hko hkk (Nat.le_refl _) hp hv
      by_cases heq : q = p
      · subst heq
        rw [findOffsetLoop_hit env stream so q fuel' s hc (by omega)]
        exact ⟨_, k, rfl, rfl, hoff, by omega, Nat.le_refl _, hv⟩
      · have hb : ¬ (s.prevOffset ≠ 0 ∧ ((p < q ∧ p > s.prevPTS) ∨ (p > q ∧ p < s.prevPTS))) := by
          intro h
          exact h.1 hpo
        have hlt : ¬ q < p := by omega
        have hstep : s.fileOffset > (kTSPacketSize : Int) ∧
            s.fileOffset - (kTSPacketSize : Int) > stream.mFirstPTSOffset := by
          simp only [kTSPacketSize]
          push_cast at hoff ⊢
          omega
        rw [findOffsetLoop_pts env stream so p fuel' q s hc heq hb, if_neg hlt, if_pos hstep]
        obtain ⟨e, he⟩ : ∃ e, k - 1 = ko + e := ⟨k - 1 - ko, by omega⟩
        refine seek_back_phase env stream k pts g so p ko hko hp e _ fuel' (by omega) ?_ rfl
          (by simp only; omega) (by omega)
        simp only [kTSPacketSize]
        rw [hoff, ← he]
        push_cast
        omega
  | succ d ih =>
    intro k s fuel hk hkk hoff hfw hpo hpp hfuel
    obtain ⟨fuel', rfl⟩ : ∃ f, fuel = f + 1 := ⟨fuel - 1, by omega⟩
    have hF := g.first_nonneg
    have hL := g.last_offset
    by_cases hkko : k = ko
    · subst hkko
      have hc := g.carries k hko (by omega)
      rw [hp, ← hoff] at hc
      rw [findOffsetLoop_hit env stream so p fuel' s hc (by omega)]
      exact ⟨_, k, rfl, rfl, hoff, hko, by omega, hp⟩
    · have hc := g.carries k (by omega) (by omega)
      rw [← hoff] at hc
      have hfalse : (false = true) = False := by simp
      have hfwd : s.fileOffset + (kTSPacketSize : Int) ≤ stream.mLastPTSOffset := by
        simp only [kTSPacketSize]
        rw [hL, hoff]
        push_cast
        omega
      have hoffF : s.fileOffset + (kTSPacketSize : Int)
          = stream.mFirstPTSOffset + 188 * ((k + 1 : Nat) : Int) := by
        simp only [kTSPacketSize]
        rw [hoff]
        push_cast
        omega
      cases hv : pts k with
      | none =>
        rw [hv] at hc
        rw [findOffsetLoop_skip env stream so p fuel' s hc, hfw]
        simp only [hfalse, if_false, hfwd, if_true]
        exact ih (k + 1) _ fuel' (by omega) (by omega) hoffF rfl hpo hpp (by omega)
      | some q =>
        rw [hv] at hc
        have hqp : p ≤ q := g.mono ko k p q hko hkk (by omega) hp hv
        by_cases heq : q = p
        · subst heq
          rw [findOffsetLoop_hit env stream so q fuel' s hc (by omega)]
          exact ⟨_, k, rfl, rfl, hoff, by omega, by omega, hv⟩
        · have hb : ¬ (s.prevOffset ≠ 0 ∧
              ((p < q ∧ p > s.prevPTS) ∨ (p > q ∧ p < s.prevPTS))) := by
            intro h
            exact h.1 hpo
          have hlt : ¬ q < p := by omega
          have hstep : s.fileOffset > (kTSPacketSize : Int) ∧
              s.fileOffset - (kTSPacketSize : Int) > stream.mFirstPTSOffset := by
            simp only [kTSPacketSize]
            push_cast at hoff ⊢
            omega
          rw [findOffsetLoop_pts env stream so p fuel' q s hc heq hb, if_neg hlt, if_pos hstep]
          obtain ⟨e, he⟩ : ∃ e, k - 1 = ko + e := ⟨k - 1 - ko, by omega⟩
          refine seek_back_phase env stream n pts g so p ko hko hp e _ fuel' (by omega) ?_ rfl
            (by simp only; omega) (by omega)
          simp only [kTSPacketSize]
          rw [hoff, ← he]
          push_cast
          omega

/-- C7, amended: let the stream lie on the packet grid (`SeekGrid`: slots
`1 .. n` from the first to the last PTS offset, all readable, none reported
as DEAD_OBJECT, PTS values not decreasing along the grid, the last slot
carrying a PTS), let slot `ko`, strictly inside, carry `p` with
`mFirstPTS < p < mLastPTS`, and let the seed be on the grid or outside the
range.  Then `findOffsetForPTS(seed, p)` returns OK, given fuel `2 * n`, with
the offset of a slot whose packet yields exactly PTS `p`. -/
theorem findOffsetForPTS_finds_carried_pts (env : TSEnv) (stream : StreamInfo) (n : Nat)
    (pts : Nat → Option Nat) (g : SeekGrid env stream n pts) (p ko : Nat) (seed : Int)
    (fuel : Nat)
    (hko : 1 ≤ ko) (hkon : ko < n) (hp : pts ko = some p)
    (hfirst : stream.mFirstPTS < p) (hlast : p < stream.mLastPTS)
    (hseed : seed ≤ stream.mFirstPTSOffset ∨ stream.mLastPTSOffset ≤ seed ∨
      ∃ ks : Nat, seed = stream.mFirstPTSOffset + 188 * (ks : Int))
    (hfuel : 2 * n ≤ fuel) :
    ∃ res j, findOffsetForPTS env stream fuel seed p = .ret res ∧
      res.status = status_t.OK ∧
      res.seekOffset = stream.mFirstPTSOffset + 188 * ((j : Nat) : Int) ∧
      1 ≤ j ∧ j ≤ n ∧ pts j = some p ∧
      ∀ pts0, env.parseTSToGetPTS (env.readAt res.seekOffset kTSPacketSize).2
          stream.mStreamPID pts0 = (status_t.OK, p) := by
  have hF := g.first_nonneg
  have hL := g.last_offset
  have key : ∃ res j, findOffsetLoop env stream seed p fuel (seekStart stream seed) = .ret res ∧
      res.status = status_t.OK ∧
      res.seekOffset = stream.mFirstPTSOffset + 188 * ((j : Nat) : Int) ∧
      1 ≤ j ∧ j ≤ n ∧ pts j = some p := by
    by_cases h1 : seed ≥ stream.mLastPTSOffset
    · -- the probe starts one slot before the last PTS offset and walks back
      have hnot : ¬ stream.mLastPTSOffset - (kTSPacketSize : Int) ≤ stream.mFirstPTSOffset := by
        simp only [kTSPacketSize]
        rw [hL]
        push_cast
        omega
      obtain ⟨e, he⟩ : ∃ e, n - 1 = ko + e := ⟨n - 1 - ko, by omega⟩
      have hstart : seekStart stream seed =
          { currPTS := 0, prevPTS := stream.mLastPTS,
            fileOffset := stream.mLastPTSOffset - (kTSPacketSize : Int),
            prevOffset := stream.mLastPTSOffset, searchBack := true, reads := [] } := by
        simp only [seekStart, h1, if_true, hnot, if_false]
      rw [hstart]
      refine seek_back_phase env stream n pts g seed p ko hko hp e _ fuel (by omega) ?_ rfl
        hlast (by omega)
      simp only [kTSPacketSize]
      rw [hL, ← he]
      push_cast
      omega
    · by_cases h2 : seed ≤ stream.mFirstPTSOffset
      · -- the probe starts one slot after the first PTS offset and walks forward
        have hstart : seekStart stream seed =
            { currPTS := 0, prevPTS := stream.mFirstPTS,
              fileOffset := stream.mFirstPTSOffset + (kTSPacketSize : Int),
              prevOffset := stream.mFirstPTSOffset, searchBack := false, reads := [] } := by
          simp only [seekStart, h1, if_false, h2, if_true]
        rw [hstart]
        refine seek_forward_phase env stream n pts g seed p ko hkon hp (ko - 1) 1 _ fuel
          (by omega) (Nat.le_refl _) ?_ rfl hfirst (by omega)
        simp only [kTSPacketSize]
        push_cast
        omega
      · -- the seed is a slot strictly inside the range
        have hstart : seekStart stream seed =
            { currPTS := 0, prevPTS := 0, fileOffset := seed, prevOffset := 0,
              searchBack := false, reads := [] } := by
          simp only [seekStart, h1, if_false, h2]
        rw [hstart]
        rcases hseed with h | h | ⟨ks, hks⟩
        · exact absurd h h2
        · exact absurd h h1
        · have hks1 : 1 ≤ ks := by
            by_contra hc
            have : ks = 0 := by omega
            subst this
            simp at hks
            omega
          have hksn : ks < n := by
            by_contra hc
            rw [hL, hks] at h1
            omega
          by_cases hle : ks ≤ ko
          · exact seek_forward_phase env stream n pts g seed p ko hkon hp (ko - ks) ks _ fuel
              (by omega) hks1 hks rfl (by simp only; omega) (by omega)
          · exact seek_away_phase env stream n pts g seed p ko hko hkon hp (by omega)
              (n - ks) ks _ fuel (by omega) (by omega) hks rfl rfl rfl (by omega)
  obtain ⟨res, j, hres, hst, hoff, hj1, hjn, hj⟩ := key
  refine ⟨res, j, ?_, hst, hoff, hj1, hjn, hj, ?_⟩
  · have hn1 : ¬ p ≤ stream.mFirstPTS := by omega
    have hn2 : ¬ p ≥ stream.mLastPTS := by omega
    simp only [findOffsetForPTS, hn1, if_false, hn2]
    exact hres
  · intro pts0
    have hc := g.carries j hj1 hjn
    rw [hj, ← hoff] at hc
    exact hc.2 pts0

theorem orderedEnv_grid : SeekGrid orderedEnv jumbledStream 8 orderedPts := by
  refine ⟨by decide, by decide, ?_, ?_, by decide⟩
  · intro k hk1 hk8
    have hk : k = 1 ∨ k = 2 ∨ k = 3 ∨ k = 4 ∨ k = 5 ∨ k = 6 ∨ k = 7 ∨ k = 8 := by omega
    rcases hk with h | h | h | h | h | h | h | h <;> subst h <;>
      refine ⟨by decide, fun pts0 => ?_⟩ <;>
      simp [orderedPts, orderedEnv, jumbledStream, packetSource, tableParser, kTSPacketSize,
        List.lookup]
  · intro i j a b hi hij hj ha hb
    have hi' : i = 1 ∨ i = 2 ∨ i = 3 ∨ i = 4 ∨ i = 5 ∨ i = 6 ∨ i = 7 ∨ i = 8 := by omega
    have hj' : j = 1 ∨ j = 2 ∨ j = 3 ∨ j = 4 ∨ j = 5 ∨ j = 6 ∨ j = 7 ∨ j = 8 := by omega
    rcases hi' with h | h | h | h | h | h | h | h <;> subst h <;>
      rcases hj' with h | h | h | h | h | h | h | h <;> subst h <;>
      simp [orderedPts] at ha hb <;> omega

theorem findOffsetForPTS_finds_carried_pts_witness :
    SeekGrid orderedEnv jumbledStream 8 orderedPts ∧ orderedPts 2 = some 1500 ∧
    jumbledStream.mFirstPTS < 1500 ∧ 1500 < jumbledStream.mLastPTS ∧
    (∃ res j, findOffsetForPTS orderedEnv jumbledStream 16 1128 1500 = .ret res ∧
      res.status = status_t.OK ∧
      res.seekOffset = jumbledStream.mFirstPTSOffset + 188 * ((j : Nat) : Int) ∧
      1 ≤ j ∧ j ≤ 8 ∧ orderedPts j = some 1500 ∧
      ∀ pts0, orderedEnv.parseTSToGetPTS (orderedEnv.readAt res.seekOffset kTSPacketSize).2
          jumbledStream.mStreamPID pts0 = (status_t.OK, 1500)) :=
  ⟨orderedEnv_grid, by decide, by decide, by decide,
    findOffsetForPTS_finds_carried_pts orderedEnv jumbledStream 8 orderedPts orderedEnv_grid
      1500 2 1128 16 (by decide) (by decide) (by decide) (by decide) (by decide)
      (Or.inr (Or.inr ⟨5, by decide⟩)) (by decide)⟩

/-! ## The loaders are load-once -/

theorem ret_ok_inv {t1 t' : SampleTable} {st : status_t}
    (h : (Run.ret (st, t1) : Run (status_t × SampleTable)) = .ret (status_t.OK, t')) :
    st = status_t.OK ∧ t1 = t' := by
  simp only [Run.ret.injEq, Prod.mk.injEq] at h
  exact h

theorem ite_run_cases {α : Type} {c : Prop} [Decidable c] {a b r : Run α}
    (h : (if c then a else b) = r) : (c ∧ a = r) ∨ (¬ c ∧ b = r) := by
  by_cases hc : c
  · rw [if_pos hc] at h; exact Or.inl ⟨hc, h⟩
  · rw [if_neg hc] at h; exact Or.inr ⟨hc, h⟩

theorem bind_ok_field {α : Type} (x : Run α) (f : α → status_t × SampleTable)
    (P : SampleTable → Prop) (hP : ∀ r, P (f r).2) {t' : SampleTable}
    (h : x.bind (fun r => Run.ret (f r)) = .ret (status_t.OK, t')) : P t' := by
  cases hx : x with
  | ret r =>
    rw [hx, Run.bind_ret] at h
    have h2 := hP r
    have h3 : f r = (status_t.OK, t') := by
      simp only [Run.ret.injEq] at h
      exact h
    rw [h3] at h2
    exact h2
  | abort => rw [hx] at h; cases h
  | ub => rw [hx] at h; cases h
  | timeout => rw [hx] at h; cases h

theorem setChunkOffsetParams_ok (src : DataSource) (t t' : SampleTable) (type : Nat)
    (data_offset : Int) (data_size : Nat)
    (h : t.setChunkOffsetParams src type data_offset data_size = .ret (status_t.OK, t')) :
    t'.mChunkOffsetOffset = data_offset := by
  unfold SampleTable.setChunkOffsetParams at h
  simp only at h
  repeat' first
    | exact absurd (ret_ok_inv h).1 (by decide)
    | rw [← (ret_ok_inv h).2]
    | cases h
    | obtain ⟨-, h⟩ | ⟨-, h⟩ := ite_run_cases h

theorem setSampleToChunkParams_ok (src : DataSource) (t t' : SampleTable)
    (data_offset : Int) (data_size : Nat)
    (h : t.setSampleToChunkParams src data_offset data_size = .ret (status_t.OK, t')) :
    t'.mSampleToChunkOffset = data_offset := by
  unfold SampleTable.setSampleToChunkParams at h
  simp only at h
  repeat' first
    | exact absurd (ret_ok_inv h).1 (by decide)
    | exact bind_ok_field _ _ (fun s => s.mSampleToChunkOffset = data_offset) (fun _ => rfl) h
    | cases h
    | obtain ⟨-, h⟩ | ⟨-, h⟩ := ite_run_cases h

theorem setSampleSizeParams_ok (src : DataSource) (t t' : SampleTable) (type : Nat)
    (data_offset : Int) (data_size : Nat)
    (h : t.setSampleSizeParams src type data_offset data_size = .ret (status_t.OK, t')) :
    t'.mSampleSizeOffset = data_offset := by
  unfold SampleTable.setSampleSizeParams at h
  simp only at h
  repeat' first
    | exact absurd (ret_ok_inv h).1 (by decide)
    | rw [← (ret_ok_inv h).2]
    | cases h
    | obtain ⟨-, h⟩ | ⟨-, h⟩ := ite_run_cases h

theorem setTimeToSampleParams_ok (src : DataSource) (t t' : SampleTable)
    (data_offset : Int) (data_size : Nat)
    (h : t.setTimeToSampleParams src data_offset data_size = .ret (status_t.OK, t')) :
    t'.mTimeToSample ≠ none := by
  unfold SampleTable.setTimeToSampleParams at h
  simp only at h
  repeat' first
    | exact absurd (ret_ok_inv h).1 (by decide)
    | (rw [← (ret_ok_inv h).2]; exact fun e => Option.noConfusion e)
    | cases h
    | obtain ⟨-, h⟩ | ⟨-, h⟩ := ite_run_cases h

theorem setCompositionTimeToSampleParams_ok (src : DataSource) (t t' : SampleTable)
    (data_offset : Int) (data_size : Nat)
    (h : t.setCompositionTimeToSampleParams src data_offset data_size
      = .ret (status_t.OK, t')) :
    t'.mCompositionTimeDeltaEntries ≠ none := by
  unfold SampleTable.setCompositionTimeToSampleParams at h
  simp only at h
  repeat' first
    | exact absurd (ret_ok_inv h).1 (by decide)
    | (rw [← (ret_ok_inv h).2]; exact fun e => Option.noConfusion e)
    | cases h
    | obtain ⟨-, h⟩ | ⟨-, h⟩ := ite_run_cases h

theorem setSyncSampleParams_ok (src : DataSource) (t t' : SampleTable)
    (data_offset : Int) (data_size : Nat)
    (h : t.setSyncSampleParams src data_offset data_size = .ret (status_t.OK, t')) :
    t'.mSyncSampleOffset = data_offset := by
  unfold SampleTable.setSyncSampleParams at h
  simp only at h
  repeat' first
    | exact absurd (ret_ok_inv h).1 (by decide)
    | rw [← (ret_ok_inv h).2]
    | cases h
    | obtain ⟨-, h⟩ | ⟨-, h⟩ := ite_run_cases h

/-- C10: each of the six loaders is load-once.  After a call that returned
OK (with a non-negative `data_offset` for the loaders whose guard is the
stored offset), every later call to the same loader, with any byte source and
any arguments, returns ERROR_MALFORMED and leaves the table as it was. -/
theorem loaders_load_once (src : DataSource) (t t' : SampleTable) (type : Nat)
    (data_offset : Int) (data_size : Nat) (hoff : 0 ≤ data_offset) :
    (t.setChunkOffsetParams src type data_offset data_size = .ret (status_t.OK, t') →
      ∀ src2 type2 offset2 size2,
        t'.setChunkOffsetParams src2 type2 offset2 size2
          = .ret (status_t.ERROR_MALFORMED, t')) ∧
    (t.setSampleToChunkParams src data_offset data_size = .ret (status_t.OK, t') →
      ∀ src2 offset2 size2,
        t'.setSampleToChunkParams src2 offset2 size2 = .ret (status_t.ERROR_MALFORMED, t')) ∧
    (t.setSampleSizeParams src type data_offset data_size = .ret (status_t.OK, t') →
      ∀ src2 type2 offset2 size2,
        t'.setSampleSizeParams src2 type2 offset2 size2
          = .ret (status_t.ERROR_MALFORMED, t')) ∧
    (t.setTimeToSampleParams src data_offset data_size = .ret (status_t.OK, t') →
      ∀ src2 offset2 size2,
        t'.setTimeToSampleParams src2 offset2 size2 = .ret (status_t.ERROR_MALFORMED, t')) ∧
    (t.setCompositionTimeToSampleParams src data_offset data_size = .ret (status_t.OK, t') →
      ∀ src2 offset2 size2,
        t'.setCompositionTimeToSampleParams src2 offset2 size2
          = .ret (status_t.ERROR_MALFORMED, t')) ∧
    (t.setSyncSampleParams src data_offset data_size = .ret (status_t.OK, t') →
      ∀ src2 offset2 size2,
        t'.setSyncSampleParams src2 offset2 size2 = .ret (status_t.ERROR_MALFORMED, t')) := by
  refine ⟨?_, ?_, ?_, ?_, ?_, ?_⟩
  · intro h src2 type2 offset2 size2
    have hg := setChunkOffsetParams_ok src t t' type data_offset data_size h
    have : t'.mChunkOffsetOffset ≥ 0 := by omega
    simp [SampleTable.setChunkOffsetParams, this]
  · intro h src2 offset2 size2
    have hg := setSampleToChunkParams_ok src t t' data_offset data_size h
    have : t'.mSampleToChunkOffset ≥ 0 := by omega
    simp [SampleTable.setSampleToChunkParams, this]
  · intro h src2 type2 offset2 size2
    have hg := setSampleSizeParams_ok src t t' type data_offset data_size h
    have : t'.mSampleSizeOffset ≥ 0 := by omega
    simp [SampleTable.setSampleSizeParams, this]
  · intro h src2 offset2 size2
    have hg := setTimeToSampleParams_ok src t t' data_offset data_size h
    simp [SampleTable.setTimeToSampleParams, hg]
  · intro h src2 offset2 size2
    have hg := setCompositionTimeToSampleParams_ok src t t' data_offset data_size h
    simp [SampleTable.setCompositionTimeToSampleParams, hg]
  · intro h src2 offset2 size2
    have hg := setSyncSampleParams_ok src t t' data_offset data_size h
    have : t'.mSyncSampleOffset ≥ 0 := by omega
    simp [SampleTable.setSyncSampleParams, this]

theorem loaders_load_once_witness :
    (0 : Int) ≤ 0 ∧
    SampleTable.new.setTimeToSampleParams (bytesSource sttsBox) 0 24
      = .ret (status_t.OK, sttsLoadedTable) ∧
    (∀ src2 offset2 size2,
      sttsLoadedTable.setTimeToSampleParams src2 offset2 size2
        = .ret (status_t.ERROR_MALFORMED, sttsLoadedTable)) ∧
    SampleTable.new.setChunkOffsetParams
        (bytesSource [0, 0, 0, 0, 0, 0, 0, 1, 0, 0, 0, 100]) kChunkOffsetType32 0 12
      = .ret (status_t.OK, stcoLoadedTable) ∧
    (∀ src2 type2 offset2 size2,
      stcoLoadedTable.setChunkOffsetParams src2 type2 offset2 size2
        = .ret (status_t.ERROR_MALFORMED, stcoLoadedTable)) :=
  ⟨by decide, by decide,
    (loaders_load_once (bytesSource sttsBox) SampleTable.new sttsLoadedTable 0 0 24
      (by decide)).2.2.2.1 (by decide),
    by decide,
    (loaders_load_once (bytesSource [0, 0, 0, 0, 0, 0, 0, 1, 0, 0, 0, 100]) SampleTable.new
      stcoLoadedTable kChunkOffsetType32 0 12 (by decide)).1 (by decide)⟩

/-! ## The size checks of the loaders -/

/-- Where `8 + entry_count * w` stays below 2^32, a first call of
`setChunkOffsetParams` with a readable header returns OK exactly when
`data_size >= 8`, the version/flags word is 0 and
`data_size >= 8 + entry_count * w`, and ERROR_MALFORMED otherwise. -/
theorem setChunkOffsetParams_of_no_wrap (src : DataSource) (t : SampleTable) (type : Nat)
    (data_offset : Int) (data_size : Nat)
    (hfirst : t.mChunkOffsetOffset < 0)
    (htype : type = kChunkOffsetType32 ∨ type = kChunkOffsetType64)
    (hread : 8 ≤ (src.readAt data_offset 8).1)
    (hwrap : 8 + U32_AT (src.readAt data_offset 8).2 4
        * (if type = kChunkOffsetType32 then 4 else 8) < 4294967296) :
    ∃ t', t.setChunkOffsetParams src type data_offset data_size
      = .ret (if 8 ≤ data_size ∧ U32_AT (src.readAt data_offset 8).2 0 = 0
                ∧ 8 + U32_AT (src.readAt data_offset 8).2 4
                    * (if type = kChunkOffsetType32 then 4 else 8) ≤ data_size
              then status_t.OK else status_t.ERROR_MALFORMED, t') := by
  unfold SampleTable.setChunkOffsetParams
  rw [if_neg (by omega), if_neg (not_not.2 htype)]
  simp only
  by_cases c1 : data_size < 8
  · rw [if_pos c1, if_neg (by omega)]
    exact ⟨_, rfl⟩
  rw [if_neg c1, if_neg (by omega)]
  by_cases c2 : U32_AT (src.readAt data_offset 8).2 0 ≠ 0
  · rw [if_pos c2, if_neg (fun h => c2 h.2.1)]
    exact ⟨_, rfl⟩
  rw [if_neg c2]
  have c2' : U32_AT (src.readAt data_offset 8).2 0 = 0 := not_not.1 c2
  by_cases c3 : type = kChunkOffsetType32
  · rw [if_pos c3] at hwrap
    rw [if_pos c3, if_pos c3]
    by_cases c4 : data_size < (8 + U32_AT (src.readAt data_offset 8).2 4 * 4 % 4294967296)
        % 4294967296
    · rw [if_pos c4, if_neg (by omega)]
      exact ⟨_, rfl⟩
    · rw [if_neg c4, if_pos (by omega)]
      exact ⟨_, rfl⟩
  · rw [if_neg c3] at hwrap
    rw [if_neg c3, if_neg c3]
    by_cases c4 : data_size < (8 + U32_AT (src.readAt data_offset 8).2 4 * 8 % 4294967296)
        % 4294967296
    · rw [if_pos c4, if_neg (by omega)]
      exact ⟨_, rfl⟩
    · rw [if_neg c4, if_pos (by omega)]
      exact ⟨_, rfl⟩

/-- C11 fails where `8 + entry_count * w` reaches 2^32, because the loader
forms the sum in 32 bits.  A first call on an stco box of `data_size` 8 whose
header declares 2^30 entries returns OK and records 2^30 chunk offsets,
although `8 < 8 + 2^30 * 4`; so does a first call on a co64 box of
`data_size` 8 that declares 2^29 entries. -/
theorem setChunkOffsetParams_entry_count_wraps :
    SampleTable.new.setChunkOffsetParams (bytesSource stcoWrapHeader) kChunkOffsetType32 0 8
      = .ret (status_t.OK,
          { SampleTable.new with
            mChunkOffsetOffset := 0
            mChunkOffsetType := kChunkOffsetType32
            mNumChunkOffsets := 1073741824 }) ∧
    ((bytesSource stcoWrapHeader).readAt 0 8).1 = 8 ∧
    U32_AT stcoWrapHeader 0 = 0 ∧ U32_AT stcoWrapHeader 4 = 1073741824 ∧
    ¬ (8 ≥ 8 + 1073741824 * 4) ∧
    SampleTable.new.setChunkOffsetParams (bytesSource co64WrapHeader) kChunkOffsetType64 0 8
      = .ret (status_t.OK,
          { SampleTable.new with
            mChunkOffsetOffset := 0
            mChunkOffsetType := kChunkOffsetType64
            mNumChunkOffsets := 536870912 }) ∧
    U32_AT co64WrapHeader 0 = 0 ∧ U32_AT co64WrapHeader 4 = 536870912 ∧
    ¬ (8 ≥ 8 + 536870912 * 8) := by
  refine ⟨by decide, by decide, by decide, by decide, by decide, by decide, by decide,
    by decide, by decide⟩

theorem U32_AT_lt (b : List Nat) (i : Nat) : U32_AT b i < 4294967296 := by
  unfold U32_AT
  omega

/-- Whenever `setSampleSizeParams` returns OK for an stz2 box, the stored
field size is 4, 8 or 16 and the default sample size is 0. -/
theorem setSampleSizeParams_compact_ok_fields (src : DataSource) (t t' : SampleTable)
    (data_offset : Int) (data_size : Nat)
    (h : t.setSampleSizeParams src kSampleSizeTypeCompact data_offset data_size
      = .ret (status_t.OK, t')) :
    (t'.mSampleSizeFieldSize = 4 ∨ t'.mSampleSizeFieldSize = 8
      ∨ t'.mSampleSizeFieldSize = 16) ∧ t'.mDefaultSampleSize = 0 := by
  unfold SampleTable.setSampleSizeParams at h
  simp only at h
  obtain ⟨-, h⟩ | ⟨-, h⟩ := ite_run_cases h
  · exact absurd (ret_ok_inv h).1 (by decide)
  obtain ⟨-, h⟩ | ⟨-, h⟩ := ite_run_cases h
  · cases h
  obtain ⟨-, h⟩ | ⟨-, h⟩ := ite_run_cases h
  · exact absurd (ret_ok_inv h).1 (by decide)
  obtain ⟨-, h⟩ | ⟨-, h⟩ := ite_run_cases h
  · exact absurd (ret_ok_inv h).1 (by decide)
  obtain ⟨-, h⟩ | ⟨-, h⟩ := ite_run_cases h
  · exact absurd (ret_ok_inv h).1 (by decide)
  obtain ⟨c, h⟩ | ⟨-, h⟩ := ite_run_cases h
  · exact absurd c (by decide)
  obtain ⟨-, h⟩ | ⟨-, h⟩ := ite_run_cases h
  · exact absurd (ret_ok_inv h).1 (by decide)
  obtain ⟨-, h⟩ | ⟨c, h⟩ := ite_run_cases h
  · exact absurd (ret_ok_inv h).1 (by decide)
  obtain ⟨-, h⟩ | ⟨-, h⟩ := ite_run_cases h
  · exact absurd (ret_ok_inv h).1 (by decide)
  rw [← (ret_ok_inv h).2]
  refine ⟨?_, rfl⟩
  show U32_AT (src.readAt data_offset 12).2 4 % 256 = 4
    ∨ U32_AT (src.readAt data_offset 12).2 4 % 256 = 8
    ∨ U32_AT (src.readAt data_offset 12).2 4 % 256 = 16
  omega

/-- Where `sample_count * fs + 16` stays below 2^32, a first call of
`setSampleSizeParams` for an stz2 box with a readable header and zero
version/flags returns OK exactly when the high 24 bits of the packed field
are zero, its low 8 bits `fs` are 4, 8 or 16 and
`data_size >= 12 + ceil(sample_count * fs / 8)`, and ERROR_MALFORMED
otherwise. -/
theorem setSampleSizeParams_compact_of_no_wrap (src : DataSource) (t : SampleTable)
    (data_offset : Int) (data_size : Nat)
    (hfirst : t.mSampleSizeOffset < 0)
    (hread : 12 ≤ (src.readAt data_offset 12).1)
    (hflags : U32_AT (src.readAt data_offset 12).2 0 = 0)
    (hwrap : U32_AT (src.readAt data_offset 12).2 8
        * (U32_AT (src.readAt data_offset 12).2 4 % 256) + 16 < 4294967296) :
    ∃ t', t.setSampleSizeParams src kSampleSizeTypeCompact data_offset data_size
      = .ret (if U32_AT (src.readAt data_offset 12).2 4 / 256 = 0
                ∧ (U32_AT (src.readAt data_offset 12).2 4 % 256 = 4
                  ∨ U32_AT (src.readAt data_offset 12).2 4 % 256 = 8
                  ∨ U32_AT (src.readAt data_offset 12).2 4 % 256 = 16)
                ∧ 12 + (U32_AT (src.readAt data_offset 12).2 8
                    * (U32_AT (src.readAt data_offset 12).2 4 % 256) + 7) / 8 ≤ data_size
              then status_t.OK else status_t.ERROR_MALFORMED, t') := by
  have hp := U32_AT_lt (src.readAt data_offset 12).2 4
  unfold SampleTable.setSampleSizeParams
  rw [if_neg (by omega), if_neg (not_not.2 (Or.inr rfl))]
  simp only
  generalize U32_AT (src.readAt data_offset 12).2 4 = p at hp hwrap ⊢
  generalize U32_AT (src.readAt data_offset 12).2 8 = n at hwrap ⊢
  by_cases c1 : data_size < 12
  · rw [if_pos c1, if_neg (by omega)]
    exact ⟨_, rfl⟩
  rw [if_neg c1, if_neg (by omega), if_neg (not_not.2 hflags), if_neg (by decide)]
  by_cases c2 : p / 256 * 256 % 4294967296 ≠ 0
  · rw [if_pos c2, if_neg (by omega)]
    exact ⟨_, rfl⟩
  rw [if_neg c2]
  by_cases c3 : p % 256 ≠ 4 ∧ p % 256 ≠ 8 ∧ p % 256 ≠ 16
  · rw [if_pos c3, if_neg (by omega)]
    exact ⟨_, rfl⟩
  rw [if_neg c3]
  have hfs : p % 256 = 4 ∨ p % 256 = 8 ∨ p % 256 = 16 := by omega
  have hhi : p / 256 = 0 := by omega
  have hsum : (12 + (n * (p % 256) % 4294967296 + 4) % 4294967296 / 8) % 4294967296
      = 12 + (n * (p % 256) + 7) / 8 := by
    rcases hfs with e | e | e <;> rw [e] at hwrap ⊢ <;> omega
  rw [hsum]
  by_cases c4 : data_size < 12 + (n * (p % 256) + 7) / 8
  · rw [if_pos c4, if_neg (by omega)]
    exact ⟨_, rfl⟩
  · rw [if_neg c4, if_pos ⟨hhi, hfs, by omega⟩]
    exact ⟨_, rfl⟩

/-- C12 fails where `sample_count * fs + 4` reaches 2^32, because the
loader forms it in 32 bits: a first call on an stz2 box of `data_size` 12
with field size 4 that declares 2^30 samples returns OK, although
`12 < 12 + ceil(2^30 * 4 / 8)`; the loader's `(sample_count * fs + 4) / 8`
is 0 there, not the ceiling 2^29. -/
theorem setSampleSizeParams_compact_size_wraps :
    SampleTable.new.setSampleSizeParams (bytesSource stz2WrapHeader)
        kSampleSizeTypeCompact 0 12
      = .ret (status_t.OK,
          { SampleTable.new with
            mSampleSizeOffset := 0
            mSampleSizeFieldSize := 4
            mNumSampleSizes := 1073741824 }) ∧
    ((bytesSource stz2WrapHeader).readAt 0 12).1 = 12 ∧
    U32_AT stz2WrapHeader 0 = 0 ∧ U32_AT stz2WrapHeader 4 = 4 ∧
    U32_AT stz2WrapHeader 8 = 1073741824 ∧
    (1073741824 * 4 % 4294967296 + 4) % 4294967296 / 8 = 0 ∧
    (1073741824 * 4 + 7) / 8 = 536870912 ∧
    ¬ (12 ≥ 12 + (1073741824 * 4 + 7) / 8) := by
  refine ⟨by decide, by decide, by decide, by decide, by decide, by decide, by decide,
    by decide⟩

theorem toSsize_le (x : Nat) : toSsize x ≤ (x : Int) := by
  unfold toSsize
  split <;> omega

/-- Where `(entry_count + 1) * 8` stays below 2^32, a first call of
`setCompositionTimeToSampleParams` with a readable header and a fully
readable payload returns OK exactly when the version/flags word is
0x00000000 or 0x01000000 and `data_size = 8 + 8 * entry_count`; otherwise it
returns ERROR_MALFORMED and leaves the table as it was. -/
theorem setCompositionTimeToSampleParams_of_no_wrap (src : DataSource) (t : SampleTable)
    (data_offset : Int) (data_size : Nat)
    (hfirst : t.mCompositionTimeDeltaEntries = none)
    (hread : 8 ≤ (src.readAt data_offset 8).1)
    (hpayload : ((U32_AT (src.readAt data_offset 8).2 4 * 8 : Nat) : Int)
      ≤ (src.readAt (data_offset + 8)
          (U32_AT (src.readAt data_offset 8).2 4 * 8 % 4294967296)).1)
    (hwrap : (U32_AT (src.readAt data_offset 8).2 4 + 1) * 8 < 4294967296) :
    ∃ t', t.setCompositionTimeToSampleParams src data_offset data_size
        = .ret (if (U32_AT (src.readAt data_offset 8).2 0 = 0
                    ∨ U32_AT (src.readAt data_offset 8).2 0 = 0x01000000)
                  ∧ data_size = 8 + 8 * U32_AT (src.readAt data_offset 8).2 4
                then status_t.OK else status_t.ERROR_MALFORMED, t') ∧
      (¬ ((U32_AT (src.readAt data_offset 8).2 0 = 0
            ∨ U32_AT (src.readAt data_offset 8).2 0 = 0x01000000)
          ∧ data_size = 8 + 8 * U32_AT (src.readAt data_offset 8).2 4) → t' = t) := by
  unfold SampleTable.setCompositionTimeToSampleParams
  simp only
  have hle := toSsize_le (U32_AT (src.readAt data_offset 8).2 4 * 8)
  generalize U32_AT (src.readAt data_offset 8).2 4 = n at hpayload hwrap hle ⊢
  generalize U32_AT (src.readAt data_offset 8).2 0 = v
  by_cases c1 : t.mCompositionTimeDeltaEntries ≠ none ∨ data_size < 8
  · have hd : data_size < 8 := c1.resolve_left (not_not.2 hfirst)
    rw [if_pos c1, if_neg (by omega)]
    exact ⟨_, rfl, fun _ => rfl⟩
  rw [if_neg c1, if_neg (by omega)]
  by_cases c2 : v ≠ 0 ∧ v ≠ 0x01000000
  · rw [if_pos c2, if_neg (by omega)]
    exact ⟨_, rfl, fun _ => rfl⟩
  rw [if_neg c2]
  by_cases c3 : data_size ≠ (n + 1) * 8 % 4294967296
  · rw [if_pos c3, if_neg (by omega)]
    exact ⟨_, rfl, fun _ => rfl⟩
  have c4 : ¬ 4294967296 ≤ 4 * (2 * n % 4294967296) := by omega
  rw [if_neg c3, if_neg c4, if_neg (by omega), if_pos ⟨by omega, by omega⟩]
  exact ⟨_, rfl, fun hn => absurd ⟨by omega, by omega⟩ hn⟩

/-- C13 fails on the 32-bit target where `(entry_count + 1) * 8` reaches
2^32, because the loader forms the product in `size_t`: a first call on a
ctts box of `data_size` 8 whose header declares 2^29 entries passes the size
check (the product is 8 in 32 bits), although `8 + 8 * 2^29` is not 8, and
goes on to the array of `2 * 2^29` words.  That array takes 2^32 bytes, which
the target cannot hold: the call returns no status, where the claim says
ERROR_MALFORMED. -/
theorem setCompositionTimeToSampleParams_size_wraps :
    SampleTable.new.setCompositionTimeToSampleParams (bytesSource cttsWrapHeader) 0 8 = .ub ∧
    ((bytesSource cttsWrapHeader).readAt 0 8).1 = 8 ∧
    U32_AT cttsWrapHeader 0 = 0 ∧ U32_AT cttsWrapHeader 4 = 536870912 ∧
    (536870912 + 1) * 8 % 4294967296 = 8 ∧
    4 * (2 * 536870912 % 4294967296) = 4294967296 ∧
    8 ≠ 8 + 8 * 536870912 := by
  refine ⟨?_, by decide, by decide, by decide, by decide, by decide, by decide⟩
  unfold SampleTable.setCompositionTimeToSampleParams
  rw [if_neg (by decide), if_neg (by decide), if_neg (by decide)]
  simp only
  rw [if_neg (by decide), if_pos (by decide)]

/-- The outcome at 2^29 entries does not depend on the bytes behind the
header: for every source and first call whose header reads version/flags 0
or 0x01000000 and an entry count with `(entry_count + 1) * 8` equal to
`data_size` in 32 bits and an array of 2^32 bytes or more, the call ends at
the allocation without a status. -/
theorem setCompositionTimeToSampleParams_wrap_no_status (src : DataSource) (t : SampleTable)
    (data_offset : Int) (data_size : Nat)
    (hfirst : t.mCompositionTimeDeltaEntries = none) (hsize : 8 ≤ data_size)
    (hread : 8 ≤ (src.readAt data_offset 8).1)
    (hver : U32_AT (src.readAt data_offset 8).2 0 = 0
      ∨ U32_AT (src.readAt data_offset 8).2 0 = 0x01000000)
    (hcheck : data_size = (U32_AT (src.readAt data_offset 8).2 4 + 1) * 8 % 4294967296)
    (hbig : 4294967296 ≤ 4 * (2 * U32_AT (src.readAt data_offset 8).2 4 % 4294967296)) :
    t.setCompositionTimeToSampleParams src data_offset data_size = .ub := by
  unfold SampleTable.setCompositionTimeToSampleParams
  simp only
  rw [if_neg (by rw [hfirst]; simp; omega), if_neg (by omega), if_neg (by omega),
    if_neg (not_not.2 hcheck), if_pos hbig]

/-- The stts loader looks at `data_size` only to compare it with 8: every
`data_size` of at least 8 gives the result that `data_size = 8` gives. -/
theorem setTimeToSampleParams_ignores_data_size (src : DataSource) (t : SampleTable)
    (data_offset : Int) (data_size : Nat) (h : 8 ≤ data_size) :
    t.setTimeToSampleParams src data_offset data_size
      = t.setTimeToSampleParams src data_offset 8 := by
  have h1 : ¬ data_size < 8 := by omega
  have h2 : ¬ 8 < 8 := by omega
  have e : (t.mTimeToSample ≠ none ∨ data_size < 8) ↔ (t.mTimeToSample ≠ none ∨ 8 < 8) :=
    ⟨fun hh => hh.elim Or.inl (fun x => absurd x h1),
      fun hh => hh.elim Or.inl (fun x => absurd x h2)⟩
  unfold SampleTable.setTimeToSampleParams
  simp only [e]

/-- The stss loader looks at `data_size` only to compare it with 8: every
`data_size` of at least 8 gives the result that `data_size = 8` gives. -/
theorem setSyncSampleParams_ignores_data_size (src : DataSource) (t : SampleTable)
    (data_offset : Int) (data_size : Nat) (h : 8 ≤ data_size) :
    t.setSyncSampleParams src data_offset data_size
      = t.setSyncSampleParams src data_offset 8 := by
  have h1 : ¬ data_size < 8 := by omega
  have h2 : ¬ 8 < 8 := by omega
  have e : (t.mSyncSampleOffset ≥ 0 ∨ data_size < 8) ↔ (t.mSyncSampleOffset ≥ 0 ∨ 8 < 8) :=
    ⟨fun hh => hh.elim Or.inl (fun x => absurd x h1),
      fun hh => hh.elim Or.inl (fun x => absurd x h2)⟩
  unfold SampleTable.setSyncSampleParams
  simp only [e]

/-- C14 fails: neither loader compares `data_size` with the entry count.  A
first call of `setTimeToSampleParams` on an stts box of `data_size` 8 whose
header declares one entry returns OK and stores the run `(5, 7)` read from
the eight bytes behind the box, although `8 < 8 + 8 * 1`; a first call of
`setSyncSampleParams` on an stss box of `data_size` 8 that declares one entry
returns OK and stores the sync sample read from the four bytes behind the
box, although `8 < 8 + 4 * 1`. -/
theorem loaders_accept_short_data_size :
    SampleTable.new.setTimeToSampleParams (bytesSource sttsShortBox) 0 8
      = .ret (status_t.OK,
          { SampleTable.new with
            mTimeToSampleCount := 1
            mTimeToSample := some [5, 7] }) ∧
    ((bytesSource sttsShortBox).readAt 0 8).1 = 8 ∧
    U32_AT sttsShortBox 0 = 0 ∧ U32_AT sttsShortBox 4 = 1 ∧ 8 < 8 + 8 * 1 ∧
    SampleTable.new.setSyncSampleParams (bytesSource stssShortBox) 0 8
      = .ret (status_t.OK,
          { SampleTable.new with
            mSyncSampleOffset := 0
            mNumSyncSamples := 1
            mSyncSamples := some [2] }) ∧
    ((bytesSource stssShortBox).readAt 0 8).1 = 8 ∧
    U32_AT stssShortBox 0 = 0 ∧ U32_AT stssShortBox 4 = 1 ∧ 8 < 8 + 4 * 1 := by
  refine ⟨by decide, by decide, by decide, by decide, by decide, by decide, by decide,
    by decide, by decide, by decide⟩

/-! ## The entries of the stsc loader -/

theorem sampleToChunkLoop_aborts (src : DataSource) (off : Int) :
    ∀ (rem i : Nat) (acc : List SampleToChunkEntry),
      (∀ j, i ≤ j → j < i + rem →
        (src.readAt (off + 8 + ((j * 12 % 4294967296 : Nat) : Int)) 12).1 = 12) →
      (∃ k, i ≤ k ∧ k < i + rem ∧ stscFirstChunk src off k = 0) →
      sampleToChunkLoop src off rem i acc = .abort := by
  intro rem
  induction rem with
  | zero =>
    intro i acc _ hz
    obtain ⟨k, h1, h2, _⟩ := hz
    omega
  | succ rem ih =>
    intro i acc hr hz
    unfold sampleToChunkLoop
    simp only
    rw [if_neg (not_not.2 (hr i (Nat.le_refl i) (by omega)))]
    by_cases c : U32_AT (src.readAt (off + 8 + ((i * 12 % 4294967296 : Nat) : Int)) 12).2 0 ≥ 1
    · rw [if_neg (not_not.2 c)]
      apply ih
      · intro j h1 h2
        exact hr j (by omega) (by omega)
      · obtain ⟨k, h1, h2, h3⟩ := hz
        have hne : k ≠ i := by
          intro e
          rw [e] at h3
          unfold stscFirstChunk at h3
          omega
        exact ⟨k, by omega, by omega, h3⟩
    · rw [if_pos c]

theorem sampleToChunkLoop_ok (src : DataSource) (off : Int) :
    ∀ (rem i : Nat) (acc es : List SampleToChunkEntry),
      sampleToChunkLoop src off rem i acc = .ret (status_t.OK, es) →
      es = acc ++ (List.range' i rem).map (stscEntryAt src off) ∧
        ∀ j, i ≤ j → j < i + rem → 1 ≤ stscFirstChunk src off j := by
  intro rem
  induction rem with
  | zero =>
    intro i acc es h
    unfold sampleToChunkLoop at h
    simp only [Run.ret.injEq, Prod.mk.injEq, true_and] at h
    refine ⟨by simp [h], ?_⟩
    intro j h1 h2
    omega
  | succ rem ih =>
    intro i acc es h
    unfold sampleToChunkLoop at h
    simp only at h
    obtain ⟨-, h⟩ | ⟨-, h⟩ := ite_run_cases h
    · simp only [Run.ret.injEq, Prod.mk.injEq] at h
      exact absurd h.1 (by decide)
    obtain ⟨-, h⟩ | ⟨c, h⟩ := ite_run_cases h
    · cases h
    obtain ⟨h1, h2⟩ := ih _ _ _ h
    refine ⟨?_, ?_⟩
    · rw [h1, List.range'_succ, List.map_cons, List.append_assoc]
      rfl
    · intro j hj1 hj2
      by_cases e : j = i
      · rw [e]
        unfold stscFirstChunk
        omega
      · exact h2 j (by omega) (by omega)

/-- C15 as stated fails: on an stsc box that passes the header and size
checks and whose only entry has first_chunk 0, `setSampleToChunkParams` does
not return ERROR_MALFORMED; the `CHECK` on the chunk index aborts the
process. -/
theorem setSampleToChunkParams_zero_first_chunk :
    SampleTable.new.setSampleToChunkParams (bytesSource stscZeroBox) 0 20 = .abort ∧
    U32_AT stscZeroBox 0 = 0 ∧ U32_AT stscZeroBox 4 = 1 ∧ 8 + 1 * 12 ≤ 20 ∧
    stscFirstChunk (bytesSource stscZeroBox) 0 0 = 0 := by
  refine ⟨by decide, by decide, by decide, by decide, by decide⟩

/-- C15, amended: for every stsc box that passes the header and size checks
of a first call and whose entries can all be read, if some entry has
first_chunk 0 then `setSampleToChunkParams` aborts the process; it returns
no status at all. -/
theorem setSampleToChunkParams_first_chunk_zero_aborts (src : DataSource) (t : SampleTable)
    (data_offset : Int) (data_size : Nat)
    (hfirst : t.mSampleToChunkOffset < 0)
    (hread : 8 ≤ (src.readAt data_offset 8).1)
    (hflags : U32_AT (src.readAt data_offset 8).2 0 = 0)
    (hsize8 : 8 ≤ data_size)
    (hsize : ¬ data_size < (8 + U32_AT (src.readAt data_offset 8).2 4 * 12 % 4294967296)
      % 4294967296)
    (hentries : ∀ j, j < U32_AT (src.readAt data_offset 8).2 4 →
      (src.readAt (data_offset + 8 + ((j * 12 % 4294967296 : Nat) : Int)) 12).1 = 12)
    (hzero : ∃ k, k < U32_AT (src.readAt data_offset 8).2 4
      ∧ stscFirstChunk src data_offset k = 0) :
    t.setSampleToChunkParams src data_offset data_size = .abort := by
  unfold SampleTable.setSampleToChunkParams
  rw [if_neg (by omega)]
  simp only
  rw [if_neg (by omega), if_neg (by omega), if_neg (not_not.2 hflags), if_neg hsize]
  obtain ⟨k, hk1, hk2⟩ := hzero
  rw [sampleToChunkLoop_aborts src data_offset _ 0 []
    (fun j _ h2 => hentries j (by omega)) ⟨k, by omega, by omega, hk2⟩]
  rfl

theorem setSampleToChunkParams_first_chunk_zero_aborts_witness :
    stscFirstChunk (bytesSource stscSecondZeroBox) 0 0 = 1 ∧
    stscFirstChunk (bytesSource stscSecondZeroBox) 0 1 = 0 ∧
    SampleTable.new.setSampleToChunkParams (bytesSource stscSecondZeroBox) 0 32 = .abort :=
  ⟨by decide, by decide,
    setSampleToChunkParams_first_chunk_zero_aborts (bytesSource stscSecondZeroBox)
      SampleTable.new 0 32 (by decide) (by decide) (by decide) (by decide) (by decide)
      (by decide)
      ⟨1, by decide, by decide⟩⟩

/-- C16 as stated fails: `setSampleToChunkParams` returns OK on an stsc box
whose two entries have the first_chunk values 2 and 1, and stores the start
chunks 1 and 0, which are not increasing. -/
theorem setSampleToChunkParams_descending_ok :
    SampleTable.new.setSampleToChunkParams (bytesSource stscDescendingBox) 0 32
      = .ret (status_t.OK,
          { SampleTable.new with
            mSampleToChunkOffset := 0
            mNumSampleToChunkOffsets := 2
            mSampleToChunkEntries := some
              [{ startChunk := 1, samplesPerChunk := 1, chunkDesc := 1 },
               { startChunk := 0, samplesPerChunk := 1, chunkDesc := 1 }] }) ∧
    ¬ List.Pairwise (fun a b => a < b) [1, 0] := by
  refine ⟨by decide, by decide⟩

/-- C16, amended: whenever `setSampleToChunkParams` returns OK, the stored
runs are the entries of the box in entry order, each first_chunk being at
least 1 and stored as first_chunk minus 1; so the stored startChunk values
are strictly increasing exactly when the first_chunk values of the box are.
The loader itself does not compare them. -/
theorem setSampleToChunkParams_ok_entries (src : DataSource) (t t' : SampleTable)
    (data_offset : Int) (data_size : Nat)
    (h : t.setSampleToChunkParams src data_offset data_size = .ret (status_t.OK, t')) :
    t'.mNumSampleToChunkOffsets = U32_AT (src.readAt data_offset 8).2 4 ∧
    t'.mSampleToChunkEntries
      = some ((List.range t'.mNumSampleToChunkOffsets).map (stscEntryAt src data_offset)) ∧
    (∀ j, j < t'.mNumSampleToChunkOffsets →
      1 ≤ stscFirstChunk src data_offset j ∧
      (stscEntryAt src data_offset j).startChunk = stscFirstChunk src data_offset j - 1) ∧
    (List.Pairwise (fun a b => a < b)
        (((List.range t'.mNumSampleToChunkOffsets).map (stscEntryAt src data_offset)).map
          fun e => e.startChunk)
      ↔ List.Pairwise (fun a b => a < b)
          ((List.range t'.mNumSampleToChunkOffsets).map (stscFirstChunk src data_offset))) := by
  unfold SampleTable.setSampleToChunkParams at h
  simp only at h
  obtain ⟨-, h⟩ | ⟨-, h⟩ := ite_run_cases h
  · exact absurd (ret_ok_inv h).1 (by decide)
  obtain ⟨-, h⟩ | ⟨-, h⟩ := ite_run_cases h
  · exact absurd (ret_ok_inv h).1 (by decide)
  obtain ⟨-, h⟩ | ⟨-, h⟩ := ite_run_cases h
  · exact absurd (ret_ok_inv h).1 (by decide)
  obtain ⟨-, h⟩ | ⟨-, h⟩ := ite_run_cases h
  · exact absurd (ret_ok_inv h).1 (by decide)
  obtain ⟨-, h⟩ | ⟨-, h⟩ := ite_run_cases h
  · exact absurd (ret_ok_inv h).1 (by decide)
  cases hl : sampleToChunkLoop src data_offset (U32_AT (src.readAt data_offset 8).2 4) 0 [] with
  | abort => rw [hl] at h; cases h
  | ub => rw [hl] at h; cases h
  | timeout => rw [hl] at h; cases h
  | ret r =>
    rw [hl, Run.bind_ret] at h
    obtain ⟨hst, ht⟩ := ret_ok_inv h
    obtain ⟨st, es⟩ := r
    simp only at hst
    rw [hst] at hl
    obtain ⟨hes, hge⟩ := sampleToChunkLoop_ok src data_offset _ 0 [] es hl
    rw [List.nil_append, ← List.range_eq_range'] at hes
    have hn : t'.mNumSampleToChunkOffsets = U32_AT (src.readAt data_offset 8).2 4 := by
      rw [← ht]
    have hfc : ∀ j, j < t'.mNumSampleToChunkOffsets → 1 ≤ stscFirstChunk src data_offset j :=
      fun j hj => hge j (Nat.zero_le j) (by omega)
    refine ⟨hn, ?_, fun j hj => ⟨hfc j hj, rfl⟩, ?_⟩
    · rw [hn, ← hes, ← ht]
    · rw [List.map_map, List.pairwise_map, List.pairwise_map]
      apply List.Pairwise.iff_of_mem
      intro a b ha hb
      have h1 := hfc a (List.mem_range.1 ha)
      have h2 := hfc b (List.mem_range.1 hb)
      show stscFirstChunk src data_offset a - 1 < stscFirstChunk src data_offset b - 1 ↔ _
      omega

theorem setSampleToChunkParams_ok_entries_witness :
    (SampleTable.new.setSampleToChunkParams (bytesSource stscAscendingBox) 0 32
      = .ret (status_t.OK,
          { SampleTable.new with
            mSampleToChunkOffset := 0
            mNumSampleToChunkOffsets := 2
            mSampleToChunkEntries := some
              [{ startChunk := 0, samplesPerChunk := 4, chunkDesc := 1 },
               { startChunk := 2, samplesPerChunk := 2, chunkDesc := 1 }] })) ∧
    (List.range 2).map (stscFirstChunk (bytesSource stscAscendingBox) 0) = [1, 3] ∧
    (List.Pairwise (fun a b => a < b)
        (((List.range 2).map (stscEntryAt (bytesSource stscAscendingBox) 0)).map
          fun e => e.startChunk)
      ↔ List.Pairwise (fun a b => a < b)
          ((List.range 2).map (stscFirstChunk (bytesSource stscAscendingBox) 0))) :=
  ⟨by decide, by decide,
    (setSampleToChunkParams_ok_entries (bytesSource stscAscendingBox) SampleTable.new
      { SampleTable.new with
        mSampleToChunkOffset := 0
        mNumSampleToChunkOffsets := 2
        mSampleToChunkEntries := some
          [{ startChunk := 0, samplesPerChunk := 4, chunkDesc := 1 },
           { startChunk := 2, samplesPerChunk := 2, chunkDesc := 1 }] }
      0 32 (by decide)).2.2.2⟩

/-! ## `setSampleDescParams` and `getSampleDescAtIndex` -/

theorem sampleDescLoop_append (src : DataSource) :
    ∀ (rem : Nat) (offset : Int) (acc : List (List Nat)),
      sampleDescLoop src rem offset acc
        = (sampleDescLoop src rem offset []).bind fun r => .ret (r.1, acc ++ r.2) := by
  intro rem
  induction rem with
  | zero =>
    intro offset acc
    unfold sampleDescLoop
    rw [Run.bind_ret, List.append_nil]
  | succ rem ih =>
    intro offset acc
    rw [sampleDescLoop, sampleDescLoop]
    cases hE : sampleDescEntry src offset with
    | abort => rfl
    | ub => rfl
    | timeout => rfl
    | ret r =>
      rw [Run.bind_ret, Run.bind_ret]
      cases r with
      | error err =>
        show Run.ret (err, acc) = (Run.ret (err, [])).bind _
        rw [Run.bind_ret, List.append_nil]
      | ok p =>
        obtain ⟨avccBuffer, next⟩ := p
        show sampleDescLoop src rem next (acc ++ [avccBuffer])
          = (sampleDescLoop src rem next ([] ++ [avccBuffer])).bind _
        rw [ih next (acc ++ [avccBuffer]), ih next ([] ++ [avccBuffer])]
        cases hL : sampleDescLoop src rem next [] with
        | abort => rfl
        | ub => rfl
        | timeout => rfl
        | ret q =>
          rw [Run.bind_ret, Run.bind_ret, Run.bind_ret, List.nil_append, List.append_assoc]

theorem sampleDescScan_past (index : Nat) :
    ∀ (l : List (List Nat)) (i : Nat) (out : List Nat × Nat),
      index < i → i + l.length < 4294967296 → sampleDescScan index l i out = out := by
  intro l
  induction l with
  | nil =>
    intro i out _ _
    rfl
  | cons sda rest ih =>
    intro i out h1 h2
    rw [List.length_cons] at h2
    unfold sampleDescScan
    rw [if_neg (by omega), Nat.mod_eq_of_lt (by omega)]
    exact ih (i + 1) out (by omega) (by omega)

theorem sampleDescScan_append (index : Nat) (added : List (List Nat)) :
    ∀ (l : List (List Nat)) (i : Nat) (out : List Nat × Nat),
      i ≤ index → index < i + l.length → i + (l ++ added).length < 4294967296 →
      sampleDescScan index (l ++ added) i out = sampleDescScan index l i out := by
  intro l
  induction l with
  | nil =>
    intro i out h1 h2 _
    rw [List.length_nil] at h2
    omega
  | cons sda rest ih =>
    intro i out h1 h2 h3
    rw [List.cons_append, List.length_cons] at h3
    rw [List.length_cons] at h2
    rw [List.cons_append]
    unfold sampleDescScan
    rw [Nat.mod_eq_of_lt (by omega)]
    by_cases e : i = index
    · rw [if_pos e, sampleDescScan_past index _ (i + 1) _ (by omega) (by omega),
        sampleDescScan_past index _ (i + 1) _ (by omega)
          (by rw [List.length_append] at h3; omega)]
    · rw [if_neg e]
      exact ih (i + 1) out (by omega) (by omega) (by omega)

/-- C17 fails: unlike the six other loaders, `setSampleDescParams` has no
guard against a second call.  After a first call on one avc1 entry returned
OK, a second call with the same arguments returns OK again, not
ERROR_MALFORMED, and the list holds two atoms instead of one. -/
theorem setSampleDescParams_second_call_ok :
    SampleTable.new.setSampleDescParams (bytesSource avc1Box) 1 0 110
      = .ret (status_t.OK,
          { SampleTable.new with
            mSampleDescAtoms := [[1, 2, 3, 4, 5, 6, 7, 8, 0, 0, 0, 8, 98, 116, 114, 116]] }) ∧
    SampleTable.setSampleDescParams (bytesSource avc1Box)
        { SampleTable.new with
          mSampleDescAtoms := [[1, 2, 3, 4, 5, 6, 7, 8, 0, 0, 0, 8, 98, 116, 114, 116]] }
        1 0 110
      = .ret (status_t.OK,
          { SampleTable.new with
            mSampleDescAtoms := [[1, 2, 3, 4, 5, 6, 7, 8, 0, 0, 0, 8, 98, 116, 114, 116],
              [1, 2, 3, 4, 5, 6, 7, 8, 0, 0, 0, 8, 98, 116, 114, 116]] }) := by
  refine ⟨by decide, by decide⟩

/-- What `setSampleDescParams` does in place of a guard: the atoms a call
accepts are appended behind those already in the list, and the status does
not depend on the list.  After a call that returned OK, a second call with
the same source, count and offset returns OK again and appends the same
atoms once more; the atoms that were in the list keep their 1-based indices
in `getSampleDescAtIndex`. -/
theorem setSampleDescParams_appends (src : DataSource) (t t' : SampleTable)
    (count : Nat) (offset : Int) (size size2 : Nat)
    (h : t.setSampleDescParams src count offset size = .ret (status_t.OK, t')) :
    ∃ added, t'.mSampleDescAtoms = t.mSampleDescAtoms ++ added ∧
      t'.setSampleDescParams src count offset size2
        = .ret (status_t.OK, { t' with mSampleDescAtoms := t'.mSampleDescAtoms ++ added }) ∧
      ∀ index out, 1 ≤ index → index ≤ t'.mSampleDescAtoms.length →
        1 + (t'.mSampleDescAtoms ++ added).length < 4294967296 →
        SampleTable.getSampleDescAtIndex
            { t' with mSampleDescAtoms := t'.mSampleDescAtoms ++ added } index out
          = t'.getSampleDescAtIndex index out := by
  unfold SampleTable.setSampleDescParams at h
  rw [sampleDescLoop_append] at h
  cases hL : sampleDescLoop src count offset [] with
  | abort => rw [hL] at h; cases h
  | ub => rw [hL] at h; cases h
  | timeout => rw [hL] at h; cases h
  | ret q =>
    rw [hL, Run.bind_ret, Run.bind_ret] at h
    obtain ⟨hst, ht⟩ := ret_ok_inv h
    obtain ⟨st, added⟩ := q
    simp only at hst ht
    rw [hst] at hL
    refine ⟨added, by rw [← ht], ?_, ?_⟩
    · unfold SampleTable.setSampleDescParams
      rw [sampleDescLoop_append, hL, Run.bind_ret, Run.bind_ret]
    · intro index out h1 h2 h3
      unfold SampleTable.getSampleDescAtIndex
      show (status_t.OK, sampleDescScan index (t'.mSampleDescAtoms ++ added) 1 out) = _
      rw [sampleDescScan_append index added _ 1 out h1 (by omega) h3]

/-- C18 fails: the payload is everything from the end of the avcC header to
the end of the avc1 box, whatever size the avcC box declares.  For an avc1
entry whose avcC box declares 16 bytes (a body of 8) and is followed by a
btrt box of 8 bytes, `setSampleDescParams` appends 16 bytes, the avcC body
and the btrt box, and `getSampleDescAtIndex` returns them with size 16. -/
theorem setSampleDescParams_copies_past_avcC :
    SampleTable.new.setSampleDescParams (bytesSource avc1Box) 1 0 110
      = .ret (status_t.OK,
          { SampleTable.new with
            mSampleDescAtoms := [[1, 2, 3, 4, 5, 6, 7, 8, 0, 0, 0, 8, 98, 116, 114, 116]] }) ∧
    U32_AT (avc1Box.drop 8) 78 = 16 ∧ U32_AT (avc1Box.drop 8) 82 = kFourccAvcC ∧
    ((avc1Box.drop 8).drop (78 + 8)).take (16 - 8) = [1, 2, 3, 4, 5, 6, 7, 8] ∧
    SampleTable.getSampleDescAtIndex
        { SampleTable.new with
          mSampleDescAtoms := [[1, 2, 3, 4, 5, 6, 7, 8, 0, 0, 0, 8, 98, 116, 114, 116]] }
        1 ([], 0)
      = (status_t.OK, ([1, 2, 3, 4, 5, 6, 7, 8, 0, 0, 0, 8, 98, 116, 114, 116], 16)) ∧
    16 ≠ 16 - 8 := by
  refine ⟨by decide, by decide, by decide, by decide, by decide, by decide⟩

/-! ## `findThumbnailSample` -/

theorem thumbnailLoop_ok (gs : Nat → status_t × Nat) (sync : List Nat) (sample_index : Nat) :
    ∀ (rem i best max : Nat), i + rem ≤ sync.length →
      (∀ (j y : Nat), i ≤ j → j < i + rem → sync[j]? = some y → (gs y).1 = status_t.OK) →
      ThumbnailInv gs sync i best max →
      ∃ b m, thumbnailLoop gs sync sample_index rem i best max = .ret (status_t.OK, b)
        ∧ ThumbnailInv gs sync (i + rem) b m := by
  intro rem
  induction rem with
  | zero =>
    intro i best max _ _ hinv
    exact ⟨best, max, rfl, hinv⟩
  | succ rem ih =>
    intro i best max hlen hok hinv
    have hi : i < sync.length := by omega
    have hx : sync[i]? = some sync[i] := List.getElem?_eq_getElem hi
    unfold thumbnailLoop
    rw [arrayGet_of_getElem? hx, Run.bind_ret]
    simp only
    rw [if_neg (not_not.2 (hok i _ (Nat.le_refl i) (by omega) hx))]
    have hrest : ∀ (j y : Nat), i + 1 ≤ j → j < i + 1 + rem → sync[j]? = some y
        → (gs y).1 = status_t.OK := fun j y h1 h2 h3 => hok j y (by omega) (by omega) h3
    by_cases c : i = 0 ∨ (gs sync[i]).2 > max
    · rw [if_pos c]
      have hnew : ThumbnailInv gs sync (i + 1) sync[i] (gs sync[i]).2 := by
        refine Or.inr ⟨i, by omega, hx, rfl, ?_, ?_⟩
        · intro j y hj hy
          by_cases e : j = i
          · rw [e, hx] at hy
            rw [← Option.some.inj hy]
          · rcases hinv with ⟨h0, _⟩ | ⟨i0, _, _, _, hle, _⟩
            · omega
            · have := hle j y (by omega) hy
              rcases c with c | c
              · omega
              · omega
        · intro j y hj hy
          rcases hinv with ⟨h0, _⟩ | ⟨i0, _, _, _, hle, _⟩
          · omega
          · have := hle j y (by omega) hy
            rcases c with c | c
            · omega
            · omega
      obtain ⟨b, m, h1, h2⟩ := ih (i + 1) sync[i] (gs sync[i]).2 (by omega) hrest hnew
      exact ⟨b, m, h1, by rw [show i + (rem + 1) = i + 1 + rem by omega]; exact h2⟩
    · rw [if_neg c]
      have hnew : ThumbnailInv gs sync (i + 1) best max := by
        rcases hinv with ⟨h0, _⟩ | ⟨i0, h1, h2, h3, hle, hlt⟩
        · exact absurd (Or.inl h0) c
        · refine Or.inr ⟨i0, by omega, h2, h3, ?_, hlt⟩
          intro j y hj hy
          by_cases e : j = i
          · rw [e, hx] at hy
            rw [← Option.some.inj hy]
            have : ¬ (gs sync[i]).2 > max := fun hh => c (Or.inr hh)
            omega
          · exact hle j y (by omega) hy
      obtain ⟨b, m, h1, h2⟩ := ih (i + 1) best max (by omega) hrest hnew
      exact ⟨b, m, h1, by rw [show i + (rem + 1) = i + 1 + rem by omega]; exact h2⟩

theorem thumbnailLoop_error (gs : Nat → status_t × Nat) (sync : List Nat) (sample_index : Nat)
    (k x : Nat) (hk : sync[k]? = some x) (hx : (gs x).1 ≠ status_t.OK) :
    ∀ (rem i best max : Nat), i ≤ k → k < i + rem →
      (∀ (j y : Nat), i ≤ j → j < k → sync[j]? = some y → (gs y).1 = status_t.OK) →
      thumbnailLoop gs sync sample_index rem i best max = .ret ((gs x).1, sample_index) := by
  intro rem
  induction rem with
  | zero =>
    intro i best max h1 h2 _
    omega
  | succ rem ih =>
    intro i best max h1 h2 hok
    by_cases e : i = k
    · unfold thumbnailLoop
      rw [e, arrayGet_of_getElem? hk, Run.bind_ret]
      simp only
      rw [if_pos hx]
    · have hi : i < sync.length := by
        have := (List.getElem?_eq_some_iff.1 hk).1
        omega
      have hxi : sync[i]? = some sync[i] := List.getElem?_eq_getElem hi
      unfold thumbnailLoop
      rw [arrayGet_of_getElem? hxi, Run.bind_ret]
      simp only
      rw [if_neg (not_not.2 (hok i _ (Nat.le_refl i) (by omega) hxi))]
      have hrest : ∀ (j y : Nat), i + 1 ≤ j → j < k → sync[j]? = some y
          → (gs y).1 = status_t.OK := fun j y h1 h2 h3 => hok j y (by omega) h2 h3
      by_cases c : i = 0 ∨ (gs sync[i]).2 > max
      · rw [if_pos c]
        exact ih (i + 1) _ _ (by omega) (by omega) hrest
      · rw [if_neg c]
        exact ih (i + 1) _ _ (by omega) (by omega) hrest

/-- C19: `findThumbnailSample` returns OK and sample 0 when no stss table is
loaded.  With a loaded table of `N` sync samples it scans the first
`min(20, N)` entries: when every size lookup succeeds it returns OK and 0 for
an empty table, and otherwise the entry at the first position whose size is
the largest among the scanned entries; when a lookup fails it returns the
status of the first failing lookup and leaves `*sample_index` alone.  For
the stss box `[1, 3, 5]`, stored as `[0, 2, 4]`, with the sizes 2000, 5000
and 1000 it returns sample 2. -/
theorem findThumbnailSample_picks_largest (gs : Nat → status_t × Nat) (t : SampleTable)
    (sample_index : Nat) :
    (t.mSyncSampleOffset < 0 →
      t.findThumbnailSample gs sample_index = .ret (status_t.OK, 0)) ∧
    (∀ sync : List Nat, 0 ≤ t.mSyncSampleOffset → t.mSyncSamples = some sync →
      sync.length = t.mNumSyncSamples →
      ((∀ (j y : Nat), j < min 20 t.mNumSyncSamples → sync[j]? = some y
          → (gs y).1 = status_t.OK) →
        ∃ best, t.findThumbnailSample gs sample_index = .ret (status_t.OK, best) ∧
          (t.mNumSyncSamples = 0 → best = 0) ∧
          (0 < t.mNumSyncSamples →
            ∃ i0, i0 < min 20 t.mNumSyncSamples ∧ sync[i0]? = some best ∧
              (∀ (j y : Nat), j < min 20 t.mNumSyncSamples → sync[j]? = some y
                → (gs y).2 ≤ (gs best).2) ∧
              (∀ (j y : Nat), j < i0 → sync[j]? = some y → (gs y).2 < (gs best).2))) ∧
      (∀ (k x : Nat), k < min 20 t.mNumSyncSamples → sync[k]? = some x →
        (gs x).1 ≠ status_t.OK →
        (∀ (j y : Nat), j < k → sync[j]? = some y → (gs y).1 = status_t.OK) →
        t.findThumbnailSample gs sample_index = .ret ((gs x).1, sample_index))) ∧
    (SampleTable.new.setSyncSampleParams (bytesSource stssExampleBox) 0 20
        = .ret (status_t.OK, syncTable [0, 2, 4]) ∧
      (syncTable [0, 2, 4]).findThumbnailSample thumbnailSizes sample_index
        = .ret (status_t.OK, 2)) := by
  refine ⟨?_, ?_, by decide, rfl⟩
  · intro h
    unfold SampleTable.findThumbnailSample
    rw [if_pos h]
  · intro sync hoff hsync hlen
    have hn : (if t.mNumSyncSamples > 20 then 20 else t.mNumSyncSamples)
        = min 20 t.mNumSyncSamples := by
      split <;> omega
    refine ⟨?_, ?_⟩
    · intro hok
      unfold SampleTable.findThumbnailSample
      rw [if_neg (by omega), hsync, Option.getD_some]
      simp only
      rw [hn]
      obtain ⟨b, m, h1, h2⟩ := thumbnailLoop_ok gs sync sample_index
        (min 20 t.mNumSyncSamples) 0 0 0 (by omega)
        (fun j y _ hj hy => hok j y (by omega) hy) (Or.inl ⟨rfl, rfl⟩)
      rw [Nat.zero_add] at h2
      refine ⟨b, h1, ?_, ?_⟩
      · intro h0
        rcases h2 with ⟨_, hb⟩ | ⟨i0, hi0, _⟩
        · exact hb
        · omega
      · intro hpos
        rcases h2 with ⟨h0, _⟩ | ⟨i0, hi0, hb, hm, hle, hlt⟩
        · omega
        · rw [← hm] at hle hlt
          exact ⟨i0, hi0, hb, hle, hlt⟩
    · intro k x hk hkx hx hok
      unfold SampleTable.findThumbnailSample
      rw [if_neg (by omega), hsync, Option.getD_some]
      simp only
      rw [hn]
      exact thumbnailLoop_error gs sync sample_index k x hkx hx _ 0 0 0 (Nat.zero_le k)
        (by omega) (fun j y _ hj hy => hok j y hj hy)

theorem findThumbnailSample_picks_largest_witness :
    (syncTable [0, 2, 4]).mSyncSamples = some [0, 2, 4] ∧
    (∃ best, (syncTable [0, 2, 4]).findThumbnailSample thumbnailSizes 7
        = .ret (status_t.OK, best) ∧
      ((syncTable [0, 2, 4]).mNumSyncSamples = 0 → best = 0) ∧
      (0 < (syncTable [0, 2, 4]).mNumSyncSamples →
        ∃ i0, i0 < min 20 (syncTable [0, 2, 4]).mNumSyncSamples ∧
          [0, 2, 4][i0]? = some best ∧
          (∀ (j y : Nat), j < min 20 (syncTable [0, 2, 4]).mNumSyncSamples →
            [0, 2, 4][j]? = some y → (thumbnailSizes y).2 ≤ (thumbnailSizes best).2) ∧
          (∀ (j y : Nat), j < i0 → [0, 2, 4][j]? = some y
            → (thumbnailSizes y).2 < (thumbnailSizes best).2))) ∧
    (syncTable [0, 2, 4]).findThumbnailSample failingSizes 7
      = .ret (status_t.ERROR_IO, 7) :=
  ⟨rfl,
    ((findThumbnailSample_picks_largest thumbnailSizes (syncTable [0, 2, 4]) 7).2.1
      [0, 2, 4] (by decide) rfl rfl).1 (fun _ _ _ _ => rfl),
    ((findThumbnailSample_picks_largest failingSizes (syncTable [0, 2, 4]) 7).2.1
      [0, 2, 4] (by decide) rfl rfl).2 1 2 (by decide) rfl (by decide)
      (by
        intro j y hj hy
        have hj0 : j = 0 := by omega
        rw [hj0] at hy
        have hy0 : y = 0 := (Option.some.inj hy).symm
        rw [hy0]
        rfl)⟩

/-! ## The stts example -/

theorem QsortContract.eq_of_strict {qsort : List SampleTimeEntry → List SampleTimeEntry}
    (hq : QsortContract qsort) (l : List SampleTimeEntry)
    (hl : l.Pairwise (fun a b => a.mCompositionTime < b.mCompositionTime)) :
    qsort l = l := by
  haveI : IsAntisymm SampleTimeEntry
      (fun a b => a.mCompositionTime < b.mCompositionTime ∨ a = b) :=
    ⟨fun a b h1 h2 => by
      rcases h1 with h1 | h1
      · rcases h2 with h2 | h2
        · omega
        · exact h2.symm
      · exact h1⟩
  have huniq : ∀ a, a ∈ l → ∀ b, b ∈ l → a.mCompositionTime = b.mCompositionTime → a = b := by
    intro a ha b hb
    exact List.Pairwise.forall_of_forall
      (R := fun a b : SampleTimeEntry => a.mCompositionTime = b.mCompositionTime → a = b)
      (fun {x y} h e => (h e.symm).symm) (fun x _ _ => rfl)
      (List.Pairwise.imp (fun {x y} h e => absurd e (by omega)) hl) ha hb
  apply List.eq_of_perm_of_sorted
    (r := fun a b : SampleTimeEntry => a.mCompositionTime < b.mCompositionTime ∨ a = b)
    (hq.perm l)
  · apply List.Pairwise.imp_of_mem _ (hq.sorted l)
    intro a b ha hb hab
    have hle : a.mCompositionTime ≤ b.mCompositionTime := (CompareIncreasingTime_le a b).1 hab
    by_cases e : a.mCompositionTime = b.mCompositionTime
    · exact Or.inr (huniq a ((hq.perm l).mem_iff.1 ha) b ((hq.perm l).mem_iff.1 hb) e)
    · exact Or.inl (by omega)
  · exact List.Pairwise.imp (fun {x y} h => Or.inl h) hl

/-- C20 as stated fails: the stts runs `[(3, 100), (2, 50)]` give sample 4
the decode time 350, not 400, and `buildSampleEntriesTable` records the
composition times 0, 100, 200, 300 and 350. -/
theorem buildSampleEntriesTable_five_samples_last :
    (List.range 5).map (decodeTime [(3, 100), (2, 50)]) ≠ [0, 100, 200, 300, 400] ∧
    fiveSampleTable.buildSampleEntriesTable insertionQsort (fun _ => ⟨0, 0⟩)
      = .ret { fiveSampleTable with
          mSampleTimeEntries := some
            [⟨0, 0⟩, ⟨1, 100⟩, ⟨2, 200⟩, ⟨3, 300⟩, ⟨4, 350⟩] } := by
  refine ⟨by decide, by decide⟩

/-- C20, amended: with 5 samples, stts runs `[(3, 100), (2, 50)]` and ctts
runs `[(5, 0)]`, the decode times of samples 0..4 are
`[0, 100, 200, 300, 350]`, and `buildSampleEntriesTable` writes exactly these
as the composition times of samples 0..4, for every `qsort` that keeps the
library's promise and whatever the fresh array held. -/
theorem buildSampleEntriesTable_five_samples
    (qsort : List SampleTimeEntry → List SampleTimeEntry) (hq : QsortContract qsort)
    (garbage : Nat → SampleTimeEntry) :
    (List.range 5).map (decodeTime [(3, 100), (2, 50)]) = [0, 100, 200, 300, 350] ∧
    ∃ t', fiveSampleTable.buildSampleEntriesTable qsort garbage = .ret t' ∧
      t'.mSampleTimeEntries = some [⟨0, 0⟩, ⟨1, 100⟩, ⟨2, 200⟩, ⟨3, 300⟩, ⟨4, 350⟩] := by
  refine ⟨by decide, ?_⟩
  obtain ⟨s, h1, _, h3⟩ := fillSampleEntries_exact garbage fiveSampleTable [(3, 100), (2, 50)]
    (runValue [(5, 0)]) rfl rfl
    (Or.inr ⟨[(5, 0)], by decide, loadedLookup_inv [(5, 0)], rfl⟩) (by decide)
  have hes : s.entries
      = [⟨0, 0⟩, ⟨1, 100⟩, ⟨2, 200⟩, ⟨3, 300⟩, ⟨4, 350⟩] := by
    rw [h3]
    rfl
  refine ⟨{ fiveSampleTable with mSampleTimeEntries := some (qsort s.entries),
                                 mCompositionDeltaLookup := s.lookup }, ?_, ?_⟩
  · unfold SampleTable.buildSampleEntriesTable
    show (fiveSampleTable.fillSampleEntries garbage).bind _ = _
    rw [h1, Run.bind_ret]
  · show some (qsort s.entries) = _
    rw [hes, hq.eq_of_strict _ (by decide)]

theorem buildSampleEntriesTable_five_samples_witness :
    QsortContract insertionQsort ∧
    (List.range 5).map (decodeTime [(3, 100), (2, 50)]) = [0, 100, 200, 300, 350] ∧
    ∃ t', fiveSampleTable.buildSampleEntriesTable insertionQsort (fun _ => ⟨7, 7⟩) = .ret t' ∧
      t'.mSampleTimeEntries = some [⟨0, 0⟩, ⟨1, 100⟩, ⟨2, 200⟩, ⟨3, 300⟩, ⟨4, 350⟩] :=
  ⟨insertionQsort_contract,
    buildSampleEntriesTable_five_samples insertionQsort insertionQsort_contract
      (fun _ => ⟨7, 7⟩)⟩

/-! ## `findSampleAtTime` with `kFlagBefore` -/

theorem findSampleRefine_before (es : List SampleTimeEntry) (req N fuel c : Nat) :
    findSampleRefine es req N kFlagBefore fuel c = findSampleBefore es req c := by
  simp [findSampleRefine]

theorem findSampleBefore_spec (es : List SampleTimeEntry) (req : Nat) :
    ∀ c, c < es.length →
      ∃ ci, findSampleBefore es req c = .ret ci ∧ ci ≤ c ∧
        (ci = 0 ∨ ∃ e, es[ci]? = some e ∧ e.mCompositionTime ≤ req) ∧
        ∀ (i : Nat) (e : SampleTimeEntry), ci < i → i ≤ c → es[i]? = some e →
          req < e.mCompositionTime := by
  intro c
  induction c with
  | zero =>
    intro _
    refine ⟨0, rfl, Nat.le_refl _, Or.inl rfl, ?_⟩
    intro i e h1 h2 _
    omega
  | succ c ih =>
    intro hc
    have hx : es[c + 1]? = some es[c + 1] := List.getElem?_eq_getElem hc
    unfold findSampleBefore
    rw [arrayGet_of_getElem? hx, Run.bind_ret]
    by_cases hgt : es[c + 1].mCompositionTime > req
    · rw [if_pos hgt]
      obtain ⟨ci, h1, h2, h3, h4⟩ := ih (by omega)
      refine ⟨ci, h1, by omega, h3, ?_⟩
      intro i e hi1 hi2 he
      by_cases e1 : i = c + 1
      · rw [e1, hx] at he
        rw [← Option.some.inj he]
        exact hgt
      · exact h4 i e hi1 (by omega) he
    · rw [if_neg hgt]
      refine ⟨c + 1, rfl, Nat.le_refl _, Or.inr ⟨_, hx, by omega⟩, ?_⟩
      intro i e h1 h2 _
      omega

/-- What the `kFlagBefore` branch hands back on a sorted array once the
binary search has returned: an entry of the greatest time not above `req`,
or, when every entry lies above `req`, an entry of the least time. -/
theorem findSampleInEntries_before (es : List SampleTimeEntry) (req N fuel L : Nat)
    (hs : SortedByTime es) (hlen : es.length = N) (hN1 : 1 ≤ N) (hN : N < 4294967296)
    (hsearch : findSampleSearch es req fuel 0 N = .ret L) :
    ∃ (ci : Nat) (e : SampleTimeEntry), es[ci]? = some e ∧
      findSampleInEntries es N req kFlagBefore fuel = .ret (status_t.OK, some e.mSampleIndex) ∧
      ((e.mCompositionTime ≤ req ∧
          ∀ (i : Nat) (e' : SampleTimeEntry), es[i]? = some e' → e'.mCompositionTime ≤ req →
            e'.mCompositionTime ≤ e.mCompositionTime) ∨
        (∀ (i : Nat) (e' : SampleTimeEntry), es[i]? = some e' →
          req < e'.mCompositionTime ∧ e.mCompositionTime ≤ e'.mCompositionTime)) := by
  obtain ⟨hLN, hpost⟩ := findSampleSearch_spec es req N hs hlen hN fuel 0 N L
    (Nat.zero_le _) (Nat.le_refl _) (fun i e hi _ => absurd hi (by omega))
    (fun i e hi he => by
      have := getElem?_lt_length he
      omega) hsearch
  unfold findSampleInEntries
  rw [hsearch, Run.bind_ret]
  have hflag : ¬ (L = N ∧ kFlagBefore = kFlagAfter) := by
    intro hc
    exact absurd hc.2 (by decide)
  rw [if_neg hflag]
  simp only
  generalize hc : (if L = N then (L + 4294967295) % 4294967296 else L) = c
  have hcN : c < N := by
    by_cases h : L = N
    · rw [if_pos h] at hc; omega
    · rw [if_neg h] at hc; omega
  have hcase : (∃ e, es[c]? = some e ∧ e.mCompositionTime = req) ∨
      AllAbove es req c ∨ c + 1 = N := by
    by_cases hL : L = N
    · rw [if_pos hL] at hc
      exact Or.inr (Or.inr (by omega))
    · rw [if_neg hL] at hc
      subst hc
      rcases hpost with hex | hAB
      · exact Or.inl hex
      · exact Or.inr (Or.inl hAB.2)
  obtain ⟨ci, h1, h2, h3, h4⟩ := findSampleBefore_spec es req c (by omega)
  have hci : es[ci]? = some es[ci] := List.getElem?_eq_getElem (by omega)
  rw [findSampleRefine_before, h1, Run.bind_ret, arrayGet_of_getElem? hci, Run.bind_ret]
  refine ⟨ci, es[ci], hci, rfl, ?_⟩
  by_cases hle : es[ci].mCompositionTime ≤ req
  · refine Or.inl ⟨hle, ?_⟩
    intro i e' he' hle'
    by_cases hi : i ≤ ci
    · exact hs i ci e' _ hi he' hci
    · by_cases hi2 : i ≤ c
      · have := h4 i e' (by omega) hi2 he'
        omega
      · rcases hcase with ⟨x, hx, hxt⟩ | hab | hlast
        · have hcc : ci = c := by
            by_contra hne
            have := h4 c x (by omega) (Nat.le_refl _) hx
            omega
          subst hcc
          rw [hci] at hx
          rw [Option.some.inj hx, hxt]
          exact hle'
        · have := hab i e' (by omega) he'
          omega
        · have := getElem?_lt_length he'
          omega
  · have hci0 : ci = 0 := by
      rcases h3 with h0 | ⟨x, hx, hxt⟩
      · exact h0
      · rw [hci] at hx
        rw [Option.some.inj hx] at hle
        exact absurd hxt hle
    refine Or.inr ?_
    intro i e' he'
    have := hs ci i _ e' (by omega) hci he'
    exact ⟨by omega, this⟩

theorem findSampleSearch_zero_returns (es : List SampleTimeEntry) :
    ∀ (fuel right : Nat), right ≤ fuel → right ≤ es.length → right < 4294967296 →
      ∃ L, findSampleSearch es 0 fuel 0 right = .ret L := by
  intro fuel
  induction fuel with
  | zero =>
    intro right h1 _ _
    unfold findSampleSearch
    rw [if_neg (by omega)]
    exact ⟨_, rfl⟩
  | succ fuel ih =>
    intro right h1 h2 h3
    unfold findSampleSearch
    by_cases hr : 0 < right
    · rw [if_pos hr]
      simp only
      have hmod : (0 + right) % 4294967296 / 2 = right / 2 := by
        rw [Nat.zero_add, Nat.mod_eq_of_lt h3]
      rw [hmod]
      have hx : es[right / 2]? = some es[right / 2] := List.getElem?_eq_getElem (by omega)
      rw [arrayGet_of_getElem? hx, Run.bind_ret]
      by_cases hgt : 0 < es[right / 2].mCompositionTime
      · rw [if_pos hgt]
        exact ih (right / 2) (by omega) (by omega) (by omega)
      · rw [if_neg hgt, if_neg (by omega)]
        exact ⟨_, rfl⟩
    · rw [if_neg hr]
      exact ⟨_, rfl⟩

/-- The `kFlagBefore` result in terms of the recorded composition times, on
a table whose stts runs cover all samples, for a fuel with which the binary
search returns. -/
theorem findSampleAtTime_before_spec
    (qsort : List SampleTimeEntry → List SampleTimeEntry) (hq : QsortContract qsort)
    (garbage : Nat → SampleTimeEntry) (t : SampleTable) (stts : List (Nat × Nat))
    (hnone : t.mSampleTimeEntries = none)
    (hstts : t.mTimeToSample = some (flattenRuns stts))
    (hcount : t.mTimeToSampleCount = stts.length)
    (hl : LookupWF t.mCompositionDeltaLookup)
    (hN1 : 1 ≤ t.countSamples) (hN : t.countSamples < 4294967296)
    (hcover : t.countSamples ≤ runTotal stts) (req fuel : Nat)
    (hret : ∀ es : List SampleTimeEntry, es.length = t.countSamples →
      ∃ L, findSampleSearch es req fuel 0 t.countSamples = .ret L) :
    ∃ j tj, t.findSampleAtTime qsort garbage fuel req kFlagBefore
        = .ret (status_t.OK, some j) ∧
      j < t.countSamples ∧ t.recordedCompositionTime garbage j = some tj ∧
      ((tj ≤ req ∧ ∀ k tk, t.recordedCompositionTime garbage k = some tk → tk ≤ req → tk ≤ tj) ∨
        (∀ k tk, t.recordedCompositionTime garbage k = some tk → req < tk ∧ tj ≤ tk)) := by
  unfold SampleTable.countSamples at *
  obtain ⟨s, hfill, hslen, hidx⟩ :=
    fillSampleEntries_indices garbage t stts hstts hcount hl hN hcover
  have hrec : ∀ k, t.recordedCompositionTime garbage k
      = s.entries[k]?.map SampleTimeEntry.mCompositionTime := by
    intro k
    simp [SampleTable.recordedCompositionTime, hfill]
  have hfind : t.findSampleAtTime qsort garbage fuel req kFlagBefore
      = findSampleInEntries (qsort s.entries) t.mNumSampleSizes req kFlagBefore fuel := by
    simp [SampleTable.findSampleAtTime, SampleTable.buildSampleEntriesTable, hnone, hfill]
  have hperm := hq.perm s.entries
  have hsorted : SortedByTime (qsort s.entries) :=
    sortedByTime_of_pairwise _
      (List.Pairwise.imp (fun {a b} hab => (CompareIncreasingTime_le a b).1 hab)
        (hq.sorted s.entries))
  have hqlen : (qsort s.entries).length = t.mNumSampleSizes := by
    rw [hperm.length_eq, hslen]
  obtain ⟨L, hL⟩ := hret (qsort s.entries) hqlen
  obtain ⟨ci, e, he, hres, hprop⟩ := findSampleInEntries_before (qsort s.entries) req
    t.mNumSampleSizes fuel L hsorted hqlen hN1 hN hL
  have hmem : e ∈ s.entries := hperm.mem_iff.1 (List.mem_iff_getElem?.2 ⟨ci, he⟩)
  obtain ⟨k0, hk0⟩ := List.mem_iff_getElem?.1 hmem
  have hk0N : k0 < t.mNumSampleSizes := by
    have := getElem?_lt_length hk0
    omega
  obtain ⟨ct0, hct0⟩ := hidx k0 hk0N
  have hek : e = ⟨k0, ct0⟩ := by
    rw [hk0] at hct0
    exact Option.some.inj hct0
  have hsorted_of : ∀ k tk, t.recordedCompositionTime garbage k = some tk →
      ∃ (i : Nat) (e' : SampleTimeEntry),
        (qsort s.entries)[i]? = some e' ∧ e'.mCompositionTime = tk := by
    intro k tk htk
    rw [hrec] at htk
    cases hsk : s.entries[k]? with
    | none => rw [hsk] at htk; cases htk
    | some x =>
      rw [hsk] at htk
      have hxt : x.mCompositionTime = tk := Option.some.inj htk
      have hmemk : x ∈ qsort s.entries :=
        hperm.mem_iff.2 (List.mem_iff_getElem?.2 ⟨k, hsk⟩)
      obtain ⟨i, hi⟩ := List.mem_iff_getElem?.1 hmemk
      exact ⟨i, x, hi, hxt⟩
  refine ⟨k0, ct0, ?_, hk0N, ?_, ?_⟩
  · rw [hfind, hres, hek]
  · rw [hrec, hk0, hek]
    rfl
  · rw [hek] at hprop
    simp only at hprop
    rcases hprop with ⟨h1, h2⟩ | h2
    · refine Or.inl ⟨h1, ?_⟩
      intro k tk htk hle
      obtain ⟨i, e', hi, het⟩ := hsorted_of k tk htk
      have := h2 i e' hi (by omega)
      omega
    · refine Or.inr ?_
      intro k tk htk
      obtain ⟨i, e', hi, het⟩ := hsorted_of k tk htk
      have := h2 i e' hi
      omega

/-- C22 as stated fails: on a table of two samples whose ctts offsets show
sample 0 at time 2000 and sample 1 at time 1000,
`findSampleAtTime(0, kFlagBefore)` returns OK with sample 1, not sample 0. -/
theorem findSampleAtTime_before_zero_swapped :
    swappedTable.countSamples = 2 ∧
    swappedTable.recordedCompositionTime (fun _ => ⟨0, 0⟩) 0 = some 2000 ∧
    swappedTable.recordedCompositionTime (fun _ => ⟨0, 0⟩) 1 = some 1000 ∧
    swappedTable.findSampleAtTime insertionQsort (fun _ => ⟨0, 0⟩) 2 0 kFlagBefore
      = .ret (status_t.OK, some 1) := by
  refine ⟨by decide, by decide, by decide, by decide⟩

/-- The search for time 0 over the recorded times: for every table with at
least one sample whose stts runs cover all samples,
`findSampleAtTime(0, kFlagBefore)` returns OK with a sample whose recorded
composition time is the least of all; that is sample 0 when the recorded time
of sample 0 lies below the recorded time of every other sample. -/
theorem findSampleAtTime_before_zero_recorded
    (qsort : List SampleTimeEntry → List SampleTimeEntry) (hq : QsortContract qsort)
    (garbage : Nat → SampleTimeEntry) (t : SampleTable) (stts : List (Nat × Nat))
    (hnone : t.mSampleTimeEntries = none)
    (hstts : t.mTimeToSample = some (flattenRuns stts))
    (hcount : t.mTimeToSampleCount = stts.length)
    (hl : LookupWF t.mCompositionDeltaLookup)
    (hN1 : 1 ≤ t.countSamples) (hN : t.countSamples < 4294967296)
    (hcover : t.countSamples ≤ runTotal stts) (fuel : Nat) (hfuel : t.countSamples ≤ fuel) :
    ∃ j tj, t.findSampleAtTime qsort garbage fuel 0 kFlagBefore
        = .ret (status_t.OK, some j) ∧
      j < t.countSamples ∧ t.recordedCompositionTime garbage j = some tj ∧
      (∀ k tk, t.recordedCompositionTime garbage k = some tk → tj ≤ tk) ∧
      ((∀ k tk t0, 0 < k → t.recordedCompositionTime garbage 0 = some t0 →
          t.recordedCompositionTime garbage k = some tk → t0 < tk) → j = 0) := by
  obtain ⟨j, tj, h1, h2, h3, h4⟩ := findSampleAtTime_before_spec qsort hq garbage t stts
    hnone hstts hcount hl hN1 hN hcover 0 fuel
    (fun es hes => findSampleSearch_zero_returns es fuel t.countSamples hfuel
      (by omega) hN)
  have hmin : ∀ k tk, t.recordedCompositionTime garbage k = some tk → tj ≤ tk := by
    intro k tk htk
    rcases h4 with ⟨hz, _⟩ | h5
    · omega
    · exact (h5 k tk htk).2
  refine ⟨j, tj, h1, h2, h3, hmin, ?_⟩
  intro hfirst
  by_contra hj
  obtain ⟨t0, ht0⟩ : ∃ t0, t.recordedCompositionTime garbage 0 = some t0 := by
    obtain ⟨s, hfill, hslen, hidx⟩ :=
      fillSampleEntries_indices garbage t stts hstts hcount hl hN hcover
    obtain ⟨ct, hct⟩ := hidx 0 hN1
    exact ⟨ct, recordedCompositionTime_eq garbage t s 0 _ hfill hct⟩
  have := hfirst j tj t0 (by omega) ht0 h3
  have := hmin 0 t0 ht0
  omega

theorem findSampleAtTime_before_zero_recorded_witness :
    QsortContract insertionQsort ∧ 1 ≤ swappedTable.countSamples ∧
    ∃ j tj, swappedTable.findSampleAtTime insertionQsort (fun _ => ⟨0, 0⟩) 2 0 kFlagBefore
        = .ret (status_t.OK, some j) ∧
      j < swappedTable.countSamples ∧
      swappedTable.recordedCompositionTime (fun _ => ⟨0, 0⟩) j = some tj ∧
      (∀ k tk, swappedTable.recordedCompositionTime (fun _ => ⟨0, 0⟩) k = some tk → tj ≤ tk) ∧
      ((∀ k tk t0, 0 < k →
          swappedTable.recordedCompositionTime (fun _ => ⟨0, 0⟩) 0 = some t0 →
          swappedTable.recordedCompositionTime (fun _ => ⟨0, 0⟩) k = some tk → t0 < tk)
        → j = 0) :=
  ⟨insertionQsort_contract, by decide,
    findSampleAtTime_before_zero_recorded insertionQsort insertionQsort_contract
      (fun _ => ⟨0, 0⟩)
      swappedTable [(2, 1000)] rfl rfl rfl (Or.inr ⟨[(1, 2000), (1, 0)], rfl, rfl⟩)
      (by decide) (by decide) (by decide) 2 (by decide)⟩

/-- Where the table has at most 2^31 samples, `findSampleAtTime(req,
kFlagBefore)` returns OK with a sample whose recorded composition time is
the greatest one not above `req`, and with a sample of least composition
time when every sample lies above `req`. -/
theorem findSampleAtTime_before_of_small
    (qsort : List SampleTimeEntry → List SampleTimeEntry) (hq : QsortContract qsort)
    (garbage : Nat → SampleTimeEntry) (t : SampleTable) (stts : List (Nat × Nat))
    (hnone : t.mSampleTimeEntries = none)
    (hstts : t.mTimeToSample = some (flattenRuns stts))
    (hcount : t.mTimeToSampleCount = stts.length)
    (hl : LookupWF t.mCompositionDeltaLookup)
    (hN1 : 1 ≤ t.countSamples) (hN : t.countSamples ≤ 2147483648)
    (hcover : t.countSamples ≤ runTotal stts) (req fuel : Nat)
    (hfuel : t.countSamples ≤ fuel) :
    ∃ j tj, t.findSampleAtTime qsort garbage fuel req kFlagBefore
        = .ret (status_t.OK, some j) ∧
      j < t.countSamples ∧ t.recordedCompositionTime garbage j = some tj ∧
      ((tj ≤ req ∧ ∀ k tk, t.recordedCompositionTime garbage k = some tk → tk ≤ req → tk ≤ tj) ∨
        (∀ k tk, t.recordedCompositionTime garbage k = some tk → req < tk ∧ tj ≤ tk)) :=
  findSampleAtTime_before_spec qsort hq garbage t stts hnone hstts hcount hl hN1
    (by omega) hcover req fuel
    (fun es hes => findSampleSearch_returns es req t.countSamples hes hN fuel 0
      t.countSamples (Nat.zero_le _) (Nat.le_refl _) (by omega))

theorem largeTable_find_any (garbage : Nat → SampleTimeEntry) (fuel flags : Nat) :
    largeTable.findSampleAtTime insertionQsort garbage fuel 2147483648 flags = .timeout := by
  obtain ⟨s, hfill, hent⟩ := largeTable_entries garbage
  have hq : insertionQsort s.entries = s.entries := largeTable_qsort _ hent
  have hsearch : findSampleSearch s.entries 2147483648 fuel 0 2147483649 = .timeout := by
    rw [hent]
    exact largeTable_search_never_exits fuel 0 (by omega)
  have hbuild : largeTable.buildSampleEntriesTable insertionQsort garbage
      = .ret { largeTable with mSampleTimeEntries := some s.entries,
                               mCompositionDeltaLookup := s.lookup } := by
    unfold SampleTable.buildSampleEntriesTable
    have hn : largeTable.mSampleTimeEntries = none := rfl
    rw [hn]
    simp only
    rw [hfill, Run.bind_ret, hq]
  unfold SampleTable.findSampleAtTime
  rw [hbuild, Run.bind_ret]
  unfold findSampleInEntries
  simp only [Option.getD_some]
  have hN : largeTable.mNumSampleSizes = 2147483649 := rfl
  rw [hN, hsearch]
  rfl

/-- C27 fails on a table of 2^31 + 1 samples in which sample `k` has
composition time `k`: for the request time 2^31 with `kFlagBefore`, sample
2^31 is the sample of greatest composition time not above the request, but
the binary search computes its midpoint in 32 bits, starts over from the
left end once `left` has reached 2^31 - 1, and the call never returns,
whatever the fuel. -/
theorem findSampleAtTime_before_never_returns (garbage : Nat → SampleTimeEntry) (fuel : Nat) :
    largeTable.findSampleAtTime insertionQsort garbage fuel 2147483648 kFlagBefore
      = .timeout ∧
    largeTable.countSamples = 2147483649 ∧
    largeTable.recordedCompositionTime garbage 2147483648 = some 2147483648 :=
  ⟨largeTable_find_any garbage fuel kFlagBefore, rfl, largeTable_recorded garbage⟩

/-! ## The ctts example -/

theorem findSampleSearch_done (es : List SampleTimeEntry) (req fuel left right : Nat)
    (h : ¬ left < right) : findSampleSearch es req fuel left right = .ret left := by
  cases fuel with
  | zero => rw [findSampleSearch, if_neg h]
  | succ f => rw [findSampleSearch, if_neg h]

theorem findSampleInEntries_tie (a b : SampleTimeEntry) (ha : a.mCompositionTime = 3000)
    (f : Nat) :
    findSampleInEntries [⟨0, 0⟩, ⟨2, 2000⟩, a, b] 4 2500 kFlagClosest (f + 2)
      = .ret (status_t.OK, some a.mSampleIndex) := by
  have h1 : (0 + 4) % 4294967296 / 2 = 2 := by decide
  have h2 : (0 + 2) % 4294967296 / 2 = 1 := by decide
  have h3 : (1 + 1) % 4294967296 = 2 := by decide
  have g2 : arrayGet [⟨0, 0⟩, ⟨2, 2000⟩, a, b] 2 = .ret a := rfl
  have g1 : arrayGet [(⟨0, 0⟩ : SampleTimeEntry), ⟨2, 2000⟩, a, b] 1 = .ret ⟨2, 2000⟩ := rfl
  unfold findSampleInEntries
  rw [findSampleSearch, if_pos (by decide)]
  simp only
  rw [h1, g2, Run.bind_ret, ha, if_pos (by decide), findSampleSearch, if_pos (by decide)]
  simp only
  rw [h2, g1, Run.bind_ret, if_neg (by decide), if_pos (by decide), h3,
    findSampleSearch_done _ _ _ _ _ (by decide), Run.bind_ret,
    if_neg (fun hc => absurd hc.1 (by decide))]
  rw [if_neg (by decide), findSampleRefine_closest, if_pos (by decide), g2, Run.bind_ret]
  have g1' : arrayGet [(⟨0, 0⟩ : SampleTimeEntry), ⟨2, 2000⟩, a, b] (2 - 1) = .ret ⟨2, 2000⟩ := rfl
  rw [g1', Run.bind_ret, ha, if_neg (by decide), Run.bind_ret, g2, Run.bind_ret]

/-- C21 as stated fails: the composition times are `[0, 3000, 2000, 3000]`,
but `findSampleAtTime(2500, kFlagClosest)` returns OK with sample 1, which is
shown at 3000, not with sample 2: the search ends on the entry at 3000, and
its left neighbour at 2000 is taken only when it is strictly closer. -/
theorem findSampleAtTime_closest_example_tie :
    (List.range 4).map (reorderedTable.recordedCompositionTime fun _ => ⟨0, 0⟩)
      = [some 0, some 3000, some 2000, some 3000] ∧
    reorderedTable.findSampleAtTime insertionQsort (fun _ => ⟨0, 0⟩) 4 2500 kFlagClosest
      = .ret (status_t.OK, some 1) := by
  refine ⟨by decide, by decide⟩

/-- C21, amended: with 4 samples, stts runs `[(4, 1000)]` and version-0 ctts
runs `[(1, 0), (1, 2000), (1, 0), (1, 0)]`, the composition times of samples
0..3 are `[0, 3000, 2000, 3000]` and `findSampleAtTime(2500, kFlagClosest)`
returns OK with a sample shown at 3000: sample 1 or sample 3, whichever of
the two equal entries `qsort` leaves first.  The request lies as far from
2000 as from 3000, and the tie goes to the later time. -/
theorem findSampleAtTime_closest_example
    (qsort : List SampleTimeEntry → List SampleTimeEntry) (hq : QsortContract qsort)
    (garbage : Nat → SampleTimeEntry) (fuel : Nat) (hfuel : 4 ≤ fuel) :
    (List.range 4).map (reorderedTable.recordedCompositionTime garbage)
      = [some 0, some 3000, some 2000, some 3000] ∧
    ∃ j, reorderedTable.findSampleAtTime qsort garbage fuel 2500 kFlagClosest
        = .ret (status_t.OK, some j) ∧ (j = 1 ∨ j = 3) := by
  obtain ⟨s, h1, _, h3⟩ := fillSampleEntries_exact garbage reorderedTable [(4, 1000)]
    (runValue [(1, 0), (1, 2000), (1, 0), (1, 0)]) rfl rfl
    (Or.inr ⟨[(1, 0), (1, 2000), (1, 0), (1, 0)], by decide, loadedLookup_inv _, rfl⟩)
    (by decide)
  have hes : s.entries = [⟨0, 0⟩, ⟨1, 3000⟩, ⟨2, 2000⟩, ⟨3, 3000⟩] := by
    rw [h3]
    rfl
  have hrec : ∀ k, reorderedTable.recordedCompositionTime garbage k
      = s.entries[k]?.map SampleTimeEntry.mCompositionTime := by
    intro k
    simp [SampleTable.recordedCompositionTime, h1]
  refine ⟨?_, ?_⟩
  · rw [show List.range 4 = [0, 1, 2, 3] from rfl]
    simp only [List.map, hrec, hes]
    rfl
  · have hperm := hq.perm s.entries
    have hsort := hq.sorted s.entries
    rw [hes] at hperm hsort
    have htimes : (qsort [⟨0, 0⟩, ⟨1, 3000⟩, ⟨2, 2000⟩, ⟨3, 3000⟩]).map
        SampleTimeEntry.mCompositionTime = [0, 2000, 3000, 3000] := by
      apply List.eq_of_perm_of_sorted (r := fun a b : Nat => a ≤ b)
      · exact (hperm.map _).trans (List.Perm.cons 0 (List.Perm.swap 2000 3000 [3000]))
      · rw [List.Sorted, List.pairwise_map]
        exact List.Pairwise.imp (fun {a b} hab => (CompareIncreasingTime_le a b).1 hab) hsort
      · decide
    have hmem : ∀ x, x ∈ qsort [⟨0, 0⟩, ⟨1, 3000⟩, ⟨2, 2000⟩, ⟨3, 3000⟩] →
        x = ⟨0, 0⟩ ∨ x = ⟨1, 3000⟩ ∨ x = ⟨2, 2000⟩ ∨ x = ⟨3, 3000⟩ := by
      intro x hx
      have := hperm.mem_iff.1 hx
      simpa using this
    have hfind : reorderedTable.findSampleAtTime qsort garbage fuel 2500 kFlagClosest
        = findSampleInEntries (qsort [⟨0, 0⟩, ⟨1, 3000⟩, ⟨2, 2000⟩, ⟨3, 3000⟩]) 4 2500
            kFlagClosest fuel := by
      have hnone : reorderedTable.mSampleTimeEntries = none := rfl
      have hN : reorderedTable.mNumSampleSizes = 4 := rfl
      simp [SampleTable.findSampleAtTime, SampleTable.buildSampleEntriesTable, hnone, h1, hes,
        hN]
    obtain ⟨f, hf⟩ : ∃ f, fuel = f + 2 := ⟨fuel - 2, by omega⟩
    rw [hfind, hf]
    generalize hl : qsort [⟨0, 0⟩, ⟨1, 3000⟩, ⟨2, 2000⟩, ⟨3, 3000⟩] = l at htimes hmem
    match l, htimes, hmem with
    | [a0, a1, a2, a3], htimes, hmem =>
      simp only [List.map, List.cons.injEq, and_true] at htimes
      obtain ⟨t0, t1, t2, t3⟩ := htimes
      have m0 := hmem a0 (by simp)
      have m1 := hmem a1 (by simp)
      have m2 := hmem a2 (by simp)
      have e0 : a0 = ⟨0, 0⟩ := by
        rcases m0 with h | h | h | h
        · exact h
        · rw [h] at t0; exact absurd t0 (by decide)
        · rw [h] at t0; exact absurd t0 (by decide)
        · rw [h] at t0; exact absurd t0 (by decide)
      have e1 : a1 = ⟨2, 2000⟩ := by
        rcases m1 with h | h | h | h
        · rw [h] at t1; exact absurd t1 (by decide)
        · rw [h] at t1; exact absurd t1 (by decide)
        · exact h
        · rw [h] at t1; exact absurd t1 (by decide)
      have e2 : a2.mSampleIndex = 1 ∨ a2.mSampleIndex = 3 := by
        rcases m2 with h | h | h | h
        · rw [h] at t2; exact absurd t2 (by decide)
        · rw [h]; exact Or.inl rfl
        · rw [h] at t2; exact absurd t2 (by decide)
        · rw [h]; exact Or.inr rfl
      rw [e0, e1, findSampleInEntries_tie a2 a3 t2 f]
      exact ⟨_, rfl, e2⟩
    | [], htimes, _ => simp at htimes
    | [_], htimes, _ => simp at htimes
    | [_, _], htimes, _ => simp at htimes
    | [_, _, _], htimes, _ => simp at htimes
    | _ :: _ :: _ :: _ :: _ :: _, htimes, _ => simp at htimes

theorem findSampleAtTime_closest_example_witness :
    QsortContract insertionQsort ∧
    (List.range 4).map (reorderedTable.recordedCompositionTime fun _ => ⟨9, 9⟩)
      = [some 0, some 3000, some 2000, some 3000] ∧
    ∃ j, reorderedTable.findSampleAtTime insertionQsort (fun _ => ⟨9, 9⟩) 4 2500 kFlagClosest
        = .ret (status_t.OK, some j) ∧ (j = 1 ∨ j = 3) :=
  ⟨insertionQsort_contract,
    findSampleAtTime_closest_example insertionQsort insertionQsort_contract
      (fun _ => ⟨9, 9⟩) 4 (by decide)⟩

/-! ## The tie of `findSyncSampleNear` -/

theorem take_drop_of_take_eq {α : Type} {l X : List α} {m o n : Nat}
    (h : l.take m = X.take m) (hle : o + n ≤ m) : (l.drop o).take n = (X.drop o).take n := by
  have e1 : l.take (o + n) = X.take (o + n) := by
    have := congrArg (List.take (o + n)) h
    rwa [List.take_take, List.take_take, Nat.min_eq_left hle] at this
  rw [List.take_drop, List.take_drop, e1]

/-- One `getTSPacket` call on a buffer that serves `bytes` at offset `d`:
it reports the end of the stream and changes nothing when no whole packet
lies before the clip end (or the block is shorter than a packet), and
otherwise hands out the source bytes `[d, d + 188)` and serves `bytes` at
`d + 188` afterwards. -/
theorem getTSPacket_step (src : DataSource) (bytes : List Nat) (b : TSBuffer) (d : Int)
    (hfull : FullReads src bytes) (hclip : b.mClipSize ≤ (bytes.length : Int))
    (hcap : b.mCapacity < 2147483648) (hinv : TSBufferInv bytes b d) :
    ((d + 188 > b.mClipSize ∨ b.mCapacity < 188) ∧
      b.getTSPacket src d = .ret (status_t.ERROR_END_OF_STREAM, none, b)) ∨
    (d + 188 ≤ b.mClipSize ∧
      ∃ b', b.getTSPacket src d
          = .ret (status_t.OK, some ((bytes.drop d.toNat).take 188), b') ∧
        TSBufferInv bytes b' (d + 188) ∧ b'.mCapacity = b.mCapacity ∧
        b'.mClipSize = b.mClipSize) := by
  unfold TSBufferInv at hinv
  simp only [kTSPacketSize] at hinv
  obtain ⟨h1, h2, h3, h4, h5, h6⟩ := hinv
  unfold TSBuffer.getTSPacket
  simp only [kTSPacketSize, Nat.cast_ofNat]
  by_cases hre : (b.mSize + 4294967296 - b.mOffset) % 4294967296 < 188
  · rw [if_pos hre]
    generalize hsz : (if d + (b.mCapacity : Int) > b.mClipSize then
        ((b.mClipSize - d) % 4294967296).toNat else b.mCapacity) = size
    have hsz1 : size ≤ b.mCapacity ∧ d + (size : Int) ≤ b.mClipSize ∧
        (size < 188 → d + 188 > b.mClipSize ∨ b.mCapacity < 188) := by
      by_cases hc : d + (b.mCapacity : Int) > b.mClipSize
      · rw [if_pos hc] at hsz
        omega
      · rw [if_neg hc] at hsz
        omega
    by_cases hsmall : size < 188
    · rw [if_pos hsmall]
      exact Or.inl ⟨hsz1.2.2 hsmall, rfl⟩
    · rw [if_neg hsmall]
      have hd0 : 0 ≤ d := by omega
      have hread := hfull d size hd0 (by omega)
      rw [hread]
      have hlen : ((bytes.drop d.toNat).take size).length = size := by
        rw [List.length_take, List.length_drop]
        omega
      simp only
      rw [hlen, if_neg (by omega)]
      have hmod : ((size : Int) % 4294967296).toNat = size := by omega
      rw [hmod, if_neg (by omega)]
      have hm188 : (0 + 188) % 4294967296 = 188 := by decide
      rw [hm188, List.drop_zero, List.take_append_of_le_length (by omega), List.take_take,
        Nat.min_eq_left (by omega)]
      refine Or.inr ⟨by omega,
        { mData := (bytes.drop d.toNat).take size ++ b.mData.drop size,
          mCapacity := b.mCapacity, mOffset := 188, mSize := size, mClipSize := b.mClipSize },
        rfl, ?_, rfl, rfl⟩
      unfold TSBufferInv
      simp only [kTSPacketSize]
      refine ⟨by omega, by omega, Nat.dvd_refl _, by omega, by omega, ?_⟩
      rw [List.take_left' hlen]
      have : (d + 188 - ((188 : Nat) : Int)).toNat = d.toNat := by omega
      rw [this]
  · rw [if_neg hre]
    have hrem : b.mOffset + 188 ≤ b.mSize := by omega
    have hm : (b.mOffset + 188) % 4294967296 = b.mOffset + 188 :=
      Nat.mod_eq_of_lt (by omega)
    have hpk : (b.mData.drop b.mOffset).take 188 = (bytes.drop d.toNat).take 188 := by
      rw [take_drop_of_take_eq h6 hrem, List.drop_drop]
      have : (d - (b.mOffset : Int)).toNat + b.mOffset = d.toNat := by omega
      rw [this]
    rw [hm, hpk]
    refine Or.inr ⟨by omega, { b with mOffset := b.mOffset + 188 }, rfl, ?_, rfl, rfl⟩
    unfold TSBufferInv
    simp only [kTSPacketSize]
    refine ⟨hrem, h2, (Nat.dvd_add_right h3).2 (Nat.dvd_refl _), by omega, by omega, ?_⟩
    have : (d + 188 - ((b.mOffset + 188 : Nat) : Int)).toNat
        = (d - (b.mOffset : Int)).toNat := by omega
    rw [this]
    exact h6

theorem getTSPackets_spec (src : DataSource) (bytes : List Nat)
    (hfull : FullReads src bytes) :
    ∀ (k : Nat) (b : TSBuffer) (o : Int), b.mClipSize ≤ (bytes.length : Int) →
      b.mCapacity < 2147483648 → TSBufferInv bytes b o →
      ∃ res, b.getTSPackets src k o = .ret res ∧
        (∀ pkts b', res = some (pkts, b') →
          pkts = (List.range k).map
            (fun i : Nat => (bytes.drop (o + 188 * (i : Int)).toNat).take 188) ∧
          TSBufferInv bytes b' (o + 188 * (k : Int)) ∧ b'.mCapacity = b.mCapacity ∧
          b'.mClipSize = b.mClipSize) ∧
        (188 ≤ b.mCapacity → o + 188 * (k : Int) ≤ b.mClipSize → res ≠ none) := by
  intro k
  induction k with
  | zero =>
    intro b o _ _ hinv
    refine ⟨_, rfl, ?_, fun _ _ h => Option.noConfusion h⟩
    intro pkts b' hres
    simp only [Option.some.injEq, Prod.mk.injEq] at hres
    obtain ⟨e1, e2⟩ := hres
    subst e1 e2
    refine ⟨rfl, ?_, rfl, rfl⟩
    simpa using hinv
  | succ k ih =>
    intro b o hclip hcap hinv
    unfold TSBuffer.getTSPackets
    rcases getTSPacket_step src bytes b o hfull hclip hcap hinv with
      ⟨hwhy, hE⟩ | ⟨-, b1, hOK, hinv1, hc1, hl1⟩
    · rw [hE, Run.bind_ret]
      refine ⟨none, rfl, ?_, ?_⟩
      · intro pkts b' hres
        cases hres
      · intro h1 h2
        push_cast at h2
        omega
    · rw [hOK, Run.bind_ret]
      obtain ⟨res, hrun, hprop, hsome⟩ := ih b1 (o + 188) (by rw [hl1]; exact hclip)
        (by rw [hc1]; exact hcap) hinv1
      simp only [kTSPacketSize, Nat.cast_ofNat]
      rw [hrun, Run.bind_ret]
      cases res with
      | none =>
        refine ⟨none, rfl, ?_, ?_⟩
        · intro pkts b' hres
          cases hres
        · intro h1 h2
          exact absurd rfl (hsome (by omega) (by push_cast at h2; omega))
      | some q =>
        obtain ⟨pk, b2⟩ := q
        refine ⟨some (_ :: pk, b2), rfl, ?_, fun _ _ h => Option.noConfusion h⟩
        intro pkts b' hres
        simp only [Option.some.injEq, Prod.mk.injEq] at hres
        obtain ⟨e1, e2⟩ := hres
        subst e1 e2
        obtain ⟨p1, p2, p3, p4⟩ := hprop pk b2 rfl
        refine ⟨?_, ?_, by rw [p3, hc1], by rw [p4, hl1]⟩
        · rw [List.range_succ_eq_map, List.map_cons, List.map_map, p1]
          congr 1
          · simp
          · apply List.map_congr_left
            intro i _
            have : o + 188 + 188 * (i : Int) = o + 188 * ((Nat.succ i : Nat) : Int) := by
              push_cast
              omega
            simp only [Function.comp_apply]
            rw [this]
        · have : o + 188 + 188 * (k : Int) = o + 188 * ((k + 1 : Nat) : Int) := by
            push_cast
            omega
          rw [← this]
          exact p2

/-- C24 fails: a refill whose read fails does not surface the failure.  The
byte source returns -1004 for the read of 376 bytes, `retVal < size` is
evaluated in unsigned arithmetic where -1004 is 4294966292, the branch that
would return the status is skipped, and `getTSPacket` returns OK, hands out
the start of the block (still holding what `malloc` left there) and records
4294966292 cached bytes. -/
theorem getTSPacket_negative_read_ok :
    (TSBuffer.new (List.replicate 376 0) 376 1880).getTSPacket failingSource 0
      = .ret (status_t.OK, some (List.replicate 188 0),
          { mData := List.replicate 376 0, mCapacity := 376, mOffset := 188,
            mSize := 4294966292, mClipSize := 1880 }) ∧
    failingSource.readAt 0 376 = (-1004, []) := by
  refine ⟨rfl, rfl⟩

/-- What the unsigned comparison lets through in general: when a refill of
at most 2^31 bytes is attempted and the read returns a negative status,
delivering nothing, `getTSPacket` returns OK with a packet. -/
theorem getTSPacket_negative_read (src : DataSource) (b : TSBuffer) (d : Int)
    (hrefill : (b.mSize + 4294967296 - b.mOffset) % 4294967296 < kTSPacketSize)
    (hfit : d + (b.mCapacity : Int) ≤ b.mClipSize)
    (hcap1 : kTSPacketSize ≤ b.mCapacity) (hcap2 : b.mCapacity ≤ 2147483648)
    (hneg : (src.readAt d b.mCapacity).1 < 0)
    (hmin : -2147483648 ≤ (src.readAt d b.mCapacity).1)
    (hnone : (src.readAt d b.mCapacity).2 = []) :
    ∃ packet b', b.getTSPacket src d = .ret (status_t.OK, some packet, b') := by
  simp only [kTSPacketSize] at hrefill hcap1
  have hs : (if d + (b.mCapacity : Int) > b.mClipSize then
      ((b.mClipSize - d) % 4294967296).toNat else b.mCapacity) = b.mCapacity :=
    if_neg (by omega)
  unfold TSBuffer.getTSPacket
  simp only [kTSPacketSize]
  rw [if_pos hrefill, hs, if_neg (by omega), hnone, List.length_nil, if_neg (by omega),
    if_neg (by omega)]
  exact ⟨_, _, rfl⟩

/-- C30: a `TSBuffer` that is fresh or flushed (`mOffset = mSize = 0`), used
with a byte source that holds the clip and returns full reads, is a
transparent cache: for every start offset `o` with `0 <= o <= clipSize` and
every `k`, the `k` calls with the source offsets `o`, `o + 188`, ... run
without fault, and when all of them return OK, call `i` hands out the source
bytes `[o + 188 i, o + 188 (i + 1))` and the buffer is left with
`mOffset <= mSize <= mCapacity` and `mOffset` a multiple of 188.  They do
all return OK when the block holds a packet and the `k` packets lie before
the clip end.  The constructor and `flush` produce such a buffer. -/
theorem getTSPackets_transparent (src : DataSource) (bytes : List Nat) (b : TSBuffer)
    (o : Int) (k : Nat) (hfull : FullReads src bytes)
    (hclip : b.mClipSize ≤ (bytes.length : Int)) (hcap : b.mCapacity < 2147483648)
    (hfresh : b.mOffset = 0 ∧ b.mSize = 0) (ho : 0 ≤ o) (hoc : o ≤ b.mClipSize) :
    (∃ res, b.getTSPackets src k o = .ret res ∧
      (∀ pkts b', res = some (pkts, b') →
        pkts = (List.range k).map
          (fun i : Nat => (bytes.drop (o + 188 * (i : Int)).toNat).take 188) ∧
        b'.mOffset ≤ b'.mSize ∧ b'.mSize ≤ b'.mCapacity ∧ kTSPacketSize ∣ b'.mOffset) ∧
      (188 ≤ b.mCapacity → o + 188 * (k : Int) ≤ b.mClipSize → res ≠ none)) ∧
    (∀ memory capacity clipSize,
      (TSBuffer.new memory capacity clipSize).mOffset = 0
        ∧ (TSBuffer.new memory capacity clipSize).mSize = 0) ∧
    (∀ b0 : TSBuffer, b0.flush.mOffset = 0 ∧ b0.flush.mSize = 0) := by
  refine ⟨?_, fun _ _ _ => ⟨rfl, rfl⟩, fun _ => ⟨rfl, rfl⟩⟩
  have hinv : TSBufferInv bytes b o := by
    unfold TSBufferInv
    rw [hfresh.1, hfresh.2]
    refine ⟨Nat.le_refl _, Nat.zero_le _, Nat.dvd_zero _, by omega, by omega, ?_⟩
    rw [List.take_zero, List.take_zero]
  obtain ⟨res, hrun, hprop, hsome⟩ := getTSPackets_spec src bytes hfull k b o hclip hcap hinv
  refine ⟨res, hrun, ?_, hsome⟩
  intro pkts b' hres
  obtain ⟨p1, p2, _, _⟩ := hprop pkts b' hres
  exact ⟨p1, p2.1, p2.2.1, p2.2.2.1⟩

theorem bytesSource_fullReads (bytes : List Nat) : FullReads (bytesSource bytes) bytes := by
  intro offset size h0 hend
  unfold bytesSource
  simp only
  rw [if_neg (by omega)]
  have : ((bytes.drop offset.toNat).take size).length = size := by
    rw [List.length_take, List.length_drop]
    omega
  rw [this]

theorem getTSPackets_transparent_witness :
    ∃ res, (TSBuffer.new [] 400 1000).getTSPackets
        (bytesSource ((List.range 1000).map fun i => i % 256)) 4 188 = .ret res ∧
      (∀ pkts b', res = some (pkts, b') →
        pkts = (List.range 4).map
          (fun i : Nat => ((((List.range 1000).map fun i => i % 256).drop
            ((188 : Int) + 188 * (i : Int)).toNat).take 188)) ∧
        b'.mOffset ≤ b'.mSize ∧ b'.mSize ≤ b'.mCapacity ∧ kTSPacketSize ∣ b'.mOffset) ∧
      (188 ≤ (TSBuffer.new [] 400 1000).mCapacity →
        (188 : Int) + 188 * ((4 : Nat) : Int) ≤ (TSBuffer.new [] 400 1000).mClipSize →
        res ≠ none) :=
  (getTSPackets_transparent (bytesSource ((List.range 1000).map fun i => i % 256))
    ((List.range 1000).map fun i => i % 256) (TSBuffer.new [] 400 1000) 188 4
    (bytesSource_fullReads _) (by simp [TSBuffer.new]) (by decide) ⟨rfl, rfl⟩ (by decide)
    (by decide)).1

/-! ## `SniffMPEG2TS` -/

theorem sniffLoop_true_iff (src : DataSource) :
    ∀ (rem i : Nat), sniffLoop src rem i = true ↔
      ∀ j, i ≤ j → j < i + rem →
        (src.readAt ((kTSPacketSize * j : Nat) : Int) 1).1 = 1 ∧
        (src.readAt ((kTSPacketSize * j : Nat) : Int) 1).2.getD 0 0 % 256 = 0x47 := by
  intro rem
  induction rem with
  | zero =>
    intro i
    constructor
    · intro _ j h1 h2
      omega
    · intro _
      rfl
  | succ rem ih =>
    intro i
    unfold sniffLoop
    by_cases hbad : (src.readAt ((kTSPacketSize * i : Nat) : Int) 1).1 ≠ 1
        ∨ (src.readAt ((kTSPacketSize * i : Nat) : Int) 1).2.getD 0 0 % 256 ≠ 0x47
    · rw [if_pos hbad]
      constructor
      · intro h
        cases h
      · intro h
        have := h i (Nat.le_refl i) (by omega)
        rcases hbad with hb | hb
        · exact absurd this.1 hb
        · exact absurd this.2 hb
    · rw [if_neg hbad, ih (i + 1)]
      have hgood : (src.readAt ((kTSPacketSize * i : Nat) : Int) 1).1 = 1 ∧
          (src.readAt ((kTSPacketSize * i : Nat) : Int) 1).2.getD 0 0 % 256 = 0x47 := by
        constructor
        · by_contra hc
          exact hbad (Or.inl hc)
        · by_contra hc
          exact hbad (Or.inr hc)
      constructor
      · intro h j h1 h2
        by_cases e : j = i
        · rw [e]
          exact hgood
        · exact h j (by omega) (by omega)
      · intro h j h1 h2
        exact h j (by omega) (by omega)

/-- C25: `SniffMPEG2TS` returns true, with the MIME type `video/mp2ts` and
the confidence 0.6 stored, when for each `i` in 0..4 the 1-byte read at
offset `188 * i` returns 1 and yields the byte 0x47; in every other case it
returns false and leaves `*mimeType` and `*confidence` as they were. -/
theorem SniffMPEG2TS_iff (src : DataSource) (mimeType : String) (confidence : ℚ) :
    ((∀ i, i < 5 →
        (src.readAt ((kTSPacketSize * i : Nat) : Int) 1).1 = 1 ∧
        (src.readAt ((kTSPacketSize * i : Nat) : Int) 1).2.getD 0 0 % 256 = 0x47) →
      SniffMPEG2TS src mimeType confidence
        = (true, MEDIA_MIMETYPE_CONTAINER_MPEG2TS, kSniffConfidence)) ∧
    (¬ (∀ i, i < 5 →
        (src.readAt ((kTSPacketSize * i : Nat) : Int) 1).1 = 1 ∧
        (src.readAt ((kTSPacketSize * i : Nat) : Int) 1).2.getD 0 0 % 256 = 0x47) →
      SniffMPEG2TS src mimeType confidence = (false, mimeType, confidence)) ∧
    MEDIA_MIMETYPE_CONTAINER_MPEG2TS = "video/mp2ts" ∧ kSniffConfidence = 6 / 10 := by
  have hiff := sniffLoop_true_iff src 5 0
  refine ⟨?_, ?_, rfl, rfl⟩
  · intro h
    have : sniffLoop src 5 0 = true := hiff.2 (fun j _ hj => h j (by omega))
    unfold SniffMPEG2TS
    rw [if_pos this]
  · intro h
    have : ¬ sniffLoop src 5 0 = true := by
      intro hc
      exact h (fun j hj => hiff.1 hc j (Nat.zero_le j) (by omega))
    unfold SniffMPEG2TS
    rw [if_neg this]

theorem SniffMPEG2TS_iff_witness :
    SniffMPEG2TS syncByteSource "" 0
      = (true, MEDIA_MIMETYPE_CONTAINER_MPEG2TS, kSniffConfidence) ∧
    SniffMPEG2TS (bytesSource [0x47]) "" 0 = (false, "", 0) :=
  ⟨(SniffMPEG2TS_iff syncByteSource "" 0).1 (fun _ _ => ⟨rfl, rfl⟩),
    (SniffMPEG2TS_iff (bytesSource [0x47]) "" 0).2.1
      (fun h => absurd (h 1 (by decide)).1 (by decide))⟩

/-! ## The probe of `MPEG2TSExtractor::init` -/

theorem getTSPacket_cases (src : DataSource) (b : TSBuffer) (d : Int) :
    b.getTSPacket src d = .ub ∨
    (∃ st b', st ≠ status_t.OK ∧ b.getTSPacket src d = .ret (st, none, b')) ∨
    (∃ p b', b.getTSPacket src d = .ret (status_t.OK, some p, b')) := by
  unfold TSBuffer.getTSPacket
  simp only
  generalize (if d + (b.mCapacity : Int) > b.mClipSize then
      ((b.mClipSize - d) % 4294967296).toNat else b.mCapacity) = size
  by_cases c1 : (b.mSize + 4294967296 - b.mOffset) % 4294967296 < kTSPacketSize
  · rw [if_pos c1]
    by_cases c2 : size < kTSPacketSize
    · rw [if_pos c2]
      exact Or.inr (Or.inl ⟨_, _, by decide, rfl⟩)
    · rw [if_neg c2]
      by_cases c3 : (src.readAt d size).2.length > b.mCapacity
      · rw [if_pos c3]
        exact Or.inl rfl
      · rw [if_neg c3]
        by_cases c4 : ((src.readAt d size).1 % 4294967296).toNat < size
        · rw [if_pos c4]
          refine Or.inr (Or.inl ⟨_, _, ?_, rfl⟩)
          by_cases c5 : (src.readAt d size).1 < 0
          · rw [if_pos c5]
            intro h
            cases h
          · rw [if_neg c5]
            decide
        · rw [if_neg c4]
          exact Or.inr (Or.inr ⟨_, _, rfl⟩)
  · rw [if_neg c1]
    exact Or.inr (Or.inr ⟨_, _, rfl⟩)

theorem feedMore_cases {σ : Type} (parser : ATSParser σ) (src : DataSource)
    (e : MPEG2TSExtractor σ) :
    e.feedMore parser src = .ub ∨
    (∃ st e', st ≠ status_t.OK ∧ e'.mOffset = e.mOffset ∧
      e.feedMore parser src = .ret (st, e')) ∨
    (∃ st e', e'.mOffset = e.mOffset + 188 ∧ e.feedMore parser src = .ret (st, e')) := by
  unfold MPEG2TSExtractor.feedMore
  rcases getTSPacket_cases src e.mTSBuffer e.mOffset with h | ⟨st, b', hst, h⟩ | ⟨p, b', h⟩
  · rw [h]
    exact Or.inl rfl
  · rw [h, Run.bind_ret]
    exact Or.inr (Or.inl ⟨st, ⟨e.mOffset, b', e.mParser, e.mSourceList⟩, hst, rfl, rfl⟩)
  · rw [h, Run.bind_ret]
    simp only
    rw [if_neg (by decide)]
    exact Or.inr (Or.inr ⟨(parser.feedTSPacket e.mParser p).1,
      ⟨e.mOffset + 188, b', (parser.feedTSPacket e.mParser p).2, e.mSourceList⟩, rfl, rfl⟩)

theorem probeSources_cases {σ : Type} (parser : ATSParser σ) (s : ProbeState σ) :
    probeSources parser s = .abort ∨
    ∃ s', probeSources parser s = .ret s' ∧
      s'.numPacketsParsed = s.numPacketsParsed ∧ s'.feeds = s.feeds ∧
      s'.ext.mOffset = s.ext.mOffset := by
  unfold probeSources
  simp only
  generalize hs1 : (if (!s.haveVideo) = true ∧ parser.getSourceVideo s.ext.mParser = true then
      ({ s with haveVideo := true,
                ext := { s.ext with
                  mSourceList := s.ext.mSourceList ++ [(true, s.ext.mOffset)] } } : ProbeState σ)
    else s) = s1
  have hk : s1.numPacketsParsed = s.numPacketsParsed ∧ s1.feeds = s.feeds ∧
      s1.ext.mOffset = s.ext.mOffset := by
    by_cases c : (!s.haveVideo) = true ∧ parser.getSourceVideo s.ext.mParser = true
    · rw [if_pos c] at hs1
      rw [← hs1]
      exact ⟨rfl, rfl, rfl⟩
    · rw [if_neg c] at hs1
      rw [← hs1]
      exact ⟨rfl, rfl, rfl⟩
  by_cases c2 : s1.haveAudio = true
  · rw [if_pos c2]
    exact Or.inr ⟨s1, rfl, hk⟩
  · rw [if_neg c2]
    cases hpa : parser.getSourceAudio s1.ext.mParser with
    | none => exact Or.inr ⟨s1, rfl, hk⟩
    | some m =>
      cases m with
      | none => exact Or.inl rfl
      | some mime =>
        simp only
        by_cases c3 : dropsAudio mime = true
        · rw [if_pos c3]
          exact Or.inr ⟨_, rfl, hk⟩
        · rw [if_neg c3]
          exact Or.inr ⟨_, rfl, hk⟩

/-- The bound the loop of `init` does keep: it ends within 10001 turns, and
when it returns, at most 10001 `feedMore` calls have returned OK and the
extractor offset has advanced by at most `10001 * 188`. -/
theorem initLoop_bound {σ : Type} (parser : ATSParser σ) (src : DataSource) (o0 : Int) :
    ∀ (fuel : Nat) (s : ProbeState σ), s.numPacketsParsed ≤ 10000 →
      s.feeds = s.numPacketsParsed → s.ext.mOffset = o0 + 188 * (s.feeds : Int) →
      10001 ≤ fuel + s.numPacketsParsed →
      initLoop parser src fuel s ≠ .timeout ∧
      ∀ s', initLoop parser src fuel s = .ret s' →
        s'.feeds ≤ 10001 ∧ s'.ext.mOffset ≤ o0 + 188 * 10001 := by
  intro fuel
  induction fuel with
  | zero =>
    intro s h1 _ _ h4
    omega
  | succ fuel ih =>
    intro s h1 h2 h3 h4
    unfold initLoop
    rcases feedMore_cases parser src s.ext with hf | ⟨st, e', hst, hoff, hf⟩ | ⟨st, e', hoff, hf⟩
    · rw [hf]
      exact ⟨fun h => Run.noConfusion h, fun s' h => Run.noConfusion h⟩
    · rw [hf, Run.bind_ret, if_pos hst]
      refine ⟨fun h => Run.noConfusion h, ?_⟩
      intro s' hs'
      simp only [Run.ret.injEq] at hs'
      rw [← hs']
      simp only
      rw [hoff, h3]
      omega
    · rw [hf, Run.bind_ret]
      simp only
      by_cases hst : st ≠ status_t.OK
      · rw [if_pos hst]
        refine ⟨fun h => Run.noConfusion h, ?_⟩
        intro s' hs'
        simp only [Run.ret.injEq] at hs'
        rw [← hs']
        simp only
        rw [hoff, h3]
        omega
      · rw [if_neg hst]
        by_cases hboth : s.haveAudio = true ∧ s.haveVideo = true
        · rw [if_pos hboth]
          refine ⟨fun h => Run.noConfusion h, ?_⟩
          intro s' hs'
          simp only [Run.ret.injEq] at hs'
          rw [← hs']
          simp only
          rw [hoff, h3]
          omega
        · rw [if_neg hboth]
          rcases probeSources_cases parser { s with ext := e', feeds := s.feeds + 1 } with
            hp | ⟨s2, hp, k1, k2, k3⟩
          · rw [hp]
            exact ⟨fun h => Run.noConfusion h, fun s' h => Run.noConfusion h⟩
          · rw [hp, Run.bind_ret]
            simp only at k1 k2 k3
            by_cases hmax : s2.numPacketsParsed + 1 > MAX_NUM_TS_PACKETS_FOR_META_DATA
            · rw [if_pos hmax]
              refine ⟨fun h => Run.noConfusion h, ?_⟩
              intro s' hs'
              simp only [Run.ret.injEq] at hs'
              rw [← hs']
              simp only
              rw [k3, hoff, h3]
              omega
            · rw [if_neg hmax]
              unfold MAX_NUM_TS_PACKETS_FOR_META_DATA at hmax
              exact ih { s2 with numPacketsParsed := s2.numPacketsParsed + 1 }
                (by simp only; omega) (by simp only; omega)
                (by simp only; rw [k3, hoff, h3, k2]; push_cast; omega)
                (by simp only; omega)

theorem syncByteSource_fullReads (n : Nat) :
    FullReads syncByteSource (List.replicate n 0x47) := by
  intro offset size h0 hend
  unfold syncByteSource
  simp only [List.length_replicate] at hend ⊢
  rw [List.drop_replicate, List.take_replicate]
  have : min size (n - offset.toNat) = size := by omega
  rw [this]

theorem feedMore_idle (src : DataSource) (e : MPEG2TSExtractor Unit) (p : List Nat)
    (b1 : TSBuffer)
    (h : e.mTSBuffer.getTSPacket src e.mOffset = .ret (status_t.OK, some p, b1)) :
    e.feedMore idleParser src
      = .ret (status_t.OK, ⟨e.mOffset + 188, b1, (), e.mSourceList⟩) := by
  unfold MPEG2TSExtractor.feedMore
  rw [h, Run.bind_ret]
  simp only
  rw [if_neg (by decide)]
  rfl

theorem probeSources_idle (s : ProbeState Unit) (hA : s.haveAudio = false) :
    probeSources idleParser s = .ret s := by
  unfold probeSources
  simp only
  have c1 : ¬ ((!s.haveVideo) = true ∧ idleParser.getSourceVideo s.ext.mParser = true) :=
    fun h => Bool.noConfusion h.2
  rw [if_neg c1, if_neg (show ¬ s.haveAudio = true by rw [hA]; decide)]
  rfl

/-- The walk of the loop of `init` over a source of 10001 packets with a
parser that accepts every packet and never reports a track: from the state
after `n` packets it goes on to the state after 10001 packets. -/
theorem initLoop_idle (bytes : List Nat) (src : DataSource) (hfull : FullReads src bytes)
    (hlen : (188 * 10001 : Int) ≤ (bytes.length : Int)) :
    ∀ (fuel : Nat) (s : ProbeState Unit), s.numPacketsParsed ≤ 10000 →
      10001 ≤ fuel + s.numPacketsParsed →
      s.haveAudio = false → s.haveVideo = false → s.feeds = s.numPacketsParsed →
      s.ext.mOffset = 188 * (s.numPacketsParsed : Int) →
      s.ext.mTSBuffer.mCapacity = kTSCacheSize → s.ext.mTSBuffer.mClipSize = 188 * 10001 →
      TSBufferInv bytes s.ext.mTSBuffer s.ext.mOffset →
      ∃ s', initLoop idleParser src fuel s = .ret s' ∧ s'.feeds = 10001 ∧
        s'.numPacketsParsed = 10001 ∧ s'.ext.mOffset = 188 * 10001 := by
  intro fuel
  induction fuel with
  | zero =>
    intro s h1 h2
    omega
  | succ fuel ih =>
    intro s h1 h2 hA hV hF hO hC hL hinv
    have hcapv : kTSCacheSize = 188000 := by decide
    rcases getTSPacket_step src bytes s.ext.mTSBuffer s.ext.mOffset hfull
        (by rw [hL]; exact hlen) (by rw [hC, hcapv]; decide) hinv with
      ⟨hwhy, -⟩ | ⟨-, b1, hOK, hinv1, hc1, hl1⟩
    · rw [hL, hC, hcapv, hO] at hwhy
      omega
    · unfold initLoop
      have hps := probeSources_idle
        ⟨s.haveAudio, s.haveVideo, s.numPacketsParsed, s.feeds + 1,
          ⟨s.ext.mOffset + 188, b1, (), s.ext.mSourceList⟩⟩ hA
      rw [feedMore_idle src s.ext _ b1 hOK, Run.bind_ret, if_neg (not_not.2 rfl)]
      simp only
      rw [if_neg (show ¬ (s.haveAudio = true ∧ s.haveVideo = true) by
          rw [hA]; exact fun h => absurd h.1 (by decide)),
        hps, Run.bind_ret]
      simp only
      by_cases hmax : s.numPacketsParsed + 1 > MAX_NUM_TS_PACKETS_FOR_META_DATA
      · rw [if_pos hmax]
        unfold MAX_NUM_TS_PACKETS_FOR_META_DATA at hmax
        refine ⟨_, rfl, ?_, ?_, ?_⟩
        · simp only
          omega
        · simp only
          omega
        · simp only
          rw [hO]
          omega
      · rw [if_neg hmax]
        unfold MAX_NUM_TS_PACKETS_FOR_META_DATA at hmax
        apply ih
        · simp only; omega
        · simp only; omega
        · exact hA
        · exact hV
        · simp only; omega
        · simp only
          rw [hO]
          push_cast
          omega
        · simp only
          rw [hc1, hC]
        · simp only
          rw [hl1, hL]
        · simp only
          exact hinv1


theorem initLoop_idle_start (n : Nat) (hn : 188 * 10001 ≤ n) :
    ∃ s, initLoop idleParser syncByteSource 10001 (probeStart [] (188 * 10001) ()) = .ret s ∧
      s.feeds = 10001 ∧ s.numPacketsParsed = 10001 ∧ s.ext.mOffset = 188 * 10001 := by
  have hlen : (188 * 10001 : Int) ≤ ((List.replicate n 0x47).length : Int) := by
    rw [List.length_replicate]
    omega
  have hinv : TSBufferInv (List.replicate n 0x47)
      (probeStart [] (188 * 10001) ()).ext.mTSBuffer
      (probeStart [] (188 * 10001) ()).ext.mOffset := by
    unfold TSBufferInv
    refine ⟨Nat.le_refl _, Nat.zero_le _, Nat.dvd_zero _, by decide, by decide, ?_⟩
    show List.take 0 _ = List.take 0 _
    rw [List.take_zero, List.take_zero]
  exact initLoop_idle (List.replicate n 0x47) syncByteSource (syncByteSource_fullReads n)
    hlen 10001 (probeStart [] (188 * 10001) ()) (by decide) (by decide) rfl rfl rfl rfl rfl
    rfl hinv

/-- C26 fails by one packet: on a source of 10001 packets with a parser
that accepts every packet and reports no track, the loop of `init` returns
after `feedMore` has returned OK 10001 times, with the extractor offset at
`10001 * 188`, because the count is compared with `>` after the packet has
been fed. -/
theorem init_feeds_one_packet_too_many :
    ∃ s, initLoop idleParser syncByteSource 10001 (probeStart [] (188 * 10001) ()) = .ret s ∧
      s.feeds = 10001 ∧ s.numPacketsParsed = 10001 ∧ s.ext.mOffset = 10001 * 188 ∧
      ¬ s.feeds ≤ MAX_NUM_TS_PACKETS_FOR_META_DATA ∧
      ¬ s.ext.mOffset ≤ 10000 * 188 := by
  obtain ⟨s, h1, h2, h3, h4⟩ := initLoop_idle_start (188 * 10001) (Nat.le_refl _)
  refine ⟨s, h1, h2, h3, by rw [h4]; decide, ?_, ?_⟩
  · rw [h2]
    decide
  · rw [h4]
    decide

/-! ## The sync-sample cursor of `getMetaDataForSample` -/

theorem syncCursorScan_spec (sync : List Nat) (s : Nat) :
    ∀ (rem i : Nat), i + rem = sync.length →
      ∃ L, syncCursorScan sync sync.length s rem i = .ret L ∧ i ≤ L ∧ L ≤ sync.length ∧
        (∀ (j x : Nat), i ≤ j → j < L → sync[j]? = some x → x < s) ∧
        (∀ x : Nat, sync[L]? = some x → s ≤ x) := by
  intro rem
  induction rem with
  | zero =>
    intro i hi
    unfold syncCursorScan
    rw [if_neg (by omega)]
    refine ⟨i, rfl, Nat.le_refl _, by omega, ?_, ?_⟩
    · intro j x h1 h2 _
      omega
    · intro x hx
      have := getElem?_lt_length hx
      omega
  | succ rem ih =>
    intro i hi
    have hil : i < sync.length := by omega
    have hx : sync[i]? = some sync[i] := List.getElem?_eq_getElem hil
    unfold syncCursorScan
    rw [if_pos hil, arrayGet_of_getElem? hx, Run.bind_ret]
    by_cases hlt : sync[i] < s
    · rw [if_pos hlt]
      obtain ⟨L, h1, h2, h3, h4, h5⟩ := ih (i + 1) (by omega)
      refine ⟨L, h1, by omega, h3, ?_, h5⟩
      intro j x hj1 hj2 hjx
      by_cases e : j = i
      · rw [e, hx] at hjx
        rw [← Option.some.inj hjx]
        exact hlt
      · exact h4 j x (by omega) hj2 hjx
    · rw [if_neg hlt]
      refine ⟨i, rfl, Nat.le_refl _, by omega, ?_, ?_⟩
      · intro j x h1 h2 _
        omega
      · intro x hxx
        rw [hx] at hxx
        rw [← Option.some.inj hxx]
        omega

theorem sorted_getElem?_le (sync : List Nat) (hsorted : sync.Pairwise (fun a b => a ≤ b))
    (i j x y : Nat) (hij : i ≤ j) (hx : sync[i]? = some x) (hy : sync[j]? = some y) : x ≤ y := by
  have hi := getElem?_lt_length hx
  have hj := getElem?_lt_length hy
  rw [List.getElem?_eq_getElem hi] at hx
  rw [List.getElem?_eq_getElem hj] at hy
  rw [← Option.some.inj hx, ← Option.some.inj hy]
  rcases Nat.lt_or_eq_of_le hij with hlt | heq
  · exact (List.pairwise_iff_getElem.1 hsorted) i j hi hj hlt
  · subst heq
    exact Nat.le_refl _

/-- The lookup from the remembered cursor answers as a scan of the whole
table would: on a table in non-decreasing order it finds the sample exactly
when the sample occurs in the table, wherever the cursor stands. -/
theorem syncLookup_spec (t : SampleTable) (sync : List Nat) (s : Nat)
    (hs : t.mSyncSamples = some sync) (hn : sync.length = t.mNumSyncSamples)
    (hsorted : sync.Pairwise (fun a b => a ≤ b)) :
    ∃ i, t.syncLookup s = .ret (decide (s ∈ sync), i) := by
  unfold SampleTable.syncLookup
  simp only
  rw [hs, Option.getD_some, ← hn]
  -- the start position: the cursor when its entry is not behind `s`, else 0
  have hstart : ∃ i0, (if t.mLastSyncSampleIndex < sync.length then
        (arrayGet sync t.mLastSyncSampleIndex).bind fun x =>
          Run.ret (if x ≤ s then t.mLastSyncSampleIndex else 0)
      else Run.ret 0) = .ret i0 ∧ i0 ≤ sync.length ∧
      (0 < i0 → ∃ x, sync[i0]? = some x ∧ x ≤ s) := by
    by_cases hc : t.mLastSyncSampleIndex < sync.length
    · rw [if_pos hc]
      have hx : sync[t.mLastSyncSampleIndex]? = some sync[t.mLastSyncSampleIndex] :=
        List.getElem?_eq_getElem hc
      rw [arrayGet_of_getElem? hx, Run.bind_ret]
      by_cases hle : sync[t.mLastSyncSampleIndex] ≤ s
      · rw [if_pos hle]
        exact ⟨_, rfl, by omega, fun _ => ⟨_, hx, hle⟩⟩
      · rw [if_neg hle]
        exact ⟨0, rfl, Nat.zero_le _, fun h => absurd h (by omega)⟩
    · rw [if_neg hc]
      exact ⟨0, rfl, Nat.zero_le _, fun h => absurd h (by omega)⟩
  obtain ⟨i0, hi0, hi0le, hi0x⟩ := hstart
  rw [hi0, Run.bind_ret]
  obtain ⟨L, hscan, hL1, hL2, hbelow, hatL⟩ :=
    syncCursorScan_spec sync s (sync.length - i0) i0 (by omega)
  rw [hscan, Run.bind_ret]
  -- an occurrence of `s` can only sit at position `L`
  have hocc : ∀ p : Nat, sync[p]? = some s → sync[L]? = some s := by
    intro p hp
    have hpl := getElem?_lt_length hp
    by_cases h1 : p < i0
    · obtain ⟨x, hx, hxs⟩ := hi0x (by omega)
      have hsx := sorted_getElem?_le sync hsorted p i0 s x (by omega) hp hx
      have hxe : x = s := by omega
      rw [hxe] at hx
      by_cases h2 : i0 < L
      · have := hbelow i0 s (Nat.le_refl _) h2 hx
        omega
      · have : L = i0 := by omega
        rw [this]
        exact hx
    · by_cases h2 : p < L
      · have := hbelow p s (by omega) h2 hp
        omega
      · have hLl : L < sync.length := by omega
        have hxL : sync[L]? = some sync[L] := List.getElem?_eq_getElem hLl
        have h3 := hatL _ hxL
        have h4 := sorted_getElem?_le sync hsorted L p _ s (by omega) hxL hp
        have : sync[L] = s := by omega
        rw [← this]
        exact hxL
  by_cases hLl : L < sync.length
  · rw [if_pos hLl]
    have hxL : sync[L]? = some sync[L] := List.getElem?_eq_getElem hLl
    rw [arrayGet_of_getElem? hxL, Run.bind_ret]
    refine ⟨L, ?_⟩
    have : decide (sync[L] = s) = decide (s ∈ sync) := by
      by_cases e : sync[L] = s
      · have hmem : s ∈ sync := List.mem_iff_getElem?.2 ⟨L, by rw [hxL, e]⟩
        rw [decide_eq_true e, decide_eq_true hmem]
      · have hnot : ¬ s ∈ sync := by
          intro hmem
          obtain ⟨p, hp⟩ := List.mem_iff_getElem?.1 hmem
          have := hocc p hp
          rw [hxL] at this
          exact e (Option.some.inj this)
        rw [decide_eq_false e, decide_eq_false hnot]
    rw [this]
  · rw [if_neg hLl]
    refine ⟨L, ?_⟩
    have hnot : ¬ s ∈ sync := by
      intro hmem
      obtain ⟨p, hp⟩ := List.mem_iff_getElem?.1 hmem
      have := getElem?_lt_length (hocc p hp)
      omega
    rw [decide_eq_false hnot]

theorem getMetaDataForSample_sync_call (it : MetaIterator) (t : SampleTable) (s : Nat)
    (want : MetaRequest) (hseek : it.seekTo s = status_t.OK)
    (hwant : want.isSyncSample = true)
    (hwf : 0 ≤ t.mSyncSampleOffset → ∃ sync, t.mSyncSamples = some sync ∧
      sync.length = t.mNumSyncSamples ∧ sync.Pairwise (fun a b => a ≤ b)) :
    ∃ out t', t.getMetaDataForSample it s want = .ret (status_t.OK, out, t') ∧
      out.isSyncSample = some (t.isSyncSampleSpec s) ∧
      t'.mSyncSampleOffset = t.mSyncSampleOffset ∧ t'.mSyncSamples = t.mSyncSamples ∧
      t'.mNumSyncSamples = t.mNumSyncSamples := by
  unfold SampleTable.getMetaDataForSample
  rw [if_neg (not_not.2 hseek)]
  simp only
  rw [if_pos hwant]
  by_cases hoff : t.mSyncSampleOffset < 0
  · rw [if_pos hoff]
    refine ⟨_, _, rfl, ?_, rfl, rfl, rfl⟩
    unfold SampleTable.isSyncSampleSpec
    simp [hoff]
  · rw [if_neg hoff]
    obtain ⟨sync, hs, hn, hsorted⟩ := hwf (by omega)
    obtain ⟨i, hi⟩ := syncLookup_spec t sync s hs hn hsorted
    rw [hi, Run.bind_ret]
    refine ⟨_, _, rfl, ?_, rfl, rfl, rfl⟩
    unfold SampleTable.isSyncSampleSpec
    simp only
    rw [hs, Option.getD_some, ← hn, List.take_length, decide_eq_false hoff, Bool.false_or]
    congr 1
    simp

/-- C28: on a table without stss table, or with a sync table in
non-decreasing order, every sequence of `getMetaDataForSample` calls whose
seeks succeed, in any order of sample indices, stores in `*isSyncSample`
what the specification says: true when no stss table is loaded, and otherwise
true exactly for the samples that occur in the sync table.  The remembered
cursor `mLastSyncSampleIndex` never changes an answer. -/
theorem getMetaDataForSample_sync_flags (it : MetaIterator) (idxs : List Nat)
    (hseek : ∀ s, s ∈ idxs → it.seekTo s = status_t.OK) :
    ∀ t : SampleTable,
      (0 ≤ t.mSyncSampleOffset → ∃ sync, t.mSyncSamples = some sync ∧
        sync.length = t.mNumSyncSamples ∧ sync.Pairwise (fun a b => a ≤ b)) →
      ∃ t', t.syncFlags it idxs = .ret (some (idxs.map t.isSyncSampleSpec, t')) ∧
        t'.mSyncSampleOffset = t.mSyncSampleOffset ∧ t'.mSyncSamples = t.mSyncSamples ∧
        t'.mNumSyncSamples = t.mNumSyncSamples := by
  induction idxs with
  | nil =>
    intro t _
    exact ⟨t, rfl, rfl, rfl, rfl⟩
  | cons s rest ih =>
    intro t hwf
    obtain ⟨out, t1, hcall, hout, k1, k2, k3⟩ := getMetaDataForSample_sync_call it t s
      { offset := false, size := false, compositionTime := false, isSyncSample := true,
        sampleDescIndex := false }
      (hseek s (List.mem_cons_self _ _)) rfl hwf
    have hwf1 : 0 ≤ t1.mSyncSampleOffset → ∃ sync, t1.mSyncSamples = some sync ∧
        sync.length = t1.mNumSyncSamples ∧ sync.Pairwise (fun a b => a ≤ b) := by
      rw [k1, k2, k3]
      exact hwf
    obtain ⟨t2, hrest, j1, j2, j3⟩ :=
      ih (fun x hx => hseek x (List.mem_cons_of_mem _ hx)) t1 hwf1
    have hspec : ∀ x, t1.isSyncSampleSpec x = t.isSyncSampleSpec x := by
      intro x
      unfold SampleTable.isSyncSampleSpec
      rw [k1, k2, k3]
    refine ⟨t2, ?_, by rw [j1, k1], by rw [j2, k2], by rw [j3, k3]⟩
    unfold SampleTable.syncFlags
    rw [hcall, Run.bind_ret]
    simp only
    rw [hrest, Run.bind_ret, hout]
    simp only [List.map_cons]
    congr 4
    apply List.map_congr_left
    intro x _
    exact hspec x

theorem getMetaDataForSample_sync_flags_witness :
    ∃ t', (syncTable [0, 2, 4]).syncFlags evenMetaIterator [4, 0, 3, 2, 2, 5, 1]
        = .ret (some ([true, true, false, true, true, false, false], t')) ∧
      t'.mSyncSampleOffset = (syncTable [0, 2, 4]).mSyncSampleOffset ∧
      t'.mSyncSamples = (syncTable [0, 2, 4]).mSyncSamples ∧
      t'.mNumSyncSamples = (syncTable [0, 2, 4]).mNumSyncSamples :=
  getMetaDataForSample_sync_flags evenMetaIterator [4, 0, 3, 2, 2, 5, 1] (fun _ _ => rfl)
    (syncTable [0, 2, 4]) (fun _ => ⟨[0, 2, 4], rfl, rfl, by decide⟩)

/-! ## Termination of `findOffsetForPTS` -/

theorem seekWalk_succ (f : Int) (back : Bool) (m : Nat) :
    seekWalk f back (m + 1) = f :: seekWalk (if back then f - 188 else f + 188) back m := by
  unfold seekWalk
  rw [List.range_succ_eq_map, List.map_cons, List.map_map]
  cases back
  · simp only [Bool.false_eq_true, if_false, Nat.cast_zero, mul_zero, add_zero]
    congr 1
    apply List.map_congr_left
    intro i _
    simp only [Function.comp, Nat.cast_succ]
    ring
  · simp only [if_true, Nat.cast_zero, mul_zero, sub_zero]
    congr 1
    apply List.map_congr_left
    intro i _
    simp only [Function.comp, Nat.cast_succ]
    ring

theorem seekWalk_one (f : Int) (back : Bool) : seekWalk f back 1 = [f] := by
  rw [seekWalk_succ]
  rfl

theorem seekWalk_length (f : Int) (back : Bool) (m : Nat) : (seekWalk f back m).length = m := by
  simp [seekWalk]

/-- One turn of the search loop: it ends the run with the packet at
`fileOffset` as the last one read, or it goes on from a state that has read
this packet and moved one packet in the direction it set. -/
theorem findOffsetLoop_turn (env : TSEnv) (stream : StreamInfo) (so : Int) (seekPTS fuel : Nat)
    (s : SeekState) :
    (∃ r, findOffsetLoop env stream so seekPTS (fuel + 1) s = .ret r ∧
      r.reads = s.reads ++ [s.fileOffset]) ∨
    (∃ s2, findOffsetLoop env stream so seekPTS (fuel + 1) s
        = findOffsetLoop env stream so seekPTS fuel s2 ∧
      s2.reads = s.reads ++ [s.fileOffset] ∧
      ((s2.searchBack = s.searchBack ∧ s2.prevOffset = s.prevOffset ∧ s2.prevPTS = s.prevPTS) ∨
        (s2.prevOffset = s.fileOffset ∧ s2.prevPTS ≠ seekPTS ∧
          s2.searchBack = !decide (s2.prevPTS < seekPTS) ∧
          (s.prevOffset ≠ 0 → ¬ ((seekPTS < s2.prevPTS ∧ seekPTS > s.prevPTS) ∨
            (seekPTS > s2.prevPTS ∧ seekPTS < s.prevPTS))))) ∧
      ((s2.searchBack = true ∧ s.fileOffset - 188 > stream.mFirstPTSOffset ∧
          s2.fileOffset = s.fileOffset - 188) ∨
        (s2.searchBack = false ∧ s.fileOffset + 188 ≤ stream.mLastPTSOffset ∧
          s2.fileOffset = s.fileOffset + 188))) := by
  rw [findOffsetLoop]
  simp only []
  by_cases h1 : (env.readAt s.fileOffset kTSPacketSize).1 ≤ 0 ∨
      (env.readAt s.fileOffset kTSPacketSize).1 < (kTSPacketSize : Int)
  · rw [if_pos h1]
    exact Or.inl ⟨_, rfl, rfl⟩
  rw [if_neg h1]
  by_cases h2 : (env.parseTSToGetPTS (env.readAt s.fileOffset kTSPacketSize).2
      stream.mStreamPID s.currPTS).1 = status_t.DEAD_OBJECT
  · rw [if_pos h2]
    exact Or.inl ⟨_, rfl, rfl⟩
  rw [if_neg h2]
  generalize hp : env.parseTSToGetPTS (env.readAt s.fileOffset kTSPacketSize).2
      stream.mStreamPID s.currPTS = p at h2 ⊢
  by_cases h3 : p.1 = status_t.OK ∧
      (seekPTS = p.2 ∨
        (s.prevOffset ≠ 0 ∧ ((seekPTS < p.2 ∧ seekPTS > s.prevPTS) ∨
                              (seekPTS > p.2 ∧ seekPTS < s.prevPTS))))
  · rw [if_pos h3]
    exact Or.inl ⟨_, rfl, rfl⟩
  rw [if_neg h3]
  by_cases h4 : p.1 = status_t.OK
  · rw [if_pos h4]
    simp only
    have hne : p.2 ≠ seekPTS := fun e => h3 ⟨h4, Or.inl e.symm⟩
    have hbr : s.prevOffset ≠ 0 → ¬ ((seekPTS < p.2 ∧ seekPTS > s.prevPTS) ∨
        (seekPTS > p.2 ∧ seekPTS < s.prevPTS)) := fun h0 hb => h3 ⟨h4, Or.inr ⟨h0, hb⟩⟩
    by_cases hb : (!decide (p.2 < seekPTS)) = true
    · rw [if_pos hb]
      by_cases hm : s.fileOffset > (kTSPacketSize : Int) ∧
          s.fileOffset - (kTSPacketSize : Int) > stream.mFirstPTSOffset
      · rw [if_pos hm]
        refine Or.inr ⟨_, rfl, rfl, Or.inr ⟨rfl, hne, rfl, hbr⟩, Or.inl ⟨hb, ?_, ?_⟩⟩
        · simp only [kTSPacketSize] at hm
          omega
        · simp only [kTSPacketSize]
          omega
      · rw [if_neg hm]
        exact Or.inl ⟨_, rfl, rfl⟩
    · rw [if_neg hb]
      by_cases hm : s.fileOffset + (kTSPacketSize : Int) ≤ stream.mLastPTSOffset
      · rw [if_pos hm]
        refine Or.inr ⟨_, rfl, rfl, Or.inr ⟨rfl, hne, rfl, hbr⟩,
          Or.inr ⟨Bool.eq_false_iff.2 hb, ?_, ?_⟩⟩
        · simp only [kTSPacketSize] at hm
          omega
        · simp only [kTSPacketSize]
          omega
      · rw [if_neg hm]
        exact Or.inl ⟨_, rfl, rfl⟩
  · rw [if_neg h4]
    simp only
    by_cases hb : s.searchBack = true
    · rw [if_pos hb]
      by_cases hm : s.fileOffset > (kTSPacketSize : Int) ∧
          s.fileOffset - (kTSPacketSize : Int) > stream.mFirstPTSOffset
      · rw [if_pos hm]
        refine Or.inr ⟨_, rfl, rfl, Or.inl ⟨rfl, rfl, rfl⟩, Or.inl ⟨hb, ?_, ?_⟩⟩
        · simp only [kTSPacketSize] at hm
          omega
        · simp only [kTSPacketSize]
          omega
      · rw [if_neg hm]
        exact Or.inl ⟨_, rfl, rfl⟩
    · rw [if_neg hb]
      by_cases hm : s.fileOffset + (kTSPacketSize : Int) ≤ stream.mLastPTSOffset
      · rw [if_pos hm]
        refine Or.inr ⟨_, rfl, rfl, Or.inl ⟨rfl, rfl, rfl⟩,
          Or.inr ⟨Bool.eq_false_iff.2 hb, ?_, ?_⟩⟩
        · simp only [kTSPacketSize] at hm
          omega
        · simp only [kTSPacketSize]
          omega
      · rw [if_neg hm]
        exact Or.inl ⟨_, rfl, rfl⟩

theorem seekSteps_le_span (stream : StreamInfo) (s : SeekState)
    (h1 : stream.mFirstPTSOffset < s.fileOffset)
    (h2 : s.fileOffset ≤ stream.mLastPTSOffset ∨ s.fileOffset ≤ stream.mFirstPTSOffset + 188) :
    seekSteps stream s ≤ seekSpan stream := by
  unfold seekSteps seekSpan
  by_cases hb : s.searchBack = true
  · rw [if_pos hb]
    omega
  · rw [if_neg hb]
    omega

theorem seekSteps_moved (stream : StreamInfo) (s s2 : SeekState)
    (hdir : s2.searchBack = s.searchBack)
    (hmove : (s2.searchBack = true ∧ s.fileOffset - 188 > stream.mFirstPTSOffset ∧
          s2.fileOffset = s.fileOffset - 188) ∨
        (s2.searchBack = false ∧ s.fileOffset + 188 ≤ stream.mLastPTSOffset ∧
          s2.fileOffset = s.fileOffset + 188)) :
    seekSteps stream s2 + 1 ≤ seekSteps stream s ∧
      s2.fileOffset = (if s.searchBack then s.fileOffset - 188 else s.fileOffset + 188) := by
  unfold seekSteps
  rcases hmove with ⟨hb, h1, h2⟩ | ⟨hb, h1, h2⟩
  · have hb1 : s.searchBack = true := by rw [← hdir]; exact hb
    rw [hb, hb1, if_pos rfl, if_pos rfl, if_pos rfl, h2]
    exact ⟨by omega, rfl⟩
  · have hb1 : s.searchBack = false := by rw [← hdir]; exact hb
    rw [hb, hb1, if_neg Bool.false_ne_true, if_neg Bool.false_ne_true,
      if_neg Bool.false_ne_true, h2]
    exact ⟨by omega, rfl⟩

/-- From a state with a PTS packet behind it the loop walks straight on in
the direction of `searchBack` until it returns. -/
theorem findOffsetLoop_settled (env : TSEnv) (stream : StreamInfo) (so : Int) (seekPTS : Nat)
    (hF : 0 ≤ stream.mFirstPTSOffset) :
    ∀ (n fuel : Nat) (s : SeekState), stream.mFirstPTSOffset < s.fileOffset →
      SeekSettled seekPTS s → seekSteps stream s < n → n ≤ fuel →
      ∃ r m, findOffsetLoop env stream so seekPTS fuel s = .ret r ∧ 1 ≤ m ∧
        m ≤ seekSteps stream s + 1 ∧
        r.reads = s.reads ++ seekWalk s.fileOffset s.searchBack m := by
  intro n
  induction n with
  | zero =>
    intro fuel s _ _ h _
    omega
  | succ n ih =>
    intro fuel s hlow hset hsteps hfuel
    obtain ⟨k, rfl⟩ : ∃ k, fuel = k + 1 := ⟨fuel - 1, by omega⟩
    rcases findOffsetLoop_turn env stream so seekPTS k s with
      ⟨r, h, hr⟩ | ⟨s2, h, hr2, hrel, hmove⟩
    · exact ⟨r, 1, h, Nat.le_refl _, by omega, by rw [hr, seekWalk_one]⟩
    · obtain ⟨hs1, hs2, hs3⟩ := hset
      have hdir : s2.searchBack = s.searchBack := by
        rcases hrel with ⟨e, _, _⟩ | ⟨_, hne, hb, hnb⟩
        · exact e
        · have hnb := hnb hs1
          rw [hb, hs3]
          congr 1
          by_cases c1 : s.prevPTS < seekPTS
          · have c2 : s2.prevPTS < seekPTS := by omega
            rw [decide_eq_true c1, decide_eq_true c2]
          · have c2 : ¬ s2.prevPTS < seekPTS := by omega
            rw [decide_eq_false c1, decide_eq_false c2]
      have hset2 : SeekSettled seekPTS s2 := by
        rcases hrel with ⟨e1, e2, e3⟩ | ⟨e1, hne, hb, _⟩
        · exact ⟨by rw [e2]; exact hs1, by rw [e3]; exact hs2, by rw [e1, e3]; exact hs3⟩
        · exact ⟨by rw [e1]; omega, hne, hb⟩
      obtain ⟨hst, hf2⟩ := seekSteps_moved stream s s2 hdir hmove
      have hlow2 : stream.mFirstPTSOffset < s2.fileOffset := by
        rcases hmove with ⟨_, h1, h2⟩ | ⟨_, h1, h2⟩ <;> omega
      obtain ⟨r, m, hrun, hm1, hm2, hreads⟩ := ih k s2 hlow2 hset2 (by omega) (by omega)
      refine ⟨r, m + 1, by rw [h, hrun], by omega, by omega, ?_⟩
      rw [hreads, hr2, seekWalk_succ, hdir, hf2, List.append_assoc]
      rfl

/-- From any state inside the stream the loop returns: it walks in the
direction it has until the first packet with a PTS and straight on from
there. -/
theorem findOffsetLoop_returns (env : TSEnv) (stream : StreamInfo) (so : Int) (seekPTS : Nat)
    (hF : 0 ≤ stream.mFirstPTSOffset) :
    ∀ (n fuel : Nat) (s : SeekState), stream.mFirstPTSOffset < s.fileOffset →
      (s.fileOffset ≤ stream.mLastPTSOffset ∨ s.fileOffset ≤ stream.mFirstPTSOffset + 188) →
      seekSteps stream s + seekSpan stream + 1 < n → n ≤ fuel →
      ∃ (r : SeekResult) (a b : Nat) (g : Int) (back : Bool),
        findOffsetLoop env stream so seekPTS fuel s = .ret r ∧
        r.reads = s.reads ++ (seekWalk s.fileOffset s.searchBack a ++ seekWalk g back b) ∧
        a ≤ seekSteps stream s + 1 ∧ b ≤ seekSpan stream + 1 := by
  intro n
  induction n with
  | zero =>
    intro fuel s _ _ h _
    omega
  | succ n ih =>
    intro fuel s hlow hrange hsteps hfuel
    obtain ⟨k, rfl⟩ : ∃ k, fuel = k + 1 := ⟨fuel - 1, by omega⟩
    rcases findOffsetLoop_turn env stream so seekPTS k s with
      ⟨r, h, hr⟩ | ⟨s2, h, hr2, hrel, hmove⟩
    · refine ⟨r, 1, 0, 0, false, h, ?_, by omega, by omega⟩
      rw [hr, seekWalk_one]
      rfl
    · have hlow2 : stream.mFirstPTSOffset < s2.fileOffset := by
        rcases hmove with ⟨_, h1, h2⟩ | ⟨_, h1, h2⟩ <;> omega
      have hrange2 : s2.fileOffset ≤ stream.mLastPTSOffset ∨
          s2.fileOffset ≤ stream.mFirstPTSOffset + 188 := by
        rcases hmove with ⟨_, h1, h2⟩ | ⟨_, h1, h2⟩ <;> omega
      rcases hrel with ⟨e1, _, _⟩ | ⟨e1, hne, hb, _⟩
      · obtain ⟨hst, hf2⟩ := seekSteps_moved stream s s2 e1 hmove
        obtain ⟨r, a, b, g, back, hrun, hreads, ha, hb⟩ :=
          ih k s2 hlow2 hrange2 (by omega) (by omega)
        refine ⟨r, a + 1, b, g, back, by rw [h, hrun], ?_, by omega, hb⟩
        rw [hreads, hr2, seekWalk_succ, e1, hf2, List.append_assoc]
        rfl
      · have hset2 : SeekSettled seekPTS s2 := ⟨by rw [e1]; omega, hne, hb⟩
        have hsp := seekSteps_le_span stream s2 hlow2 hrange2
        obtain ⟨r, m, hrun, _, hm2, hreads⟩ :=
          findOffsetLoop_settled env stream so seekPTS hF (seekSteps stream s2 + 1) k s2 hlow2
            hset2 (by omega) (by omega)
        refine ⟨r, 1, m, s2.fileOffset, s2.searchBack, by rw [h, hrun], ?_, by omega,
          by omega⟩
        rw [hreads, hr2, seekWalk_one, List.append_assoc]

theorem seekStart_range (stream : StreamInfo) (seed : Int) :
    stream.mFirstPTSOffset < (seekStart stream seed).fileOffset ∧
      ((seekStart stream seed).fileOffset ≤ stream.mLastPTSOffset ∨
        (seekStart stream seed).fileOffset ≤ stream.mFirstPTSOffset + 188) ∧
      (seekStart stream seed).reads = [] := by
  unfold seekStart
  simp only [kTSPacketSize]
  by_cases h1 : seed ≥ stream.mLastPTSOffset
  · rw [if_pos h1]
    simp only
    by_cases h2 : stream.mLastPTSOffset - ((188 : Nat) : Int) ≤ stream.mFirstPTSOffset
    · rw [if_pos h2]
      simp only
      exact ⟨by omega, by omega, trivial⟩
    · rw [if_neg h2]
      simp only
      exact ⟨by omega, by omega, trivial⟩
  · rw [if_neg h1]
    simp only
    by_cases h2 : seed ≤ stream.mFirstPTSOffset
    · rw [if_pos h2]
      simp only
      exact ⟨by omega, by omega, trivial⟩
    · rw [if_neg h2]
      simp only
      exact ⟨by omega, by omega, trivial⟩

/-- C29: `findOffsetForPTS` terminates.  For every stream whose first PTS
offset is not negative (so whenever 0 ≤ mFirstPTSOffset ≤ mLastPTSOffset),
every seed offset, every `seekPTS` and every behaviour of the data source and
of `parseTSToGetPTS`, the call returns as soon as the fuel reaches
`2 * seekSpan + 2` loop turns, having read at most that many packets: the
offsets read are one straight walk from the first probe followed by at most
one more straight walk.  And from every loop state with a PTS packet behind
it the remaining reads are a single straight walk in the direction of
`searchBack`, at most `seekSteps + 1` packets long: the direction never
changes again before the loop ends. -/
theorem findOffsetForPTS_terminates (env : TSEnv) (stream : StreamInfo) (seed : Int)
    (seekPTS : Nat) (hF : 0 ≤ stream.mFirstPTSOffset) :
    (∀ fuel : Nat, 2 * seekSpan stream + 2 ≤ fuel →
      ∃ (r : SeekResult) (a b : Nat) (g : Int) (back : Bool),
        findOffsetForPTS env stream fuel seed seekPTS = .ret r ∧
        r.reads = seekWalk (seekStart stream seed).fileOffset (seekStart stream seed).searchBack a
          ++ seekWalk g back b ∧
        r.reads.length ≤ 2 * seekSpan stream + 2) ∧
    (∀ (s : SeekState) (fuel : Nat), stream.mFirstPTSOffset < s.fileOffset →
      SeekSettled seekPTS s → seekSteps stream s < fuel →
      ∃ (r : SeekResult) (m : Nat), findOffsetLoop env stream seed seekPTS fuel s = .ret r ∧
        r.reads = s.reads ++ seekWalk s.fileOffset s.searchBack m ∧
        m ≤ seekSteps stream s + 1) := by
  constructor
  · intro fuel hfuel
    unfold findOffsetForPTS
    by_cases c1 : seekPTS ≤ stream.mFirstPTS
    · rw [if_pos c1]
      exact ⟨_, 0, 0, 0, false, rfl, rfl, Nat.zero_le _⟩
    rw [if_neg c1]
    by_cases c2 : seekPTS ≥ stream.mLastPTS
    · rw [if_pos c2]
      exact ⟨_, 0, 0, 0, false, rfl, rfl, Nat.zero_le _⟩
    rw [if_neg c2]
    obtain ⟨h1, h2, h3⟩ := seekStart_range stream seed
    have hsp := seekSteps_le_span stream (seekStart stream seed) h1 h2
    obtain ⟨r, a, b, g, back, hrun, hreads, ha, hb⟩ :=
      findOffsetLoop_returns env stream seed seekPTS hF
        (seekSteps stream (seekStart stream seed) + seekSpan stream + 2) fuel
        (seekStart stream seed) h1 h2 (by omega) (by omega)
    rw [h3, List.nil_append] at hreads
    refine ⟨r, a, b, g, back, hrun, hreads, ?_⟩
    rw [hreads, List.length_append, seekWalk_length, seekWalk_length]
    omega
  · intro s fuel hlow hset hsteps
    obtain ⟨r, m, hrun, _, hm, hreads⟩ :=
      findOffsetLoop_settled env stream seed seekPTS hF fuel fuel s hlow hset hsteps
        (Nat.le_refl _)
    exact ⟨r, m, hrun, hreads, hm⟩

theorem findOffsetForPTS_terminates_witness :
    (0 : Int) ≤ jumbledStream.mFirstPTSOffset ∧
    (∃ (r : SeekResult) (a b : Nat) (g : Int) (back : Bool),
      findOffsetForPTS jumbledEnv jumbledStream 18 940 1200 = .ret r ∧
      r.reads = seekWalk (seekStart jumbledStream 940).fileOffset
          (seekStart jumbledStream 940).searchBack a
        ++ seekWalk g back b ∧
      r.reads.length ≤ 2 * seekSpan jumbledStream + 2) ∧
    (∃ (r : SeekResult) (m : Nat),
      findOffsetLoop jumbledEnv jumbledStream 940 1200 3
          { currPTS := 1800, prevPTS := 1800, fileOffset := 752, prevOffset := 940,
            searchBack := true, reads := [940] } = .ret r ∧
      r.reads = [940] ++ seekWalk 752 true m ∧
      m ≤ seekSteps jumbledStream
          { currPTS := 1800, prevPTS := 1800, fileOffset := 752, prevOffset := 940,
            searchBack := true, reads := [940] } + 1) :=
  ⟨by decide,
    (findOffsetForPTS_terminates jumbledEnv jumbledStream 940 1200 (by decide)).1 18
      (by decide),
    (findOffsetForPTS_terminates jumbledEnv jumbledStream 940 1200 (by decide)).2
      { currPTS := 1800, prevPTS := 1800, fileOffset := 752, prevOffset := 940,
        searchBack := true, reads := [940] } 3 (by decide)
      ⟨by decide, by decide, by decide⟩ (by decide)⟩

/-! ## The last PTS found by `findStreamDuration` -/

theorem lastPTSLoop_left_ok (env : TSEnv) (pid : Nat) :
    ∀ (fuel : Nat) (offset : Int) (st0 : status_t) (pts PTS : Nat) (hit : Option Int),
      lastPTSLoop env pid fuel offset st0 pts = .ret (.left status_t.OK PTS hit) →
      (0 < offset ∨ st0 ≠ status_t.OK) →
      ∃ k : Nat, hit = some (offset - 188 * (k : Int)) ∧ 0 < offset - 188 * (k : Int) ∧
        (kTSPacketSize : Int) ≤ (env.readAt (offset - 188 * (k : Int)) kTSPacketSize).1 ∧
        (∃ pts0, env.parseTSToGetPTS (env.readAt (offset - 188 * (k : Int)) kTSPacketSize).2
          pid pts0 = (status_t.OK, PTS)) ∧
        ∀ j : Nat, j < k →
          (kTSPacketSize : Int) ≤ (env.readAt (offset - 188 * (j : Int)) kTSPacketSize).1 ∧
          ∃ pts0, (env.parseTSToGetPTS (env.readAt (offset - 188 * (j : Int)) kTSPacketSize).2
            pid pts0).1 ≠ status_t.OK := by
  intro fuel
  induction fuel with
  | zero =>
    intro offset st0 pts PTS hit h hpos
    unfold lastPTSLoop at h
    by_cases c : offset > 0
    · rw [if_pos c] at h
      cases h
    · rw [if_neg c] at h
      simp only [Run.ret.injEq, LastPTSScan.left.injEq] at h
      rcases hpos with hp | hp
      · exact absurd hp c
      · exact absurd h.1 hp
  | succ fuel ih =>
    intro offset st0 pts PTS hit h hpos
    unfold lastPTSLoop at h
    simp only at h
    by_cases c : offset > 0
    · rw [if_pos c] at h
      by_cases c1 : (env.readAt offset kTSPacketSize).1 < 0
      · rw [if_pos c1] at h
        cases h
      rw [if_neg c1] at h
      by_cases c2 : (env.readAt offset kTSPacketSize).1 < (kTSPacketSize : Int)
      · rw [if_pos c2] at h
        cases h
      rw [if_neg c2] at h
      by_cases c3 : (env.parseTSToGetPTS (env.readAt offset kTSPacketSize).2 pid pts).1
          = status_t.DEAD_OBJECT
      · rw [if_pos c3] at h
        cases h
      rw [if_neg c3] at h
      by_cases c4 : (env.parseTSToGetPTS (env.readAt offset kTSPacketSize).2 pid pts).1
          = status_t.OK
      · rw [if_pos c4] at h
        simp only [Run.ret.injEq, LastPTSScan.left.injEq] at h
        refine ⟨0, ?_, ?_, ?_, ⟨pts, ?_⟩, ?_⟩
        · rw [← h.2.2]
          simp
        · simpa using c
        · simpa using Int.not_lt.1 c2
        · simp only [Nat.cast_zero, mul_zero, sub_zero]
          rw [← h.2.1, ← c4]
        · intro j hj
          omega
      · rw [if_neg c4] at h
        obtain ⟨k, h1, h2, h3, h4, h5⟩ := ih _ _ _ _ _ h (Or.inr c4)
        have e : ∀ i : Nat, offset - (kTSPacketSize : Int) - 188 * (i : Int)
            = offset - 188 * ((i + 1 : Nat) : Int) := by
          intro i
          simp only [kTSPacketSize]
          push_cast
          omega
        rw [e] at h1 h2 h3 h4
        refine ⟨k + 1, h1, h2, h3, h4, ?_⟩
        intro j hj
        cases j with
        | zero =>
          simp only [Nat.cast_zero, mul_zero, sub_zero]
          exact ⟨Int.not_lt.1 c2, pts, c4⟩
        | succ j =>
          have := h5 j (by omega)
          rw [e] at this
          exact this
    · rw [if_neg c] at h
      simp only [Run.ret.injEq, LastPTSScan.left.injEq] at h
      rcases hpos with hp | hp
      · exact absurd hp c
      · exact absurd h.1 hp

/-- For a clip of more than one packet the claim about the last PTS holds:
when `findStreamDuration` returns OK, `mLastPTSOffset` is `clipSize - 188 k`
for some `k >= 1`, it is positive, the packet there was read in full and
gave status OK with the PTS now in `mLastPTS`, and every packet at a greater
offset `clipSize - 188 j` was read in full and gave no PTS. -/
theorem findStreamDuration_ok_last_pts (env : TSEnv) (src src' : MPEG2TSSource)
    (hclip : 188 < src.mClipSize)
    (h : src.findStreamDuration env = .ret (status_t.OK, src')) :
    ∃ k : Nat, 1 ≤ k ∧
      src'.mStream.mLastPTSOffset = src.mClipSize - 188 * (k : Int) ∧
      0 < src'.mStream.mLastPTSOffset ∧
      (kTSPacketSize : Int) ≤ (env.readAt src'.mStream.mLastPTSOffset kTSPacketSize).1 ∧
      (∃ pts0, env.parseTSToGetPTS (env.readAt src'.mStream.mLastPTSOffset kTSPacketSize).2
        src.mStream.mStreamPID pts0 = (status_t.OK, src'.mStream.mLastPTS)) ∧
      ∀ j : Nat, 1 ≤ j → j < k →
        (kTSPacketSize : Int) ≤ (env.readAt (src.mClipSize - 188 * (j : Int)) kTSPacketSize).1 ∧
        ∃ pts0, (env.parseTSToGetPTS
          (env.readAt (src.mClipSize - 188 * (j : Int)) kTSPacketSize).2
          src.mStream.mStreamPID pts0).1 ≠ status_t.OK := by
  unfold MPEG2TSSource.findStreamDuration at h
  have hc0 : ¬ src.mClipSize = 0 := by omega
  rw [if_neg hc0] at h
  cases hscan : lastPTSLoop env src.mStream.mStreamPID src.mClipSize.toNat
      (src.mClipSize - (kTSPacketSize : Int)) status_t.OK 0 with
  | ret scan =>
    rw [hscan, Run.bind_ret] at h
    cases scan with
    | returned status =>
      simp only [Run.ret.injEq, Prod.mk.injEq] at h
      exact absurd h.1 (lastPTSLoop_returned_ne_OK env _ _ _ _ _ _ hscan)
    | left status PTS hit =>
      simp only at h
      by_cases hst : status ≠ status_t.OK
      · rw [if_pos hst] at h
        simp only [Run.ret.injEq, Prod.mk.injEq] at h
        exact absurd h.1 hst
      · rw [if_neg hst] at h
        have hok : status = status_t.OK := not_not.1 hst
        rw [hok] at hscan
        obtain ⟨k, h1, h2, h3, h4, h5⟩ :=
          lastPTSLoop_left_ok env _ _ _ _ _ _ _ hscan
            (Or.inl (by simp only [kTSPacketSize]; omega))
        have e : ∀ i : Nat, src.mClipSize - (kTSPacketSize : Int) - 188 * (i : Int)
            = src.mClipSize - 188 * ((i + 1 : Nat) : Int) := by
          intro i
          simp only [kTSPacketSize]
          push_cast
          omega
        rw [e] at h1 h2 h3 h4
        rw [h1] at h
        simp only at h
        split at h
        · cases h
        · simp only [Run.ret.injEq, Prod.mk.injEq] at h
          have hoffs : src'.mStream.mLastPTSOffset
              = src.mClipSize - 188 * ((k + 1 : Nat) : Int) := by
            rw [← h.2]
          have hpts : src'.mStream.mLastPTS = PTS := by
            rw [← h.2]
          rw [hoffs, hpts]
          refine ⟨k + 1, by omega, rfl, h2, h3, h4, ?_⟩
          intro j hj1 hj2
          obtain ⟨j', rfl⟩ : ∃ j', j = j' + 1 := ⟨j - 1, by omega⟩
          have := h5 j' (by omega)
          rw [e] at this
          exact this
  | abort => rw [hscan] at h; cases h
  | ub => rw [hscan] at h; cases h
  | timeout => rw [hscan] at h; cases h

/-- C31 fails for a clip of one packet: the loop `while (offset > 0)` starts
at offset 0 and never runs, `status` still holds its initial OK, and
`findStreamDuration` returns OK without having read a packet, whatever the
clip holds.  `mLastPTS` and `mLastPTSOffset` keep what they held before the
call (here 0), and the duration is computed from them; yet the packet at
offset `188 - 188 * 1 = 0` of `onePacketEnv` yields the PTS 90000. -/
theorem findStreamDuration_one_packet_clip (env : TSEnv) :
    onePacketSource.findStreamDuration env
      = .ret (status_t.OK,
          { onePacketSource with
            mStream := { onePacketSource.mStream with
                         mDurationUs := durationOf 90000 0 }
            mFormat := some (some (durationOf 90000 0)) }) ∧
    onePacketSource.mClipSize = 188 ∧
    onePacketSource.mStream.mLastPTS = 0 ∧ onePacketSource.mStream.mLastPTSOffset = 0 ∧
    onePacketEnv.parseTSToGetPTS (onePacketEnv.readAt 0 kTSPacketSize).2
      onePacketSource.mStream.mStreamPID 0 = (status_t.OK, 90000) := by
  refine ⟨?_, rfl, rfl, rfl, rfl⟩
  rfl

/-! ## The assertions of `findSyncSampleNear` -/

theorem syncRefine_returns (sync : List Nat) (num start flags x left : Nat)
    (hB : flags = kFlagBefore → x > start →
      left > 0 ∧ ∃ x1, sync[left - 1]? = some x1 ∧ x1 ≤ start)
    (hA : flags = kFlagAfter → x < start → (left + 1) % 4294967296 < num →
      ∃ x1, sync[(left + 1) % 4294967296]? = some x1 ∧ x1 ≥ start) :
    ∃ r, syncRefine sync num start flags x left = .ret r := by
  unfold syncRefine
  by_cases hb : flags = kFlagBefore
  · rw [if_pos hb]
    by_cases hgt : x > start
    · obtain ⟨h0, x1, hx1, hle⟩ := hB hb hgt
      rw [if_pos hgt, if_pos h0, arrayGet_of_getElem? hx1, Run.bind_ret, if_pos hle]
      exact ⟨_, rfl⟩
    · rw [if_neg hgt]
      exact ⟨_, rfl⟩
  rw [if_neg hb]
  by_cases ha : flags = kFlagAfter
  · rw [if_pos ha]
    by_cases hlt : x < start
    · rw [if_pos hlt]
      by_cases hend : (left + 1) % 4294967296 ≥ num
      · rw [if_pos hend]
        exact ⟨_, rfl⟩
      · obtain ⟨x1, hx1, hge⟩ := hA ha hlt (by omega)
        rw [if_neg hend, arrayGet_of_getElem? hx1, Run.bind_ret, if_pos hge]
        exact ⟨_, rfl⟩
    · rw [if_neg hlt]
      exact ⟨_, rfl⟩
  · rw [if_neg ha]
    exact ⟨_, rfl⟩

/-- Where the assertions of `findSyncSampleNear` hold: on a loaded,
non-empty sync table in non-decreasing order the call returns a status for
every iterator, every start sample and every flag, provided that with
`kFlagBefore` the start sample is not before the first sync sample. -/
theorem findSyncSampleNear_returns (it : SampleIterator) (t : SampleTable)
    (sync : List Nat) (start flags : Nat)
    (hoff : 0 ≤ t.mSyncSampleOffset) (hs : t.mSyncSamples = some sync)
    (hn : t.mNumSyncSamples = sync.length) (hne : sync ≠ [])
    (hlen : sync.length < 4294967296)
    (hsorted : sync.Pairwise (fun a b => a ≤ b))
    (hfirst : flags = kFlagBefore → ∀ x, sync[0]? = some x → x ≤ start) :
    ∃ r, t.findSyncSampleNear it start flags = .ret r := by
  have hpos : 0 < sync.length := List.length_pos.2 hne
  obtain ⟨L, hscan, -, hLn, hbelow, hatL⟩ := syncScan_spec sync start sync.length 0 (by omega)
  have hoff' : ¬ t.mSyncSampleOffset < 0 := by omega
  have hn0 : ¬ t.mNumSyncSamples = 0 := by omega
  unfold SampleTable.findSyncSampleNear
  rw [if_neg hoff', if_neg hn0]
  simp only [hs, Option.getD_some, hn, hscan, Run.bind_ret]
  by_cases hout : L = sync.length ∧ flags = kFlagAfter
  · rw [if_pos hout]
    exact ⟨_, rfl⟩
  rw [if_neg hout]
  obtain ⟨left, hleft⟩ : ∃ left, left = (if L > 0 then L - 1 else L) := ⟨_, rfl⟩
  rw [← hleft]
  have hl_lt : left < sync.length := by
    rw [hleft]
    by_cases h0 : L > 0
    · rw [if_pos h0]
      omega
    · rw [if_neg h0]
      omega
  have hx : sync[left]? = some sync[left] := List.getElem?_eq_getElem hl_lt
  have hm : (left + 1) % 4294967296 = left + 1 := Nat.mod_eq_of_lt (by omega)
  -- the entry at `left` is not after `start` when the flag is `kFlagBefore`
  have hxB : flags = kFlagBefore → sync[left] ≤ start := by
    intro hb
    by_cases h0 : L > 0
    · have e : left = L - 1 := by rw [hleft, if_pos h0]
      have := hbelow left _ (Nat.zero_le _) (by omega) hx
      omega
    · have e : left = 0 := by
        rw [hleft, if_neg h0]
        omega
      have hx0 : sync[0]? = some sync[left] := by
        rw [← hx, e]
      exact hfirst hb _ hx0
  -- the entry behind `left` is not before `start` when the flag is `kFlagAfter`
  have hyA : flags = kFlagAfter → ∀ y, sync[left + 1]? = some y → y ≥ start := by
    intro ha y hy
    by_cases h0 : L > 0
    · have e : left + 1 = L := by
        rw [hleft, if_pos h0]
        omega
      rw [e] at hy
      exact hatL y hy
    · have e : left = 0 := by
        rw [hleft, if_neg h0]
        omega
      have hL0 : L = 0 := by omega
      have hx0 : sync[L]? = some sync[left] := by
        rw [← hx, e, hL0]
      have h1 := hatL _ hx0
      have h2 := sorted_getElem?_le sync hsorted left (left + 1) _ y (by omega) hx hy
      omega
  have hrefx : ∃ r, syncRefine sync sync.length start flags sync[left] left = .ret r := by
    apply syncRefine_returns
    · intro hb hgt
      have := hxB hb
      omega
    · intro ha _ hlt
      rw [hm] at hlt ⊢
      have hy : sync[left + 1]? = some sync[left + 1] := List.getElem?_eq_getElem hlt
      exact ⟨_, hy, hyA ha _ hy⟩
  rw [arrayGet_of_getElem? hx, Run.bind_ret, hm]
  by_cases hnext : left + 1 < sync.length
  · rw [if_pos hnext]
    have hy : sync[left + 1]? = some sync[left + 1] := List.getElem?_eq_getElem hnext
    rw [arrayGet_of_getElem? hy, Run.bind_ret]
    by_cases s1 : it.seekTo start ≠ status_t.OK
    · rw [if_pos s1]
      exact ⟨_, rfl⟩
    rw [if_neg s1]
    by_cases s2 : it.seekTo sync[left] ≠ status_t.OK
    · rw [if_pos s2]
      exact ⟨_, rfl⟩
    rw [if_neg s2]
    by_cases s3 : it.seekTo sync[left + 1] ≠ status_t.OK
    · rw [if_pos s3]
      exact ⟨_, rfl⟩
    rw [if_neg s3]
    split
    · apply syncRefine_returns
      · intro hb _
        refine ⟨by omega, sync[left], ?_, hxB hb⟩
        rw [show left + 1 - 1 = left by omega]
        exact hx
      · intro ha hlt _
        have := hyA ha _ hy
        omega
    · exact hrefx
  · rw [if_neg hnext]
    exact hrefx

/-- C32 fails with `kFlagBefore` when the start sample lies before the first
sync sample: on the sync table `[5]`, and on `[5, 9]`, the call
`findSyncSampleNear(2, kFlagBefore)` finds `x = 5 > 2` with `left = 0`, the
assertion `CHECK(left > 0)` fails and the process is aborted; no status is
returned. -/
theorem findSyncSampleNear_before_first_sync_aborts :
    (syncTable [5]).findSyncSampleNear evenIterator 2 kFlagBefore = .abort ∧
    (syncTable [5, 9]).findSyncSampleNear evenIterator 2 kFlagBefore = .abort := by
  constructor
  · rfl
  · rfl

/-! ## The indices `findSampleAtTime` reads -/

theorem findSampleSearch_in_range (es : List SampleTimeEntry) (req : Nat)
    (hN : es.length < 4294967296) :
    ∀ (fuel left right : Nat), left ≤ es.length → right ≤ es.length →
      findSampleSearch es req fuel left right = .timeout ∨
        ∃ L, findSampleSearch es req fuel left right = .ret L ∧ L ≤ es.length := by
  intro fuel
  induction fuel with
  | zero =>
    intro left right hl _
    by_cases hlt : left < right
    · exact Or.inl (by simp [findSampleSearch, hlt])
    · exact Or.inr ⟨left, by simp [findSampleSearch, hlt], hl⟩
  | succ fuel ih =>
    intro left right hl hr
    by_cases hlt : left < right
    · have hc : (left + right) % 4294967296 / 2 < es.length := by omega
      have hget : arrayGet es ((left + right) % 4294967296 / 2)
          = .ret (es[(left + right) % 4294967296 / 2]) :=
        arrayGet_of_getElem? (List.getElem?_eq_getElem hc)
      simp only [findSampleSearch, hlt, if_true, hget, Run.bind_ret]
      split
      · exact ih left _ hl (by omega)
      · split
        · have hm2 : ((left + right) % 4294967296 / 2 + 1) % 4294967296
              = (left + right) % 4294967296 / 2 + 1 := Nat.mod_eq_of_lt (by omega)
          rw [hm2]
          exact ih _ right (by omega) hr
        · exact Or.inr ⟨_, rfl, by omega⟩
    · exact Or.inr ⟨left, by simp [findSampleSearch, hlt], hl⟩

theorem findSampleAfter_in_range (es : List SampleTimeEntry) (req : Nat) :
    ∀ (fuel c : Nat), c < es.length →
      findSampleAfter es req es.length fuel c = .timeout ∨
        ∃ ci, findSampleAfter es req es.length fuel c = .ret ci ∧ ci < es.length := by
  intro fuel
  induction fuel with
  | zero =>
    intro c hc
    by_cases hlt : (c + 1) % 4294967296 < es.length
    · exact Or.inl (by simp [findSampleAfter, hlt])
    · exact Or.inr ⟨c, by simp [findSampleAfter, hlt], hc⟩
  | succ fuel ih =>
    intro c hc
    by_cases hlt : (c + 1) % 4294967296 < es.length
    · have hget : arrayGet es c = .ret (es[c]) :=
        arrayGet_of_getElem? (List.getElem?_eq_getElem hc)
      simp only [findSampleAfter, hlt, if_true, hget, Run.bind_ret]
      split
      · exact ih _ hlt
      · exact Or.inr ⟨c, rfl, hc⟩
    · exact Or.inr ⟨c, by simp [findSampleAfter, hlt], hc⟩

theorem findSampleRefine_in_range (es : List SampleTimeEntry) (req flags fuel c : Nat)
    (hc : c < es.length) :
    findSampleRefine es req es.length flags fuel c = .timeout ∨
      findSampleRefine es req es.length flags fuel c = .abort ∨
      ∃ ci, findSampleRefine es req es.length flags fuel c = .ret ci ∧ ci < es.length := by
  unfold findSampleRefine
  by_cases hb : flags = kFlagBefore
  · rw [if_pos hb]
    obtain ⟨ci, h1, h2, -, -⟩ := findSampleBefore_spec es req c hc
    exact Or.inr (Or.inr ⟨ci, h1, by omega⟩)
  rw [if_neg hb]
  by_cases ha : flags = kFlagAfter
  · rw [if_pos ha]
    rcases findSampleAfter_in_range es req fuel c hc with h | ⟨ci, h1, h2⟩
    · exact Or.inl h
    · exact Or.inr (Or.inr ⟨ci, h1, h2⟩)
  rw [if_neg ha]
  by_cases hcl : flags = kFlagClosest
  · rw [if_pos hcl]
    by_cases h0 : c > 0
    · rw [if_pos h0]
      have hget : arrayGet es c = .ret (es[c]) :=
        arrayGet_of_getElem? (List.getElem?_eq_getElem hc)
      have hc1 : c - 1 < es.length := by omega
      have hget1 : arrayGet es (c - 1) = .ret (es[c - 1]) :=
        arrayGet_of_getElem? (List.getElem?_eq_getElem hc1)
      rw [hget, Run.bind_ret, hget1, Run.bind_ret]
      split
      · exact Or.inr (Or.inr ⟨c - 1, rfl, hc1⟩)
      · exact Or.inr (Or.inr ⟨c, rfl, hc⟩)
    · rw [if_neg h0]
      exact Or.inr (Or.inr ⟨c, rfl, hc⟩)
  · rw [if_neg hcl]
    exact Or.inr (Or.inl rfl)

/-- On an array of at least one entry every index `findSampleAtTime` reads
lies inside the array, for every request time, flag and fuel: the run never
ends in a read outside the array. -/
theorem findSampleInEntries_reads_in_range (es : List SampleTimeEntry)
    (req flags fuel : Nat) (h1 : 1 ≤ es.length) (hN : es.length < 4294967296) :
    findSampleInEntries es es.length req flags fuel ≠ .ub := by
  unfold findSampleInEntries
  rcases findSampleSearch_in_range es req hN fuel 0 es.length (Nat.zero_le _)
    (Nat.le_refl _) with hs | ⟨L, hs, hL⟩
  · rw [hs]
    exact fun h => Run.noConfusion h
  · rw [hs, Run.bind_ret]
    by_cases hout : L = es.length ∧ flags = kFlagAfter
    · rw [if_pos hout]
      exact fun h => Run.noConfusion h
    · rw [if_neg hout]
      simp only
      have hc : (if L = es.length then (L + 4294967295) % 4294967296 else L) < es.length := by
        by_cases e : L = es.length
        · rw [if_pos e]
          omega
        · rw [if_neg e]
          omega
      rcases findSampleRefine_in_range es req flags fuel _ hc with hr | hr | ⟨ci, hr, hci⟩
      · rw [hr]
        exact fun h => Run.noConfusion h
      · rw [hr]
        exact fun h => Run.noConfusion h
      · rw [hr, Run.bind_ret, arrayGet_of_getElem? (List.getElem?_eq_getElem hci), Run.bind_ret]
        exact fun h => Run.noConfusion h

/-- C33 fails for N = 0: on a table without samples the binary search leaves
`left = 0 = mNumSampleSizes`, `--left` wraps to 4294967295, and with
`kFlagBefore` and with `kFlagClosest` the entry at index 4294967295 of the
empty array is read, outside `[0, N)`; only `kFlagAfter` returns before the
read. -/
theorem findSampleAtTime_empty_table_reads_outside (garbage : Nat → SampleTimeEntry)
    (fuel req : Nat) :
    SampleTable.new.countSamples = 0 ∧
    SampleTable.new.findSampleAtTime insertionQsort garbage fuel req kFlagBefore = .ub ∧
    SampleTable.new.findSampleAtTime insertionQsort garbage fuel req kFlagClosest = .ub ∧
    SampleTable.new.findSampleAtTime insertionQsort garbage fuel req kFlagAfter
      = .ret (status_t.ERROR_OUT_OF_RANGE, none) := by
  have hs : findSampleSearch [] req fuel 0 0 = .ret 0 := by
    cases fuel <;> rfl
  have hb : ∀ flags, SampleTable.new.findSampleAtTime insertionQsort garbage fuel req flags
      = findSampleInEntries [] 0 req flags fuel := fun _ => rfl
  refine ⟨rfl, ?_, ?_, ?_⟩
  · rw [hb]
    unfold findSampleInEntries
    rw [hs]
    rfl
  · rw [hb]
    unfold findSampleInEntries
    rw [hs]
    rfl
  · rw [hb]
    unfold findSampleInEntries
    rw [hs]
    rfl

/-! ## The reads of `setSampleDescParams` inside an entry -/

theorem toOff64_of_small (x : Int) (h0 : 0 ≤ x) (h1 : x < 9223372036854775808) :
    toOff64 x = x := by
  unfold toOff64
  rw [if_pos (by omega)]
  omega

theorem ssizeOfOff64_of_small (x : Int) (h0 : 0 ≤ x) (h1 : x < 2147483648) :
    ssizeOfOff64 x = x := by
  unfold ssizeOfOff64 toSsize
  rw [if_pos (by omega)]
  omega

/-- An avc1 entry whose declared size is at least 94 (the header, the 78
bytes before the avcC box and the avcC header) is read inside its body: the
run does not end in a read outside the buffer, and the payload copied has
`size - 94` bytes at most. -/
theorem sampleDescBody_reads_in_range (src : DataSource) (offset : Int) (size type : Nat)
    (h1 : 94 ≤ size) (h2 : size < 2147483656) :
    sampleDescBody src offset size type (offset + 8) ≠ .ub ∧
    ∀ payload next, sampleDescBody src offset size type (offset + 8)
        = .ret (.ok (payload, next)) → payload.length ≤ size - 94 := by
  have hd : offset + (size : Int) - (offset + 8) = (size : Int) - 8 := by omega
  have hds : toOff64 (offset + (size : Int) - (offset + 8)) = (size : Int) - 8 := by
    rw [hd]
    exact toOff64_of_small _ (by omega) (by omega)
  have hlen : ssizeOfOff64 ((size : Int) - 8) = (size : Int) - 8 :=
    ssizeOfOff64_of_small _ (by omega) (by omega)
  unfold sampleDescBody
  simp only [hds, hlen]
  have c0 : ¬ (size : Int) - 8 < 0 := by omega
  have c1 : ¬ (size : Int) - 8 < 28 := by omega
  have c2 : ¬ (size : Int) - 8 < 86 := by omega
  by_cases ht : type ≠ kFourccAvc1
  · rw [if_pos ht]
    exact ⟨fun h => Run.noConfusion h, fun _ _ h => by cases h⟩
  rw [if_neg ht, if_neg c0]
  by_cases hr : (src.readAt (offset + 8) ((size : Int) - 8).toNat).1 < (size : Int) - 8
  · rw [if_pos hr]
    exact ⟨fun h => Run.noConfusion h, fun _ _ h => by cases h⟩
  rw [if_neg hr, if_neg c1, if_neg c2]
  split
  · exact ⟨fun h => Run.noConfusion h, fun _ _ h => by cases h⟩
  · split
    · exact ⟨fun h => Run.noConfusion h, fun _ _ h => by cases h⟩
    · refine ⟨fun h => Run.noConfusion h, ?_⟩
      intro payload next h
      simp only [Run.ret.injEq, Except.ok.injEq, Prod.mk.injEq] at h
      rw [← h.1, List.length_take]
      omega

/-- C34 fails: an avc1 entry of declared size 8 passes the size checks, its
body is empty, and the loader reads bytes 6-7 of that body; an entry of
declared size 50 has a body of 42 bytes, and bytes 78-85 are read behind
it.  Both runs end in a read outside the buffer. -/
theorem setSampleDescParams_short_entry_reads_outside :
    SampleTable.new.setSampleDescParams (bytesSource avc1HeaderOnlyBox) 1 0 8 = .ub ∧
    SampleTable.new.setSampleDescParams (bytesSource avc1ShortBox) 1 0 50 = .ub ∧
    U32_AT avc1HeaderOnlyBox 0 = 8 ∧ U32_AT avc1ShortBox 0 = 50 := by
  refine ⟨?_, ?_, rfl, rfl⟩
  · rfl
  · rfl

/-! ## The offset `findOffsetForPTS` stores -/

theorem seekFound_offset_of (seekPTS : Nat) (s : SeekState) (P : Int → Prop)
    (hf : P s.fileOffset) (hp : P s.prevOffset) : P (seekFound seekPTS s).seekOffset := by
  unfold seekFound
  simp only
  split_ifs <;> assumption

/-- One turn of the search loop, with the offset stored when the turn ends
the run with OK: it is the offset of the packet just read, the previous
offset, or the first or last PTS offset of the stream. -/
theorem findOffsetLoop_turn_offset (env : TSEnv) (stream : StreamInfo) (so : Int)
    (seekPTS fuel : Nat) (s : SeekState) :
    (∃ r, findOffsetLoop env stream so seekPTS (fuel + 1) s = .ret r ∧
      (r.status = status_t.OK →
        r.seekOffset = s.fileOffset ∨ r.seekOffset = s.prevOffset ∨
        r.seekOffset = stream.mFirstPTSOffset ∨ r.seekOffset = stream.mLastPTSOffset)) ∨
    (∃ s2, findOffsetLoop env stream so seekPTS (fuel + 1) s
        = findOffsetLoop env stream so seekPTS fuel s2 ∧
      (s2.prevOffset = s.prevOffset ∨ s2.prevOffset = s.fileOffset) ∧
      ((s.fileOffset - 188 > stream.mFirstPTSOffset ∧ s2.fileOffset = s.fileOffset - 188) ∨
        (s.fileOffset + 188 ≤ stream.mLastPTSOffset ∧
          s2.fileOffset = s.fileOffset + 188))) := by
  rw [findOffsetLoop]
  simp only []
  by_cases h1 : (env.readAt s.fileOffset kTSPacketSize).1 ≤ 0 ∨
      (env.readAt s.fileOffset kTSPacketSize).1 < (kTSPacketSize : Int)
  · rw [if_pos h1]
    refine Or.inl ⟨_, rfl, ?_⟩
    intro hst
    simp only at hst
    split at hst
    · exact status_t.noConfusion hst
    · exact status_t.noConfusion hst
  rw [if_neg h1]
  by_cases h2 : (env.parseTSToGetPTS (env.readAt s.fileOffset kTSPacketSize).2
      stream.mStreamPID s.currPTS).1 = status_t.DEAD_OBJECT
  · rw [if_pos h2]
    exact Or.inl ⟨_, rfl, fun hst => status_t.noConfusion hst⟩
  rw [if_neg h2]
  generalize hp : env.parseTSToGetPTS (env.readAt s.fileOffset kTSPacketSize).2
      stream.mStreamPID s.currPTS = p at h2 ⊢
  by_cases h3 : p.1 = status_t.OK ∧
      (seekPTS = p.2 ∨
        (s.prevOffset ≠ 0 ∧ ((seekPTS < p.2 ∧ seekPTS > s.prevPTS) ∨
                              (seekPTS > p.2 ∧ seekPTS < s.prevPTS))))
  · rw [if_pos h3]
    refine Or.inl ⟨_, rfl, fun _ => ?_⟩
    exact seekFound_offset_of seekPTS _
      (fun o => o = s.fileOffset ∨ o = s.prevOffset ∨ o = stream.mFirstPTSOffset ∨
        o = stream.mLastPTSOffset)
      (Or.inl rfl) (Or.inr (Or.inl rfl))
  rw [if_neg h3]
  by_cases h4 : p.1 = status_t.OK
  · rw [if_pos h4]
    simp only
    by_cases hb : (!decide (p.2 < seekPTS)) = true
    · rw [if_pos hb]
      by_cases hm : s.fileOffset > (kTSPacketSize : Int) ∧
          s.fileOffset - (kTSPacketSize : Int) > stream.mFirstPTSOffset
      · rw [if_pos hm]
        refine Or.inr ⟨_, rfl, Or.inr rfl, Or.inl ⟨?_, ?_⟩⟩
        · simp only [kTSPacketSize] at hm
          omega
        · simp only [kTSPacketSize]
          omega
      · rw [if_neg hm]
        refine Or.inl ⟨_, rfl, fun _ => ?_⟩
        exact seekFound_offset_of seekPTS _
          (fun o => o = s.fileOffset ∨ o = s.prevOffset ∨ o = stream.mFirstPTSOffset ∨
            o = stream.mLastPTSOffset)
          (Or.inr (Or.inr (Or.inl rfl))) (Or.inl rfl)
    · rw [if_neg hb]
      by_cases hm : s.fileOffset + (kTSPacketSize : Int) ≤ stream.mLastPTSOffset
      · rw [if_pos hm]
        refine Or.inr ⟨_, rfl, Or.inr rfl, Or.inr ⟨?_, ?_⟩⟩
        · simp only [kTSPacketSize] at hm
          omega
        · simp only [kTSPacketSize]
          omega
      · rw [if_neg hm]
        refine Or.inl ⟨_, rfl, fun _ => ?_⟩
        exact seekFound_offset_of seekPTS _
          (fun o => o = s.fileOffset ∨ o = s.prevOffset ∨ o = stream.mFirstPTSOffset ∨
            o = stream.mLastPTSOffset)
          (Or.inr (Or.inr (Or.inr rfl))) (Or.inl rfl)
  · rw [if_neg h4]
    simp only
    by_cases hb : s.searchBack = true
    · rw [if_pos hb]
      by_cases hm : s.fileOffset > (kTSPacketSize : Int) ∧
          s.fileOffset - (kTSPacketSize : Int) > stream.mFirstPTSOffset
      · rw [if_pos hm]
        refine Or.inr ⟨_, rfl, Or.inl rfl, Or.inl ⟨?_, ?_⟩⟩
        · simp only [kTSPacketSize] at hm
          omega
        · simp only [kTSPacketSize]
          omega
      · rw [if_neg hm]
        refine Or.inl ⟨_, rfl, fun _ => ?_⟩
        exact seekFound_offset_of seekPTS _
          (fun o => o = s.fileOffset ∨ o = s.prevOffset ∨ o = stream.mFirstPTSOffset ∨
            o = stream.mLastPTSOffset)
          (Or.inr (Or.inr (Or.inl rfl))) (Or.inr (Or.inl rfl))
    · rw [if_neg hb]
      by_cases hm : s.fileOffset + (kTSPacketSize : Int) ≤ stream.mLastPTSOffset
      · rw [if_pos hm]
        refine Or.inr ⟨_, rfl, Or.inl rfl, Or.inr ⟨?_, ?_⟩⟩
        · simp only [kTSPacketSize] at hm
          omega
        · simp only [kTSPacketSize]
          omega
      · rw [if_neg hm]
        refine Or.inl ⟨_, rfl, fun _ => ?_⟩
        exact seekFound_offset_of seekPTS _
          (fun o => o = s.fileOffset ∨ o = s.prevOffset ∨ o = stream.mFirstPTSOffset ∨
            o = stream.mLastPTSOffset)
          (Or.inr (Or.inr (Or.inr rfl))) (Or.inr (Or.inl rfl))

theorem findOffsetLoop_ok_offset (env : TSEnv) (stream : StreamInfo) (so : Int) (seekPTS : Nat)
    (hL : stream.mFirstPTSOffset ≤ stream.mLastPTSOffset) :
    ∀ (fuel : Nat) (s : SeekState) (r : SeekResult),
      stream.mFirstPTSOffset < s.fileOffset →
      (s.fileOffset ≤ stream.mLastPTSOffset ∨ s.fileOffset ≤ stream.mFirstPTSOffset + 188) →
      (s.prevOffset = 0 ∨ (stream.mFirstPTSOffset ≤ s.prevOffset ∧
        (s.prevOffset ≤ stream.mLastPTSOffset ∨
          s.prevOffset ≤ stream.mFirstPTSOffset + 188))) →
      findOffsetLoop env stream so seekPTS fuel s = .ret r → r.status = status_t.OK →
      r.seekOffset = 0 ∨ (stream.mFirstPTSOffset ≤ r.seekOffset ∧
        (r.seekOffset ≤ stream.mLastPTSOffset ∨
          r.seekOffset ≤ stream.mFirstPTSOffset + 188)) := by
  intro fuel
  induction fuel with
  | zero =>
    intro s r _ _ _ h _
    rw [findOffsetLoop] at h
    cases h
  | succ fuel ih =>
    intro s r hlow hrange hprev h hst
    rcases findOffsetLoop_turn_offset env stream so seekPTS fuel s with
      ⟨r1, h1, hr1⟩ | ⟨s2, h2, hp2, hmove⟩
    · rw [h1] at h
      cases h
      rcases hr1 hst with e | e | e | e
      · rw [e]
        exact Or.inr ⟨by omega, hrange⟩
      · rw [e]
        exact hprev
      · rw [e]
        exact Or.inr ⟨by omega, by omega⟩
      · rw [e]
        exact Or.inr ⟨hL, by omega⟩
    · rw [h2] at h
      refine ih s2 r ?_ ?_ ?_ h hst
      · rcases hmove with ⟨a, b⟩ | ⟨a, b⟩ <;> omega
      · rcases hmove with ⟨a, b⟩ | ⟨a, b⟩ <;> omega
      · rcases hp2 with e | e
        · rw [e]
          exact hprev
        · rw [e]
          exact Or.inr ⟨by omega, hrange⟩

theorem seekStart_prevOffset (stream : StreamInfo) (seed : Int)
    (hL : stream.mFirstPTSOffset ≤ stream.mLastPTSOffset) :
    (seekStart stream seed).prevOffset = 0 ∨
      (stream.mFirstPTSOffset ≤ (seekStart stream seed).prevOffset ∧
        ((seekStart stream seed).prevOffset ≤ stream.mLastPTSOffset ∨
          (seekStart stream seed).prevOffset ≤ stream.mFirstPTSOffset + 188)) := by
  unfold seekStart
  simp only [kTSPacketSize]
  by_cases h1 : seed ≥ stream.mLastPTSOffset
  · rw [if_pos h1]
    simp only
    by_cases h2 : stream.mLastPTSOffset - ((188 : Nat) : Int) ≤ stream.mFirstPTSOffset
    · rw [if_pos h2]
      simp only
      exact Or.inr ⟨by omega, by omega⟩
    · rw [if_neg h2]
      simp only
      exact Or.inr ⟨by omega, by omega⟩
  · rw [if_neg h1]
    simp only
    by_cases h2 : seed ≤ stream.mFirstPTSOffset
    · rw [if_pos h2]
      simp only
      exact Or.inr ⟨by omega, by omega⟩
    · rw [if_neg h2]
      simp only
      exact Or.inl trivial

/-- What the code does keep: whenever `findOffsetForPTS` returns OK on a
stream with `mFirstPTSOffset <= mLastPTSOffset`, the offset stored is 188
(the first-PTS clamp), the placeholder 0 (`prevOffset` was never set), or an
offset from `mFirstPTSOffset` up to `mLastPTSOffset`, or up to
`mFirstPTSOffset + 188` where that lies behind `mLastPTSOffset`. -/
theorem findOffsetForPTS_ok_offset (env : TSEnv) (stream : StreamInfo) (fuel : Nat)
    (seed : Int) (seekPTS : Nat) (r : SeekResult)
    (hL : stream.mFirstPTSOffset ≤ stream.mLastPTSOffset)
    (h : findOffsetForPTS env stream fuel seed seekPTS = .ret r)
    (hst : r.status = status_t.OK) :
    r.seekOffset = 188 ∨ r.seekOffset = 0 ∨
      (stream.mFirstPTSOffset ≤ r.seekOffset ∧
        (r.seekOffset ≤ stream.mLastPTSOffset ∨
          r.seekOffset ≤ stream.mFirstPTSOffset + 188)) := by
  unfold findOffsetForPTS at h
  by_cases c1 : seekPTS ≤ stream.mFirstPTS
  · rw [if_pos c1] at h
    cases h
    exact Or.inl rfl
  rw [if_neg c1] at h
  by_cases c2 : seekPTS ≥ stream.mLastPTS
  · rw [if_pos c2] at h
    cases h
    exact Or.inr (Or.inr ⟨hL, Or.inl (Int.le_refl _)⟩)
  rw [if_neg c2] at h
  obtain ⟨h1, h2, -⟩ := seekStart_range stream seed
  exact Or.inr (findOffsetLoop_ok_offset env stream seed seekPTS hL fuel _ r h1 h2
    (seekStart_prevOffset stream seed hL) h hst)

/-- C35 as stated fails.  On a stream with first PTS 1000 at offset 188 and
last PTS 2000 at offset 1692, `findOffsetForPTS(300, 1900)` walks forward
from offset 300 over packets that yield no PTS, reaches the end of the range
with `prevOffset` still at its initial 0 and `currPTS = prevPTS = 0`, and
since the two distances are equal it returns OK with the offset 0, which is
neither 188 nor an offset between 188 and 1692.  The seed 300 is not a
multiple of 188, as the seeds `seekPrepare` passes are.  The last clause of
C35 fails for a seed `seekPrepare` does pass: with its arguments for the seek
time 4445 on a clip whose packets with a PTS are the one at 188 and the
last one at 1692, `findOffsetForPTS(3948, 500)` walks back from the
last-PTS clamp without reading a PTS and returns OK with the boundary offset
376, a packet it has not read, chosen because `currPTS`, still at its
initial 0, lies closer to 500 than the last PTS 2000 does. -/
theorem findOffsetForPTS_outputs_placeholder :
    findOffsetForPTS orderedEnv jumbledStream 18 300 1900
      = .ret { status := status_t.OK, seekOffset := 0,
               reads := [300, 488, 676, 864, 1052, 1240, 1428, 1616] } ∧
    0 < jumbledStream.mFirstPTSOffset ∧
    jumbledStream.mFirstPTSOffset ≤ jumbledStream.mLastPTSOffset ∧
    ¬ (jumbledStream.mFirstPTSOffset ≤ (0 : Int)) ∧ ¬ (188 : Int) ∣ 300 ∧
    seekPrepareArgs sparseStream 18800 4445 = (3948, 500) ∧
    findOffsetForPTS sparseEnv sparseStream 18 3948 500
      = .ret { status := status_t.OK, seekOffset := 376,
               reads := [1504, 1316, 1128, 940, 752, 564] } ∧
    (∀ o, o ∈ [1504, 1316, 1128, 940, 752, 564] →
      (sparseEnv.parseTSToGetPTS (sparseEnv.readAt o kTSPacketSize).2
        sparseStream.mStreamPID 0).1 ≠ status_t.OK) := by
  refine ⟨?_, by decide, by decide, by decide, by decide, ?_, ?_, by decide⟩
  · rfl
  · rfl
  · rfl

/-! ## `isValid` after sequences of loader calls -/

theorem ret_pair_inv {t1 t' : SampleTable} {st st' : status_t}
    (h : (Run.ret (st, t1) : Run (status_t × SampleTable)) = .ret (st', t')) :
    st = st' ∧ t1 = t' := by
  simp only [Run.ret.injEq, Prod.mk.injEq] at h
  exact h

theorem bind_ret_prop {α : Type} (x : Run α) (f : α → status_t × SampleTable)
    (P : SampleTable → Prop) (hP : ∀ r, P (f r).2) {st : status_t} {t' : SampleTable}
    (h : x.bind (fun r => Run.ret (f r)) = .ret (st, t')) : P t' := by
  cases hx : x with
  | ret r =>
    rw [hx, Run.bind_ret] at h
    have h2 := hP r
    have h3 : f r = (st, t') := by
      simp only [Run.ret.injEq] at h
      exact h
    rw [h3] at h2
    exact h2
  | abort => rw [hx] at h; cases h
  | ub => rw [hx] at h; cases h
  | timeout => rw [hx] at h; cases h

theorem setChunkOffsetParams_guards (src : DataSource) (t t' : SampleTable) (type : Nat)
    (o : Int) (n : Nat) (st : status_t)
    (h : t.setChunkOffsetParams src type o n = .ret (st, t')) :
    ((0 ≤ t.mChunkOffsetOffset → t'.mChunkOffsetOffset = t.mChunkOffsetOffset) ∧
      (¬ 0 ≤ t.mChunkOffsetOffset → t'.mChunkOffsetOffset = o)) ∧
    t'.mSampleToChunkOffset = t.mSampleToChunkOffset ∧
    t'.mSampleSizeOffset = t.mSampleSizeOffset ∧ t'.mTimeToSample = t.mTimeToSample := by
  unfold SampleTable.setChunkOffsetParams at h
  simp only at h
  by_cases g : t.mChunkOffsetOffset ≥ 0
  · rw [if_pos g] at h
    obtain ⟨-, ht⟩ := ret_pair_inv h
    subst ht
    exact ⟨⟨fun _ => rfl, fun ng => absurd g ng⟩, rfl, rfl, rfl⟩
  · rw [if_neg g] at h
    repeat' first
      | exact (by
          obtain ⟨-, ht⟩ := ret_pair_inv h
          subst ht
          exact ⟨⟨fun g' => absurd g' g, fun _ => rfl⟩, rfl, rfl, rfl⟩)
      | cases h
      | obtain ⟨-, h⟩ | ⟨-, h⟩ := ite_run_cases h

theorem setSampleToChunkParams_guards (src : DataSource) (t t' : SampleTable)
    (o : Int) (n : Nat) (st : status_t)
    (h : t.setSampleToChunkParams src o n = .ret (st, t')) :
    t'.mChunkOffsetOffset = t.mChunkOffsetOffset ∧
    ((0 ≤ t.mSampleToChunkOffset → t'.mSampleToChunkOffset = t.mSampleToChunkOffset) ∧
      (¬ 0 ≤ t.mSampleToChunkOffset → t'.mSampleToChunkOffset = o)) ∧
    t'.mSampleSizeOffset = t.mSampleSizeOffset ∧ t'.mTimeToSample = t.mTimeToSample := by
  unfold SampleTable.setSampleToChunkParams at h
  simp only at h
  by_cases g : t.mSampleToChunkOffset ≥ 0
  · rw [if_pos g] at h
    obtain ⟨-, ht⟩ := ret_pair_inv h
    subst ht
    exact ⟨rfl, ⟨fun _ => rfl, fun ng => absurd g ng⟩, rfl, rfl⟩
  · rw [if_neg g] at h
    repeat' first
      | exact (by
          obtain ⟨-, ht⟩ := ret_pair_inv h
          subst ht
          exact ⟨rfl, ⟨fun g' => absurd g' g, fun _ => rfl⟩, rfl, rfl⟩)
      | exact bind_ret_prop _ _
          (fun s => s.mChunkOffsetOffset = t.mChunkOffsetOffset ∧
            ((0 ≤ t.mSampleToChunkOffset → s.mSampleToChunkOffset = t.mSampleToChunkOffset) ∧
              (¬ 0 ≤ t.mSampleToChunkOffset → s.mSampleToChunkOffset = o)) ∧
            s.mSampleSizeOffset = t.mSampleSizeOffset ∧ s.mTimeToSample = t.mTimeToSample)
          (fun _ => ⟨rfl, ⟨fun g' => absurd g' g, fun _ => rfl⟩, rfl, rfl⟩) h
      | cases h
      | obtain ⟨-, h⟩ | ⟨-, h⟩ := ite_run_cases h

theorem setSampleSizeParams_guards (src : DataSource) (t t' : SampleTable) (type : Nat)
    (o : Int) (n : Nat) (st : status_t)
    (h : t.setSampleSizeParams src type o n = .ret (st, t')) :
    t'.mChunkOffsetOffset = t.mChunkOffsetOffset ∧
    t'.mSampleToChunkOffset = t.mSampleToChunkOffset ∧
    ((0 ≤ t.mSampleSizeOffset → t'.mSampleSizeOffset = t.mSampleSizeOffset) ∧
      (¬ 0 ≤ t.mSampleSizeOffset → t'.mSampleSizeOffset = o)) ∧
    t'.mTimeToSample = t.mTimeToSample := by
  unfold SampleTable.setSampleSizeParams at h
  simp only at h
  by_cases g : t.mSampleSizeOffset ≥ 0
  · rw [if_pos g] at h
    obtain ⟨-, ht⟩ := ret_pair_inv h
    subst ht
    exact ⟨rfl, rfl, ⟨fun _ => rfl, fun ng => absurd g ng⟩, rfl⟩
  · rw [if_neg g] at h
    repeat' first
      | exact (by
          obtain ⟨-, ht⟩ := ret_pair_inv h
          subst ht
          exact ⟨rfl, rfl, ⟨fun g' => absurd g' g, fun _ => rfl⟩, rfl⟩)
      | cases h
      | obtain ⟨-, h⟩ | ⟨-, h⟩ := ite_run_cases h

theorem setTimeToSampleParams_guards (src : DataSource) (t t' : SampleTable)
    (o : Int) (n : Nat) (st : status_t)
    (h : t.setTimeToSampleParams src o n = .ret (st, t')) :
    t'.mChunkOffsetOffset = t.mChunkOffsetOffset ∧
    t'.mSampleToChunkOffset = t.mSampleToChunkOffset ∧
    t'.mSampleSizeOffset = t.mSampleSizeOffset ∧
    (t'.mTimeToSample.isSome = true ↔ t.mTimeToSample.isSome = true ∨
      (8 ≤ n ∧ 8 ≤ (src.readAt o 8).1 ∧ U32_AT (src.readAt o 8).2 0 = 0)) ∧
    (st = status_t.OK →
      8 ≤ n ∧ 8 ≤ (src.readAt o 8).1 ∧ U32_AT (src.readAt o 8).2 0 = 0) := by
  unfold SampleTable.setTimeToSampleParams at h
  simp only at h
  by_cases g : t.mTimeToSample ≠ none ∨ n < 8
  · rw [if_pos g] at h
    obtain ⟨hst, ht⟩ := ret_pair_inv h
    subst ht
    refine ⟨rfl, rfl, rfl, ⟨fun hs => Or.inl hs, ?_⟩, ?_⟩
    · rintro (hs | ⟨h8, -, -⟩)
      · exact hs
      · rcases g with g | g
        · exact Option.isSome_iff_ne_none.2 g
        · omega
    · intro hok
      rw [← hst] at hok
      exact status_t.noConfusion hok
  rw [if_neg g] at h
  have hnone : t.mTimeToSample = none := by
    by_contra hc
    exact g (Or.inl hc)
  have h8 : 8 ≤ n := by
    by_contra hc
    exact g (Or.inr (by omega))
  by_cases c2 : (src.readAt o 8).1 < 8
  · rw [if_pos c2] at h
    obtain ⟨hst, ht⟩ := ret_pair_inv h
    subst ht
    refine ⟨rfl, rfl, rfl, ⟨fun hs => Or.inl hs, ?_⟩, ?_⟩
    · rintro (hs | ⟨-, hr, -⟩)
      · exact hs
      · omega
    · intro hok
      rw [← hst] at hok
      exact status_t.noConfusion hok
  rw [if_neg c2] at h
  by_cases c3 : U32_AT (src.readAt o 8).2 0 ≠ 0
  · rw [if_pos c3] at h
    obtain ⟨hst, ht⟩ := ret_pair_inv h
    subst ht
    refine ⟨rfl, rfl, rfl, ⟨fun hs => Or.inl hs, ?_⟩, ?_⟩
    · rintro (hs | ⟨-, -, hv⟩)
      · exact hs
      · exact absurd hv c3
    · intro hok
      rw [← hst] at hok
      exact status_t.noConfusion hok
  rw [if_neg c3] at h
  have hacc : 8 ≤ n ∧ 8 ≤ (src.readAt o 8).1 ∧ U32_AT (src.readAt o 8).2 0 = 0 :=
    ⟨h8, by omega, not_not.1 c3⟩
  rcases ite_run_cases h with ⟨-, h⟩ | ⟨-, h⟩
  · obtain ⟨-, ht⟩ := ret_pair_inv h
    subst ht
    exact ⟨rfl, rfl, rfl, ⟨fun _ => Or.inr hacc, fun _ => rfl⟩, fun _ => hacc⟩
  · obtain ⟨-, ht⟩ := ret_pair_inv h
    subst ht
    exact ⟨rfl, rfl, rfl, ⟨fun _ => Or.inr hacc, fun _ => rfl⟩, fun _ => hacc⟩

theorem setCompositionTimeToSampleParams_guards (src : DataSource) (t t' : SampleTable)
    (o : Int) (n : Nat) (st : status_t)
    (h : t.setCompositionTimeToSampleParams src o n = .ret (st, t')) :
    t'.mChunkOffsetOffset = t.mChunkOffsetOffset ∧
    t'.mSampleToChunkOffset = t.mSampleToChunkOffset ∧
    t'.mSampleSizeOffset = t.mSampleSizeOffset ∧ t'.mTimeToSample = t.mTimeToSample := by
  unfold SampleTable.setCompositionTimeToSampleParams at h
  simp only at h
  repeat' first
    | exact (by
        obtain ⟨-, ht⟩ := ret_pair_inv h
        subst ht
        exact ⟨rfl, rfl, rfl, rfl⟩)
    | cases h
    | obtain ⟨-, h⟩ | ⟨-, h⟩ := ite_run_cases h

theorem setSyncSampleParams_guards (src : DataSource) (t t' : SampleTable)
    (o : Int) (n : Nat) (st : status_t)
    (h : t.setSyncSampleParams src o n = .ret (st, t')) :
    t'.mChunkOffsetOffset = t.mChunkOffsetOffset ∧
    t'.mSampleToChunkOffset = t.mSampleToChunkOffset ∧
    t'.mSampleSizeOffset = t.mSampleSizeOffset ∧ t'.mTimeToSample = t.mTimeToSample := by
  unfold SampleTable.setSyncSampleParams at h
  simp only at h
  repeat' first
    | exact (by
        obtain ⟨-, ht⟩ := ret_pair_inv h
        subst ht
        exact ⟨rfl, rfl, rfl, rfl⟩)
    | cases h
    | obtain ⟨-, h⟩ | ⟨-, h⟩ := ite_run_cases h

theorem setSampleDescParams_guards (src : DataSource) (t t' : SampleTable)
    (count : Nat) (o : Int) (n : Nat) (st : status_t)
    (h : t.setSampleDescParams src count o n = .ret (st, t')) :
    t'.mChunkOffsetOffset = t.mChunkOffsetOffset ∧
    t'.mSampleToChunkOffset = t.mSampleToChunkOffset ∧
    t'.mSampleSizeOffset = t.mSampleSizeOffset ∧ t'.mTimeToSample = t.mTimeToSample := by
  unfold SampleTable.setSampleDescParams at h
  exact bind_ret_prop _ _
    (fun s => s.mChunkOffsetOffset = t.mChunkOffsetOffset ∧
      s.mSampleToChunkOffset = t.mSampleToChunkOffset ∧
      s.mSampleSizeOffset = t.mSampleSizeOffset ∧ s.mTimeToSample = t.mTimeToSample)
    (fun _ => ⟨rfl, rfl, rfl, rfl⟩) h

theorem call_guard_effect (src : DataSource) (t t' : SampleTable) (c : LoaderCall)
    (st : status_t) (h : t.call src c = .ret (st, t')) :
    GuardEffect src c t t' ∧
      (st = status_t.OK → c.loader = Loader.timeToSample → sttsHeaderAccepted src c) := by
  unfold GuardEffect sttsHeaderAccepted
  cases c with
  | chunkOffset type o n =>
    obtain ⟨⟨h1, h2⟩, h3, h4, h5⟩ := setChunkOffsetParams_guards src t t' type o n st h
    simp only [LoaderCall.loader, LoaderCall.dataOffset, true_and, false_and, or_false,
      reduceCtorEq]
    rw [h3, h4, h5]
    refine ⟨⟨?_, Iff.rfl, Iff.rfl, Iff.rfl⟩, fun _ hc => hc.elim⟩
    by_cases g : 0 ≤ t.mChunkOffsetOffset
    · rw [h1 g]
      exact ⟨fun x => Or.inl x, fun _ => g⟩
    · rw [h2 g]
      exact ⟨fun x => Or.inr x, fun x => x.elim (fun y => absurd y g) id⟩
  | sampleToChunk o n =>
    obtain ⟨h3, ⟨h1, h2⟩, h4, h5⟩ := setSampleToChunkParams_guards src t t' o n st h
    simp only [LoaderCall.loader, LoaderCall.dataOffset, true_and, false_and, or_false,
      reduceCtorEq]
    rw [h3, h4, h5]
    refine ⟨⟨Iff.rfl, ?_, Iff.rfl, Iff.rfl⟩, fun _ hc => hc.elim⟩
    by_cases g : 0 ≤ t.mSampleToChunkOffset
    · rw [h1 g]
      exact ⟨fun x => Or.inl x, fun _ => g⟩
    · rw [h2 g]
      exact ⟨fun x => Or.inr x, fun x => x.elim (fun y => absurd y g) id⟩
  | sampleSize type o n =>
    obtain ⟨h3, h4, ⟨h1, h2⟩, h5⟩ := setSampleSizeParams_guards src t t' type o n st h
    simp only [LoaderCall.loader, LoaderCall.dataOffset, true_and, false_and, or_false,
      reduceCtorEq]
    rw [h3, h4, h5]
    refine ⟨⟨Iff.rfl, Iff.rfl, ?_, Iff.rfl⟩, fun _ hc => hc.elim⟩
    by_cases g : 0 ≤ t.mSampleSizeOffset
    · rw [h1 g]
      exact ⟨fun x => Or.inl x, fun _ => g⟩
    · rw [h2 g]
      exact ⟨fun x => Or.inr x, fun x => x.elim (fun y => absurd y g) id⟩
  | timeToSample o n =>
    obtain ⟨h3, h4, h5, h6, h7⟩ := setTimeToSampleParams_guards src t t' o n st h
    simp only [LoaderCall.loader, LoaderCall.dataOffset, LoaderCall.dataSize, true_and,
      false_and, or_false, reduceCtorEq]
    rw [h3, h4, h5]
    exact ⟨⟨Iff.rfl, Iff.rfl, Iff.rfl, h6⟩, fun hok _ => h7 hok⟩
  | compositionTimeToSample o n =>
    obtain ⟨h3, h4, h5, h6⟩ := setCompositionTimeToSampleParams_guards src t t' o n st h
    simp only [LoaderCall.loader, LoaderCall.dataOffset, true_and, false_and, or_false,
      reduceCtorEq]
    rw [h3, h4, h5, h6]
    exact ⟨⟨Iff.rfl, Iff.rfl, Iff.rfl, Iff.rfl⟩, fun _ hc => hc.elim⟩
  | syncSample o n =>
    obtain ⟨h3, h4, h5, h6⟩ := setSyncSampleParams_guards src t t' o n st h
    simp only [LoaderCall.loader, LoaderCall.dataOffset, true_and, false_and, or_false,
      reduceCtorEq]
    rw [h3, h4, h5, h6]
    exact ⟨⟨Iff.rfl, Iff.rfl, Iff.rfl, Iff.rfl⟩, fun _ hc => hc.elim⟩
  | sampleDesc count o n =>
    obtain ⟨h3, h4, h5, h6⟩ := setSampleDescParams_guards src t t' count o n st h
    simp only [LoaderCall.loader, LoaderCall.dataOffset, true_and, false_and, or_false,
      reduceCtorEq]
    rw [h3, h4, h5, h6]
    exact ⟨⟨Iff.rfl, Iff.rfl, Iff.rfl, Iff.rfl⟩, fun _ hc => hc.elim⟩

theorem Called_cons (c : LoaderCall) (rest : List LoaderCall) (l : Loader) :
    Called (c :: rest) l ↔ (c.loader = l ∧ 0 ≤ c.dataOffset) ∨ Called rest l := by
  unfold Called
  constructor
  · rintro ⟨x, hx, h1, h2⟩
    rcases List.mem_cons.1 hx with e | e
    · rw [e] at h1 h2
      exact Or.inl ⟨h1, h2⟩
    · exact Or.inr ⟨x, e, h1, h2⟩
  · rintro (⟨h1, h2⟩ | ⟨x, hx, h1, h2⟩)
    · exact ⟨c, List.mem_cons_self _ _, h1, h2⟩
    · exact ⟨x, List.mem_cons_of_mem _ hx, h1, h2⟩

/-- The four fields `isValid` reads after a sequence of loader calls that
ran to its end. -/
theorem callAll_guards (src : DataSource) :
    ∀ (calls : List LoaderCall) (t t' : SampleTable) (sts : List status_t),
      t.callAll src calls = .ret (sts, t') →
      (0 ≤ t'.mChunkOffsetOffset ↔
        0 ≤ t.mChunkOffsetOffset ∨ Called calls Loader.chunkOffset) ∧
      (0 ≤ t'.mSampleToChunkOffset ↔
        0 ≤ t.mSampleToChunkOffset ∨ Called calls Loader.sampleToChunk) ∧
      (0 ≤ t'.mSampleSizeOffset ↔
        0 ≤ t.mSampleSizeOffset ∨ Called calls Loader.sampleSize) ∧
      (t'.mTimeToSample.isSome = true ↔
        t.mTimeToSample.isSome = true ∨ ∃ c, c ∈ calls ∧ sttsHeaderAccepted src c) ∧
      (∀ (i : Nat) (c : LoaderCall), calls[i]? = some c → sts[i]? = some status_t.OK →
        c.loader = Loader.timeToSample → sttsHeaderAccepted src c) := by
  intro calls
  induction calls with
  | nil =>
    intro t t' sts h
    unfold SampleTable.callAll at h
    simp only [Run.ret.injEq, Prod.mk.injEq] at h
    rw [← h.2]
    refine ⟨⟨fun x => Or.inl x, ?_⟩, ⟨fun x => Or.inl x, ?_⟩, ⟨fun x => Or.inl x, ?_⟩,
      ⟨fun x => Or.inl x, ?_⟩, ?_⟩
    · rintro (x | ⟨c, hc, -⟩)
      · exact x
      · cases hc
    · rintro (x | ⟨c, hc, -⟩)
      · exact x
      · cases hc
    · rintro (x | ⟨c, hc, -⟩)
      · exact x
      · cases hc
    · rintro (x | ⟨c, hc, -⟩)
      · exact x
      · cases hc
    · intro i c hc
      simp at hc
  | cons c rest ih =>
    intro t t' sts h
    unfold SampleTable.callAll at h
    cases h1 : t.call src c with
    | ret r =>
      rw [h1, Run.bind_ret] at h
      cases h2 : SampleTable.callAll src r.2 rest with
      | ret q =>
        rw [h2, Run.bind_ret] at h
        simp only [Run.ret.injEq, Prod.mk.injEq] at h
        obtain ⟨hsts, ht'⟩ := h
        have h1' : t.call src c = .ret (r.1, r.2) := h1
        obtain ⟨⟨e1, e2, e3, e4⟩, e5⟩ := call_guard_effect src t r.2 c r.1 h1'
        have h2' : SampleTable.callAll src r.2 rest = .ret (q.1, q.2) := h2
        obtain ⟨f1, f2, f3, f4, f5⟩ := ih r.2 q.2 q.1 h2'
        rw [← ht', ← hsts]
        refine ⟨?_, ?_, ?_, ?_, ?_⟩
        · rw [f1, e1, Called_cons, or_assoc]
        · rw [f2, e2, Called_cons, or_assoc]
        · rw [f3, e3, Called_cons, or_assoc]
        · rw [f4, e4, or_assoc]
          apply or_congr_right
          constructor
          · rintro (x | ⟨y, hy, hacc⟩)
            · exact ⟨c, List.mem_cons_self _ _, x⟩
            · exact ⟨y, List.mem_cons_of_mem _ hy, hacc⟩
          · rintro ⟨y, hy, hacc⟩
            rcases List.mem_cons.1 hy with e | e
            · rw [e] at hacc
              exact Or.inl hacc
            · exact Or.inr ⟨y, e, hacc⟩
        · intro i x hx hok hl
          cases i with
          | zero =>
            simp only [List.getElem?_cons_zero, Option.some.injEq] at hx hok
            rw [← hx]
            rw [← hx] at hl
            exact e5 hok hl
          | succ i =>
            simp only [List.getElem?_cons_succ] at hx hok
            exact f5 i x hx hok hl
      | abort => rw [h2] at h; cases h
      | ub => rw [h2] at h; cases h
      | timeout => rw [h2] at h; cases h
    | abort => rw [h1] at h; cases h
    | ub => rw [h1] at h; cases h
    | timeout => rw [h1] at h; cases h

theorem ReturnedOK_called (calls : List LoaderCall) (sts : List status_t) (l : Loader)
    (h : ReturnedOK calls sts l) : Called calls l := by
  obtain ⟨i, c, hc, -, h1, h2⟩ := h
  exact ⟨c, List.mem_iff_getElem?.2 ⟨i, hc⟩, h1, h2⟩

theorem isValid_iff (t : SampleTable) :
    t.isValid = true ↔ 0 ≤ t.mChunkOffsetOffset ∧ 0 ≤ t.mSampleToChunkOffset ∧
      0 ≤ t.mSampleSizeOffset ∧ t.mTimeToSample.isSome = true := by
  unfold SampleTable.isValid
  simp only [Bool.and_eq_true, decide_eq_true_eq, ge_iff_le, and_assoc]

/-- C36 as stated fails: four loader calls on a new table that all return an
error (the first three for a box size of 0 after the offset was stored, the
stts loader for entries that are missing after the array was allocated)
leave `isValid()` true; it was false before the last of them. -/
theorem isValid_after_failing_calls :
    (SampleTable.new.callAll (bytesSource sttsHeaderOnlyBox) failingCalls).bind
        (fun r => Run.ret (r.1, r.2.isValid))
      = .ret ([status_t.ERROR_MALFORMED, status_t.ERROR_MALFORMED, status_t.ERROR_MALFORMED,
          status_t.ERROR_IO], true) ∧
    (SampleTable.new.callAll (bytesSource sttsHeaderOnlyBox) (failingCalls.take 3)).bind
        (fun r => Run.ret (r.1, r.2.isValid))
      = .ret ([status_t.ERROR_MALFORMED, status_t.ERROR_MALFORMED, status_t.ERROR_MALFORMED],
          false) := by
  constructor
  · rfl
  · rfl

/-- C36, amended: in every state reached from a new table by a sequence of
loader calls that ran to its end, `isValid()` returns true exactly when
`setChunkOffsetParams`, `setSampleToChunkParams` and `setSampleSizeParams`
have each been called at least once with an offset that is not negative,
whatever they returned, and some `setTimeToSampleParams` call passed the
header checks that precede the allocation of `mTimeToSample`.  So it returns
true whenever the four loaders have each returned OK at least once for an
offset that is not negative. -/
theorem isValid_after_loader_calls (src : DataSource) (calls : List LoaderCall)
    (sts : List status_t) (t' : SampleTable)
    (h : SampleTable.new.callAll src calls = .ret (sts, t')) :
    (t'.isValid = true ↔
      Called calls Loader.chunkOffset ∧ Called calls Loader.sampleToChunk ∧
      Called calls Loader.sampleSize ∧ ∃ c, c ∈ calls ∧ sttsHeaderAccepted src c) ∧
    (ReturnedOK calls sts Loader.chunkOffset → ReturnedOK calls sts Loader.sampleToChunk →
      ReturnedOK calls sts Loader.sampleSize → ReturnedOK calls sts Loader.timeToSample →
      t'.isValid = true) := by
  obtain ⟨f1, f2, f3, f4, f5⟩ := callAll_guards src calls SampleTable.new t' sts h
  have g1 : ¬ (0 : Int) ≤ SampleTable.new.mChunkOffsetOffset := by decide
  have g2 : ¬ (0 : Int) ≤ SampleTable.new.mSampleToChunkOffset := by decide
  have g3 : ¬ (0 : Int) ≤ SampleTable.new.mSampleSizeOffset := by decide
  have g4 : ¬ SampleTable.new.mTimeToSample.isSome = true := by decide
  have key : t'.isValid = true ↔
      Called calls Loader.chunkOffset ∧ Called calls Loader.sampleToChunk ∧
      Called calls Loader.sampleSize ∧ ∃ c, c ∈ calls ∧ sttsHeaderAccepted src c := by
    rw [isValid_iff, f1, f2, f3, f4]
    constructor
    · rintro ⟨a | a, b | b, c | c, d | d⟩ <;>
        first
          | exact absurd a g1
          | exact absurd b g2
          | exact absurd c g3
          | exact absurd d g4
          | exact ⟨a, b, c, d⟩
    · rintro ⟨a, b, c, d⟩
      exact ⟨Or.inr a, Or.inr b, Or.inr c, Or.inr d⟩
  refine ⟨key, ?_⟩
  intro o1 o2 o3 o4
  rw [key]
  refine ⟨ReturnedOK_called _ _ _ o1, ReturnedOK_called _ _ _ o2, ReturnedOK_called _ _ _ o3,
    ?_⟩
  obtain ⟨i, c, hc, hok, hl, -⟩ := o4
  exact ⟨c, List.mem_iff_getElem?.2 ⟨i, hc⟩, f5 i c hc hok hl⟩

theorem isValid_after_loader_calls_witness :
    SampleTable.new.callAll (bytesSource (List.replicate 12 0)) emptyBoxCalls
      = .ret ([status_t.OK, status_t.OK, status_t.OK, status_t.OK], emptyBoxTable) ∧
    (emptyBoxTable.isValid = true ↔
      Called emptyBoxCalls Loader.chunkOffset ∧ Called emptyBoxCalls Loader.sampleToChunk ∧
      Called emptyBoxCalls Loader.sampleSize ∧
      ∃ c, c ∈ emptyBoxCalls ∧ sttsHeaderAccepted (bytesSource (List.replicate 12 0)) c) ∧
    (ReturnedOK emptyBoxCalls [status_t.OK, status_t.OK, status_t.OK, status_t.OK]
        Loader.chunkOffset →
      ReturnedOK emptyBoxCalls [status_t.OK, status_t.OK, status_t.OK, status_t.OK]
        Loader.sampleToChunk →
      ReturnedOK emptyBoxCalls [status_t.OK, status_t.OK, status_t.OK, status_t.OK]
        Loader.sampleSize →
      ReturnedOK emptyBoxCalls [status_t.OK, status_t.OK, status_t.OK, status_t.OK]
        Loader.timeToSample →
      emptyBoxTable.isValid = true) :=
  ⟨rfl, isValid_after_loader_calls (bytesSource (List.replicate 12 0)) emptyBoxCalls
    [status_t.OK, status_t.OK, status_t.OK, status_t.OK] emptyBoxTable rfl⟩

/-! ## The search after the sample counter has wrapped -/

theorem swapWrapTable_entries (garbage : Nat → SampleTimeEntry) :
    ∃ s, swapWrapTable.fillSampleEntries garbage = .ret s ∧
      s.entries = [⟨0, 4294967395⟩, ⟨1, 100⟩] := by
  have hl0 : LookupServes (fun _ => 0) CompositionDeltaLookup.new := Or.inl ⟨rfl, rfl⟩
  -- the first run: sample 0 at time 0
  obtain ⟨s1, a1, a2, a3, a4, a5, a6⟩ := buildInner_exact (fun _ => 0) 2 100 1
    { entries := newSampleTimeEntries garbage 2, lookup := CompositionDeltaLookup.new,
      sampleIndex := 0, sampleTime := 0 } 0 0 hl0 (by simp [newSampleTimeEntries]) rfl rfl
    (by omega)
  -- the second run: sample 1 at time 100, then 4294967294 samples past the array
  obtain ⟨s2, b1, b2, b3, b4, b5, b6⟩ := buildInner_exact (fun _ => 0) 2 1 4294967295 s1
    1 100 a2 a3 (by simp only [a4]) (by simp only [a5]) (by omega)
  -- the third run: the counter is 0 again
  obtain ⟨s3, c1, _, c3, _, _, c6⟩ := buildInner_exact (fun _ => 0) 2 0 1 s2
    0 4294967395 b2 b3 (by simp only [b4]) (by simp only [b5]) (by omega)
  have hfill : swapWrapTable.fillSampleEntries garbage = .ret s3 := by
    have e : (some [1, 100, 4294967295, 1, 1, 0] : Option (List Nat)).getD []
        = flattenRuns [(1, 100), (4294967295, 1), (1, 0)] := rfl
    unfold SampleTable.fillSampleEntries
    simp only [swapWrapTable, SampleTable.new]
    rw [e]
    refine (buildOuter_eq [(1, 100), (4294967295, 1), (1, 0)] 2
      [(1, 100), (4294967295, 1), (1, 0)] 0 _ rfl).trans ?_
    simp only [buildRuns, a1, Run.bind_ret, b1, c1]
  refine ⟨s3, hfill, ?_⟩
  apply List.ext_getElem?
  intro k
  rw [c6 k]
  by_cases hk0 : k = 0
  · subst hk0
    simp [sext32]
  · have hc : ¬ (0 ≤ k ∧ k < 0 + 1 ∧ k < 2) := by omega
    rw [if_neg hc, b6 k]
    by_cases hk1 : k = 1
    · subst hk1
      simp [sext32]
    · have hb : ¬ (1 ≤ k ∧ k < 1 + 4294967295 ∧ k < 2) := by omega
      rw [if_neg hb]
      have hlen : s1.entries.length ≤ k := by omega
      rw [List.getElem?_eq_none hlen]
      symm
      apply List.getElem?_eq_none
      simp only [List.length_cons, List.length_nil]
      omega

theorem swapWrapTable_find (garbage : Nat → SampleTimeEntry) (fuel req flags : Nat) :
    swapWrapTable.findSampleAtTime insertionQsort garbage fuel req flags
      = findSampleInEntries [⟨1, 100⟩, ⟨0, 4294967395⟩] 2 req flags fuel := by
  obtain ⟨s, hfill, hent⟩ := swapWrapTable_entries garbage
  have hn : swapWrapTable.mSampleTimeEntries = none := rfl
  have hq : insertionQsort s.entries = [⟨1, 100⟩, ⟨0, 4294967395⟩] := by
    rw [hent]
    decide
  simp only [SampleTable.findSampleAtTime, SampleTable.buildSampleEntriesTable, hn, hfill,
    Run.bind_ret, hq]
  rfl

/-- C2, at the failing input: two samples, stts runs `[(1, 100),
(4294967295, 1), (1, 0)]`, no ctts.  The runs cover both samples; sample 0 has
composition time 0 and sample 1 has composition time 100.  The 32-bit sample
counter of `buildSampleEntriesTable` wraps to 0 at the end of the second run,
so the third run writes time 4294967395 over slot 0, and
`findSampleAtTime(0, kFlagClosest)` returns OK with sample 1, which is
further from time 0 than sample 0 is. -/
theorem findSampleAtTime_closest_sample_counter_wraps (garbage : Nat → SampleTimeEntry) :
    swapWrapTable.findSampleAtTime insertionQsort garbage 2 0 kFlagClosest
      = .ret (status_t.OK, some 1) ∧
    swapWrapTable.countSamples = 2 ∧
    swapWrapTable.countSamples ≤ runTotal [(1, 100), (4294967295, 1), (1, 0)] ∧
    compositionTime [(1, 100), (4294967295, 1), (1, 0)] (fun _ => 0) 0 = 0 ∧
    compositionTime [(1, 100), (4294967295, 1), (1, 0)] (fun _ => 0) 1 = 100 ∧
    swapWrapTable.recordedCompositionTime garbage 0 = some 4294967395 ∧
    abs_difference 0 0 < abs_difference 100 0 := by
  refine ⟨?_, rfl, by decide, ?_, ?_, ?_, by decide⟩
  · rw [swapWrapTable_find]
    rfl
  · simp [compositionTime, decodeTime, sext32]
  · unfold compositionTime
    rw [decodeTime_cons]
    simp [sext32]
  · obtain ⟨s, hfill, hent⟩ := swapWrapTable_entries garbage
    exact recordedCompositionTime_eq garbage swapWrapTable s 0 ⟨0, 4294967395⟩ hfill
      (by rw [hent]; rfl)

/-- On `swapWrapTable`, whose stts runs count 2^32 + 1 samples,
`findSampleAtTime(0, kFlagBefore)` returns sample 1, although sample 0 has
the least composition time. -/
theorem findSampleAtTime_before_zero_after_wrap (garbage : Nat → SampleTimeEntry) :
    swapWrapTable.findSampleAtTime insertionQsort garbage 2 0 kFlagBefore
      = .ret (status_t.OK, some 1) ∧
    compositionTime [(1, 100), (4294967295, 1), (1, 0)] (fun _ => 0) 0
      < compositionTime [(1, 100), (4294967295, 1), (1, 0)] (fun _ => 0) 1 := by
  refine ⟨?_, ?_⟩
  · rw [swapWrapTable_find]
    rfl
  · have h0 : compositionTime [(1, 100), (4294967295, 1), (1, 0)] (fun _ => 0) 0 = 0 := by
      simp [compositionTime, decodeTime, sext32]
    have h1 : compositionTime [(1, 100), (4294967295, 1), (1, 0)] (fun _ => 0) 1 = 100 := by
      unfold compositionTime
      rw [decodeTime_cons]
      simp [sext32]
    rw [h0, h1]
    decide

theorem LookupWF_of_serves (off : Nat → Nat) (c : CompositionDeltaLookup)
    (h : LookupServes off c) : LookupWF c := by
  rcases h with ⟨hn, _⟩ | ⟨runs, _, hinv, _⟩
  · exact Or.inl hn
  · exact Or.inr ⟨runs, hinv.1, hinv.2.1⟩

/-- Where neither the sample counter nor the ctts lookup wraps, the time
recorded for sample `k` is its composition time. -/
theorem recordedCompositionTime_of_no_wrap (garbage : Nat → SampleTimeEntry) (t : SampleTable)
    (stts : List (Nat × Nat)) (off : Nat → Nat)
    (hstts : t.mTimeToSample = some (flattenRuns stts))
    (hcount : t.mTimeToSampleCount = stts.length)
    (hoff : LookupServes off t.mCompositionDeltaLookup)
    (hwrap : runTotal stts ≤ 4294967296)
    (hcover : t.countSamples ≤ runTotal stts) (k : Nat) (hk : k < t.countSamples) :
    t.recordedCompositionTime garbage k = some (compositionTime stts off k) := by
  unfold SampleTable.countSamples at *
  obtain ⟨s, hfill, _, hent⟩ :=
    fillSampleEntries_exact garbage t stts off hstts hcount hoff hwrap
  have hkt : k < runTotal stts := by omega
  unfold SampleTable.recordedCompositionTime
  rw [hfill]
  simp [hent, List.getElem?_range hk, hkt]

/-- Where neither the sample counter nor the ctts lookup wraps (the stts runs
count at most 2^32 samples and the lookup serves the offsets `off`), the
closest-sample search is right: whenever `findSampleAtTime(req,
kFlagClosest)` returns OK with sample `j`, then `j < N` and no sample's
composition time is closer to `req` than that of `j`. -/
theorem findSampleAtTime_closest_of_no_wrap
    (qsort : List SampleTimeEntry → List SampleTimeEntry) (hq : QsortContract qsort)
    (garbage : Nat → SampleTimeEntry) (t : SampleTable) (stts : List (Nat × Nat))
    (off : Nat → Nat)
    (hnone : t.mSampleTimeEntries = none)
    (hstts : t.mTimeToSample = some (flattenRuns stts))
    (hcount : t.mTimeToSampleCount = stts.length)
    (hoff : LookupServes off t.mCompositionDeltaLookup)
    (hN1 : 1 ≤ t.countSamples) (hN : t.countSamples < 4294967296)
    (hcover : t.countSamples ≤ runTotal stts) (hwrap : runTotal stts ≤ 4294967296)
    (req fuel j : Nat)
    (hret : t.findSampleAtTime qsort garbage fuel req kFlagClosest
      = .ret (status_t.OK, some j)) :
    j < t.countSamples ∧
    ∀ k, k < t.countSamples →
      abs_difference (compositionTime stts off k) req
        ≥ abs_difference (compositionTime stts off j) req := by
  obtain ⟨_, h2, _, _⟩ := findSampleAtTime_closest_is_nearest qsort hq garbage t stts hnone
    hstts hcount (LookupWF_of_serves off _ hoff) hN1 hN hcover req
  obtain ⟨hj, hmin⟩ := h2 fuel j hret
  have hrec := recordedCompositionTime_of_no_wrap garbage t stts off hstts hcount hoff hwrap
    hcover
  exact ⟨hj, fun k hk => hmin k _ _ hk (hrec k hk) (hrec j hj)⟩

/-- C22, amended: for every table with at least one sample whose stts runs
cover all samples and count at most 2^32 samples, and whose ctts lookup
serves the offsets `off` (no ctts table and `off` 0 everywhere, or a ctts
table whose runs count fewer than 2^32 samples), `findSampleAtTime(0,
kFlagBefore)` returns OK with a sample of least composition time; that is
sample 0 whenever the composition time of sample 0 is below that of every
other sample. -/
theorem findSampleAtTime_before_zero
    (qsort : List SampleTimeEntry → List SampleTimeEntry) (hq : QsortContract qsort)
    (garbage : Nat → SampleTimeEntry) (t : SampleTable) (stts : List (Nat × Nat))
    (off : Nat → Nat)
    (hnone : t.mSampleTimeEntries = none)
    (hstts : t.mTimeToSample = some (flattenRuns stts))
    (hcount : t.mTimeToSampleCount = stts.length)
    (hoff : LookupServes off t.mCompositionDeltaLookup)
    (hN1 : 1 ≤ t.countSamples) (hN : t.countSamples < 4294967296)
    (hcover : t.countSamples ≤ runTotal stts) (hwrap : runTotal stts ≤ 4294967296)
    (fuel : Nat) (hfuel : t.countSamples ≤ fuel) :
    ∃ j, t.findSampleAtTime qsort garbage fuel 0 kFlagBefore = .ret (status_t.OK, some j) ∧
      j < t.countSamples ∧
      (∀ k, k < t.countSamples → compositionTime stts off j ≤ compositionTime stts off k) ∧
      ((∀ k, 0 < k → k < t.countSamples →
          compositionTime stts off 0 < compositionTime stts off k) → j = 0) := by
  obtain ⟨j, tj, h1, h2, h3, h4, _⟩ := findSampleAtTime_before_zero_recorded qsort hq garbage
    t stts hnone hstts hcount (LookupWF_of_serves off _ hoff) hN1 hN hcover fuel hfuel
  have hrec := recordedCompositionTime_of_no_wrap garbage t stts off hstts hcount hoff hwrap
    hcover
  have hmin : ∀ k, k < t.countSamples →
      compositionTime stts off j ≤ compositionTime stts off k := by
    intro k hk
    have hj := hrec j h2
    rw [h3] at hj
    cases hj
    exact h4 k _ (hrec k hk)
  refine ⟨j, h1, h2, hmin, ?_⟩
  intro hfirst
  by_contra hj
  have a := hfirst j (by omega) h2
  have b := hmin 0 (by omega)
  omega

theorem findSampleAtTime_before_zero_witness :
    QsortContract insertionQsort ∧ 1 ≤ reorderedTable.countSamples ∧
    reorderedTable.countSamples ≤ runTotal [(4, 1000)] ∧
    runTotal [(4, 1000)] ≤ 4294967296 ∧
    LookupServes (runValue [(1, 0), (1, 2000), (1, 0), (1, 0)])
      reorderedTable.mCompositionDeltaLookup ∧
    ∃ j, reorderedTable.findSampleAtTime insertionQsort (fun _ => ⟨0, 0⟩) 4 0 kFlagBefore
        = .ret (status_t.OK, some j) ∧
      j < reorderedTable.countSamples ∧
      (∀ k, k < reorderedTable.countSamples →
        compositionTime [(4, 1000)] (runValue [(1, 0), (1, 2000), (1, 0), (1, 0)]) j
          ≤ compositionTime [(4, 1000)] (runValue [(1, 0), (1, 2000), (1, 0), (1, 0)]) k) ∧
      ((∀ k, 0 < k → k < reorderedTable.countSamples →
          compositionTime [(4, 1000)] (runValue [(1, 0), (1, 2000), (1, 0), (1, 0)]) 0
            < compositionTime [(4, 1000)] (runValue [(1, 0), (1, 2000), (1, 0), (1, 0)]) k)
        → j = 0) :=
  ⟨insertionQsort_contract, by decide, by decide, by decide,
    Or.inr ⟨[(1, 0), (1, 2000), (1, 0), (1, 0)], by decide, loadedLookup_inv _, rfl⟩,
    findSampleAtTime_before_zero insertionQsort insertionQsort_contract (fun _ => ⟨0, 0⟩)
      reorderedTable [(4, 1000)] (runValue [(1, 0), (1, 2000), (1, 0), (1, 0)]) rfl rfl rfl
      (Or.inr ⟨[(1, 0), (1, 2000), (1, 0), (1, 0)], by decide, loadedLookup_inv _, rfl⟩)
      (by decide) (by decide) (by decide) (by decide) 4 (by decide)⟩

/-! ## `findOffsetForPTS` on the packet grid -/

theorem seekFound_status (seekPTS : Nat) (s : SeekState) :
    (seekFound seekPTS s).status = status_t.OK := rfl

theorem seekFound_exact_hit (seekPTS : Nat) (s : SeekState) (hc : s.currPTS = seekPTS)
    (hp : s.prevPTS ≠ seekPTS) : (seekFound seekPTS s).seekOffset = s.fileOffset := by
  unfold seekFound
  simp only
  have h1 : ¬ seekPTS < s.currPTS := by omega
  rw [if_neg h1]
  by_cases h2 : seekPTS < s.prevPTS
  · rw [if_pos h2, if_pos (by omega)]
  · rw [if_neg h2, if_pos (by omega)]

/-- The seed offset `seekPrepare` passes is a multiple of 188. -/
theorem seekPrepareArgs_on_grid (stream : StreamInfo) (clipSize seekTimeUs : Int) :
    (188 : Int) ∣ (seekPrepareArgs stream clipSize seekTimeUs).1 := by
  unfold seekPrepareArgs
  simp only [kTSPacketSize]
  exact Dvd.intro_left _ rfl

theorem seekStart_gridInv (stream : StreamInfo) (seed : Int)
    (hF : 0 < stream.mFirstPTSOffset)
    (hL : stream.mFirstPTSOffset ≤ stream.mLastPTSOffset)
    (hg1 : (188 : Int) ∣ seed) (hg2 : (188 : Int) ∣ stream.mFirstPTSOffset)
    (hg3 : (188 : Int) ∣ stream.mLastPTSOffset) :
    SeekGridInv stream (seekStart stream seed) := by
  unfold SeekGridInv seekStart
  simp only [kTSPacketSize]
  by_cases h1 : seed ≥ stream.mLastPTSOffset
  · rw [if_pos h1]
    simp only
    by_cases h2 : stream.mLastPTSOffset - ((188 : Nat) : Int) ≤ stream.mFirstPTSOffset
    · rw [if_pos h2]
      simp only
      refine ⟨by omega, by omega, Or.inr (by omega), fun h0 => ?_, fun _ => ⟨by omega, hL⟩⟩
      omega
    · rw [if_neg h2]
      simp only
      refine ⟨by omega, by omega, Or.inl (by omega), fun h0 => ?_,
        fun _ => ⟨hL, Int.le_refl _⟩⟩
      omega
  · rw [if_neg h1]
    simp only
    by_cases h2 : seed ≤ stream.mFirstPTSOffset
    · rw [if_pos h2]
      simp only
      refine ⟨by omega, by omega, Or.inr (by omega), fun h0 => ?_, fun _ => ⟨by omega, hL⟩⟩
      omega
    · rw [if_neg h2]
      simp only
      refine ⟨hg1, by omega, Or.inl (by omega), ?_, ?_⟩
      · intro _
        exact ⟨trivial, trivial, by omega⟩
      · intro h
        exact absurd rfl h

theorem findOffsetLoop_ok_on_grid (env : TSEnv) (stream : StreamInfo) (so : Int) (seekPTS : Nat)
    (hF : 0 < stream.mFirstPTSOffset)
    (hL : stream.mFirstPTSOffset ≤ stream.mLastPTSOffset)
    (hg2 : (188 : Int) ∣ stream.mFirstPTSOffset) (hg3 : (188 : Int) ∣ stream.mLastPTSOffset)
    (hseek : 0 < seekPTS)
    (hlast : ∀ pts0, (env.parseTSToGetPTS (env.readAt stream.mLastPTSOffset kTSPacketSize).2
      stream.mStreamPID pts0).1 = status_t.OK)
    (hbeyond : ((env.readAt (stream.mLastPTSOffset + 188) kTSPacketSize).1 ≤ 0 ∨
        (env.readAt (stream.mLastPTSOffset + 188) kTSPacketSize).1 < (kTSPacketSize : Int)) ∨
      ∀ pts0, (env.parseTSToGetPTS
        (env.readAt (stream.mLastPTSOffset + 188) kTSPacketSize).2
        stream.mStreamPID pts0).1 ≠ status_t.OK) :
    ∀ (fuel : Nat) (s : SeekState) (r : SeekResult), SeekGridInv stream s →
      findOffsetLoop env stream so seekPTS fuel s = .ret r → r.status = status_t.OK →
      stream.mFirstPTSOffset ≤ r.seekOffset ∧ r.seekOffset ≤ stream.mLastPTSOffset := by
  intro fuel
  induction fuel with
  | zero =>
    intro s r _ h _
    rw [findOffsetLoop] at h
    cases h
  | succ fuel ih =>
    intro s r hinv h hst
    obtain ⟨i1, i2, i3, i4, i5⟩ := hinv
    have hnotlast : (env.parseTSToGetPTS (env.readAt s.fileOffset kTSPacketSize).2
        stream.mStreamPID s.currPTS).1 ≠ status_t.OK →
        s.fileOffset ≠ stream.mLastPTSOffset := by
      intro hne heq
      have := hlast s.currPTS
      rw [← heq] at this
      exact hne this
    rw [findOffsetLoop] at h
    simp only [] at h
    by_cases h1 : (env.readAt s.fileOffset kTSPacketSize).1 ≤ 0 ∨
        (env.readAt s.fileOffset kTSPacketSize).1 < (kTSPacketSize : Int)
    · rw [if_pos h1] at h
      simp only [Run.ret.injEq] at h
      rw [← h] at hst
      simp only at hst
      split at hst
      · exact status_t.noConfusion hst
      · exact status_t.noConfusion hst
    rw [if_neg h1] at h
    have hOKle : (env.parseTSToGetPTS (env.readAt s.fileOffset kTSPacketSize).2
        stream.mStreamPID s.currPTS).1 = status_t.OK →
        s.fileOffset ≤ stream.mLastPTSOffset := by
      intro hok
      by_contra hgt
      have e : stream.mLastPTSOffset + 188 = s.fileOffset := by omega
      rw [e] at hbeyond
      rcases hbeyond with hfail | hnone
      · exact h1 hfail
      · exact hnone s.currPTS hok
    by_cases h2 : (env.parseTSToGetPTS (env.readAt s.fileOffset kTSPacketSize).2
        stream.mStreamPID s.currPTS).1 = status_t.DEAD_OBJECT
    · rw [if_pos h2] at h
      simp only [Run.ret.injEq] at h
      rw [← h] at hst
      exact status_t.noConfusion hst
    rw [if_neg h2] at h
    generalize hp : env.parseTSToGetPTS (env.readAt s.fileOffset kTSPacketSize).2
        stream.mStreamPID s.currPTS = p at h h2 hOKle hnotlast
    by_cases h3 : p.1 = status_t.OK ∧
        (seekPTS = p.2 ∨
          (s.prevOffset ≠ 0 ∧ ((seekPTS < p.2 ∧ seekPTS > s.prevPTS) ∨
                                (seekPTS > p.2 ∧ seekPTS < s.prevPTS))))
    · rw [if_pos h3] at h
      simp only [Run.ret.injEq] at h
      rw [← h]
      have hfl := hOKle h3.1
      by_cases hp0 : s.prevOffset = 0
      · obtain ⟨-, hpp, -⟩ := i4 hp0
        have heq : seekPTS = p.2 := by
          rcases h3.2 with e | ⟨e, -⟩
          · exact e
          · exact absurd hp0 e
        rw [seekFound_exact_hit seekPTS _ heq.symm (by simp only; omega)]
        exact ⟨by simp only; omega, hfl⟩
      · exact seekFound_offset_of seekPTS _
          (fun o => stream.mFirstPTSOffset ≤ o ∧ o ≤ stream.mLastPTSOffset)
          ⟨by simp only; omega, hfl⟩ (i5 hp0)
    rw [if_neg h3] at h
    by_cases h4 : p.1 = status_t.OK
    · rw [if_pos h4] at h
      simp only at h
      have hfl := hOKle h4
      by_cases hb : (!decide (p.2 < seekPTS)) = true
      · rw [if_pos hb] at h
        by_cases hm : s.fileOffset > (kTSPacketSize : Int) ∧
            s.fileOffset - (kTSPacketSize : Int) > stream.mFirstPTSOffset
        · rw [if_pos hm] at h
          simp only [kTSPacketSize] at hm
          refine ih _ r ?_ h hst
          refine ⟨?_, ?_, Or.inl ?_, ?_, ?_⟩ <;> simp only [kTSPacketSize]
          · omega
          · omega
          · omega
          · intro h0
            omega
          · intro _
            omega
        · rw [if_neg hm] at h
          simp only [Run.ret.injEq] at h
          rw [← h]
          exact seekFound_offset_of seekPTS _
            (fun o => stream.mFirstPTSOffset ≤ o ∧ o ≤ stream.mLastPTSOffset)
            ⟨Int.le_refl _, hL⟩ ⟨by simp only; omega, hfl⟩
      · rw [if_neg hb] at h
        by_cases hm : s.fileOffset + (kTSPacketSize : Int) ≤ stream.mLastPTSOffset
        · rw [if_pos hm] at h
          simp only [kTSPacketSize] at hm
          refine ih _ r ?_ h hst
          refine ⟨?_, ?_, Or.inl ?_, ?_, ?_⟩ <;> simp only [kTSPacketSize]
          · omega
          · omega
          · omega
          · intro h0
            omega
          · intro _
            omega
        · rw [if_neg hm] at h
          simp only [Run.ret.injEq] at h
          rw [← h]
          exact seekFound_offset_of seekPTS _
            (fun o => stream.mFirstPTSOffset ≤ o ∧ o ≤ stream.mLastPTSOffset)
            ⟨hL, Int.le_refl _⟩ ⟨by simp only; omega, hfl⟩
    · rw [if_neg h4] at h
      simp only at h
      have hnl := hnotlast h4
      by_cases hb : s.searchBack = true
      · rw [if_pos hb] at h
        have hp0 : s.prevOffset ≠ 0 := by
          intro h0
          have := (i4 h0).1
          rw [hb] at this
          exact Bool.noConfusion this
        by_cases hm : s.fileOffset > (kTSPacketSize : Int) ∧
            s.fileOffset - (kTSPacketSize : Int) > stream.mFirstPTSOffset
        · rw [if_pos hm] at h
          simp only [kTSPacketSize] at hm
          refine ih _ r ?_ h hst
          refine ⟨?_, ?_, Or.inl ?_, ?_, ?_⟩ <;> simp only [kTSPacketSize]
          · omega
          · omega
          · omega
          · intro h0
            exact absurd h0 hp0
          · intro _
            exact i5 hp0
        · rw [if_neg hm] at h
          simp only [Run.ret.injEq] at h
          rw [← h]
          exact seekFound_offset_of seekPTS _
            (fun o => stream.mFirstPTSOffset ≤ o ∧ o ≤ stream.mLastPTSOffset)
            ⟨Int.le_refl _, hL⟩ (i5 hp0)
      · rw [if_neg hb] at h
        by_cases hm : s.fileOffset + (kTSPacketSize : Int) ≤ stream.mLastPTSOffset
        · rw [if_pos hm] at h
          simp only [kTSPacketSize] at hm
          refine ih _ r ?_ h hst
          refine ⟨?_, ?_, Or.inl ?_, ?_, ?_⟩ <;> simp only [kTSPacketSize]
          · omega
          · omega
          · omega
          · intro h0
            obtain ⟨a, b, -⟩ := i4 h0
            exact ⟨a, b, by omega⟩
          · intro h0
            exact i5 h0
        · rw [if_neg hm] at h
          simp only [kTSPacketSize] at hm
          simp only [Run.ret.injEq] at h
          rw [← h]
          have hp0 : s.prevOffset ≠ 0 := by
            intro h0
            obtain ⟨-, -, c⟩ := i4 h0
            omega
          exact seekFound_offset_of seekPTS _
            (fun o => stream.mFirstPTSOffset ≤ o ∧ o ≤ stream.mLastPTSOffset)
            ⟨hL, Int.le_refl _⟩ (i5 hp0)

/-- C35, amended: whenever `findOffsetForPTS` returns OK on a stream with
`0 < mFirstPTSOffset <= mLastPTSOffset`, for a seed offset and PTS offsets
that are multiples of 188 (`seekPrepare` rounds the seed down to one, the
extractor advances its offset by 188 and keeps a clip size only if it is a
multiple of 188), where the packet at `mLastPTSOffset` yields a PTS whenever
it is parsed and the packet 188 bytes behind it cannot be read in full or
yields none (`findStreamDuration` stops at the last packet that yields one),
the offset stored is 188, from the first-PTS clamp, or lies in the closed
range from `mFirstPTSOffset` to `mLastPTSOffset`; it is never the initial 0
of `prevOffset`. -/
theorem findOffsetForPTS_ok_offset_on_grid (env : TSEnv) (stream : StreamInfo) (fuel : Nat)
    (seed : Int) (seekPTS : Nat) (r : SeekResult)
    (hF : 0 < stream.mFirstPTSOffset)
    (hL : stream.mFirstPTSOffset ≤ stream.mLastPTSOffset)
    (hg1 : (188 : Int) ∣ seed) (hg2 : (188 : Int) ∣ stream.mFirstPTSOffset)
    (hg3 : (188 : Int) ∣ stream.mLastPTSOffset)
    (hlast : ∀ pts0, (env.parseTSToGetPTS (env.readAt stream.mLastPTSOffset kTSPacketSize).2
      stream.mStreamPID pts0).1 = status_t.OK)
    (hbeyond : ((env.readAt (stream.mLastPTSOffset + 188) kTSPacketSize).1 ≤ 0 ∨
        (env.readAt (stream.mLastPTSOffset + 188) kTSPacketSize).1 < (kTSPacketSize : Int)) ∨
      ∀ pts0, (env.parseTSToGetPTS
        (env.readAt (stream.mLastPTSOffset + 188) kTSPacketSize).2
        stream.mStreamPID pts0).1 ≠ status_t.OK)
    (h : findOffsetForPTS env stream fuel seed seekPTS = .ret r)
    (hst : r.status = status_t.OK) :
    (r.seekOffset = 188 ∨
      (stream.mFirstPTSOffset ≤ r.seekOffset ∧ r.seekOffset ≤ stream.mLastPTSOffset)) ∧
    r.seekOffset ≠ 0 := by
  have key : r.seekOffset = 188 ∨
      (stream.mFirstPTSOffset ≤ r.seekOffset ∧ r.seekOffset ≤ stream.mLastPTSOffset) := by
    unfold findOffsetForPTS at h
    by_cases c1 : seekPTS ≤ stream.mFirstPTS
    · rw [if_pos c1] at h
      cases h
      exact Or.inl rfl
    rw [if_neg c1] at h
    by_cases c2 : seekPTS ≥ stream.mLastPTS
    · rw [if_pos c2] at h
      cases h
      exact Or.inr ⟨hL, Int.le_refl _⟩
    rw [if_neg c2] at h
    exact Or.inr (findOffsetLoop_ok_on_grid env stream seed seekPTS hF hL hg2 hg3 (by omega)
      hlast hbeyond fuel _ r (seekStart_gridInv stream seed hF hL hg1 hg2 hg3) h hst)
  refine ⟨key, ?_⟩
  rcases key with e | ⟨e, _⟩ <;> omega

theorem findOffsetForPTS_ok_offset_on_grid_witness :
    0 < jumbledStream.mFirstPTSOffset ∧
    jumbledStream.mFirstPTSOffset ≤ jumbledStream.mLastPTSOffset ∧
    (188 : Int) ∣ 1128 ∧ (188 : Int) ∣ jumbledStream.mFirstPTSOffset ∧
    (188 : Int) ∣ jumbledStream.mLastPTSOffset ∧
    (∀ pts0, (orderedEnv.parseTSToGetPTS
      (orderedEnv.readAt jumbledStream.mLastPTSOffset kTSPacketSize).2
      jumbledStream.mStreamPID pts0).1 = status_t.OK) ∧
    (orderedEnv.readAt (jumbledStream.mLastPTSOffset + 188) kTSPacketSize).1 ≤ 0 ∧
    findOffsetForPTS orderedEnv jumbledStream 16 1128 1900
      = .ret { status := status_t.OK, seekOffset := 1692,
               reads := [1128, 1316, 1504, 1692, 1504, 1316, 1128, 940] } ∧
    (((1692 : Int) = 188 ∨
      (jumbledStream.mFirstPTSOffset ≤ 1692 ∧ (1692 : Int) ≤ jumbledStream.mLastPTSOffset)) ∧
    (1692 : Int) ≠ 0) :=
  ⟨by decide, by decide, by decide, by decide, by decide, fun _ => rfl, by decide, rfl,
    findOffsetForPTS_ok_offset_on_grid orderedEnv jumbledStream 16 1128 1900
      { status := status_t.OK, seekOffset := 1692,
        reads := [1128, 1316, 1504, 1692, 1504, 1316, 1128, 940] }
      (by decide) (by decide) (by decide) (by decide) (by decide)
      (fun _ => rfl) (Or.inl (Or.inl (by decide))) rfl rfl⟩

/-- What the two conditions on the packets at and behind the last PTS offset
are for.  With every offset on the packet grid: where the packet at
`mLastPTSOffset` yields no PTS, the forward walk ends there with `prevOffset`
still 0 and the call returns OK with offset 0; and where `mFirstPTSOffset = mLastPTSOffset` and the packet behind the
last PTS offset yields a PTS, the first probe hits behind the range and the
call returns OK with the offset 376, past `mLastPTSOffset = 188`. -/
theorem findOffsetForPTS_on_grid_last_packet :
    findOffsetForPTS
        { readAt := packetSource 1880, parseTSToGetPTS := tableParser [(188, 1000)] }
        jumbledStream 16 1128 1500
      = .ret { status := status_t.OK, seekOffset := 0, reads := [1128, 1316, 1504, 1692] } ∧
    findOffsetForPTS orderedEnv { jumbledStream with mLastPTSOffset := 188 } 16 188 1200
      = .ret { status := status_t.OK, seekOffset := 376, reads := [376] } :=
  ⟨rfl, rfl⟩

end Stagefright
